import Mathlib

/-!
# ProvSQL query rewriting (`provsql.c`): a shallow embedding

The development embeds the query rewriter of `src/postgres/provsql/src/provsql.c`.

Conventions of the embedding.

* PostgreSQL parse-tree nodes are values of `Node` (expressions and target
  entries), `TNode` (join-tree and set-operation-tree nodes), `RangeTblEntry`
  and `Query`.  Only the fields that `provsql.c` reads or writes are kept;
  source locations, the `varnosyn`/`varnoold` bookkeeping and the permission
  bitmap `selectedCols` are left out.
* The C code updates the query in place; here every function returns the
  updated value.
* `ereport(ERROR, ...)` is `Except.error (Err.UnsupportedConstruct ...)`.
  An operation that has no result on the abstract data (casting a node to a
  struct type it does not have, `linitial` of an empty list, `list_nth` or an
  array read out of range) is `Except.error (Err.MalformedInput ...)`.
  A PostgreSQL `List` is a Lean list and `list_length(l)` is its length; the
  empty list is the null pointer, so a direct read of the field `l->length`
  of an empty list is also `Except.error (Err.MalformedInput ...)`.  Scratch
  arrays obtained from `palloc` are lists as well.
* `constants_t` (declared in `provsql_utils.h`), the catalog lookups and the
  setting `provsql.where_provenance` are parameters.
-/

namespace ProvSQL

/-! ## Data model -/

abbrev Oid := Nat

def InvalidOid : Oid := 0

/-- The type `bool` of PostgreSQL (`catalog/pg_type.h`). -/
def BOOLOID : Oid := 16

/-- The default collation (`catalog/pg_collation.h`). -/
def DEFAULT_COLLATION_OID : Oid := 100

/-- The permission bit `ACL_SELECT` (`nodes/parsenodes.h`). -/
def ACL_SELECT : Nat := 2

def PROVSQL_COLUMN_NAME : String := "provsql"

/-- The record `constants_t` of `provsql_utils.h`: the object identifiers of
the ProvSQL types, functions and operators, looked up once per query. -/
structure constants_t where
  OID_TYPE_UUID : Oid
  OID_TYPE_UUID_ARRAY : Oid
  OID_TYPE_AGG_TOKEN : Oid
  OID_TYPE_INT : Oid
  OID_TYPE_INT_ARRAY : Oid
  OID_FUNCTION_ARRAY_AGG : Oid
  OID_FUNCTION_PROVENANCE_PLUS : Oid
  OID_FUNCTION_PROVENANCE_TIMES : Oid
  OID_FUNCTION_PROVENANCE_MONUS : Oid
  OID_FUNCTION_PROVENANCE_PROJECT : Oid
  OID_FUNCTION_PROVENANCE_EQ : Oid
  OID_FUNCTION_PROVENANCE : Oid
  OID_FUNCTION_PROVENANCE_DELTA : Oid
  OID_FUNCTION_PROVENANCE_AGGREGATE : Oid
  OID_FUNCTION_PROVENANCE_SEMIMOD : Oid
  OID_FUNCTION_GATE_ZERO : Oid
  OID_OPERATOR_NOT_EQUAL_UUID : Oid
  OID_FUNCTION_NOT_EQUAL_UUID : Oid
  ok : Bool
  deriving Repr, DecidableEq

/-- Failures of the rewriter. -/
inductive Err where
  | UnsupportedConstruct (msg : String)
  | MalformedInput (msg : String)
  | OutOfFuel
  deriving Repr, DecidableEq

inductive CoercionForm where
  | COERCE_EXPLICIT_CALL
  | COERCE_EXPLICIT_CAST
  | COERCE_IMPLICIT_CAST
  deriving Repr, DecidableEq

inductive BoolExprType where
  | AND_EXPR
  | OR_EXPR
  | NOT_EXPR
  deriving Repr, DecidableEq

/-- The value `AGGKIND_NORMAL` of `catalog/pg_aggregate.h`. -/
def AGGKIND_NORMAL : Char := 'n'

structure SortGroupClause where
  tleSortGroupRef : Nat
  eqop : Oid
  sortop : Oid
  nulls_first : Bool
  hashable : Bool
  deriving Repr, DecidableEq

/-- Expression nodes and target entries.  `Other tag typ children` stands for
every expression node kind that `provsql.c` never inspects (parameters,
CASE, sublinks, ...): `tag` is its node tag, `typ` its result type and
`children` its sub-expressions, which the PostgreSQL tree walkers and mutators
visit in order.  The arguments of an `Aggref` are `TargetEntry` nodes. -/
inductive Node where
  | Var (varno : Nat) (varattno : Int) (vartype : Oid) (vartypmod : Int) (varcollid : Oid)
  | Const (consttype : Oid) (consttypmod : Int) (constcollid : Oid) (constlen : Int)
      (constvalue : Int) (constisnull : Bool) (constbyval : Bool)
  | RelabelType (arg : Node) (resulttype : Oid) (resulttypmod : Int) (resultcollid : Oid)
      (relabelformat : CoercionForm)
  | FuncExpr (funcid : Oid) (funcresulttype : Oid) (funcvariadic : Bool) (args : List Node)
  | OpExpr (opno : Oid) (opfuncid : Oid) (opresulttype : Oid) (opcollid : Oid)
      (inputcollid : Oid) (args : List Node)
  | BoolExpr (boolop : BoolExprType) (args : List Node)
  | ArrayExpr (array_typeid : Oid) (element_typeid : Oid) (elements : List Node)
  | Aggref (aggfnoid : Oid) (aggtype : Oid) (aggargtypes : List Oid) (args : List Node)
      (aggdistinct : List SortGroupClause) (aggkind : Char)
  | TargetEntry (expr : Node) (resno : Int) (resname : Option String) (ressortgroupref : Nat)
  | Other (tag : Nat) (typ : Oid) (children : List Node)
  deriving Repr

inductive JoinType where
  | JOIN_INNER
  | JOIN_LEFT
  | JOIN_FULL
  | JOIN_RIGHT
  | JOIN_SEMI
  | JOIN_ANTI
  deriving Repr, DecidableEq

inductive SetOperation where
  | SETOP_NONE
  | SETOP_UNION
  | SETOP_INTERSECT
  | SETOP_EXCEPT
  deriving Repr, DecidableEq

/-- Nodes of the join tree (`FromExpr.fromlist`) and of the set-operation
tree (`Query.setOperations`).  `OtherTree` is any other node kind. -/
inductive TNode where
  | RangeTblRef (rtindex : Nat)
  | JoinExpr (jointype : JoinType) (larg : TNode) (rarg : TNode) (quals : Option Node)
      (rtindex : Nat)
  | SetOperationStmt (op : SetOperation) (all : Bool) (larg : TNode) (rarg : TNode)
      (colTypes : List Oid) (colTypmods : List Int) (colCollations : List Oid)
  | OtherTree (tag : Nat)
  deriving Repr

structure FromExpr where
  fromlist : List TNode
  quals : Option Node
  deriving Repr

structure Alias where
  aliasname : String
  colnames : List String
  deriving Repr, DecidableEq

structure RangeTblFunction where
  funcexpr : Node
  funccolcount : Nat
  deriving Repr

inductive RTEKind where
  | RTE_RELATION
  | RTE_SUBQUERY
  | RTE_JOIN
  | RTE_FUNCTION
  | RTE_VALUES
  | RTE_CTE
  deriving Repr, DecidableEq

inductive GroupingSetKind where
  | GROUPING_SET_EMPTY
  | GROUPING_SET_SIMPLE
  | GROUPING_SET_ROLLUP
  | GROUPING_SET_CUBE
  | GROUPING_SET_SETS
  deriving Repr, DecidableEq

structure GroupingSet where
  kind : GroupingSetKind
  deriving Repr, DecidableEq

inductive CmdType where
  | CMD_UNKNOWN
  | CMD_SELECT
  | CMD_UPDATE
  | CMD_INSERT
  | CMD_DELETE
  | CMD_UTILITY
  deriving Repr, DecidableEq

/-- A range-table entry over a query type `Q` (the type of its subquery);
`rtalias` is the field `alias`. -/
structure RangeTblEntryOf (Q : Type) where
  rtekind : RTEKind
  relid : Oid
  subquery : Option Q
  jointype : JoinType
  joinaliasvars : List Node
  functions : List RangeTblFunction
  rtalias : Option Alias
  eref : Option Alias
  inFromCl : Bool
  requiredPerms : Nat

structure Query where
  commandType : CmdType
  canSetTag : Bool
  hasAggs : Bool
  hasSubLinks : Bool
  hasDistinctOn : Bool
  rtable : List (RangeTblEntryOf Query)
  jointree : Option FromExpr
  targetList : List Node
  groupClause : List SortGroupClause
  groupingSets : List GroupingSet
  havingQual : Option Node
  distinctClause : List SortGroupClause
  sortClause : List SortGroupClause
  setOperations : Option TNode

abbrev RangeTblEntry := RangeTblEntryOf Query

/-- The PostgreSQL services and the process-wide setting that the rewriter
reads: `get_atttype` (declared type of a column of a relation),
`find_equality_operator` (of `provsql_utils.c`), the `oprcode` and `oprresult`
columns of `pg_operator`, `get_sort_group_operators` (its results `sortop`,
`eqop`, `hashable`, given the type and the flags `needLT`, `needEQ`, `needGT`)
and the setting `provsql.where_provenance`. -/
structure Env where
  get_atttype : Oid → Int → Oid
  find_equality_operator : Oid → Oid → Oid
  oprcode : Oid → Oid
  oprresult : Oid → Oid
  get_sort_group_operators : Oid → Bool → Bool → Bool → Oid × Oid × Bool
  provsql_where_provenance : Bool

inductive semiring_operation where
  | SR_PLUS
  | SR_MONUS
  | SR_TIMES
  deriving Repr, DecidableEq

/-- What `makeNode(RangeTblEntry)` returns: every field zero. -/
def RangeTblEntry.zero : RangeTblEntry :=
  { rtekind := RTEKind.RTE_RELATION, relid := 0, subquery := none,
    jointype := JoinType.JOIN_INNER, joinaliasvars := [], functions := [],
    rtalias := none, eref := none, inFromCl := false, requiredPerms := 0 }

/-- What `makeNode(Query)` returns: every field zero. -/
def Query.zero : Query :=
  { commandType := CmdType.CMD_UNKNOWN, canSetTag := false, hasAggs := false,
    hasSubLinks := false, hasDistinctOn := false, rtable := [], jointree := none,
    targetList := [], groupClause := [], groupingSets := [], havingQual := none,
    distinctClause := [], sortClause := [], setOperations := none }

/-! ## PostgreSQL helpers -/

/-- The function `list_nth` with a C `int` index: no result out of range. -/
def list_nth {α : Type} (l : List α) (n : Int) : Option α :=
  if n < 0 then none else l.get? n.toNat

/-- The function `exprType` of `nodes/nodeFuncs.c` on the node kinds of the model. -/
def exprType : Node → Oid
  | .Var _ _ vartype _ _ => vartype
  | .Const consttype _ _ _ _ _ _ => consttype
  | .RelabelType _ resulttype _ _ _ => resulttype
  | .FuncExpr _ funcresulttype _ _ => funcresulttype
  | .OpExpr _ _ opresulttype _ _ _ => opresulttype
  | .BoolExpr _ _ => BOOLOID
  | .ArrayExpr array_typeid _ _ => array_typeid
  | .Aggref _ aggtype _ _ _ _ => aggtype
  | .TargetEntry expr _ _ _ => exprType expr
  | .Other _ typ _ => typ

/-- The function `get_rte_attribute_name` of `parser/parsetree.c` for an entry
that is not a base relation: the user-written column alias if there is one,
else the name recorded in `eref`, else `elog(ERROR)`. -/
def get_rte_attribute_name (r : RangeTblEntry) (attnum : Int) : Except Err String :=
  let fromAlias : Option String :=
    match r.rtalias with
    | some a => if 0 < attnum then list_nth a.colnames (attnum - 1) else none
    | none => none
  match fromAlias with
  | some s => .ok s
  | none =>
    match r.eref with
    | some e =>
      match (if 0 < attnum then list_nth e.colnames (attnum - 1) else none) with
      | some s => .ok s
      | none => .error (Err.MalformedInput "invalid attnum for rangetable entry")
    | none => .error (Err.MalformedInput "invalid attnum for rangetable entry")

mutual
/-- A mutator in the style of `nodes/nodeFuncs.c`: the C mutator `m` that
returns `r` on every node `n` with `hook n = some r` and
`expression_tree_mutator(n, m, context)` on every other node, which rebuilds the
node with `m` applied to each sub-expression. -/
def tree_mutator (hook : Node → Option Node) (node : Node) : Node :=
  match hook node with
  | some r => r
  | none =>
    match node with
    | .Var a b c d e => .Var a b c d e
    | .Const a b c d e f g => .Const a b c d e f g
    | .RelabelType arg a b c d => .RelabelType (tree_mutator hook arg) a b c d
    | .FuncExpr a b c args => .FuncExpr a b c (tree_mutator_list hook args)
    | .OpExpr a b c d e args => .OpExpr a b c d e (tree_mutator_list hook args)
    | .BoolExpr a args => .BoolExpr a (tree_mutator_list hook args)
    | .ArrayExpr a b elements => .ArrayExpr a b (tree_mutator_list hook elements)
    | .Aggref a b c args d e => .Aggref a b c (tree_mutator_list hook args) d e
    | .TargetEntry expr a b c => .TargetEntry (tree_mutator hook expr) a b c
    | .Other a b children => .Other a b (tree_mutator_list hook children)
/-- The mutator of `tree_mutator` on a `List` node: element by element. -/
def tree_mutator_list (hook : Node → Option Node) : List Node → List Node
  | [] => []
  | x :: xs => tree_mutator hook x :: tree_mutator_list hook xs
end

/-- The first step of a mutator with a hook that can fail: what the hook
returns for the node if it returns something, else the node as rebuilt from
its mutated sub-expressions. -/
def hooked (hook : Node → Option (Except Err Node)) (node : Node)
    (rebuilt : Except Err Node) : Except Err Node :=
  match hook node with
  | some r => r
  | none => rebuilt

mutual
/-- The mutator of `tree_mutator`, for a hook that can fail. -/
def tree_mutatorM (hook : Node → Option (Except Err Node)) : Node → Except Err Node
  | .Var a b c d e => hooked hook (.Var a b c d e) (.ok (.Var a b c d e))
  | .Const a b c d e f g => hooked hook (.Const a b c d e f g) (.ok (.Const a b c d e f g))
  | .RelabelType arg a b c d =>
    hooked hook (.RelabelType arg a b c d)
      (match tree_mutatorM hook arg with
       | .ok arg1 => .ok (.RelabelType arg1 a b c d)
       | .error e => .error e)
  | .FuncExpr a b c args =>
    hooked hook (.FuncExpr a b c args)
      (match tree_mutatorM_list hook args with
       | .ok args1 => .ok (.FuncExpr a b c args1)
       | .error e => .error e)
  | .OpExpr a b c d e args =>
    hooked hook (.OpExpr a b c d e args)
      (match tree_mutatorM_list hook args with
       | .ok args1 => .ok (.OpExpr a b c d e args1)
       | .error e => .error e)
  | .BoolExpr a args =>
    hooked hook (.BoolExpr a args)
      (match tree_mutatorM_list hook args with
       | .ok args1 => .ok (.BoolExpr a args1)
       | .error e => .error e)
  | .ArrayExpr a b elements =>
    hooked hook (.ArrayExpr a b elements)
      (match tree_mutatorM_list hook elements with
       | .ok elements1 => .ok (.ArrayExpr a b elements1)
       | .error e => .error e)
  | .Aggref a b c args d e =>
    hooked hook (.Aggref a b c args d e)
      (match tree_mutatorM_list hook args with
       | .ok args1 => .ok (.Aggref a b c args1 d e)
       | .error e => .error e)
  | .TargetEntry expr a b c =>
    hooked hook (.TargetEntry expr a b c)
      (match tree_mutatorM hook expr with
       | .ok expr1 => .ok (.TargetEntry expr1 a b c)
       | .error e => .error e)
  | .Other a b children =>
    hooked hook (.Other a b children)
      (match tree_mutatorM_list hook children with
       | .ok children1 => .ok (.Other a b children1)
       | .error e => .error e)
/-- The mutator of `tree_mutatorM` on a `List` node: element by element, left to right. -/
def tree_mutatorM_list (hook : Node → Option (Except Err Node)) : List Node → Except Err (List Node)
  | [] => .ok []
  | x :: xs =>
    match tree_mutatorM hook x with
    | .ok x1 =>
      match tree_mutatorM_list hook xs with
      | .ok xs1 => .ok (x1 :: xs1)
      | .error e => .error e
    | .error e => .error e
end

mutual
/-- A walker in the style of `nodes/nodeFuncs.c`: the C walker `w` that
returns true on every node where `hit` holds and
`expression_tree_walker(n, w, context)` elsewhere, which is true as soon as `w`
is true on a sub-expression. -/
def tree_walker (hit : Node → Bool) (node : Node) : Bool :=
  if hit node then true
  else
    match node with
    | .Var _ _ _ _ _ => false
    | .Const _ _ _ _ _ _ _ => false
    | .RelabelType arg _ _ _ _ => tree_walker hit arg
    | .FuncExpr _ _ _ args => tree_walker_list hit args
    | .OpExpr _ _ _ _ _ args => tree_walker_list hit args
    | .BoolExpr _ args => tree_walker_list hit args
    | .ArrayExpr _ _ elements => tree_walker_list hit elements
    | .Aggref _ _ _ args _ _ => tree_walker_list hit args
    | .TargetEntry expr _ _ _ => tree_walker hit expr
    | .Other _ _ children => tree_walker_list hit children
/-- The walker of `tree_walker` on a `List` node. -/
def tree_walker_list (hit : Node → Bool) : List Node → Bool
  | [] => false
  | x :: xs => tree_walker hit x || tree_walker_list hit xs
end

/-- The mutator `m` on a join-tree or set-operation-tree node, as
`expression_tree_mutator` rebuilds `JoinExpr` (both operands and the
condition), `SetOperationStmt` (both operands) and `RangeTblRef`. -/
def TNode.mutate (m : Node → Node) : TNode → TNode
  | .RangeTblRef i => .RangeTblRef i
  | .JoinExpr jt l r quals i => .JoinExpr jt (l.mutate m) (r.mutate m) (quals.map m) i
  | .SetOperationStmt op all l r ct cm cc =>
    .SetOperationStmt op all (l.mutate m) (r.mutate m) ct cm cc
  | .OtherTree t => .OtherTree t

/-- The function `TNode.mutate` for a mutator that can fail. -/
def TNode.mutateM (m : Node → Except Err Node) : TNode → Except Err TNode
  | .RangeTblRef i => .ok (.RangeTblRef i)
  | .JoinExpr jt l r quals i =>
    match l.mutateM m with
    | .error e => .error e
    | .ok l1 =>
      match r.mutateM m with
      | .error e => .error e
      | .ok r1 =>
        match quals with
        | none => .ok (.JoinExpr jt l1 r1 none i)
        | some qn =>
          match m qn with
          | .error e => .error e
          | .ok q1 => .ok (.JoinExpr jt l1 r1 (some q1) i)
  | .SetOperationStmt op all l r ct cm cc =>
    match l.mutateM m with
    | .error e => .error e
    | .ok l1 =>
      match r.mutateM m with
      | .error e => .error e
      | .ok r1 => .ok (.SetOperationStmt op all l1 r1 ct cm cc)
  | .OtherTree t => .ok (.OtherTree t)

/-- The mutator on a `FromExpr`: the from-list, then the condition. -/
def FromExpr.mutate (m : Node → Node) (f : FromExpr) : FromExpr :=
  { fromlist := f.fromlist.map (TNode.mutate m), quals := f.quals.map m }

/-- The function `range_table_mutator` with `QTW_IGNORE_RT_SUBQUERIES`:
subqueries are copied as they are, join alias variables are mutated, and each
`RangeTblFunction` is handed to `mf`. -/
def range_table_mutator (m : Node → Node) (mf : RangeTblFunction → RangeTblFunction)
    (rtable : List RangeTblEntry) : List RangeTblEntry :=
  rtable.map (fun rte =>
    match rte.rtekind with
    | RTEKind.RTE_JOIN => { rte with joinaliasvars := rte.joinaliasvars.map m }
    | RTEKind.RTE_FUNCTION => { rte with functions := rte.functions.map mf }
    | _ => rte)

/-- The function `query_tree_mutator` with `QTW_DONT_COPY_QUERY` and
`QTW_IGNORE_RT_SUBQUERIES`, on the fields of the model: target list, join tree,
set operations, HAVING, then the range table. -/
def query_tree_mutator (m : Node → Node) (mf : RangeTblFunction → RangeTblFunction)
    (q : Query) : Query :=
  { q with
    targetList := q.targetList.map m,
    jointree := q.jointree.map (FromExpr.mutate m),
    setOperations := q.setOperations.map (TNode.mutate m),
    havingQual := q.havingQual.map m,
    rtable := range_table_mutator m mf q.rtable }

/-- Left-to-right map with a function that can fail; the first failure is the result. -/
def mapE {α β : Type} (f : α → Except Err β) : List α → Except Err (List β)
  | [] => .ok []
  | x :: xs =>
    match f x with
    | .error e => .error e
    | .ok y =>
      match mapE f xs with
      | .error e => .error e
      | .ok ys => .ok (y :: ys)

/-- The mutator on a `FromExpr`, for a mutator that can fail. -/
def FromExpr.mutateM (m : Node → Except Err Node) (f : FromExpr) : Except Err FromExpr :=
  match mapE (TNode.mutateM m) f.fromlist with
  | .error e => .error e
  | .ok fl =>
    match f.quals with
    | none => .ok { fromlist := fl, quals := none }
    | some qn =>
      match m qn with
      | .error e => .error e
      | .ok q1 => .ok { fromlist := fl, quals := some q1 }

/-- A set of non-negative integers (`Bitmapset`), kept as the list of its
members in the order they were first added; `NULL` is the empty list. -/
abbrev Bitmapset := List Nat

def bms_add_member (a : Bitmapset) (x : Nat) : Bitmapset :=
  if x ∈ a then a else a ++ [x]

def bms_is_member (x : Nat) (a : Bitmapset) : Bool :=
  decide (x ∈ a)

/-! ## Provenance attributes -/

/-- The function `make_provenance_attribute`: the column `(relid, attid)` of
token type under an implicit-cast `RelabelType`.  (The update of the
permission bitmap of the entry is not part of the model.) -/
def make_provenance_attribute (constants : constants_t) (relid : Nat) (attid : Int) : Node :=
  .RelabelType (.Var relid attid constants.OID_TYPE_UUID (-1) InvalidOid)
    constants.OID_TYPE_UUID (-1) InvalidOid CoercionForm.COERCE_IMPLICIT_CAST

structure aggregation_type_mutator_context where
  varno : Nat
  varattno : Int
  constants : constants_t

/-- The function `aggregation_type_mutator`: a `Var` that refers to
`(context.varno, context.varattno)` gets the aggregation-token type; every other
node is rebuilt from its mutated sub-expressions. -/
def aggregation_type_mutator (context : aggregation_type_mutator_context) (node : Node) : Node :=
  tree_mutator (fun n =>
    match n with
    | .Var varno varattno vartype vartypmod varcollid =>
      if varno = context.varno ∧ varattno = context.varattno then
        some (.Var varno varattno context.constants.OID_TYPE_AGG_TOKEN vartypmod varcollid)
      else some (.Var varno varattno vartype vartypmod varcollid)
    | _ => none) node

/-- The loop of `fix_type_of_aggregation_result` over the target list of the
subquery, `attno` being the position of the first entry of the list.  The
second component tells whether `query_tree_mutator` ran at least once. -/
def fix_type_of_aggregation_result_loop (constants : constants_t) (rteid : Nat) :
    List Node → Int → Query → Except Err (Query × Bool)
  | [], _, q => .ok (q, false)
  | te :: rest, attno, q =>
    match te with
    | .TargetEntry expr _ _ _ =>
      match expr with
      | .FuncExpr funcid _ _ _ =>
        if funcid = constants.OID_FUNCTION_PROVENANCE_AGGREGATE then
          let context : aggregation_type_mutator_context :=
            { varno := rteid, varattno := attno, constants := constants }
          let m := aggregation_type_mutator context
          let q1 := query_tree_mutator m (fun f => { f with funcexpr := m f.funcexpr }) q
          match fix_type_of_aggregation_result_loop constants rteid rest (attno + 1) q1 with
          | .ok (q2, _) => .ok (q2, true)
          | .error e => .error e
        else fix_type_of_aggregation_result_loop constants rteid rest (attno + 1) q
      | _ => fix_type_of_aggregation_result_loop constants rteid rest (attno + 1) q
    | _ => .error (Err.MalformedInput "target list element is not a TargetEntry")

def fix_type_of_aggregation_result (constants : constants_t) (q : Query) (rteid : Nat)
    (targetList : List Node) : Except Err (Query × Bool) :=
  fix_type_of_aggregation_result_loop constants rteid targetList 1 q

/-- The inner loop of `get_provenance_attributes` for a base relation: the
attributes contributed by the exposed column names from position `attid` on. -/
def relation_provenance_attributes (constants : constants_t) (env : Env) (relid : Oid)
    (rteid : Nat) : List String → Int → List Node
  | [], _ => []
  | v :: rest, attid =>
    if v = PROVSQL_COLUMN_NAME ∧ env.get_atttype relid attid = constants.OID_TYPE_UUID then
      make_provenance_attribute constants rteid attid
        :: relation_provenance_attributes constants env relid rteid rest (attid + 1)
    else relation_provenance_attributes constants env relid rteid rest (attid + 1)

/-- The inner loop of `get_provenance_attributes` for a function entry. -/
def function_provenance_attributes (constants : constants_t) (r : RangeTblEntry)
    (rteid : Nat) : List RangeTblFunction → Int → Except Err (List Node)
  | [], _ => .ok []
  | func :: rest, attid =>
    if func.funccolcount = 1 then
      match func.funcexpr with
      | .FuncExpr _ funcresulttype _ _ =>
        if funcresulttype = constants.OID_TYPE_UUID then
          match get_rte_attribute_name r attid with
          | .error e => .error e
          | .ok name =>
            match function_provenance_attributes constants r rteid rest
                (attid + func.funccolcount) with
            | .error e => .error e
            | .ok atts =>
              if name = PROVSQL_COLUMN_NAME then
                .ok (make_provenance_attribute constants rteid attid :: atts)
              else .ok atts
        else function_provenance_attributes constants r rteid rest (attid + func.funccolcount)
      | _ => .error (Err.MalformedInput "funcexpr is not a FuncExpr")
    else
      .error (Err.UnsupportedConstruct
        "FROM function with multiple output attributes not supported by provsql")

/-- The state of the loop of `get_provenance_attributes`: the query, the
attributes found so far, and whether `q->rtable` has been replaced.
`fix_type_of_aggregation_result` runs `query_tree_mutator`, which stores a list
of fresh copies of the entries in `q->rtable` while the loop goes on over the
entries of the former list; a copy shares the `eref` of its original and holds
a copy of its subquery. -/
structure gpa_state where
  q : Query
  prov_atts : List Node
  detached : Bool

/-- One iteration of the loop of `get_provenance_attributes`, on the entry `r`
of index `rteid`; `process_query` is the recursive call.  For a subquery entry
the code reads `new_subquery->targetList->length`, which has no result for an
empty target list. -/
def get_provenance_attributes_step (process_query : Query → Except Err (Option Query))
    (constants : constants_t) (env : Env) (st : gpa_state) (rteid : Nat) (r : RangeTblEntry) :
    Except Err gpa_state :=
  match r.rtekind with
  | RTEKind.RTE_RELATION =>
    match r.eref with
    | none => .error (Err.MalformedInput "range table entry without eref")
    | some eref =>
      .ok { st with prov_atts := st.prov_atts ++
              relation_provenance_attributes constants env r.relid rteid eref.colnames 1 }
  | RTEKind.RTE_SUBQUERY =>
    match r.subquery with
    | none => .error (Err.MalformedInput "subquery entry without subquery")
    | some subquery =>
      match process_query subquery with
      | .error e => .error e
      | .ok none => .ok st
      | .ok (some new_subquery) =>
        match r.eref with
        | none => .error (Err.MalformedInput "range table entry without eref")
        | some eref =>
          if new_subquery.targetList.isEmpty then
            .error (Err.MalformedInput "length of an empty list")
          else
            let eref1 : Alias :=
              { eref with colnames := eref.colnames ++ [PROVSQL_COLUMN_NAME] }
            let rtable1 := st.q.rtable.modify
              (fun cur =>
                if st.detached then { cur with eref := some eref1 }
                else { cur with subquery := some new_subquery, eref := some eref1 })
              (rteid - 1)
            let att := make_provenance_attribute constants rteid new_subquery.targetList.length
            match fix_type_of_aggregation_result constants { st.q with rtable := rtable1 } rteid
                new_subquery.targetList with
            | .error e => .error e
            | .ok (q2, ran) =>
              .ok { q := q2, prov_atts := st.prov_atts ++ [att],
                    detached := st.detached || ran }
  | RTEKind.RTE_JOIN =>
    if r.jointype = JoinType.JOIN_INNER ∨ r.jointype = JoinType.JOIN_LEFT ∨
        r.jointype = JoinType.JOIN_FULL ∨ r.jointype = JoinType.JOIN_RIGHT then
      .ok st
    else .error (Err.UnsupportedConstruct "JOIN type not supported by provsql")
  | RTEKind.RTE_FUNCTION =>
    match function_provenance_attributes constants r rteid r.functions 1 with
    | .error e => .error e
    | .ok atts => .ok { st with prov_atts := st.prov_atts ++ atts }
  | _ => .error (Err.UnsupportedConstruct "FROM clause unsupported by provsql")

/-- The loop of `get_provenance_attributes` over the entries of the range
table as it was when the loop started. -/
def get_provenance_attributes_loop (process_query : Query → Except Err (Option Query))
    (constants : constants_t) (env : Env) :
    List RangeTblEntry → Nat → gpa_state → Except Err gpa_state
  | [], _, st => .ok st
  | r :: rest, rteid, st =>
    match get_provenance_attributes_step process_query constants env st rteid r with
    | .error e => .error e
    | .ok st1 => get_provenance_attributes_loop process_query constants env rest (rteid + 1) st1

/-- The function `get_provenance_attributes`: the attribute list and the
updated query. -/
def get_provenance_attributes (process_query : Query → Except Err (Option Query))
    (constants : constants_t) (env : Env) (q : Query) : Except Err (List Node × Query) :=
  match get_provenance_attributes_loop process_query constants env q.rtable 1
      { q := q, prov_atts := [], detached := false } with
  | .error e => .error e
  | .ok st => .ok (st.prov_atts, st.q)

/-! ## Removal of the provenance columns of the target list -/

/-- The test of `remove_provenance_attributes_select` on one target entry:
a `Var` of token type whose name (the output name if there is one, else the
exposed name of the column it refers to) is the provenance column name. -/
def is_provenance_target (constants : constants_t) (q : Query) (expr : Node)
    (resname : Option String) : Except Err Bool :=
  match expr with
  | .Var varno varattno vartype _ _ =>
    if vartype = constants.OID_TYPE_UUID then
      match resname with
      | some colname => .ok (decide (colname = PROVSQL_COLUMN_NAME))
      | none =>
        match list_nth q.rtable ((varno : Int) - 1) with
        | none => .error (Err.MalformedInput "list_nth out of range")
        | some r =>
          match r.eref with
          | none => .error (Err.MalformedInput "range table entry without eref")
          | some eref =>
            match list_nth eref.colnames (varattno - 1) with
            | none => .error (Err.MalformedInput "list_nth out of range")
            | some colname => .ok (decide (colname = PROVSQL_COLUMN_NAME))
    else .ok false
  | _ => .ok false

/-- The loop of `remove_provenance_attributes_select` from some cell of
the target list on, `nbRemoved` entries having been removed before it and
`refs` being the references collected before it.  The results are the
remaining entries, the flags `removed[i]` and the collected references. -/
def remove_provenance_attributes_select_loop (constants : constants_t) (q : Query) :
    List Node → Int → Bitmapset → Except Err (List Node × List Bool × Bitmapset)
  | [], _, refs => .ok ([], [], refs)
  | cell :: rest, nbRemoved, refs =>
    match cell with
    | .TargetEntry expr resno resname ressortgroupref =>
      match is_provenance_target constants q expr resname with
      | .error e => .error e
      | .ok true =>
        let refs1 := if 0 < ressortgroupref then bms_add_member refs ressortgroupref else refs
        match remove_provenance_attributes_select_loop constants q rest (nbRemoved + 1) refs1 with
        | .error e => .error e
        | .ok (kept, removed, out) => .ok (kept, true :: removed, out)
      | .ok false =>
        match remove_provenance_attributes_select_loop constants q rest nbRemoved refs with
        | .error e => .error e
        | .ok (kept, removed, out) =>
          .ok (.TargetEntry expr (resno - nbRemoved) resname ressortgroupref :: kept,
               false :: removed, out)
    | _ => .error (Err.MalformedInput "target list element is not a TargetEntry")

/-- The function `remove_provenance_attributes_select`: the returned set, the
array `removed` and the updated query.  The array is allocated with
`q->targetList->length` cells, a read that has no result for an empty target
list. -/
def remove_provenance_attributes_select (constants : constants_t) (q : Query) :
    Except Err (Bitmapset × List Bool × Query) :=
  if q.targetList.isEmpty then .error (Err.MalformedInput "length of an empty list")
  else
    match remove_provenance_attributes_select_loop constants q q.targetList 0 [] with
    | .error e => .error e
    | .ok (kept, removed, refs) => .ok (refs, removed, { q with targetList := kept })

/-- The inner loop of `remove_provenance_attribute_groupref` on one list. -/
def remove_groupref_loop (removed_sortgrouprefs : Bitmapset) :
    List SortGroupClause → List SortGroupClause
  | [] => []
  | sgc :: rest =>
    if bms_is_member sgc.tleSortGroupRef removed_sortgrouprefs then
      remove_groupref_loop removed_sortgrouprefs rest
    else sgc :: remove_groupref_loop removed_sortgrouprefs rest

def remove_provenance_attribute_groupref (q : Query) (removed_sortgrouprefs : Bitmapset) :
    Query :=
  { q with
    groupClause := remove_groupref_loop removed_sortgrouprefs q.groupClause,
    distinctClause := remove_groupref_loop removed_sortgrouprefs q.distinctClause,
    sortClause := remove_groupref_loop removed_sortgrouprefs q.sortClause }

/-- The inner loop of `remove_provenance_attribute_setoperations` on one
list, `j` being the index of its first cell in the original list. -/
def remove_setoperations_loop {α : Type} (removed : List Bool) :
    List α → Nat → Except Err (List α)
  | [], _ => .ok []
  | x :: rest, j =>
    match removed.get? j with
    | none => .error (Err.MalformedInput "read past the end of the array removed")
    | some true => remove_setoperations_loop removed rest (j + 1)
    | some false =>
      match remove_setoperations_loop removed rest (j + 1) with
      | .error e => .error e
      | .ok l => .ok (x :: l)

def remove_provenance_attribute_setoperations (q : Query) (removed : List Bool) :
    Except Err Query :=
  match q.setOperations with
  | some (.SetOperationStmt op all larg rarg colTypes colTypmods colCollations) =>
    match remove_setoperations_loop removed colTypes 0 with
    | .error e => .error e
    | .ok colTypes1 =>
      match remove_setoperations_loop removed colTypmods 0 with
      | .error e => .error e
      | .ok colTypmods1 =>
        match remove_setoperations_loop removed colCollations 0 with
        | .error e => .error e
        | .ok colCollations1 =>
          let stmt : TNode :=
            .SetOperationStmt op all larg rarg colTypes1 colTypmods1 colCollations1
          .ok { q with setOperations := some stmt }
  | _ => .error (Err.MalformedInput "setOperations is not a SetOperationStmt")

/-! ## Expression builder -/

/-- A constant built by `makeConst(constants->OID_TYPE_INT, -1, InvalidOid, len, v, false, true)`. -/
def make_int_const (constants : constants_t) (len : Int) (v : Int) : Node :=
  .Const constants.OID_TYPE_INT (-1) InvalidOid len v false true

/-- The read `columns[varno - 1][varattno - 1]`. -/
def columns_lookup (columns : List (List Int)) (varno : Nat) (varattno : Int) :
    Except Err Int :=
  match list_nth columns ((varno : Int) - 1) with
  | none => .error (Err.MalformedInput "read outside the array columns")
  | some row =>
    match list_nth row (varattno - 1) with
    | none => .error (Err.MalformedInput "read outside the array columns")
    | some v => .ok v

/-- The operand test of `add_eq_from_OpExpr_to_Expr`: a `Var`, directly or
under a `RelabelType`. -/
def eq_operand_var : Node → Option (Nat × Int)
  | .Var varno varattno _ _ _ => some (varno, varattno)
  | .RelabelType (.Var varno varattno _ _ _) _ _ _ _ => some (varno, varattno)
  | _ => none

def add_eq_from_OpExpr_to_Expr (constants : constants_t) (fromOpExpr : Node) (toExpr : Node)
    (columns : List (List Int)) : Except Err Node :=
  match fromOpExpr with
  | .OpExpr _ _ _ _ _ args =>
    match args with
    | [] => .error (Err.MalformedInput "operator without operand")
    | [_] => .ok toExpr
    | a1 :: a2 :: _ =>
      match eq_operand_var a1 with
      | none => .ok toExpr
      | some (varno1, varattno1) =>
        match columns_lookup columns varno1 varattno1 with
        | .error e => .error e
        | .ok first_arg =>
          match eq_operand_var a2 with
          | none => .ok toExpr
          | some (varno2, varattno2) =>
            match columns_lookup columns varno2 varattno2 with
            | .error e => .error e
            | .ok second_arg =>
              .ok (.FuncExpr constants.OID_FUNCTION_PROVENANCE_EQ constants.OID_TYPE_UUID false
                    [toExpr, make_int_const constants 2 first_arg,
                      make_int_const constants 2 second_arg])
  | _ => .error (Err.MalformedInput "node is not an OpExpr")

/-- The loop of `add_eq_from_Quals_to_Expr` over the arguments of an AND. -/
def add_eq_from_Quals_loop (constants : constants_t) (columns : List (List Int)) :
    List Node → Node → Except Err Node
  | [], result => .ok result
  | arg :: rest, result =>
    match arg with
    | .OpExpr _ _ _ _ _ _ =>
      match add_eq_from_OpExpr_to_Expr constants arg result columns with
      | .error e => .error e
      | .ok result1 => add_eq_from_Quals_loop constants columns rest result1
    | _ => add_eq_from_Quals_loop constants columns rest result

def add_eq_from_Quals_to_Expr (constants : constants_t) (quals : Option Node) (result : Node)
    (columns : List (List Int)) : Except Err Node :=
  match quals with
  | none => .ok result
  | some (.OpExpr a b c d e args) =>
    add_eq_from_OpExpr_to_Expr constants (.OpExpr a b c d e args) result columns
  | some (.BoolExpr boolop args) =>
    if boolop = BoolExprType.OR_EXPR ∨ boolop = BoolExprType.NOT_EXPR then
      .error (Err.UnsupportedConstruct
        "Boolean operators OR and NOT in a join...on clause are not supported by provsql")
    else add_eq_from_Quals_loop constants columns args result
  | some _ => .ok result

/-- The array-aggregate call built by `make_aggregation_expression` and
`make_provenance_expression` over the expression `inner`. -/
def make_array_agg (constants : constants_t) (inner : Node) : Node :=
  .Aggref constants.OID_FUNCTION_ARRAY_AGG constants.OID_TYPE_UUID_ARRAY
    [constants.OID_TYPE_UUID] [.TargetEntry inner 1 none 0] [] AGGKIND_NORMAL

/-- The part shared by `make_aggregation_expression` and
`make_provenance_expression` when the operation is not `SR_PLUS`: the only
attribute if there is one, else a times-gate call over the array of the
attributes or a monus-gate call over the attributes. -/
def combine_prov_atts (constants : constants_t) (prov_atts : List Node)
    (op : semiring_operation) : Except Err Node :=
  match prov_atts with
  | [] => .error (Err.MalformedInput "linitial of an empty list")
  | [a] => .ok a
  | _ :: _ :: _ =>
    if op = semiring_operation.SR_TIMES then
      .ok (.FuncExpr constants.OID_FUNCTION_PROVENANCE_TIMES constants.OID_TYPE_UUID true
            [.ArrayExpr constants.OID_TYPE_UUID_ARRAY constants.OID_TYPE_UUID prov_atts])
    else
      .ok (.FuncExpr constants.OID_FUNCTION_PROVENANCE_MONUS constants.OID_TYPE_UUID false
            prov_atts)

/-- The branch `op == SR_PLUS` of both builders: the argument of the first
attribute, taken as a `RelabelType`. -/
def first_attribute_arg (prov_atts : List Node) : Except Err Node :=
  match prov_atts with
  | [] => .error (Err.MalformedInput "linitial of an empty list")
  | .RelabelType arg _ _ _ _ :: _ => .ok arg
  | _ :: _ => .error (Err.MalformedInput "attribute is not a RelabelType")

def make_aggregation_expression (constants : constants_t) (agg_ref : Node)
    (prov_atts : List Node) (op : semiring_operation) : Except Err Node :=
  match agg_ref with
  | .Aggref aggfnoid aggtype _ args _ _ =>
    if op = semiring_operation.SR_PLUS then first_attribute_arg prov_atts
    else
      match combine_prov_atts constants prov_atts op with
      | .error e => .error e
      | .ok expr =>
        let value : Except Err Node :=
          if aggfnoid = 2803 ∨ aggfnoid = 2147 then .ok (make_int_const constants 4 1)
          else
            match args with
            | [] => .error (Err.MalformedInput "linitial of an empty list")
            | .TargetEntry e _ _ _ :: _ => .ok e
            | _ :: _ => .error (Err.MalformedInput "argument is not a TargetEntry")
        match value with
        | .error e => .error e
        | .ok v =>
          let expr_s : Node :=
            .FuncExpr constants.OID_FUNCTION_PROVENANCE_SEMIMOD constants.OID_TYPE_UUID false
              [v, expr]
          .ok (.FuncExpr constants.OID_FUNCTION_PROVENANCE_AGGREGATE
                constants.OID_TYPE_AGG_TOKEN false
                [make_int_const constants 4 aggfnoid, make_int_const constants 4 aggtype,
                 agg_ref, make_array_agg constants expr_s])
  | _ => .error (Err.MalformedInput "node is not an Aggref")

/-- The first part of `make_provenance_expression`: the expression before the
where-provenance gates, and the query with `hasAggs` set when the expression
is aggregated. -/
def make_provenance_expression_core (constants : constants_t) (q : Query)
    (prov_atts : List Node) (aggregation : Bool) (group_by_rewrite : Bool)
    (op : semiring_operation) : Except Err (Node × Query) :=
  if op = semiring_operation.SR_PLUS then
    match first_attribute_arg prov_atts with
    | .error e => .error e
    | .ok result => .ok (result, q)
  else
    match combine_prov_atts constants prov_atts op with
    | .error e => .error e
    | .ok result =>
      let grouped : Node × Query :=
        if group_by_rewrite || aggregation then
          (.FuncExpr constants.OID_FUNCTION_PROVENANCE_PLUS constants.OID_TYPE_UUID false
              [make_array_agg constants result],
            { q with hasAggs := true })
        else (result, q)
      if aggregation then
        .ok (.FuncExpr constants.OID_FUNCTION_PROVENANCE_DELTA constants.OID_TYPE_UUID false
              [grouped.1], grouped.2)
      else .ok grouped

/-- The loop of `make_provenance_expression` over the from-list: the
conditions of the `JoinExpr` items. -/
def add_eq_from_fromlist (constants : constants_t) (columns : List (List Int)) :
    List TNode → Node → Except Err Node
  | [], result => .ok result
  | item :: rest, result =>
    match item with
    | .JoinExpr _ _ _ quals _ =>
      match add_eq_from_Quals_to_Expr constants quals result columns with
      | .error e => .error e
      | .ok result1 => add_eq_from_fromlist constants columns rest result1
    | _ => add_eq_from_fromlist constants columns rest result

/-- The state of the projection loop of `make_provenance_expression`. -/
structure projection_state where
  elements : List Node
  projection : Bool
  nb_column : Int

/-- The loop of `make_provenance_expression` over the target list. -/
def projection_loop (constants : constants_t) (q : Query) (columns : List (List Int)) :
    List Node → projection_state → Except Err projection_state
  | [], st => .ok st
  | te_v :: rest, st =>
    match te_v with
    | .TargetEntry (.Var varno varattno _ _ _) _ _ _ =>
      match list_nth q.rtable ((varno : Int) - 1) with
      | none => .error (Err.MalformedInput "list_nth_cell out of range")
      | some rte_v =>
        let value : Except Err Int :=
          if rte_v.rtekind ≠ RTEKind.RTE_JOIN then columns_lookup columns varno varattno
          else
            match list_nth rte_v.joinaliasvars (varattno - 1) with
            | some (.Var jvarno jvarattno _ _ _) => columns_lookup columns jvarno jvarattno
            | some _ => .error (Err.MalformedInput "join alias is not a Var")
            | none => .error (Err.MalformedInput "list_nth_cell out of range")
        match value with
        | .error e => .error e
        | .ok value_v =>
          if 0 < value_v then
            projection_loop constants q columns rest
              { elements := st.elements ++ [make_int_const constants 4 value_v],
                projection := st.projection || decide (value_v ≠ st.nb_column + 1),
                nb_column := st.nb_column + 1 }
          else
            projection_loop constants q columns rest
              { st with projection := st.projection || decide (value_v ≠ -1) }
    | .TargetEntry _ _ _ _ =>
      projection_loop constants q columns rest
        { st with elements := st.elements ++ [make_int_const constants 4 0], projection := true }
    | _ => .error (Err.MalformedInput "target list element is not a TargetEntry")

/-- The function `make_provenance_expression`: the provenance expression,
and the query (whose `hasAggs` may have been set). -/
def make_provenance_expression (constants : constants_t) (env : Env) (q : Query)
    (prov_atts : List Node) (aggregation : Bool) (group_by_rewrite : Bool)
    (op : semiring_operation) (columns : List (List Int)) (nbcols : Int) :
    Except Err (Node × Query) :=
  match make_provenance_expression_core constants q prov_atts aggregation group_by_rewrite op with
  | .error e => .error e
  | .ok (result0, q1) =>
    let withEq : Except Err Node :=
      match q1.jointree with
      | some jointree =>
        if env.provsql_where_provenance then
          match add_eq_from_fromlist constants columns jointree.fromlist result0 with
          | .error e => .error e
          | .ok r => add_eq_from_Quals_to_Expr constants jointree.quals r columns
        else .ok result0
      | none => .ok result0
    match withEq with
    | .error e => .error e
    | .ok result1 =>
      if env.provsql_where_provenance then
        match projection_loop constants q1 columns q1.targetList
            { elements := [], projection := false, nb_column := 0 } with
        | .error e => .error e
        | .ok st =>
          if st.projection || decide (st.nb_column ≠ nbcols) then
            .ok (.FuncExpr constants.OID_FUNCTION_PROVENANCE_PROJECT constants.OID_TYPE_UUID true
                  [result1, .ArrayExpr constants.OID_TYPE_INT_ARRAY constants.OID_TYPE_INT
                    st.elements], q1)
          else .ok (result1, q1)
      else .ok (result1, q1)

/-! ## Aggregates, placeholders, target list -/

structure aggregation_mutator_context where
  prov_atts : List Node
  op : semiring_operation
  constants : constants_t

/-- The function `aggregation_mutator`: an `Aggref` is replaced by its
aggregation expression (and not visited further); every other node is rebuilt
from its mutated sub-expressions. -/
def aggregation_mutator (context : aggregation_mutator_context) (node : Node) : Except Err Node :=
  tree_mutatorM (fun n =>
    match n with
    | .Aggref _ _ _ _ _ _ =>
      some (make_aggregation_expression context.constants n context.prov_atts context.op)
    | _ => none) node

/-- A function that can fail, on an optional value. -/
def mapOptionE {α β : Type} (f : α → Except Err β) : Option α → Except Err (Option β)
  | none => .ok none
  | some a =>
    match f a with
    | .error e => .error e
    | .ok b => .ok (some b)

/-- The function `range_table_mutator` (see `range_table_mutator`) for a
mutator that can fail; a `RangeTblFunction` is rebuilt from its mutated
expression. -/
def range_table_mutatorM (m : Node → Except Err Node) (rtable : List RangeTblEntry) :
    Except Err (List RangeTblEntry) :=
  mapE (fun (rte : RangeTblEntry) =>
    match rte.rtekind with
    | RTEKind.RTE_JOIN =>
      match mapE m rte.joinaliasvars with
      | .error e => .error e
      | .ok j => .ok { rte with joinaliasvars := j }
    | RTEKind.RTE_FUNCTION =>
      match mapE (fun (f : RangeTblFunction) =>
          match m f.funcexpr with
          | .error e => .error e
          | .ok e => .ok { f with funcexpr := e }) rte.functions with
      | .error e => .error e
      | .ok fs => .ok { rte with functions := fs }
    | _ => .ok rte) rtable

/-- The function `query_tree_mutator` (see `query_tree_mutator`) for a mutator
that can fail. -/
def query_tree_mutatorM (m : Node → Except Err Node) (q : Query) : Except Err Query :=
  match mapE m q.targetList with
  | .error e => .error e
  | .ok targetList =>
    match mapOptionE (FromExpr.mutateM m) q.jointree with
    | .error e => .error e
    | .ok jointree =>
      match mapOptionE (TNode.mutateM m) q.setOperations with
      | .error e => .error e
      | .ok setOperations =>
        match mapOptionE m q.havingQual with
        | .error e => .error e
        | .ok havingQual =>
          match range_table_mutatorM m q.rtable with
          | .error e => .error e
          | .ok rtable =>
            .ok { q with targetList := targetList, jointree := jointree,
                         setOperations := setOperations, havingQual := havingQual,
                         rtable := rtable }

def replace_aggregations_in_select (constants : constants_t) (q : Query) (prov_atts : List Node)
    (op : semiring_operation) : Except Err Query :=
  query_tree_mutatorM
    (aggregation_mutator { prov_atts := prov_atts, op := op, constants := constants }) q

def add_to_select (q : Query) (provenance : Node) : Query :=
  { q with targetList := q.targetList ++
      [.TargetEntry provenance ((q.targetList.length : Int) + 1) (some PROVSQL_COLUMN_NAME) 0] }

structure provenance_mutator_context where
  provsql : Node
  constants : constants_t

/-- The function `provenance_mutator`: a call of the placeholder function is
replaced by a copy of the provenance expression. -/
def provenance_mutator (context : provenance_mutator_context) (node : Node) : Node :=
  tree_mutator (fun n =>
    match n with
    | .FuncExpr funcid _ _ _ =>
      if funcid = context.constants.OID_FUNCTION_PROVENANCE then some context.provsql else none
    | _ => none) node

/-- The function `replace_provenance_function_by_expression`; the mutator
returns a `RangeTblFunction` as it is. -/
def replace_provenance_function_by_expression (constants : constants_t) (q : Query)
    (provsql : Node) : Query :=
  query_tree_mutator (provenance_mutator { provsql := provsql, constants := constants })
    (fun f => f) q

/-! ## Clause normalizers -/

/-- The second loop of `transform_distinct_into_group_by`: the DISTINCT
clauses whose reference is not in `already_in_group_by`, in order. -/
def distinct_not_in_group_by (already_in_group_by : Bitmapset) :
    List SortGroupClause → List SortGroupClause
  | [] => []
  | sgc :: rest =>
    if ¬ bms_is_member sgc.tleSortGroupRef already_in_group_by then
      sgc :: distinct_not_in_group_by already_in_group_by rest
    else distinct_not_in_group_by already_in_group_by rest

def transform_distinct_into_group_by (q : Query) : Query :=
  let already_in_group_by : Bitmapset :=
    q.groupClause.foldl (fun acc sgc => bms_add_member acc sgc.tleSortGroupRef) []
  { q with
    groupClause := q.groupClause ++ distinct_not_in_group_by already_in_group_by q.distinctClause,
    distinctClause := [] }

/-- The loop of `rewrite_non_all_into_external_group_by` over the copied
target list, `sortgroupref` being the last reference given out. -/
def rewrite_non_all_loop (env : Env) :
    List Node → Nat → Except Err (List Node × List SortGroupClause)
  | [], _ => .ok ([], [])
  | te :: rest, sortgroupref =>
    match te with
    | .TargetEntry expr resno resname _ =>
      let ops := env.get_sort_group_operators (exprType expr) false true false
      let sgc : SortGroupClause :=
        { tleSortGroupRef := sortgroupref + 1, eqop := ops.2.1, sortop := ops.1,
          nulls_first := false, hashable := ops.2.2 }
      match rewrite_non_all_loop env rest (sortgroupref + 1) with
      | .error e => .error e
      | .ok (tes, sgcs) => .ok (.TargetEntry expr resno resname (sortgroupref + 1) :: tes, sgc :: sgcs)
    | _ => .error (Err.MalformedInput "target list element is not a TargetEntry")

/-- The function `rewrite_non_all_into_external_group_by`. -/
def rewrite_non_all_into_external_group_by (env : Env) (q : Query) : Except Err Query :=
  match q.setOperations with
  | some (.SetOperationStmt op _ larg rarg colTypes colTypmods colCollations) =>
    match q.rtable with
    | [] => .error (Err.MalformedInput "linitial of an empty list")
    | first :: _ =>
      let stmt : TNode := .SetOperationStmt op true larg rarg colTypes colTypmods colCollations
      let q1 : Query := { q with setOperations := some stmt }
      let rte : RangeTblEntry :=
        { RangeTblEntry.zero with
          rtekind := RTEKind.RTE_SUBQUERY, subquery := some q1, eref := first.eref,
          requiredPerms := ACL_SELECT, inFromCl := true }
      match rewrite_non_all_loop env q1.targetList 0 with
      | .error e => .error e
      | .ok (targetList, groupClause) =>
        .ok { Query.zero with
              commandType := CmdType.CMD_SELECT, canSetTag := true, rtable := [rte],
              jointree := some { fromlist := [.RangeTblRef 1], quals := none },
              targetList := targetList, groupClause := groupClause }
  | _ => .error (Err.MalformedInput "setOperations is not a SetOperationStmt")

/-- The test of `provenance_function_walker`: a call of the placeholder function. -/
def is_provenance_call (constants : constants_t) : Node → Bool
  | .FuncExpr funcid _ _ _ => decide (funcid = constants.OID_FUNCTION_PROVENANCE)
  | _ => false

def provenance_function_walker (constants : constants_t) (node : Node) : Bool :=
  tree_walker (is_provenance_call constants) node

/-- The loop of `provenance_function_in_group_by` over the target list. -/
def provenance_function_in_group_by_loop (constants : constants_t) : List Node → Except Err Bool
  | [] => .ok false
  | te :: rest =>
    match te with
    | .TargetEntry expr _ _ ressortgroupref =>
      if 0 < ressortgroupref ∧ provenance_function_walker constants expr = true then .ok true
      else provenance_function_in_group_by_loop constants rest
    | _ => .error (Err.MalformedInput "target list element is not a TargetEntry")

def provenance_function_in_group_by (constants : constants_t) (q : Query) : Except Err Bool :=
  provenance_function_in_group_by_loop constants q.targetList

/-- One iteration of the loop of `check_for_agg_distinct` over the target list
of the copy: the element appended to `lst_v` and, for an aggregate with a
DISTINCT qualifier, the clause appended to the GROUP BY list. -/
def check_for_agg_distinct_entry (te_v : Node) :
    Except Err (Node × Option SortGroupClause) :=
  match te_v with
  | .TargetEntry (.Aggref a b c args aggdistinct k) resno resname _ =>
    match aggdistinct with
    | sgc :: _ =>
      match args with
      | .TargetEntry e _ _ _ :: _ =>
        .ok (.TargetEntry e resno resname resno.toNat,
             some { sgc with tleSortGroupRef := resno.toNat })
      | _ :: _ => .error (Err.MalformedInput "argument is not a TargetEntry")
      | [] => .error (Err.MalformedInput "linitial of an empty list")
    | [] => .ok (.Aggref a b c args aggdistinct k, none)
  | .TargetEntry expr resno resname ref => .ok (.TargetEntry expr resno resname ref, none)
  | _ => .error (Err.MalformedInput "target list element is not a TargetEntry")

/-- The loop of `check_for_agg_distinct`: see `check_for_agg_distinct_entry`. -/
def check_for_agg_distinct_loop :
    List Node → Except Err (List Node × List SortGroupClause × Bool)
  | [] => .ok ([], [], false)
  | te_v :: rest =>
    match check_for_agg_distinct_entry te_v with
    | .error e => .error e
    | .ok (item, sgc) =>
      match check_for_agg_distinct_loop rest with
      | .error e => .error e
      | .ok (lst, sgcs, found) =>
        match sgc with
        | some g => .ok (item :: lst, g :: sgcs, true)
        | none => .ok (item :: lst, sgcs, found)

/-- The function `check_for_agg_distinct`: `none` is `NULL`. -/
def check_for_agg_distinct (q : Query) : Except Err (Option Query) :=
  match check_for_agg_distinct_loop q.targetList with
  | .error e => .error e
  | .ok (lst_v, sgcs, found) =>
    if found then
      .ok (some { q with groupClause := q.groupClause ++ sgcs, targetList := lst_v })
    else .ok none

/-- The first loop of `rewrite_for_agg_distinct`: the exposed column names. -/
def rewrite_for_agg_distinct_colnames : List Node → Except Err (List String)
  | [] => .ok []
  | te_v :: rest =>
    match te_v with
    | .TargetEntry _ _ (some resname) _ =>
      match rewrite_for_agg_distinct_colnames rest with
      | .error e => .error e
      | .ok names => .ok (resname :: names)
    | .TargetEntry _ _ none _ => .error (Err.MalformedInput "pstrdup of a null name")
    | _ => .error (Err.MalformedInput "target list element is not a TargetEntry")

/-- The second loop of `rewrite_for_agg_distinct`, `groupRef` being the next
group reference: the new target entries and the GROUP BY clauses. -/
def rewrite_for_agg_distinct_loop (env : Env) :
    List Node → Nat → Except Err (List Node × List SortGroupClause)
  | [], _ => .ok ([], [])
  | te_v :: rest, groupRef =>
    match te_v with
    | .TargetEntry (.Aggref a b aggargtypes _ _ k) resno resname ref =>
      match aggargtypes with
      | [] => .error (Err.MalformedInput "linitial_oid of an empty list")
      | t :: _ =>
        match rewrite_for_agg_distinct_loop env rest groupRef with
        | .error e => .error e
        | .ok (tes, sgcs) =>
          .ok (.TargetEntry
                (.Aggref a b aggargtypes [.TargetEntry (.Var 1 resno t 0 0) 1 none 0] [] k)
                resno resname ref :: tes, sgcs)
    | .TargetEntry expr resno resname _ =>
      let expr1 : Node :=
        match expr with
        | .Var _ _ vartype vartypmod varcollid => .Var 1 resno vartype vartypmod varcollid
        | _ => .Var 1 resno (exprType expr) 0 0
      let ops := env.get_sort_group_operators (exprType expr1) true true false
      let sgc : SortGroupClause :=
        { tleSortGroupRef := groupRef, eqop := ops.2.1, sortop := ops.1,
          nulls_first := false, hashable := ops.2.2 }
      match rewrite_for_agg_distinct_loop env rest (groupRef + 1) with
      | .error e => .error e
      | .ok (tes, sgcs) => .ok (.TargetEntry expr1 resno resname groupRef :: tes, sgc :: sgcs)
    | _ => .error (Err.MalformedInput "target list element is not a TargetEntry")

/-- The function `rewrite_for_agg_distinct`. -/
def rewrite_for_agg_distinct (env : Env) (q : Query) (subq : Query) : Except Err Query :=
  match rewrite_for_agg_distinct_colnames q.targetList with
  | .error e => .error e
  | .ok colnames =>
    let rte : RangeTblEntry :=
      { RangeTblEntry.zero with
        rtalias := some { aliasname := "a", colnames := [] },
        eref := some { aliasname := "a", colnames := colnames },
        rtekind := RTEKind.RTE_SUBQUERY, subquery := some subq }
    match rewrite_for_agg_distinct_loop env q.targetList 1 with
    | .error e => .error e
    | .ok (targetList, groupClause) =>
      .ok { q with
            rtable := [rte], groupClause := groupClause, targetList := targetList,
            jointree := some { fromlist := [.RangeTblRef 1], quals := none } }

/-! ## Set operations -/

/-- The loop of `transform_except_into_join` over the target list, `attno`
being the position of the first entry of the list: the equality tests. -/
def transform_except_loop (constants : constants_t) (env : Env) (lindex : Nat) (rindex : Nat) :
    List Node → Int → Except Err (List Node)
  | [], _ => .ok []
  | te :: rest, attno =>
    match te with
    | .TargetEntry (.Var _ _ vartype _ _) _ _ _ =>
      match transform_except_loop constants env lindex rindex rest (attno + 1) with
      | .error e => .error e
      | .ok tests =>
        if vartype ≠ constants.OID_TYPE_UUID then
          let opno := env.find_equality_operator vartype vartype
          .ok (.OpExpr opno (env.oprcode opno) (env.oprresult opno) InvalidOid
                DEFAULT_COLLATION_OID
                [.Var lindex attno vartype (-1) InvalidOid,
                 .Var rindex attno vartype (-1) InvalidOid] :: tests)
        else .ok tests
    | .TargetEntry _ _ _ _ => .error (Err.MalformedInput "target expression is not a Var")
    | _ => .error (Err.MalformedInput "target list element is not a TargetEntry")

def transform_except_into_join (constants : constants_t) (env : Env) (q : Query) :
    Except Err Query :=
  match q.setOperations with
  | some (.SetOperationStmt _ _ larg rarg _ _ _) =>
    match larg, rarg with
    | .RangeTblRef lindex, .RangeTblRef rindex =>
      match transform_except_loop constants env lindex rindex q.targetList 1 with
      | .error e => .error e
      | .ok tests =>
        let rte : RangeTblEntry :=
          { RangeTblEntry.zero with rtekind := RTEKind.RTE_JOIN, jointype := JoinType.JOIN_LEFT }
        let rtable := q.rtable ++ [rte]
        let je : TNode :=
          .JoinExpr JoinType.JOIN_FULL larg rarg (some (.BoolExpr BoolExprType.AND_EXPR tests))
            rtable.length
        .ok { q with
              rtable := rtable, jointree := some { fromlist := [je], quals := none },
              setOperations := none }
    | _, _ => .error (Err.UnsupportedConstruct "Unsupported chain of EXCEPT operations")
  | _ => .error (Err.MalformedInput "setOperations is not a SetOperationStmt")

/-- The function `process_set_operation_union` on the node `stmt`. -/
def process_set_operation_union (constants : constants_t) : TNode → Except Err TNode
  | .SetOperationStmt op _ larg rarg colTypes colTypmods colCollations =>
    if op ≠ SetOperation.SETOP_UNION then
      .error (Err.UnsupportedConstruct "Unsupported mixed set operations")
    else
      let left : Except Err TNode :=
        match larg with
        | .SetOperationStmt a b c d e f g =>
          process_set_operation_union constants (.SetOperationStmt a b c d e f g)
        | other => .ok other
      match left with
      | .error e => .error e
      | .ok larg1 =>
        let right : Except Err TNode :=
          match rarg with
          | .SetOperationStmt a b c d e f g =>
            process_set_operation_union constants (.SetOperationStmt a b c d e f g)
          | other => .ok other
        match right with
        | .error e => .error e
        | .ok rarg1 =>
          .ok (.SetOperationStmt op true larg1 rarg1 (colTypes ++ [constants.OID_TYPE_UUID])
                (colTypmods ++ [-1]) (colCollations ++ [0]))
  | _ => .error (Err.MalformedInput "node is not a SetOperationStmt")

def add_select_non_zero (constants : constants_t) (q : Query) (provsql : Node) :
    Except Err Query :=
  let gate_zero : Node := .FuncExpr constants.OID_FUNCTION_GATE_ZERO constants.OID_TYPE_UUID false []
  let oe : Node :=
    .OpExpr constants.OID_OPERATOR_NOT_EQUAL_UUID constants.OID_FUNCTION_NOT_EQUAL_UUID BOOLOID
      0 0 [provsql, gate_zero]
  match q.jointree with
  | none => .error (Err.MalformedInput "query without join tree")
  | some jointree =>
    match jointree.quals with
    | some quals =>
      let be : Node := .BoolExpr BoolExprType.AND_EXPR [oe, quals]
      .ok { q with jointree := some { jointree with quals := some be } }
    | none => .ok { q with jointree := some { jointree with quals := some oe } }

/-! ## Rewrite driver -/

/-- The inner loop of the column numbering of `process_query` over the exposed
names of one entry, `nbcols` being the counter before the first name of the
list: the row `columns[i]` and the counter after the last name. -/
def build_columns_row (rtekind : RTEKind) : List String → Int → List Int × Int
  | [], nbcols => ([], nbcols)
  | v :: rest, nbcols =>
    if v ≠ "" ∧ rtekind ≠ RTEKind.RTE_JOIN then
      if v = PROVSQL_COLUMN_NAME then
        let r := build_columns_row rtekind rest nbcols
        (-1 :: r.1, r.2)
      else
        let r := build_columns_row rtekind rest (nbcols + 1)
        ((nbcols + 1) :: r.1, r.2)
    else
      let r := build_columns_row rtekind rest nbcols
      (0 :: r.1, r.2)

/-- The column numbering of `process_query`: the table `columns` (the row of
an entry without `eref`, a null pointer in C, is the empty row) and `nbcols`.
The row of an entry is allocated with `r->eref->colnames->length` cells, a
read that has no result for an entry without exposed column names. -/
def build_columns : List RangeTblEntry → Int → Except Err (List (List Int) × Int)
  | [], nbcols => .ok ([], nbcols)
  | r :: rest, nbcols =>
    match r.eref with
    | none =>
      match build_columns rest nbcols with
      | .error e => .error e
      | .ok t => .ok ([] :: t.1, t.2)
    | some eref =>
      if eref.colnames.isEmpty then .error (Err.MalformedInput "length of an empty list")
      else
        let row := build_columns_row r.rtekind eref.colnames nbcols
        match build_columns rest row.2 with
        | .error e => .error e
        | .ok t => .ok (row.1 :: t.1, t.2)

/-- The operation that `process_query` hands to both builders. -/
def driver_operation (has_union : Bool) (has_difference : Bool) : semiring_operation :=
  if has_union then semiring_operation.SR_PLUS
  else if has_difference then semiring_operation.SR_MONUS
  else semiring_operation.SR_TIMES

/-- The two normalizers at the start of `process_query`: the restructured
query on which `process_query` starts again, if one of them applies. -/
def normalize_query (env : Env) (q : Query) : Except Err (Option Query) :=
  let aggPart : Except Err (Option Query) :=
    if q.hasAggs then
      match check_for_agg_distinct q with
      | .error e => .error e
      | .ok none => .ok none
      | .ok (some subq) => (rewrite_for_agg_distinct env q subq).map some
    else .ok none
  match q.setOperations with
  | none => aggPart
  | some (.SetOperationStmt _ all _ _ _ _ _) =>
    if ¬ all then (rewrite_non_all_into_external_group_by env q).map some else aggPart
  | some _ => .error (Err.MalformedInput "setOperations is not a SetOperationStmt")

/-- The removal step of `process_query`: the provenance columns leave the
target list, the GROUP BY, DISTINCT and ORDER BY lists and the column lists
of the set operation. -/
def process_query_remove (constants : constants_t) (q : Query) : Except Err Query :=
  match remove_provenance_attributes_select constants q with
  | .error e => .error e
  | .ok (removed_sortgrouprefs, removed, q1) =>
    let q2 :=
      if removed_sortgrouprefs ≠ [] then
        remove_provenance_attribute_groupref q1 removed_sortgrouprefs
      else q1
    if q2.setOperations.isSome then remove_provenance_attribute_setoperations q2 removed
    else .ok q2

/-- The checks of `process_query` on sublinks and on the DISTINCT clause. -/
def process_query_distinct (q : Query) : Except Err Query :=
  if q.hasSubLinks then
    .error (Err.UnsupportedConstruct "Subqueries in WHERE clause not supported by provsql")
  else if q.distinctClause ≠ [] then
    if q.hasDistinctOn then
      .error (Err.UnsupportedConstruct "DISTINCT ON not supported by provsql")
    else if q.distinctClause.length < q.targetList.length then
      .error (Err.UnsupportedConstruct
        "Inconsistent DISTINCT and GROUP BY clauses not supported by provsql")
    else .ok (transform_distinct_into_group_by q)
  else .ok q

/-- The set-operation step of `process_query`: the query, `has_union` and
`has_difference`. -/
def process_query_setops (constants : constants_t) (env : Env) (q : Query) :
    Except Err (Query × Bool × Bool) :=
  match q.setOperations with
  | none => .ok (q, false, false)
  | some (.SetOperationStmt op all larg rarg ct cm cc) =>
    if op = SetOperation.SETOP_UNION then
      match process_set_operation_union constants (.SetOperationStmt op all larg rarg ct cm cc) with
      | .error e => .error e
      | .ok stmt => .ok ({ q with setOperations := some stmt }, true, false)
    else if op = SetOperation.SETOP_EXCEPT then
      match transform_except_into_join constants env q with
      | .error e => .error e
      | .ok q1 => .ok (q1, false, true)
    else
      .error (Err.UnsupportedConstruct
        "Set operations other than UNION and EXCEPT not supported by provsql")
  | some _ => .error (Err.MalformedInput "setOperations is not a SetOperationStmt")

/-- The computation of `group_by_rewrite` in `process_query`. -/
def process_query_group_by_rewrite (constants : constants_t) (q : Query) : Except Err Bool :=
  let fromGroupClause : Except Err Bool :=
    if q.groupClause ≠ [] then
      match provenance_function_in_group_by constants q with
      | .error e => .error e
      | .ok b => .ok (!b)
    else .ok false
  match fromGroupClause with
  | .error e => .error e
  | .ok group_by_rewrite =>
    match q.groupingSets with
    | [] => .ok group_by_rewrite
    | first :: _ =>
      if q.groupClause ≠ [] ∨ 1 < q.groupingSets.length ∨
          first.kind ≠ GroupingSetKind.GROUPING_SET_EMPTY then
        .error (Err.UnsupportedConstruct
          "GROUPING SETS, CUBE, and ROLLUP not supported by provsql")
      else .ok true

/-- The last step of `process_query`: the aggregates are rewritten, the
provenance expression is built and appended to the target list, the
placeholder calls are replaced and, for EXCEPT, the filter is added. -/
def process_query_build (constants : constants_t) (env : Env) (q : Query) (prov_atts : List Node)
    (has_union : Bool) (has_difference : Bool) (group_by_rewrite : Bool) : Except Err Query :=
  match build_columns q.rtable 0 with
  | .error e => .error e
  | .ok t =>
    let op := driver_operation has_union has_difference
    let replaced : Except Err Query :=
      if q.hasAggs then replace_aggregations_in_select constants q prov_atts op else .ok q
    match replaced with
    | .error e => .error e
    | .ok q1 =>
      match make_provenance_expression constants env q1 prov_atts q1.hasAggs group_by_rewrite op
          t.1 t.2 with
      | .error e => .error e
      | .ok (provenance, q2) =>
        let q3 := add_to_select q2 provenance
        let q4 := replace_provenance_function_by_expression constants q3 provenance
        if has_difference then add_select_non_zero constants q4 provenance else .ok q4

/-- The part of `process_query` that follows the location of a non-empty list
of provenance attributes. -/
def process_query_rewrite (constants : constants_t) (env : Env) (q : Query)
    (prov_atts : List Node) : Except Err Query :=
  match process_query_remove constants q with
  | .error e => .error e
  | .ok q1 =>
    match process_query_distinct q1 with
    | .error e => .error e
    | .ok q2 =>
      match process_query_setops constants env q2 with
      | .error e => .error e
      | .ok (q3, has_union, has_difference) =>
        match process_query_group_by_rewrite constants q3 with
        | .error e => .error e
        | .ok group_by_rewrite =>
          process_query_build constants env q3 prov_atts has_union has_difference
            group_by_rewrite

/-- The function `process_query`; `none` is the null pointer it returns for a
query without FROM clause.  The first argument bounds the depth of the
recursion (restarts after a normalizer and calls on subqueries). -/
def process_query : Nat → constants_t → Env → Query → Except Err (Option Query)
  | 0, _, _, _ => .error Err.OutOfFuel
  | fuel + 1, constants, env, q =>
    if q.rtable.isEmpty then .ok none
    else
      match normalize_query env q with
      | .error e => .error e
      | .ok (some q1) => process_query fuel constants env q1
      | .ok none =>
        match get_provenance_attributes (process_query fuel constants env) constants env q with
        | .error e => .error e
        | .ok (prov_atts, q1) =>
          if prov_atts.isEmpty then .ok (some q1)
          else (process_query_rewrite constants env q1 prov_atts).map some

/-! ## Predicates used in the statements -/

/-- The kinds of the source relations of the query that `process_query` returned. -/
def returned_source_kinds : Except Err (Option Query) → Option (List RTEKind)
  | .ok (some q) => some (q.rtable.map (fun r => r.rtekind))
  | _ => none

/-- What one source relation adds to the attribute list: only attributes of
its own index; for a base relation the attributes of its qualifying columns;
for a subquery or join entry at most one attribute. -/
def entry_contribution (constants : constants_t) (env : Env) (rteid : Nat)
    (r : RangeTblEntry) (contrib : List Node) : Prop :=
  (∀ a ∈ contrib, ∃ j, a = make_provenance_attribute constants rteid j) ∧
  (r.rtekind = RTEKind.RTE_RELATION → ∃ e, r.eref = some e ∧
    contrib = relation_provenance_attributes constants env r.relid rteid e.colnames 1) ∧
  (r.rtekind = RTEKind.RTE_SUBQUERY ∨ r.rtekind = RTEKind.RTE_JOIN → contrib.length ≤ 1)

/-- The contributions of the entries of a range table from the index `rteid` on. -/
def contributions_ok (constants : constants_t) (env : Env) :
    Nat → List RangeTblEntry → List (List Node) → Prop
  | _, [], [] => True
  | rteid, r :: rs, cb :: cbs =>
    entry_contribution constants env rteid r cb ∧ contributions_ok constants env (rteid + 1) rs cbs
  | _, _, _ => False

/-- A query without aggregates, GROUP BY, DISTINCT, grouping sets, set
operation and sublinks. -/
def plain_query (q : Query) : Prop :=
  q.hasAggs = false ∧ q.groupClause = [] ∧ q.distinctClause = [] ∧ q.groupingSets = [] ∧
  q.setOperations = none ∧ q.hasSubLinks = false

/-- The times-gate call over the array of the attributes `atts`. -/
def times_gate (constants : constants_t) (atts : List Node) : Node :=
  .FuncExpr constants.OID_FUNCTION_PROVENANCE_TIMES constants.OID_TYPE_UUID true
    [.ArrayExpr constants.OID_TYPE_UUID_ARRAY constants.OID_TYPE_UUID atts]

/-- The aggregate-gate call of aggregation-token type with its four operands:
the literal of the aggregate function, the literal of the result type, the
aggregate call `agg` itself, and the array-aggregate call over the semimodule
call `(value, token)`. -/
def aggregate_gate (constants : constants_t) (agg : Node) (aggfnoid : Oid) (aggtype : Oid)
    (value : Node) (token : Node) : Node :=
  .FuncExpr constants.OID_FUNCTION_PROVENANCE_AGGREGATE constants.OID_TYPE_AGG_TOKEN false
    [.Const constants.OID_TYPE_INT (-1) InvalidOid 4 aggfnoid false true,
     .Const constants.OID_TYPE_INT (-1) InvalidOid 4 aggtype false true,
     agg,
     .Aggref constants.OID_FUNCTION_ARRAY_AGG constants.OID_TYPE_UUID_ARRAY
       [constants.OID_TYPE_UUID]
       [.TargetEntry
         (.FuncExpr constants.OID_FUNCTION_PROVENANCE_SEMIMOD constants.OID_TYPE_UUID false
           [value, token]) 1 none 0]
       [] AGGKIND_NORMAL]

/-- The per-row provenance expression under the operation `op` (conjunction
or difference): the single attribute, or the times-gate call over the array of
all attributes, or the monus-gate call over the attributes. -/
def per_row_expression (constants : constants_t) (atts : List Node)
    (op : semiring_operation) : Node :=
  match atts with
  | [a] => a
  | _ =>
    if op = semiring_operation.SR_TIMES then times_gate constants atts
    else .FuncExpr constants.OID_FUNCTION_PROVENANCE_MONUS constants.OID_TYPE_UUID false atts

/-- The plus-gate call over the array-aggregate call over `row`. -/
def plus_gate (constants : constants_t) (row : Node) : Node :=
  .FuncExpr constants.OID_FUNCTION_PROVENANCE_PLUS constants.OID_TYPE_UUID false
    [.Aggref constants.OID_FUNCTION_ARRAY_AGG constants.OID_TYPE_UUID_ARRAY
      [constants.OID_TYPE_UUID] [.TargetEntry row 1 none 0] [] AGGKIND_NORMAL]

/-- The delta-gate call over `inner`. -/
def delta_gate (constants : constants_t) (inner : Node) : Node :=
  .FuncExpr constants.OID_FUNCTION_PROVENANCE_DELTA constants.OID_TYPE_UUID false [inner]

/-- The sub-expressions of a node, in the order the tree mutators visit them. -/
def Node.children : Node → List Node
  | .Var _ _ _ _ _ => []
  | .Const _ _ _ _ _ _ _ => []
  | .RelabelType arg _ _ _ _ => [arg]
  | .FuncExpr _ _ _ args => args
  | .OpExpr _ _ _ _ _ args => args
  | .BoolExpr _ args => args
  | .ArrayExpr _ _ elements => elements
  | .Aggref _ _ _ args _ _ => args
  | .TargetEntry expr _ _ _ => [expr]
  | .Other _ _ children => children

/-- The node reached from `n` by following the child indices `path` without
entering an aggregate call. -/
def subterm_outside_aggregates : Node → List Nat → Option Node
  | n, [] => some n
  | n, i :: rest =>
    match n with
    | .Aggref _ _ _ _ _ _ => none
    | _ =>
      match n.children.get? i with
      | none => none
      | some child => subterm_outside_aggregates child rest

/-- Every set-operation node of the tree is a UNION. -/
def all_union : TNode → Prop
  | .SetOperationStmt op _ larg rarg _ _ _ =>
    op = SetOperation.SETOP_UNION ∧ all_union larg ∧ all_union rarg
  | _ => True

/-- The equality test that the EXCEPT rewriting builds for a target entry of
type `vartype` at position `k`: column `k` of the left operand against column
`k` of the right operand, under the equality operator of the type. -/
def except_equality_test (env : Env) (lindex : Nat) (rindex : Nat) (k : Nat)
    (vartype : Oid) : Node :=
  .OpExpr (env.find_equality_operator vartype vartype)
    (env.oprcode (env.find_equality_operator vartype vartype))
    (env.oprresult (env.find_equality_operator vartype vartype)) InvalidOid
    DEFAULT_COLLATION_OID
    [.Var lindex (k : Int) vartype (-1) InvalidOid, .Var rindex (k : Int) vartype (-1) InvalidOid]

/-- One equality test per target entry of non-token type, in target-list
order, the positions being counted from `first`; entries of token type
contribute no test. -/
def except_equality_tests (constants : constants_t) (env : Env) (lindex : Nat) (rindex : Nat)
    (first : Nat) (targetList : List Node) : List Node :=
  (targetList.enumFrom first).filterMap (fun p =>
    match p.2 with
    | .TargetEntry (.Var _ _ vartype _ _) _ _ _ =>
      if vartype ≠ constants.OID_TYPE_UUID then
        some (except_equality_test env lindex rindex p.1 vartype)
      else none
    | _ => none)

/-- A target entry whose expression is a plain column reference. -/
def is_var_entry : Node → Prop
  | .TargetEntry (.Var _ _ _ _ _) _ _ _ => True
  | _ => False

/-- The relation index of a provenance attribute (0 for any other node). -/
def attribute_relid : Node → Nat
  | .RelabelType (.Var varno _ _ _ _) _ _ _ _ => varno
  | _ => 0

/-- What a target entry projects, its position left aside: the expression, the
output name and the sort/group reference. -/
def entry_content : Node → Option (Node × Option String × Nat)
  | .TargetEntry expr _ resname ressortgroupref => some (expr, resname, ressortgroupref)
  | _ => none

/-- A target entry that the removal step takes for a provenance column: a
plain column reference of token type whose name (the output name, or without
one the exposed name of the column) is `provsql`. -/
def is_provenance_entry (constants : constants_t) (q : Query) : Node → Bool
  | .TargetEntry expr _ resname _ =>
    match is_provenance_target constants q expr resname with
    | .ok b => b
    | .error _ => false
  | _ => false

/-- The list `l` without the clauses whose reference is in `S`, the other
clauses in their order: the filter that the specification describes. -/
def groupref_filter_spec (S : Bitmapset) (l : List SortGroupClause) : List SortGroupClause :=
  l.filter (fun sgc => decide (sgc.tleSortGroupRef ∉ S))

/-- A target entry whose name the removal step can find: every entry with an
output name, and an unnamed column reference of token type to an exposed column
of a source relation. -/
def resolvable_target (constants : constants_t) (q : Query) : Node → Prop
  | .TargetEntry (.Var varno varattno vartype _ _) _ none _ =>
    vartype = constants.OID_TYPE_UUID →
      ∃ r e name, list_nth q.rtable ((varno : Int) - 1) = some r ∧ r.eref = some e ∧
        list_nth e.colnames (varattno - 1) = some name
  | .TargetEntry _ _ _ _ => True
  | _ => False

/-- The sort/group reference of a target entry (0 for any other node). -/
def entry_ressortgroupref : Node → Nat
  | .TargetEntry _ _ _ ressortgroupref => ressortgroupref
  | _ => 0

/-- A target entry whose expression is a plain column reference to a column
that is among the located provenance attributes `atts`. -/
def refers_to_attribute (constants : constants_t) (atts : List Node) : Node → Prop
  | .TargetEntry (.Var varno varattno _ _ _) _ _ _ =>
    make_provenance_attribute constants varno varattno ∈ atts
  | _ => False

/-- A source entry on which the scan of `get_provenance_attributes` fails, in
the words of the specification: a join entry whose kind is not inner, left,
right or full; a function entry with a function whose output column count is
not 1; an entry that is none of base relation, subquery, join or function; a
subquery entry whose recursive rewrite fails. -/
def unsupported_source (process_query : Query → Except Err (Option Query))
    (r : RangeTblEntry) : Prop :=
  (r.rtekind = RTEKind.RTE_JOIN ∧
    ¬ (r.jointype = JoinType.JOIN_INNER ∨ r.jointype = JoinType.JOIN_LEFT ∨
        r.jointype = JoinType.JOIN_RIGHT ∨ r.jointype = JoinType.JOIN_FULL)) ∨
  (r.rtekind = RTEKind.RTE_FUNCTION ∧ ∃ f ∈ r.functions, f.funccolcount ≠ 1) ∨
  (r.rtekind ≠ RTEKind.RTE_RELATION ∧ r.rtekind ≠ RTEKind.RTE_SUBQUERY ∧
    r.rtekind ≠ RTEKind.RTE_JOIN ∧ r.rtekind ≠ RTEKind.RTE_FUNCTION) ∨
  (r.rtekind = RTEKind.RTE_SUBQUERY ∧
    ∃ sub e, r.subquery = some sub ∧ process_query sub = .error e)

/-- A source entry as the parser builds it: a base relation has its exposed
names; a subquery entry has its subquery and its exposed names, and the target
list of its rewritten subquery is not empty and holds target entries; the
expression of a function of a function entry is a function call and each of
its columns has a name. -/
def well_formed_source (process_query : Query → Except Err (Option Query))
    (r : RangeTblEntry) : Prop :=
  (r.rtekind = RTEKind.RTE_RELATION → ∃ e, r.eref = some e) ∧
  (r.rtekind = RTEKind.RTE_SUBQUERY →
    (∃ sub, r.subquery = some sub) ∧ (∃ e, r.eref = some e) ∧
    ∀ sub new, r.subquery = some sub → process_query sub = .ok (some new) →
      new.targetList ≠ [] ∧
      ∀ te ∈ new.targetList, ∃ expr resno resname ref, te = Node.TargetEntry expr resno resname ref) ∧
  (r.rtekind = RTEKind.RTE_FUNCTION →
    (∀ f ∈ r.functions, ∃ a b c d, f.funcexpr = Node.FuncExpr a b c d) ∧
    ∀ k : Nat, k < r.functions.length →
      ∃ name, get_rte_attribute_name r ((k : Int) + 1) = .ok name)

/-- A plain relation reference of the set-operation tree. -/
def is_range_tbl_ref : TNode → Prop
  | .RangeTblRef _ => True
  | _ => False

/-- The shape that the set-operation step of the driver looks at, kept by
the steps before it: the root of the set-operation tree has the operation
`op` and the flag ALL, its operands are UNION trees and plain relation
references exactly when `larg` and `rarg` are, and the query has no sublinks,
no DISTINCT clause and column references as target entries. -/
def set_operation_shape (op : SetOperation) (larg rarg : TNode) (q : Query) : Prop :=
  (∃ l r ct cm cc,
    q.setOperations = some (.SetOperationStmt op true l r ct cm cc) ∧
    (all_union l ↔ all_union larg) ∧ (all_union r ↔ all_union rarg) ∧
    (is_range_tbl_ref l ↔ is_range_tbl_ref larg) ∧
    (is_range_tbl_ref r ↔ is_range_tbl_ref rarg)) ∧
  q.hasSubLinks = false ∧ q.distinctClause = [] ∧ ∀ te ∈ q.targetList, is_var_entry te

/-- The query as it is when the scan of `get_provenance_attributes` raises
its error on a join entry, a function entry or an entry of another kind: the
C code updates the query in place, and the entries before the failing one
have been scanned.  `none`: the scan raises no such error (it returns, or it
fails in the rewrite of a subquery, which is not followed here). -/
def get_provenance_attributes_at_error (process_query : Query → Except Err (Option Query))
    (constants : constants_t) (env : Env) : List RangeTblEntry → Nat → gpa_state → Option Query
  | [], _, _ => none
  | r :: rest, rteid, st =>
    match get_provenance_attributes_step process_query constants env st rteid r with
    | .ok st1 =>
      get_provenance_attributes_at_error process_query constants env rest (rteid + 1) st1
    | .error (Err.UnsupportedConstruct _) =>
      if r.rtekind = RTEKind.RTE_SUBQUERY then none else some st.q
    | .error _ => none

/-- The query as it is when the part of `process_query` that follows the
location of the attributes raises its error in the checks on sublinks and
DISTINCT (after the removal step) or at the start of the set-operation step
(an operation other than UNION and EXCEPT, or an EXCEPT with an operand that
is not a plain relation reference).  `none`: no such error is raised. -/
def process_query_rewrite_at_error (constants : constants_t) (q : Query) : Option Query :=
  match process_query_remove constants q with
  | .error _ => none
  | .ok q1 =>
    match process_query_distinct q1 with
    | .error _ => some q1
    | .ok q2 =>
      match q2.setOperations with
      | some (.SetOperationStmt op _ larg rarg _ _ _) =>
        if op = SetOperation.SETOP_UNION then none
        else if op = SetOperation.SETOP_EXCEPT then
          match larg, rarg with
          | .RangeTblRef _, .RangeTblRef _ => none
          | _, _ => some q2
        else some q2
      | _ => none

/-- The caller's query (the object that `process_query` updates in place) as
it is when `process_query` raises an unsupported-construct error at the level
of the query itself, in the scan of the source entries, in the checks on
sublinks and DISTINCT, or at the start of the set-operation step.  `none`: no
such error is raised (the call returns, a normalizer restarts it on another
query, or the failure is elsewhere). -/
def process_query_at_error (fuel : Nat) (constants : constants_t) (env : Env) (q : Query) :
    Option Query :=
  if q.rtable.isEmpty then none
  else
    match normalize_query env q with
    | .ok none =>
      match get_provenance_attributes (process_query fuel constants env) constants env q with
      | .error _ =>
        get_provenance_attributes_at_error (process_query fuel constants env) constants env
          q.rtable 1 { q := q, prov_atts := [], detached := false }
      | .ok (prov_atts, q1) =>
        if prov_atts.isEmpty then none else process_query_rewrite_at_error constants q1
    | _ => none

/-- The fields that the specification lists are those of the query `q`:
target list, range table (with the subquery and the exposed names of every
entry), GROUP BY, DISTINCT and ORDER BY lists, set-operation tree. -/
def not_mutated (q : Query) (q1 : Query) : Prop :=
  q1.targetList = q.targetList ∧ q1.rtable = q.rtable ∧ q1.groupClause = q.groupClause ∧
  q1.distinctClause = q.distinctClause ∧ q1.sortClause = q.sortClause ∧
  q1.setOperations = q.setOperations

/-- Every element of a target list is a target entry. -/
def target_entries (l : List Node) : Prop :=
  ∀ te ∈ l, ∃ expr resno resname ref, te = Node.TargetEntry expr resno resname ref

/-- The GROUP BY clause that `rewrite_non_all_into_external_group_by` builds
for an output column of type `typ` under the reference `ref`: the equality
and ordering operators of the type, as `get_sort_group_operators` finds them
when only an equality operator is required. -/
def external_group_clause (env : Env) (typ : Oid) (ref : Nat) : SortGroupClause :=
  { tleSortGroupRef := ref,
    eqop := (env.get_sort_group_operators typ false true false).2.1,
    sortop := (env.get_sort_group_operators typ false true false).1,
    nulls_first := false,
    hashable := (env.get_sort_group_operators typ false true false).2.2 }

/-- The exposed columns of a source relation in their order, each with the
kind of the entry; an entry without exposed names has no column. -/
def exposed_columns (r : RangeTblEntry) : List (RTEKind × String) :=
  match r.eref with
  | none => []
  | some eref => eref.colnames.map (fun v => (r.rtekind, v))

/-- The exposed columns of the source relations of a range table in scan order. -/
def scanned_columns (rtable : List RangeTblEntry) : List (RTEKind × String) :=
  rtable.flatMap exposed_columns

/-- A column that takes a number of the sequence: its name is not empty and is
not `provsql`, and its entry is no join entry. -/
def numbered_column (c : RTEKind × String) : Bool :=
  decide (c.2 ≠ "" ∧ c.1 ≠ RTEKind.RTE_JOIN ∧ c.2 ≠ PROVSQL_COLUMN_NAME)

/-- The index of a scanned column, `before` numbered columns having been
scanned before it: the next integer of the sequence 1, 2, ... for a numbered
column, -1 for a column named `provsql` of an entry that is no join entry, 0
for any other column (a column without name, a column of a join entry). -/
def column_index_value (c : RTEKind × String) (before : Nat) : Int :=
  if numbered_column c then (before : Int) + 1
  else if c.2 = PROVSQL_COLUMN_NAME ∧ c.1 ≠ RTEKind.RTE_JOIN then -1
  else 0

/-- The index that the specification gives to the `k`-th scanned column. -/
def column_index_spec (scanned : List (RTEKind × String)) (k : Nat) : Option Int :=
  (scanned.get? k).map (fun c => column_index_value c ((scanned.take k).countP numbered_column))

/-- The equality-gate call of token type with its three operands: the previous
provenance expression and the literals of the two positions. -/
def equality_gate (constants : constants_t) (e : Node) (p1 p2 : Int) : Node :=
  .FuncExpr constants.OID_FUNCTION_PROVENANCE_EQ constants.OID_TYPE_UUID false
    [e, make_int_const constants 2 p1, make_int_const constants 2 p2]

/-- A plain column reference, directly or one level under a `RelabelType`
wrapper. -/
def plain_column_reference : Node → Prop
  | .Var _ _ _ _ _ => True
  | .RelabelType (.Var _ _ _ _ _) _ _ _ _ => True
  | _ => False

/-- An operator expression (the test `IsA(node, OpExpr)`). -/
def is_op_expr : Node → Bool
  | .OpExpr _ _ _ _ _ _ => true
  | _ => false

/-- A boolean expression (the test `IsA(node, BoolExpr)`). -/
def is_bool_expr : Node → Bool
  | .BoolExpr _ _ => true
  | _ => false

/-- One step of the left-to-right fold that the specification describes for
the arguments of an AND: an operator expression is handed to
`add_eq_from_OpExpr_to_Expr` with the result so far as previous expression,
any other argument is skipped. -/
def and_fold_step (constants : constants_t) (columns : List (List Int)) (previous : Node)
    (arg : Node) : Except Err Node :=
  if is_op_expr arg then add_eq_from_OpExpr_to_Expr constants arg previous columns
  else .ok previous

/-- The position `value_v` that the projection loop of
`make_provenance_expression` reads for the column reference
`(varno, varattno)`: the entry of the column-index table for the column, or,
when the source relation is a join entry, for the column that the alias
variable of the join refers to. -/
def var_position (q : Query) (columns : List (List Int)) (varno : Nat) (varattno : Int) :
    Except Err Int :=
  match list_nth q.rtable ((varno : Int) - 1) with
  | none => .error (Err.MalformedInput "list_nth_cell out of range")
  | some rte_v =>
    if rte_v.rtekind ≠ RTEKind.RTE_JOIN then columns_lookup columns varno varattno
    else
      match list_nth rte_v.joinaliasvars (varattno - 1) with
      | some (.Var jvarno jvarattno _ _ _) => columns_lookup columns jvarno jvarattno
      | some _ => .error (Err.MalformedInput "join alias is not a Var")
      | none => .error (Err.MalformedInput "list_nth_cell out of range")

/-- The position of a target entry that is a plain column reference. -/
def entry_position (q : Query) (columns : List (List Int)) : Node → Option Int
  | .TargetEntry (.Var varno varattno _ _ _) _ _ _ =>
    match var_position q columns varno varattno with
    | .ok v => some v
    | .error _ => none
  | _ => none

/-- The literals that a target entry adds to the array of the projection
gate: the literal of its position for a plain column reference with a positive
position, nothing for a plain column reference with another position, the
literal 0 for a computed expression. -/
def projection_literals (constants : constants_t) (q : Query) (columns : List (List Int)) :
    Node → List Node
  | .TargetEntry (.Var varno varattno _ _ _) _ _ _ =>
    match var_position q columns varno varattno with
    | .ok v => if 0 < v then [make_int_const constants 4 v] else []
    | .error _ => []
  | _ => [make_int_const constants 4 0]

/-- The positive positions of the plain column references of a target list,
in target-list order. -/
def positive_positions (q : Query) (columns : List (List Int)) (tl : List Node) : List Int :=
  (tl.filterMap (entry_position q columns)).filter (fun v => decide (0 < v))

/-- The target list is the identity projection: it consists of plain column
references only, each with a positive position or with the position -1 of a
provenance column, and the positive positions are 1, 2, ..., `nbcols` in
target-list order. -/
def identity_projection (q : Query) (columns : List (List Int)) (nbcols : Int)
    (tl : List Node) : Prop :=
  (∀ te ∈ tl, is_var_entry te ∧
    ∃ v, entry_position q columns te = some v ∧ (0 < v ∨ v = -1)) ∧
  ∃ n : Nat, (n : Int) = nbcols ∧
    positive_positions q columns tl = (List.range' 1 n).map (fun (i : Nat) => (i : Int))

/-- The variadic projection-gate call of token type with its two operands:
the previous provenance expression and the array of the position literals. -/
def projection_gate (constants : constants_t) (previous : Node) (literals : List Node) : Node :=
  .FuncExpr constants.OID_FUNCTION_PROVENANCE_PROJECT constants.OID_TYPE_UUID true
    [previous, .ArrayExpr constants.OID_TYPE_INT_ARRAY constants.OID_TYPE_INT literals]

/-- The equality phase of `make_provenance_expression` when where-provenance
is on: the conditions of the joins of the from-list, then the WHERE condition. -/
def where_equalities (constants : constants_t) (columns : List (List Int))
    (jointree : Option FromExpr) (result : Node) : Except Err Node :=
  match jointree with
  | some jt =>
    match add_eq_from_fromlist constants columns jt.fromlist result with
    | .error e => .error e
    | .ok r => add_eq_from_Quals_to_Expr constants jt.quals r columns
  | none => .ok result

/-- A target list that the projection loop can scan: its elements are target
entries, and every plain column reference has a position. -/
def scannable_targets (q : Query) (columns : List (List Int)) (tl : List Node) : Prop :=
  ∀ te ∈ tl, (∃ expr resno resname ref, te = Node.TargetEntry expr resno resname ref) ∧
    (is_var_entry te → ∃ v, entry_position q columns te = some v)

/-- A call of the placeholder function occurs in a condition of a join-tree
or set-operation-tree node. -/
def TNode.has_provenance_call (constants : constants_t) : TNode → Bool
  | .JoinExpr _ larg rarg quals _ =>
    larg.has_provenance_call constants || rarg.has_provenance_call constants ||
      (match quals with
       | some w => provenance_function_walker constants w
       | none => false)
  | .SetOperationStmt _ _ larg rarg _ _ _ =>
    larg.has_provenance_call constants || rarg.has_provenance_call constants
  | _ => false

/-- No call of the placeholder function occurs at the level of the query: in
its target list, in its join tree (the conditions of the joins and the WHERE
condition), in its set-operation tree, in its HAVING condition and in the
alias variables of its join entries. -/
def placeholder_free (constants : constants_t) (q : Query) : Prop :=
  (∀ te ∈ q.targetList, provenance_function_walker constants te = false) ∧
  (∀ j, q.jointree = some j →
    (∀ t ∈ j.fromlist, t.has_provenance_call constants = false) ∧
    ∀ w, j.quals = some w → provenance_function_walker constants w = false) ∧
  (∀ t, q.setOperations = some t → t.has_provenance_call constants = false) ∧
  (∀ h, q.havingQual = some h → provenance_function_walker constants h = false) ∧
  (∀ r ∈ q.rtable, r.rtekind = RTEKind.RTE_JOIN →
    ∀ v ∈ r.joinaliasvars, provenance_function_walker constants v = false)
/-- The mutator `m` puts `e` in the place of each call of the placeholder
function and rebuilds every other node from its mutated sub-expressions, the
other fields of the node being kept. -/
def substitutes_placeholder (constants : constants_t) (e : Node) (m : Node → Node) : Prop :=
  (∀ typ variadic args, m (.FuncExpr constants.OID_FUNCTION_PROVENANCE typ variadic args) = e) ∧
  (∀ a b c d f, m (.Var a b c d f) = .Var a b c d f) ∧
  (∀ a b c d f g h, m (.Const a b c d f g h) = .Const a b c d f g h) ∧
  (∀ arg a b c d, m (.RelabelType arg a b c d) = .RelabelType (m arg) a b c d) ∧
  (∀ funcid b c args, funcid ≠ constants.OID_FUNCTION_PROVENANCE →
    m (.FuncExpr funcid b c args) = .FuncExpr funcid b c (args.map m)) ∧
  (∀ a b c d f args, m (.OpExpr a b c d f args) = .OpExpr a b c d f (args.map m)) ∧
  (∀ a args, m (.BoolExpr a args) = .BoolExpr a (args.map m)) ∧
  (∀ a b elements, m (.ArrayExpr a b elements) = .ArrayExpr a b (elements.map m)) ∧
  (∀ a b c args d f, m (.Aggref a b c args d f) = .Aggref a b c (args.map m) d f) ∧
  (∀ expr a b c, m (.TargetEntry expr a b c) = .TargetEntry (m expr) a b c) ∧
  (∀ a b children, m (.Other a b children) = .Other a b (children.map m))

/-- The depth of the DISTINCT-qualified aggregates at the top of an
expression: an aggregate with a DISTINCT qualifier counts one more than the
expression of its first argument, every other expression counts 0. -/
def distinct_nesting : Node → Nat
  | .Aggref _ _ _ (.TargetEntry e _ _ _ :: _) (_ :: _) _ => distinct_nesting e + 1
  | _ => 0

/-- The depth of `distinct_nesting` for the expression of a target entry. -/
def entry_distinct_nesting : Node → Nat
  | .TargetEntry e _ _ _ => distinct_nesting e
  | _ => 0

/-- The sum of the depths of the entries of a target list. -/
def targets_distinct_nesting (l : List Node) : Nat :=
  (l.map entry_distinct_nesting).sum

/-- From the recursion depth `N` on, `process_query` returns the same result
on the query `q`, and this result is not the lack of recursion depth. -/
def terminates_from (constants : constants_t) (env : Env) (q : Query) (N : Nat) : Prop :=
  ∀ fuel, N ≤ fuel →
    process_query fuel constants env q = process_query N constants env q ∧
    process_query N constants env q ≠ .error Err.OutOfFuel

/-- The join kind that the entry with the index `rtindex` (from 1) of the range
table records (the field `jointype` of the entry), if that entry is a join entry. -/
def join_entry_kind (q : Query) (rtindex : Nat) : Option JoinType :=
  match list_nth q.rtable ((rtindex : Int) - 1) with
  | some r => if r.rtekind = RTEKind.RTE_JOIN then some r.jointype else none
  | none => none

/-- The join expressions at the top of the FROM list of the query: for each one
its join kind (the field `jointype` of the expression) and the index
`rtindex` of the entry of the range table that it refers to. -/
def join_expressions (q : Query) : List (JoinType × Nat) :=
  match q.jointree with
  | none => []
  | some f =>
    f.fromlist.filterMap (fun t =>
      match t with
      | .JoinExpr jointype _ _ _ rtindex => some (jointype, rtindex)
      | _ => none)

/-- The rows of the table `columns` in one call of `process_query`:
`allocated` is the number of rows of the table
(`palloc(q->rtable->length*sizeof(int*))` at the entry of the call), `written`
the row indices `i` of the assignments to `columns[i]` in the numbering loop
over `q->rtable`, in order, and `released` the row indices `i` at which the
final loop `for (i = 0; i < q->rtable->length; ++i)` reads `columns[i]`. -/
structure columns_rows where
  allocated : Nat
  written : List Nat
  released : List Nat
  deriving Repr, DecidableEq

/-- The part of `process_query` that follows the location of a non-empty list
of provenance attributes (see `process_query_rewrite`): the row indices that
the numbering loop writes (one per entry of the range table after the
set-operation step) and the row indices that the final loop reads (one per
entry of the range table of the query that is returned). -/
def process_query_rewrite_rows (constants : constants_t) (env : Env) (q : Query)
    (prov_atts : List Node) : Except Err (List Nat × List Nat) :=
  match process_query_remove constants q with
  | .error e => .error e
  | .ok q1 =>
    match process_query_distinct q1 with
    | .error e => .error e
    | .ok q2 =>
      match process_query_setops constants env q2 with
      | .error e => .error e
      | .ok (q3, has_union, has_difference) =>
        match process_query_group_by_rewrite constants q3 with
        | .error e => .error e
        | .ok group_by_rewrite =>
          match process_query_build constants env q3 prov_atts has_union has_difference
              group_by_rewrite with
          | .error e => .error e
          | .ok q4 => .ok (List.range q3.rtable.length, List.range q4.rtable.length)

/-- The rows of the table `columns` in the call of `process_query` on `q`
(see `process_query`; `none` for a query without FROM clause, on which the
call returns before the allocation): a call that starts again on a
restructured query, or that finds no provenance attribute, returns without
writing to its table; `fuel` bounds the depth of the calls on subqueries. -/
def process_query_columns_rows (fuel : Nat) (constants : constants_t) (env : Env) (q : Query) :
    Except Err (Option columns_rows) :=
  if q.rtable.isEmpty then .ok none
  else
    let allocated := q.rtable.length
    match normalize_query env q with
    | .error e => .error e
    | .ok (some _) => .ok (some { allocated := allocated, written := [], released := [] })
    | .ok none =>
      match get_provenance_attributes (process_query fuel constants env) constants env q with
      | .error e => .error e
      | .ok (prov_atts, q1) =>
        if prov_atts.isEmpty then
          .ok (some { allocated := allocated, written := [], released := [] })
        else
          match process_query_rewrite_rows constants env q1 prov_atts with
          | .error e => .error e
          | .ok (written, released) =>
            .ok (some { allocated := allocated, written := written, released := released })

/-- The operation of the root of the set-operation tree of the query. -/
def root_operation (q : Query) : Option SetOperation :=
  match q.setOperations with
  | some (.SetOperationStmt op _ _ _ _ _ _) => some op
  | _ => none

/-- The number of entries that the set-operation step of `process_query`
appends to the range table: one for an EXCEPT, none otherwise. -/
def appended_entries (q : Query) : Nat :=
  if root_operation q = some SetOperation.SETOP_EXCEPT then 1 else 0

/-- The sort/group reference ids of the target entries of a target list that
carry one (an id other than 0), in target-list order. -/
def sortgrouprefs (tl : List Node) : List Nat :=
  (tl.map entry_ressortgroupref).filter (fun r => decide (r ≠ 0))

/-- The number of target entries of the target list that the clause `sgc`
references: those whose reference id is `sgc.tleSortGroupRef`. -/
def referenced_entries (tl : List Node) (sgc : SortGroupClause) : Nat :=
  tl.countP (fun te =>
    match te with
    | .TargetEntry _ _ _ ressortgroupref => decide (ressortgroupref = sgc.tleSortGroupRef)
    | _ => false)

/-- The reference ids of the target entries that carry one are pairwise
distinct, and each GROUP BY clause references exactly one target entry. -/
def distinct_references (q : Query) : Prop :=
  (sortgrouprefs q.targetList).Nodup ∧
  ∀ sgc ∈ q.groupClause, referenced_entries q.targetList sgc = 1

/-- The reference ids of the target entries of the subqueries of the query
that `process_query` returned, one list per subquery entry. -/
def returned_subquery_references : Except Err (Option Query) → Option (List (List Nat))
  | .ok (some q) =>
    some (q.rtable.filterMap (fun r => r.subquery.map (fun s => sortgrouprefs s.targetList)))
  | _ => none

/-- Every entry of the range table that has exposed names has at least one:
the entries for which the numbering loop of `process_query` can read
`r->eref->colnames->length`. -/
def column_names_present (rtable : List RangeTblEntry) : Prop :=
  ∀ r ∈ rtable, ∀ e, r.eref = some e → e.colnames ≠ []

def sample_constants : constants_t :=
  { OID_TYPE_UUID := 2950, OID_TYPE_UUID_ARRAY := 2951, OID_TYPE_AGG_TOKEN := 9000,
    OID_TYPE_INT := 23, OID_TYPE_INT_ARRAY := 1007, OID_FUNCTION_ARRAY_AGG := 2335,
    OID_FUNCTION_PROVENANCE_PLUS := 9001, OID_FUNCTION_PROVENANCE_TIMES := 9002,
    OID_FUNCTION_PROVENANCE_MONUS := 9003, OID_FUNCTION_PROVENANCE_PROJECT := 9004,
    OID_FUNCTION_PROVENANCE_EQ := 9005, OID_FUNCTION_PROVENANCE := 9006,
    OID_FUNCTION_PROVENANCE_DELTA := 9007, OID_FUNCTION_PROVENANCE_AGGREGATE := 9008,
    OID_FUNCTION_PROVENANCE_SEMIMOD := 9009, OID_FUNCTION_GATE_ZERO := 9010,
    OID_OPERATOR_NOT_EQUAL_UUID := 2973, OID_FUNCTION_NOT_EQUAL_UUID := 2959, ok := true }

/-- A catalog in which the relations 100 and 101 have the columns
`(x int4, provsql uuid)` and every other column has type `int4`; where-provenance is off. -/
def sample_env : Env :=
  { get_atttype := fun relid attid =>
      if (relid = 100 ∨ relid = 101) ∧ attid = 2 then 2950 else 23,
    find_equality_operator := fun _ _ => 96,
    oprcode := fun _ => 65,
    oprresult := fun _ => 16,
    get_sort_group_operators := fun _ _ _ _ => (97, 96, true),
    provsql_where_provenance := false }

/-- The base relation `s(x int4)`, without provenance column. -/
def sample_rel_s : RangeTblEntry :=
  { RangeTblEntry.zero with
    rtekind := RTEKind.RTE_RELATION, relid := 200,
    eref := some { aliasname := "s", colnames := ["x"] }, inFromCl := true }

/-- The query `SELECT x FROM s`. -/
def sample_select_s : Query :=
  { Query.zero with
    commandType := CmdType.CMD_SELECT, canSetTag := true, rtable := [sample_rel_s],
    jointree := some { fromlist := [.RangeTblRef 1], quals := none },
    targetList := [.TargetEntry (.Var 1 1 23 (-1) 0) 1 (some "x") 0] }

/-- The base relation `r(x int4, provsql uuid)`. -/
def sample_rel_r : RangeTblEntry :=
  { RangeTblEntry.zero with
    rtekind := RTEKind.RTE_RELATION, relid := 100,
    eref := some { aliasname := "r", colnames := ["x", "provsql"] }, inFromCl := true }

/-- The query `SELECT * FROM r`. -/
def sample_select_star_r : Query :=
  { Query.zero with
    commandType := CmdType.CMD_SELECT, canSetTag := true, rtable := [sample_rel_r],
    jointree := some { fromlist := [.RangeTblRef 1], quals := none },
    targetList := [.TargetEntry (.Var 1 1 23 (-1) 0) 1 (some "x") 0,
                   .TargetEntry (.Var 1 2 2950 (-1) 0) 2 (some "provsql") 0] }

/-- The query `SELECT provenance() AS p FROM r`. -/
def sample_select_provenance_r : Query :=
  { Query.zero with
    commandType := CmdType.CMD_SELECT, canSetTag := true, rtable := [sample_rel_r],
    jointree := some { fromlist := [.RangeTblRef 1], quals := none },
    targetList := [.TargetEntry (.FuncExpr 9006 2950 false []) 1 (some "p") 0] }

/-- The target list of the query that `process_query` returned. -/
def returned_target_list : Except Err (Option Query) → Option (List Node)
  | .ok (some q) => some q.targetList
  | _ => none

/-- The base relation `r2(x int4, provsql uuid)`. -/
def sample_rel_r2 : RangeTblEntry :=
  { RangeTblEntry.zero with
    rtekind := RTEKind.RTE_RELATION, relid := 101,
    eref := some { aliasname := "r2", colnames := ["x", "provsql"] }, inFromCl := true }

/-- The range-table entry of the join `r JOIN r2 ON r.x = r2.x`. -/
def sample_join_entry : RangeTblEntry :=
  { RangeTblEntry.zero with
    rtekind := RTEKind.RTE_JOIN, jointype := JoinType.JOIN_INNER,
    joinaliasvars := [.Var 1 1 23 (-1) 0, .Var 1 2 2950 (-1) 0, .Var 2 1 23 (-1) 0,
                      .Var 2 2 2950 (-1) 0],
    eref := some { aliasname := "unnamed_join", colnames := ["x", "provsql", "x", "provsql"] },
    inFromCl := true }

/-- The query `SELECT r.x, r2.x FROM r JOIN r2 ON r.x = r2.x`. -/
def sample_join : Query :=
  { Query.zero with
    commandType := CmdType.CMD_SELECT, canSetTag := true,
    rtable := [sample_rel_r, sample_rel_r2, sample_join_entry],
    jointree := some
      { fromlist :=
          [.JoinExpr JoinType.JOIN_INNER (.RangeTblRef 1) (.RangeTblRef 2)
            (some (.OpExpr 96 65 16 0 0 [.Var 1 1 23 (-1) 0, .Var 2 1 23 (-1) 0])) 3],
        quals := none },
    targetList := [.TargetEntry (.Var 1 1 23 (-1) 0) 1 (some "x") 0,
                   .TargetEntry (.Var 2 1 23 (-1) 0) 2 (some "x") 0] }

/-- The query `SELECT count(*), sum(x) + 1 FROM r`. -/
def sample_aggregates : Query :=
  { Query.zero with
    commandType := CmdType.CMD_SELECT, canSetTag := true, hasAggs := true,
    rtable := [sample_rel_r],
    jointree := some { fromlist := [.RangeTblRef 1], quals := none },
    targetList :=
      [.TargetEntry (.Aggref 2803 20 [] [] [] AGGKIND_NORMAL) 1 (some "count") 0,
       .TargetEntry
         (.OpExpr 551 177 23 0 0
           [.Aggref 2108 20 [23] [.TargetEntry (.Var 1 1 23 (-1) 0) 1 none 0] [] AGGKIND_NORMAL,
            .Const 23 (-1) 0 4 1 false true])
         2 (some "s") 0] }

/-- The query `SELECT x, provsql FROM r EXCEPT ALL SELECT x, provsql FROM r2`
over the base relations themselves. -/
def sample_except_flat : Query :=
  { Query.zero with
    commandType := CmdType.CMD_SELECT, canSetTag := true,
    rtable := [sample_rel_r, sample_rel_r2],
    jointree := some { fromlist := [], quals := none },
    targetList := [.TargetEntry (.Var 1 1 23 (-1) 0) 1 (some "x") 0,
                   .TargetEntry (.Var 1 2 2950 (-1) 0) 2 (some "provsql") 0],
    setOperations := some
      (.SetOperationStmt SetOperation.SETOP_EXCEPT true (.RangeTblRef 1) (.RangeTblRef 2)
        [23, 2950] [-1, -1] [0, 0]) }

/-- The query `SELECT x FROM r`. -/
def sample_leaf_r : Query :=
  { Query.zero with
    commandType := CmdType.CMD_SELECT, canSetTag := true, rtable := [sample_rel_r],
    jointree := some { fromlist := [.RangeTblRef 1], quals := none },
    targetList := [.TargetEntry (.Var 1 1 23 (-1) 0) 1 (some "x") 0] }

/-- The query `SELECT x FROM r2`. -/
def sample_leaf_r2 : Query :=
  { Query.zero with
    commandType := CmdType.CMD_SELECT, canSetTag := true, rtable := [sample_rel_r2],
    jointree := some { fromlist := [.RangeTblRef 1], quals := none },
    targetList := [.TargetEntry (.Var 1 1 23 (-1) 0) 1 (some "x") 0] }

/-- The query `SELECT x FROM r EXCEPT SELECT x FROM r2` (`all = false`) or
`SELECT x FROM r EXCEPT ALL SELECT x FROM r2` (`all = true`), as the parser
builds it: the two operands are subquery entries of the range table. -/
def sample_except (all : Bool) : Query :=
  { Query.zero with
    commandType := CmdType.CMD_SELECT, canSetTag := true,
    rtable :=
      [{ RangeTblEntry.zero with
         rtekind := RTEKind.RTE_SUBQUERY, subquery := some sample_leaf_r,
         eref := some { aliasname := "*SELECT* 1", colnames := ["x"] } },
       { RangeTblEntry.zero with
         rtekind := RTEKind.RTE_SUBQUERY, subquery := some sample_leaf_r2,
         eref := some { aliasname := "*SELECT* 2", colnames := ["x"] } }],
    jointree := some { fromlist := [], quals := none },
    targetList := [.TargetEntry (.Var 1 1 23 (-1) 0) 1 (some "x") 0],
    setOperations := some
      (.SetOperationStmt SetOperation.SETOP_EXCEPT all (.RangeTblRef 1) (.RangeTblRef 2)
        [23] [-1] [0]) }

/-- A catalog in which both columns of the relation 300 have the token type. -/
def sample_env_two_tokens : Env :=
  { sample_env with get_atttype := fun relid _ => if relid = 300 then 2950 else 23 }

/-- The relation 300 under the alias `t(provsql, provsql)`. -/
def sample_rel_two_tokens : RangeTblEntry :=
  { RangeTblEntry.zero with
    rtekind := RTEKind.RTE_RELATION, relid := 300,
    rtalias := some { aliasname := "t", colnames := ["provsql", "provsql"] },
    eref := some { aliasname := "t", colnames := ["provsql", "provsql"] }, inFromCl := true }

/-- The query `SELECT 1 FROM u AS t(provsql, provsql)`. -/
def sample_two_tokens : Query :=
  { Query.zero with
    commandType := CmdType.CMD_SELECT, canSetTag := true, rtable := [sample_rel_two_tokens],
    jointree := some { fromlist := [.RangeTblRef 1], quals := none },
    targetList := [.TargetEntry (.Const 23 (-1) 0 4 1 false true) 1 (some "?column?") 0] }

/-- The query `SELECT provsql AS p FROM r`. -/
def sample_select_provsql_as_p : Query :=
  { Query.zero with
    commandType := CmdType.CMD_SELECT, canSetTag := true, rtable := [sample_rel_r],
    jointree := some { fromlist := [.RangeTblRef 1], quals := none },
    targetList := [.TargetEntry (.Var 1 2 2950 (-1) 0) 1 (some "p") 0] }

/-- The range-table entry of a semijoin of `r` with `r2`. -/
def sample_semijoin_entry : RangeTblEntry :=
  { RangeTblEntry.zero with
    rtekind := RTEKind.RTE_JOIN, jointype := JoinType.JOIN_SEMI,
    joinaliasvars := [.Var 1 1 23 (-1) 0, .Var 1 2 2950 (-1) 0],
    eref := some { aliasname := "unnamed_join", colnames := ["x", "provsql"] },
    inFromCl := true }

/-- A query over `r` and `r2` whose range table has a semijoin entry. -/
def sample_semijoin : Query :=
  { Query.zero with
    commandType := CmdType.CMD_SELECT, canSetTag := true,
    rtable := [sample_rel_r, sample_rel_r2, sample_semijoin_entry],
    jointree := some
      { fromlist :=
          [.JoinExpr JoinType.JOIN_SEMI (.RangeTblRef 1) (.RangeTblRef 2)
            (some (.OpExpr 96 65 16 0 0 [.Var 1 1 23 (-1) 0, .Var 2 1 23 (-1) 0])) 3],
        quals := none },
    targetList := [.TargetEntry (.Var 1 1 23 (-1) 0) 1 (some "x") 0] }

/-- The query `(SELECT x FROM r EXCEPT ALL SELECT x FROM r2) EXCEPT ALL
SELECT x FROM r`, as the parser builds it: a chained EXCEPT. -/
def sample_except_chain : Query :=
  { Query.zero with
    commandType := CmdType.CMD_SELECT, canSetTag := true,
    rtable :=
      [{ RangeTblEntry.zero with
         rtekind := RTEKind.RTE_SUBQUERY, subquery := some sample_leaf_r,
         eref := some { aliasname := "*SELECT* 1", colnames := ["x"] } },
       { RangeTblEntry.zero with
         rtekind := RTEKind.RTE_SUBQUERY, subquery := some sample_leaf_r2,
         eref := some { aliasname := "*SELECT* 2", colnames := ["x"] } },
       { RangeTblEntry.zero with
         rtekind := RTEKind.RTE_SUBQUERY, subquery := some sample_leaf_r,
         eref := some { aliasname := "*SELECT* 3", colnames := ["x"] } }],
    jointree := some { fromlist := [], quals := none },
    targetList := [.TargetEntry (.Var 1 1 23 (-1) 0) 1 (some "x") 0],
    setOperations := some
      (.SetOperationStmt SetOperation.SETOP_EXCEPT true
        (.SetOperationStmt SetOperation.SETOP_EXCEPT true (.RangeTblRef 1) (.RangeTblRef 2)
          [23] [-1] [0])
        (.RangeTblRef 3) [23] [-1] [0]) }

/-- The attributes located in a sample query and the query after their
location, the subqueries being rewritten with the recursion depth 1. -/
def sample_located (q : Query) : List Node × Query :=
  match get_provenance_attributes (process_query 1 sample_constants sample_env) sample_constants
      sample_env q with
  | .ok p => p
  | .error _ => ([], Query.zero)

/-- The sample query after the location of its attributes and the removal step. -/
def sample_removed (q : Query) : Query :=
  match process_query_remove sample_constants (sample_located q).2 with
  | .ok q2 => q2
  | .error _ => Query.zero

/-- The query that `process_query` returns for a sample query with the
recursion depth `fuel` (the empty query if it returns none). -/
def sample_rewritten (fuel : Nat) (q : Query) : Query :=
  match process_query fuel sample_constants sample_env q with
  | .ok (some q1) => q1
  | _ => Query.zero

/-- The subquery entry `(SELECT x FROM s) AS t` of a range table. -/
def sample_subquery_t : RangeTblEntry :=
  { RangeTblEntry.zero with
    rtekind := RTEKind.RTE_SUBQUERY, subquery := some sample_select_s,
    rtalias := some { aliasname := "t", colnames := [] },
    eref := some { aliasname := "t", colnames := ["x"] }, inFromCl := true }

/-- The query `SELECT r.x, t.x FROM r, (SELECT x FROM s) AS t`: the relation
`r` has a provenance column, the relation `s` of the subquery has none. -/
def sample_over_plain_subquery : Query :=
  { Query.zero with
    commandType := CmdType.CMD_SELECT, canSetTag := true,
    rtable := [sample_rel_r, sample_subquery_t],
    jointree := some { fromlist := [.RangeTblRef 1, .RangeTblRef 2], quals := none },
    targetList := [.TargetEntry (.Var 1 1 23 (-1) 0) 1 (some "x") 0,
                   .TargetEntry (.Var 2 1 23 (-1) 0) 2 (some "x") 0] }

/-- The query `SELECT DISTINCT ON (provsql) x FROM r`: the column `provsql` is
an unnamed target entry that carries the reference of the DISTINCT ON clause. -/
def sample_distinct_on : Query :=
  { Query.zero with
    commandType := CmdType.CMD_SELECT, canSetTag := true, hasDistinctOn := true,
    rtable := [sample_rel_r],
    jointree := some { fromlist := [.RangeTblRef 1], quals := none },
    targetList := [.TargetEntry (.Var 1 1 23 (-1) 0) 1 (some "x") 0,
                   .TargetEntry (.Var 1 2 2950 (-1) 0) 2 none 1],
    distinctClause := [{ tleSortGroupRef := 1, eqop := 2972, sortop := 2974,
                         nulls_first := false, hashable := true }] }

/-- The query `SELECT DISTINCT ON (x) x, provsql FROM r`. -/
def sample_distinct_on_x : Query :=
  { Query.zero with
    commandType := CmdType.CMD_SELECT, canSetTag := true, hasDistinctOn := true,
    rtable := [sample_rel_r],
    jointree := some { fromlist := [.RangeTblRef 1], quals := none },
    targetList := [.TargetEntry (.Var 1 1 23 (-1) 0) 1 (some "x") 1,
                   .TargetEntry (.Var 1 2 2950 (-1) 0) 2 (some "provsql") 0],
    distinctClause := [{ tleSortGroupRef := 1, eqop := 96, sortop := 97,
                         nulls_first := false, hashable := true }] }

/-- The query `SELECT DISTINCT ON (x) x FROM r`. -/
def sample_distinct_on_plain : Query :=
  { Query.zero with
    commandType := CmdType.CMD_SELECT, canSetTag := true, hasDistinctOn := true,
    rtable := [sample_rel_r],
    jointree := some { fromlist := [.RangeTblRef 1], quals := none },
    targetList := [.TargetEntry (.Var 1 1 23 (-1) 0) 1 (some "x") 1],
    distinctClause := [{ tleSortGroupRef := 1, eqop := 96, sortop := 97,
                         nulls_first := false, hashable := true }] }

/-- The query `SELECT x FROM r UNION SELECT x FROM r2`, as the parser builds it. -/
def sample_union_distinct : Query :=
  { Query.zero with
    commandType := CmdType.CMD_SELECT, canSetTag := true,
    rtable :=
      [{ RangeTblEntry.zero with
         rtekind := RTEKind.RTE_SUBQUERY, subquery := some sample_leaf_r,
         eref := some { aliasname := "*SELECT* 1", colnames := ["x"] } },
       { RangeTblEntry.zero with
         rtekind := RTEKind.RTE_SUBQUERY, subquery := some sample_leaf_r2,
         eref := some { aliasname := "*SELECT* 2", colnames := ["x"] } }],
    jointree := some { fromlist := [], quals := none },
    targetList := [.TargetEntry (.Var 1 1 23 (-1) 0) 1 (some "x") 0],
    setOperations := some
      (.SetOperationStmt SetOperation.SETOP_UNION false (.RangeTblRef 1) (.RangeTblRef 2)
        [23] [-1] [0]) }

/-- The base relation `u(x int4, provsql int4, y int4)`: its column `provsql`
has not the token type. -/
def sample_rel_u : RangeTblEntry :=
  { RangeTblEntry.zero with
    rtekind := RTEKind.RTE_RELATION, relid := 200,
    eref := some { aliasname := "u", colnames := ["x", "provsql", "y"] }, inFromCl := true }

/-- The column-index table of the sample join `r JOIN r2`. -/
def sample_join_columns : List (List Int) :=
  match build_columns sample_join.rtable 0 with
  | .ok t => t.1
  | .error _ => []

/-- The test `r.x < r2.x`: the operator 97 is `<` on `int4`, whose equality
operator is 96. -/
def sample_less_than : Node :=
  .OpExpr 97 66 16 0 0 [.Var 1 1 23 (-1) 0, .Var 2 1 23 (-1) 0]

/-- The test `r.x = r2.x`. -/
def sample_equal : Node :=
  .OpExpr 96 65 16 0 0 [.Var 1 1 23 (-1) 0, .Var 2 1 23 (-1) 0]

/-- The query `SELECT * FROM r2`. -/
def sample_select_star_r2 : Query :=
  { Query.zero with
    commandType := CmdType.CMD_SELECT, canSetTag := true, rtable := [sample_rel_r2],
    jointree := some { fromlist := [.RangeTblRef 1], quals := none },
    targetList := [.TargetEntry (.Var 1 1 23 (-1) 0) 1 (some "x") 0,
                   .TargetEntry (.Var 1 2 2950 (-1) 0) 2 (some "provsql") 0] }

/-- The query `SELECT * FROM r UNION ALL SELECT * FROM r2 UNION ALL SELECT * FROM r`,
as the parser builds it: the three operands are subquery entries of the range
table, the set-operation tree is `(1 UNION ALL 2) UNION ALL 3`, and both of its
nodes list the two output columns `x` and `provsql`. -/
def sample_union_three : Query :=
  { Query.zero with
    commandType := CmdType.CMD_SELECT, canSetTag := true,
    rtable :=
      [{ RangeTblEntry.zero with
         rtekind := RTEKind.RTE_SUBQUERY, subquery := some sample_select_star_r,
         eref := some { aliasname := "*SELECT* 1", colnames := ["x", "provsql"] } },
       { RangeTblEntry.zero with
         rtekind := RTEKind.RTE_SUBQUERY, subquery := some sample_select_star_r2,
         eref := some { aliasname := "*SELECT* 2", colnames := ["x", "provsql"] } },
       { RangeTblEntry.zero with
         rtekind := RTEKind.RTE_SUBQUERY, subquery := some sample_select_star_r,
         eref := some { aliasname := "*SELECT* 3", colnames := ["x", "provsql"] } }],
    jointree := some { fromlist := [], quals := none },
    targetList := [.TargetEntry (.Var 1 1 23 (-1) 0) 1 (some "x") 0,
                   .TargetEntry (.Var 1 2 2950 (-1) 0) 2 (some "provsql") 0],
    setOperations := some
      (.SetOperationStmt SetOperation.SETOP_UNION true
        (.SetOperationStmt SetOperation.SETOP_UNION true (.RangeTblRef 1) (.RangeTblRef 2)
          [23, 2950] [-1, -1] [0, 0])
        (.RangeTblRef 3) [23, 2950] [-1, -1] [0, 0]) }

/-- The query `SELECT count(DISTINCT x), sum(x) FROM r`. -/
def sample_count_distinct_and_sum : Query :=
  { Query.zero with
    commandType := CmdType.CMD_SELECT, canSetTag := true, hasAggs := true,
    rtable := [sample_rel_r],
    jointree := some { fromlist := [.RangeTblRef 1], quals := none },
    targetList :=
      [.TargetEntry
        (.Aggref 2147 20 [23] [.TargetEntry (.Var 1 1 23 (-1) 0) 1 none 1]
          [{ tleSortGroupRef := 1, eqop := 96, sortop := 97, nulls_first := false,
             hashable := true }] AGGKIND_NORMAL)
        1 (some "count") 0,
       .TargetEntry
        (.Aggref 2108 20 [23] [.TargetEntry (.Var 1 1 23 (-1) 0) 1 none 0] [] AGGKIND_NORMAL)
        2 (some "sum") 0] }

/-- The sample catalog with where-provenance on. -/
def sample_env_where : Env := { sample_env with provsql_where_provenance := true }

/-- The range-table entry of the join of the join `r JOIN r2` (entry 3) with
the relation `r AS r3` (entry 4): its alias variables for the columns of the
left operand refer to the columns of the join entry 3. -/
def sample_outer_join_entry : RangeTblEntry :=
  { RangeTblEntry.zero with
    rtekind := RTEKind.RTE_JOIN, jointype := JoinType.JOIN_INNER,
    joinaliasvars := [.Var 3 1 23 (-1) 0, .Var 3 2 2950 (-1) 0, .Var 3 3 23 (-1) 0,
                      .Var 3 4 2950 (-1) 0, .Var 4 1 23 (-1) 0, .Var 4 2 2950 (-1) 0],
    eref := some { aliasname := "j",
                   colnames := ["x", "provsql", "x", "provsql", "x", "provsql"] },
    inFromCl := true }

/-- The query `SELECT j.x, r3.x FROM ((r JOIN r2 ON r.x = r2.x) JOIN r AS r3 ON r.x = r3.x) AS j`
with the alias variables of a nested join as the parser of PostgreSQL 12 builds them:
the first target entry refers to column 1 of the outer join entry. -/
def sample_nested_join : Query :=
  { Query.zero with
    commandType := CmdType.CMD_SELECT, canSetTag := true,
    rtable := [sample_rel_r, sample_rel_r2, sample_join_entry, sample_rel_r,
               sample_outer_join_entry],
    jointree := some
      { fromlist :=
          [.JoinExpr JoinType.JOIN_INNER
            (.JoinExpr JoinType.JOIN_INNER (.RangeTblRef 1) (.RangeTblRef 2)
              (some (.OpExpr 96 65 16 0 0 [.Var 1 1 23 (-1) 0, .Var 2 1 23 (-1) 0])) 3)
            (.RangeTblRef 4)
            (some (.OpExpr 96 65 16 0 0 [.Var 1 1 23 (-1) 0, .Var 4 1 23 (-1) 0])) 5],
        quals := none },
    targetList := [.TargetEntry (.Var 5 1 23 (-1) 0) 1 (some "x") 0,
                   .TargetEntry (.Var 4 1 23 (-1) 0) 2 (some "x") 0] }

/-- The column-index table of the sample query over a nested join. -/
def sample_nested_join_columns : List (List Int) :=
  match build_columns sample_nested_join.rtable 0 with
  | .ok t => t.1
  | .error _ => []

/-- The query `SELECT x, provenance() FROM r WHERE provenance() = provenance()`
over the subquery entry `(SELECT x FROM r) AS t`. -/
def sample_placeholders : Query :=
  { Query.zero with
    commandType := CmdType.CMD_SELECT, canSetTag := true,
    rtable :=
      [{ RangeTblEntry.zero with
         rtekind := RTEKind.RTE_SUBQUERY, subquery := some sample_select_provenance_r,
         rtalias := some { aliasname := "t", colnames := [] },
         eref := some { aliasname := "t", colnames := ["p"] }, inFromCl := true }],
    jointree := some
      { fromlist := [.RangeTblRef 1],
        quals := some (.OpExpr 2972 2956 16 0 0
          [.FuncExpr 9006 2950 false [], .FuncExpr 9006 2950 false []]) },
    targetList := [.TargetEntry (.Var 1 1 2950 (-1) 0) 1 (some "p") 0,
                   .TargetEntry (.FuncExpr 9006 2950 false []) 2 (some "provenance") 0] }

/-- The base relation `w(x int4, y int4, provsql uuid)`. -/
def sample_rel_w : RangeTblEntry :=
  { RangeTblEntry.zero with
    rtekind := RTEKind.RTE_RELATION, relid := 102,
    eref := some { aliasname := "w", colnames := ["x", "y", "provsql"] }, inFromCl := true }

/-- A catalog in which the relation 102 has the columns
`(x int4, y int4, provsql uuid)`. -/
def sample_env_w : Env :=
  { sample_env with
    get_atttype := fun relid attid => if relid = 102 ∧ attid = 3 then 2950 else 23 }

/-- The query `SELECT x, count(DISTINCT y) AS c FROM w GROUP BY x ORDER BY c`
as the parser builds it: the ORDER BY clause is analysed first, so the entry
`c` carries the reference 1 and the entry `x` the reference 2. -/
def sample_group_count_distinct : Query :=
  { Query.zero with
    commandType := CmdType.CMD_SELECT, canSetTag := true, hasAggs := true,
    rtable := [sample_rel_w],
    jointree := some { fromlist := [.RangeTblRef 1], quals := none },
    targetList :=
      [.TargetEntry (.Var 1 1 23 (-1) 0) 1 (some "x") 2,
       .TargetEntry
        (.Aggref 2147 20 [23] [.TargetEntry (.Var 1 2 23 (-1) 0) 1 none 1]
          [{ tleSortGroupRef := 1, eqop := 96, sortop := 97, nulls_first := false,
             hashable := true }] AGGKIND_NORMAL)
        2 (some "c") 1],
    groupClause :=
      [{ tleSortGroupRef := 2, eqop := 96, sortop := 97, nulls_first := false,
         hashable := true }],
    sortClause :=
      [{ tleSortGroupRef := 1, eqop := 410, sortop := 412, nulls_first := false,
         hashable := true }] }

/-- The query `SELECT count(DISTINCT y), x FROM w GROUP BY x`: the entry `x`
carries the reference 1, the entry of the aggregate carries none. -/
def sample_count_distinct_group : Query :=
  { Query.zero with
    commandType := CmdType.CMD_SELECT, canSetTag := true, hasAggs := true,
    rtable := [sample_rel_w],
    jointree := some { fromlist := [.RangeTblRef 1], quals := none },
    targetList :=
      [.TargetEntry
        (.Aggref 2147 20 [23] [.TargetEntry (.Var 1 2 23 (-1) 0) 1 none 1]
          [{ tleSortGroupRef := 1, eqop := 96, sortop := 97, nulls_first := false,
             hashable := true }] AGGKIND_NORMAL)
        1 (some "count") 0,
       .TargetEntry (.Var 1 1 23 (-1) 0) 2 (some "x") 1],
    groupClause :=
      [{ tleSortGroupRef := 1, eqop := 96, sortop := 97, nulls_first := false,
         hashable := true }] }

/-- The query `SELECT u.provsql, u.y FROM u, r`: the relation `u` has a column
named `provsql` of type `int4`, the relation `r` a provenance column. -/
def sample_u_r : Query :=
  { Query.zero with
    commandType := CmdType.CMD_SELECT, canSetTag := true,
    rtable := [sample_rel_u, sample_rel_r],
    jointree := some { fromlist := [.RangeTblRef 1, .RangeTblRef 2], quals := none },
    targetList := [.TargetEntry (.Var 1 2 23 (-1) 0) 1 (some "provsql") 0,
                   .TargetEntry (.Var 1 3 23 (-1) 0) 2 (some "y") 0] }

/-! ## Lemmas on the location of provenance attributes -/

theorem relation_provenance_attributes_nil (constants : constants_t) (env : Env) (relid : Oid)
    (rteid : Nat) (names : List String) (start : Int)
    (h : ∀ k : Nat, names.get? k = some PROVSQL_COLUMN_NAME →
      env.get_atttype relid (start + (k : Int)) ≠ constants.OID_TYPE_UUID) :
    relation_provenance_attributes constants env relid rteid names start = [] := by
  induction names generalizing start with
  | nil => rfl
  | cons v rest ih =>
    have h0 : ¬ (v = PROVSQL_COLUMN_NAME ∧ env.get_atttype relid start = constants.OID_TYPE_UUID) := by
      rintro ⟨hv, ht⟩
      have := h 0 (by simp [hv])
      simp at this
      exact this ht
    have hrest : ∀ k : Nat, rest.get? k = some PROVSQL_COLUMN_NAME →
        env.get_atttype relid (start + 1 + (k : Int)) ≠ constants.OID_TYPE_UUID := by
      intro k hk
      have := h (k + 1) (by simpa using hk)
      have e : start + ((k + 1 : Nat) : Int) = start + 1 + (k : Int) := by push_cast; ring
      rwa [e] at this
    simp only [relation_provenance_attributes, if_neg h0]
    exact ih (start + 1) hrest

theorem relation_provenance_attributes_single (constants : constants_t) (env : Env)
    (relid : Oid) (rteid : Nat) (names : List String) (start : Int) (k : Nat)
    (hk : names.get? k = some PROVSQL_COLUMN_NAME)
    (ht : env.get_atttype relid (start + (k : Int)) = constants.OID_TYPE_UUID)
    (huniq : ∀ j : Nat, names.get? j = some PROVSQL_COLUMN_NAME →
      env.get_atttype relid (start + (j : Int)) = constants.OID_TYPE_UUID → j = k) :
    relation_provenance_attributes constants env relid rteid names start
      = [make_provenance_attribute constants rteid (start + (k : Int))] := by
  induction names generalizing start k with
  | nil => simp at hk
  | cons v rest ih =>
    cases k with
    | zero =>
      have hv : v = PROVSQL_COLUMN_NAME := by simpa using hk
      have ht0 : env.get_atttype relid start = constants.OID_TYPE_UUID := by simpa using ht
      have hrest := relation_provenance_attributes_nil constants env relid rteid rest (start + 1)
        (fun j hj hty => by
          have e : start + ((j + 1 : Nat) : Int) = start + 1 + (j : Int) := by push_cast; ring
          have := huniq (j + 1) (by simpa using hj) (by rw [e]; exact hty)
          omega)
      simp only [relation_provenance_attributes, hv, ht0, and_self, if_true, hrest]
      simp
    | succ k0 =>
      have h0 : ¬ (v = PROVSQL_COLUMN_NAME ∧
          env.get_atttype relid start = constants.OID_TYPE_UUID) := by
        rintro ⟨hv, hty⟩
        have := huniq 0 (by simp [hv]) (by simpa using hty)
        omega
      have e : start + ((k0 + 1 : Nat) : Int) = start + 1 + (k0 : Int) := by push_cast; ring
      have hrest := ih (start + 1) k0 (by simpa using hk) (by rw [← e]; exact ht)
        (fun j hj hty => by
          have e1 : start + ((j + 1 : Nat) : Int) = start + 1 + (j : Int) := by push_cast; ring
          have := huniq (j + 1) (by simpa using hj) (by rw [e1]; exact hty)
          omega)
      simp only [relation_provenance_attributes, if_neg h0, hrest, e]

theorem relation_provenance_attributes_shape (constants : constants_t) (env : Env)
    (relid : Oid) (rteid : Nat) (names : List String) (start : Int) :
    ∀ a ∈ relation_provenance_attributes constants env relid rteid names start,
      ∃ j, a = make_provenance_attribute constants rteid j := by
  induction names generalizing start with
  | nil => intro a ha; simp [relation_provenance_attributes] at ha
  | cons v rest ih =>
    intro a ha
    unfold relation_provenance_attributes at ha
    split at ha
    · rcases List.mem_cons.mp ha with h | h
      · exact ⟨start, h⟩
      · exact ih (start + 1) a h
    · exact ih (start + 1) a ha

theorem function_provenance_attributes_shape (constants : constants_t) (r : RangeTblEntry)
    (rteid : Nat) (fs : List RangeTblFunction) (attid : Int) (atts : List Node)
    (h : function_provenance_attributes constants r rteid fs attid = .ok atts) :
    ∀ a ∈ atts, ∃ j, a = make_provenance_attribute constants rteid j := by
  induction fs generalizing attid atts with
  | nil =>
    simp only [function_provenance_attributes, Except.ok.injEq] at h
    subst h
    intro a ha
    simp at ha
  | cons f rest ih =>
    unfold function_provenance_attributes at h
    split at h
    · split at h
      · split at h
        · split at h
          · simp at h
          · split at h
            · simp at h
            · rename_i atts1 hrec
              split at h
              · simp only [Except.ok.injEq] at h
                subst h
                intro a ha
                rcases List.mem_cons.mp ha with h1 | h1
                · exact ⟨attid, h1⟩
                · exact ih _ _ hrec a h1
              · simp only [Except.ok.injEq] at h
                subst h
                exact ih _ _ hrec
        · exact ih _ _ h
      · simp at h
    · simp at h

theorem get_provenance_attributes_step_atts
    (process_query : Query → Except Err (Option Query)) (constants : constants_t) (env : Env)
    (st st1 : gpa_state) (rteid : Nat) (r : RangeTblEntry)
    (h : get_provenance_attributes_step process_query constants env st rteid r = .ok st1) :
    ∃ contrib, st1.prov_atts = st.prov_atts ++ contrib ∧
      entry_contribution constants env rteid r contrib := by
  unfold get_provenance_attributes_step at h
  cases hk : r.rtekind <;> simp only [hk] at h
  · -- base relation
    cases he : r.eref with
    | none => simp [he] at h
    | some e =>
      simp only [he, Except.ok.injEq] at h
      subst h
      refine ⟨_, rfl, relation_provenance_attributes_shape _ _ _ _ _ _, ?_, ?_⟩
      · intro _
        exact ⟨e, he, rfl⟩
      · intro hc
        simp [hk] at hc
  · -- subquery
    cases hs : r.subquery with
    | none => simp [hs] at h
    | some sub =>
      simp only [hs] at h
      cases hp : process_query sub with
      | error err => simp [hp] at h
      | ok res =>
        cases res with
        | none =>
          simp only [hp, Except.ok.injEq] at h
          subst h
          exact ⟨[], by simp, by intro a ha; simp at ha, by intro hc; simp [hk] at hc, by simp⟩
        | some new_subquery =>
          simp only [hp] at h
          cases he : r.eref with
          | none => simp [he] at h
          | some e =>
            simp only [he] at h
            by_cases hemp : new_subquery.targetList.isEmpty = true
            · rw [if_pos hemp] at h; cases h
            rw [if_neg hemp] at h
            split at h
            · simp at h
            · rename_i q2 ran hfix
              simp only [Except.ok.injEq] at h
              subst h
              refine ⟨[make_provenance_attribute constants rteid new_subquery.targetList.length],
                rfl, ?_, ?_, by simp⟩
              · intro a ha
                exact ⟨_, List.mem_singleton.mp ha⟩
              · intro hc
                simp [hk] at hc
  · -- join
    split at h
    · simp only [Except.ok.injEq] at h
      subst h
      exact ⟨[], by simp, by intro a ha; simp at ha, by intro hc; simp [hk] at hc, by simp⟩
    · simp at h
  · -- function
    cases hf : function_provenance_attributes constants r rteid r.functions 1 with
    | error err => simp [hf] at h
    | ok atts =>
      simp only [hf, Except.ok.injEq] at h
      subst h
      exact ⟨atts, rfl, function_provenance_attributes_shape _ _ _ _ _ _ hf,
        by intro hc; simp [hk] at hc, by intro hc; simp [hk] at hc⟩
  · simp at h
  · simp at h

theorem get_provenance_attributes_loop_atts
    (process_query : Query → Except Err (Option Query)) (constants : constants_t) (env : Env)
    (rtable : List RangeTblEntry) (rteid : Nat) (st st1 : gpa_state)
    (h : get_provenance_attributes_loop process_query constants env rtable rteid st = .ok st1) :
    ∃ contribs, st1.prov_atts = st.prov_atts ++ contribs.flatten ∧
      contributions_ok constants env rteid rtable contribs := by
  induction rtable generalizing rteid st with
  | nil =>
    simp only [get_provenance_attributes_loop, Except.ok.injEq] at h
    subst h
    exact ⟨[], by simp, trivial⟩
  | cons r rest ih =>
    unfold get_provenance_attributes_loop at h
    cases hs : get_provenance_attributes_step process_query constants env st rteid r with
    | error err => simp [hs] at h
    | ok st2 =>
      simp only [hs] at h
      obtain ⟨cb, hcb, hce⟩ := get_provenance_attributes_step_atts _ _ _ _ _ _ _ hs
      obtain ⟨cbs, hcbs, hcs⟩ := ih (rteid + 1) st2 h
      refine ⟨cb :: cbs, ?_, hce, hcs⟩
      rw [hcbs, hcb]
      simp

/-- Every located attribute is an implicit-cast-wrapped column reference of
token type. -/
theorem get_provenance_attributes_shape
    (process_query : Query → Except Err (Option Query)) (constants : constants_t) (env : Env)
    (q q1 : Query) (atts : List Node)
    (h : get_provenance_attributes process_query constants env q = .ok (atts, q1)) :
    ∀ a ∈ atts, ∃ i j, a = make_provenance_attribute constants i j := by
  unfold get_provenance_attributes at h
  cases hl : get_provenance_attributes_loop process_query constants env q.rtable 1
      { q := q, prov_atts := [], detached := false } with
  | error err => simp [hl] at h
  | ok st =>
    simp only [hl, Except.ok.injEq, Prod.mk.injEq] at h
    obtain ⟨contribs, hc, hok⟩ := get_provenance_attributes_loop_atts _ _ _ _ _ _ _ hl
    rw [← h.1, hc]
    simp only [List.nil_append]
    clear hc hl h
    generalize (1 : Nat) = start at hok
    generalize q.rtable = rtable at hok
    induction contribs generalizing start rtable with
    | nil => intro a ha; simp at ha
    | cons cb cbs ih =>
      cases rtable with
      | nil => simp [contributions_ok] at hok
      | cons r rs =>
        intro a ha
        simp only [List.flatten_cons, List.mem_append] at ha
        rcases ha with ha | ha
        · obtain ⟨j, hj⟩ := hok.1.1 a ha
          exact ⟨start, j, hj⟩
        · exact ih (start + 1) rs hok.2 a ha

/-! ## Lemmas on the rows of the column numbering -/

/-- The numbering loop returns when every entry with exposed names has at
least one. -/
theorem build_columns_returns (rtable : List RangeTblEntry) (n : Int)
    (h : column_names_present rtable) : ∃ t, build_columns rtable n = .ok t := by
  induction rtable generalizing n with
  | nil => exact ⟨_, rfl⟩
  | cons r rest ih =>
    have hrest : column_names_present rest := fun x hx => h x (List.mem_cons_of_mem _ hx)
    cases he : r.eref with
    | none =>
      obtain ⟨t, ht⟩ := ih n hrest
      exact ⟨([] :: t.1, t.2), by simp only [build_columns, he, ht]⟩
    | some eref =>
      have hne : ¬ (eref.colnames.isEmpty = true) := fun hc =>
        h r (List.mem_cons_self _ _) eref he (List.isEmpty_iff.mp hc)
      obtain ⟨t, ht⟩ := ih (build_columns_row r.rtekind eref.colnames n).2 hrest
      exact ⟨((build_columns_row r.rtekind eref.colnames n).1 :: t.1, t.2), by
        simp only [build_columns, he, if_neg hne, ht]⟩

/-- The numbering loop has no result when an entry has an empty list of
exposed names. -/
theorem build_columns_present (rtable : List RangeTblEntry) (n : Int)
    (t : List (List Int) × Int) (h : build_columns rtable n = .ok t) :
    column_names_present rtable := by
  induction rtable generalizing n t with
  | nil => intro r hr; cases hr
  | cons r rest ih =>
    unfold build_columns at h
    cases he : r.eref with
    | none =>
      rw [he] at h
      simp only at h
      cases hr : build_columns rest n with
      | error e => rw [hr] at h; cases h
      | ok t1 =>
        intro x hx e1 hx1
        rcases List.mem_cons.mp hx with hx2 | hx2
        · subst hx2
          rw [he] at hx1
          cases hx1
        · exact ih n t1 hr x hx2 e1 hx1
    | some eref =>
      rw [he] at h
      simp only at h
      by_cases hemp : eref.colnames.isEmpty = true
      · rw [if_pos hemp] at h; cases h
      rw [if_neg hemp] at h
      cases hr : build_columns rest (build_columns_row r.rtekind eref.colnames n).2 with
      | error e => rw [hr] at h; cases h
      | ok t1 =>
        intro x hx e1 hx1
        rcases List.mem_cons.mp hx with hx2 | hx2
        · subst hx2
          rw [he] at hx1
          simp only [Option.some.injEq] at hx1
          subst hx1
          intro hc
          exact hemp (by rw [hc]; rfl)
        · exact ih _ t1 hr x hx2 e1 hx1

theorem build_columns_fuel (rtable : List RangeTblEntry) (n : Int) :
    build_columns rtable n ≠ .error Err.OutOfFuel := by
  induction rtable generalizing n with
  | nil => intro hc; cases hc
  | cons r rest ih =>
    intro hc
    unfold build_columns at hc
    cases he : r.eref with
    | none =>
      rw [he] at hc
      simp only at hc
      cases hr : build_columns rest n with
      | error e =>
        rw [hr] at hc
        simp only [Except.error.injEq] at hc
        subst hc
        exact ih n hr
      | ok t1 => rw [hr] at hc; cases hc
    | some eref =>
      rw [he] at hc
      simp only at hc
      by_cases hemp : eref.colnames.isEmpty = true
      · rw [if_pos hemp] at hc; cases hc
      rw [if_neg hemp] at hc
      cases hr : build_columns rest (build_columns_row r.rtekind eref.colnames n).2 with
      | error e =>
        rw [hr] at hc
        simp only [Except.error.injEq] at hc
        subst hc
        exact ih _ hr
      | ok t1 => rw [hr] at hc; cases hc

/-- The removal function has a result only on a target list that is not empty. -/
theorem remove_provenance_attributes_select_nonempty (constants : constants_t) (q q1 : Query)
    (refs : Bitmapset) (removed : List Bool)
    (h : remove_provenance_attributes_select constants q = .ok (refs, removed, q1)) :
    q.targetList ≠ [] := by
  intro hc
  unfold remove_provenance_attributes_select at h
  rw [hc] at h
  cases h

/-! ## Lemmas on what the location step keeps -/

theorem fix_type_of_aggregation_result_loop_preserves (P : Query → Prop)
    (hmut : ∀ q context, P q →
      P (query_tree_mutator (aggregation_type_mutator context)
        (fun f => { f with funcexpr := aggregation_type_mutator context f.funcexpr }) q))
    (constants : constants_t) (rteid : Nat) (tl : List Node) (attno : Int) (q q1 : Query)
    (ran : Bool)
    (h : fix_type_of_aggregation_result_loop constants rteid tl attno q = .ok (q1, ran))
    (hq : P q) : P q1 := by
  induction tl generalizing attno q q1 ran with
  | nil =>
    simp only [fix_type_of_aggregation_result_loop, Except.ok.injEq, Prod.mk.injEq] at h
    rw [← h.1]; exact hq
  | cons te rest ih =>
    unfold fix_type_of_aggregation_result_loop at h
    split at h
    · split at h
      · split at h
        · dsimp only at h
          split at h
          · rename_i q2 ran2 hrec
            simp only [Except.ok.injEq, Prod.mk.injEq] at h
            rw [← h.1]
            exact ih _ _ _ _ hrec (hmut _ _ hq)
          · simp at h
        · exact ih _ _ _ _ h hq
      · exact ih _ _ _ _ h hq
    · simp at h

theorem get_provenance_attributes_step_preserves (P : Query → Prop)
    (hrt : ∀ (q : Query) (rt : List RangeTblEntry), P q → P { q with rtable := rt })
    (hmut : ∀ q context, P q →
      P (query_tree_mutator (aggregation_type_mutator context)
        (fun f => { f with funcexpr := aggregation_type_mutator context f.funcexpr }) q))
    (process_query : Query → Except Err (Option Query)) (constants : constants_t) (env : Env)
    (st st1 : gpa_state) (rteid : Nat) (r : RangeTblEntry)
    (h : get_provenance_attributes_step process_query constants env st rteid r = .ok st1)
    (hq : P st.q) : P st1.q := by
  unfold get_provenance_attributes_step at h
  cases hk : r.rtekind <;> simp only [hk] at h
  · cases he : r.eref with
    | none => simp [he] at h
    | some e =>
      simp only [he, Except.ok.injEq] at h
      subst h
      exact hq
  · cases hs : r.subquery with
    | none => simp [hs] at h
    | some sub =>
      simp only [hs] at h
      cases hp : process_query sub with
      | error err => simp [hp] at h
      | ok res =>
        cases res with
        | none =>
          simp only [hp, Except.ok.injEq] at h
          subst h
          exact hq
        | some new_subquery =>
          simp only [hp] at h
          cases he : r.eref with
          | none => simp [he] at h
          | some e =>
            simp only [he] at h
            by_cases hemp : new_subquery.targetList.isEmpty = true
            · rw [if_pos hemp] at h; cases h
            rw [if_neg hemp] at h
            split at h
            · simp at h
            · rename_i q2 ran hfix
              simp only [Except.ok.injEq] at h
              subst h
              exact fix_type_of_aggregation_result_loop_preserves P hmut _ _ _ _ _ _ _ hfix
                (hrt _ _ hq)
  · split at h
    · simp only [Except.ok.injEq] at h
      subst h
      exact hq
    · simp at h
  · cases hf : function_provenance_attributes constants r rteid r.functions 1 with
    | error err => simp [hf] at h
    | ok atts =>
      simp only [hf, Except.ok.injEq] at h
      subst h
      exact hq
  · simp at h
  · simp at h

/-- A property of the query that survives a change of the range table and a
run of `query_tree_mutator` with `aggregation_type_mutator` holds after
`get_provenance_attributes`. -/
theorem get_provenance_attributes_preserves (P : Query → Prop)
    (hrt : ∀ (q : Query) (rt : List RangeTblEntry), P q → P { q with rtable := rt })
    (hmut : ∀ q context, P q →
      P (query_tree_mutator (aggregation_type_mutator context)
        (fun f => { f with funcexpr := aggregation_type_mutator context f.funcexpr }) q))
    (process_query : Query → Except Err (Option Query)) (constants : constants_t) (env : Env)
    (q q1 : Query) (atts : List Node)
    (h : get_provenance_attributes process_query constants env q = .ok (atts, q1))
    (hq : P q) : P q1 := by
  unfold get_provenance_attributes at h
  cases hl : get_provenance_attributes_loop process_query constants env q.rtable 1
      { q := q, prov_atts := [], detached := false } with
  | error err => simp [hl] at h
  | ok st =>
    simp only [hl, Except.ok.injEq, Prod.mk.injEq] at h
    rw [← h.2]
    have key : ∀ (rtable : List RangeTblEntry) (rteid : Nat) (s s1 : gpa_state),
        get_provenance_attributes_loop process_query constants env rtable rteid s = .ok s1 →
        P s.q → P s1.q := by
      intro rtable
      induction rtable with
      | nil =>
        intro rteid s s1 hs hp
        simp only [get_provenance_attributes_loop, Except.ok.injEq] at hs
        rw [← hs]; exact hp
      | cons r rest ih =>
        intro rteid s s1 hs hp
        unfold get_provenance_attributes_loop at hs
        cases hstep : get_provenance_attributes_step process_query constants env s rteid r with
        | error err => simp [hstep] at hs
        | ok s2 =>
          simp only [hstep] at hs
          exact ih _ _ _ hs
            (get_provenance_attributes_step_preserves P hrt hmut _ _ _ _ _ _ _ hstep hp)
    exact key _ _ _ _ hl hq

/-! ## Lemmas on the tree mutators -/

mutual
theorem tree_mutator_eq_self (hook : Node → Option Node) (hit : Node → Bool)
    (hh : ∀ n, hit n = false → hook n = none) :
    ∀ n : Node, tree_walker hit n = false → tree_mutator hook n = n
  | .Var a b c d e, h => by
    have hn : hit (.Var a b c d e) = false := by
      by_contra hc; simp [tree_walker, hc] at h
    simp [tree_mutator, hh _ hn]
  | .Const a b c d e f g, h => by
    have hn : hit (.Const a b c d e f g) = false := by
      by_contra hc; simp [tree_walker, hc] at h
    simp [tree_mutator, hh _ hn]
  | .RelabelType arg a b c d, h => by
    have hn : hit (.RelabelType arg a b c d) = false := by
      by_contra hc; simp [tree_walker, hc] at h
    have hsub : tree_walker hit arg = false := by simpa [tree_walker, hn] using h
    simp [tree_mutator, hh _ hn, tree_mutator_eq_self hook hit hh arg hsub]
  | .FuncExpr a b c args, h => by
    have hn : hit (.FuncExpr a b c args) = false := by
      by_contra hc; simp [tree_walker, hc] at h
    have hsub : tree_walker_list hit args = false := by simpa [tree_walker, hn] using h
    simp [tree_mutator, hh _ hn, tree_mutator_list_eq_self hook hit hh args hsub]
  | .OpExpr a b c d e args, h => by
    have hn : hit (.OpExpr a b c d e args) = false := by
      by_contra hc; simp [tree_walker, hc] at h
    have hsub : tree_walker_list hit args = false := by simpa [tree_walker, hn] using h
    simp [tree_mutator, hh _ hn, tree_mutator_list_eq_self hook hit hh args hsub]
  | .BoolExpr a args, h => by
    have hn : hit (.BoolExpr a args) = false := by
      by_contra hc; simp [tree_walker, hc] at h
    have hsub : tree_walker_list hit args = false := by simpa [tree_walker, hn] using h
    simp [tree_mutator, hh _ hn, tree_mutator_list_eq_self hook hit hh args hsub]
  | .ArrayExpr a b elements, h => by
    have hn : hit (.ArrayExpr a b elements) = false := by
      by_contra hc; simp [tree_walker, hc] at h
    have hsub : tree_walker_list hit elements = false := by simpa [tree_walker, hn] using h
    simp [tree_mutator, hh _ hn, tree_mutator_list_eq_self hook hit hh elements hsub]
  | .Aggref a b c args d e, h => by
    have hn : hit (.Aggref a b c args d e) = false := by
      by_contra hc; simp [tree_walker, hc] at h
    have hsub : tree_walker_list hit args = false := by simpa [tree_walker, hn] using h
    simp [tree_mutator, hh _ hn, tree_mutator_list_eq_self hook hit hh args hsub]
  | .TargetEntry expr a b c, h => by
    have hn : hit (.TargetEntry expr a b c) = false := by
      by_contra hc; simp [tree_walker, hc] at h
    have hsub : tree_walker hit expr = false := by simpa [tree_walker, hn] using h
    simp [tree_mutator, hh _ hn, tree_mutator_eq_self hook hit hh expr hsub]
  | .Other a b children, h => by
    have hn : hit (.Other a b children) = false := by
      by_contra hc; simp [tree_walker, hc] at h
    have hsub : tree_walker_list hit children = false := by simpa [tree_walker, hn] using h
    simp [tree_mutator, hh _ hn, tree_mutator_list_eq_self hook hit hh children hsub]
theorem tree_mutator_list_eq_self (hook : Node → Option Node) (hit : Node → Bool)
    (hh : ∀ n, hit n = false → hook n = none) :
    ∀ l : List Node, tree_walker_list hit l = false → tree_mutator_list hook l = l
  | [], _ => by simp [tree_mutator_list]
  | x :: xs, h => by
    have h2 : tree_walker hit x = false ∧ tree_walker_list hit xs = false := by
      simpa [tree_walker_list] using h
    simp [tree_mutator_list, tree_mutator_eq_self hook hit hh x h2.1,
      tree_mutator_list_eq_self hook hit hh xs h2.2]
end

/-- Without a call of the placeholder function below a node, `provenance_mutator`
returns the node as it is. -/
theorem provenance_mutator_eq_self (context : provenance_mutator_context) (n : Node)
    (h : provenance_function_walker context.constants n = false) :
    provenance_mutator context n = n := by
  unfold provenance_mutator
  apply tree_mutator_eq_self _ (is_provenance_call context.constants) _ n h
  intro m hm
  cases m <;> simp_all [is_provenance_call]

theorem provenance_mutator_attribute (context : provenance_mutator_context)
    (constants : constants_t) (relid : Nat) (attid : Int) :
    provenance_mutator context (make_provenance_attribute constants relid attid)
      = make_provenance_attribute constants relid attid := by
  simp [provenance_mutator, make_provenance_attribute, tree_mutator]

/-- With where-provenance off, `make_provenance_expression` is its first part. -/
theorem make_provenance_expression_without_where (constants : constants_t) (env : Env)
    (q : Query) (prov_atts : List Node) (aggregation : Bool) (group_by_rewrite : Bool)
    (op : semiring_operation) (columns : List (List Int)) (nbcols : Int)
    (hwp : env.provsql_where_provenance = false) :
    make_provenance_expression constants env q prov_atts aggregation group_by_rewrite op
        columns nbcols
      = make_provenance_expression_core constants q prov_atts aggregation group_by_rewrite op := by
  unfold make_provenance_expression
  cases hcore : make_provenance_expression_core constants q prov_atts aggregation
      group_by_rewrite op with
  | error e => rfl
  | ok p =>
    obtain ⟨result0, q1⟩ := p
    cases hj : q1.jointree <;> simp [hwp, hj]

theorem provenance_mutator_target_entry (context : provenance_mutator_context) (e : Node)
    (resno : Int) (resname : Option String) (ref : Nat) :
    provenance_mutator context (.TargetEntry e resno resname ref)
      = .TargetEntry (provenance_mutator context e) resno resname ref := by
  simp [provenance_mutator, tree_mutator]

theorem provenance_mutator_attributes (context : provenance_mutator_context)
    (constants : constants_t) (atts : List Node)
    (h : ∀ a ∈ atts, ∃ i j, a = make_provenance_attribute constants i j) :
    tree_mutator_list (fun n =>
        match n with
        | .FuncExpr funcid _ _ _ =>
          if funcid = context.constants.OID_FUNCTION_PROVENANCE then some context.provsql
          else none
        | _ => none) atts = atts := by
  induction atts with
  | nil => simp [tree_mutator_list]
  | cons a rest ih =>
    obtain ⟨i, j, ha⟩ := h a (List.mem_cons_self _ _)
    have h1 := provenance_mutator_attribute context constants i j
    unfold provenance_mutator at h1
    rw [← ha] at h1
    simp only [tree_mutator_list, h1, ih (fun x hx => h x (List.mem_cons_of_mem _ hx))]

/-- The placeholder substitution leaves the times-gate over located attributes as it is. -/
theorem provenance_mutator_times_gate (constants : constants_t) (atts : List Node)
    (h : ∀ a ∈ atts, ∃ i j, a = make_provenance_attribute constants i j) :
    provenance_mutator { provsql := times_gate constants atts, constants := constants }
        (times_gate constants atts) = times_gate constants atts := by
  have hl := provenance_mutator_attributes
    { provsql := times_gate constants atts, constants := constants } constants atts h
  by_cases hp : constants.OID_FUNCTION_PROVENANCE_TIMES = constants.OID_FUNCTION_PROVENANCE
  · simp [provenance_mutator, times_gate, tree_mutator, hp]
  · simp only [provenance_mutator, times_gate, tree_mutator, if_neg hp, tree_mutator_list]
    simp only [times_gate] at hl
    rw [hl]

/-- The removal step on a plain query: only the target list (and the ORDER BY list) change. -/
theorem process_query_remove_plain (constants : constants_t) (q : Query)
    (refs : Bitmapset) (removed : List Bool) (q1 : Query)
    (hplain : plain_query q)
    (hrm : remove_provenance_attributes_select constants q = .ok (refs, removed, q1)) :
    ∃ q2, process_query_remove constants q = .ok q2 ∧ q2.targetList = q1.targetList ∧
      plain_query q2 ∧ q2.jointree = q.jointree ∧ q2.rtable = q.rtable := by
  obtain ⟨hagg, hgrp, hdist, hgs, hset, hsub⟩ := hplain
  obtain ⟨kept, hq1⟩ : ∃ kept, q1 = { q with targetList := kept } := by
    unfold remove_provenance_attributes_select at hrm
    by_cases hemp : q.targetList.isEmpty = true
    · simp [hemp] at hrm
    rw [if_neg hemp] at hrm
    cases hl : remove_provenance_attributes_select_loop constants q q.targetList 0 [] with
    | error err => rw [hl] at hrm; simp at hrm
    | ok t =>
      obtain ⟨kept, rm, rf⟩ := t
      rw [hl] at hrm
      simp only [Except.ok.injEq, Prod.mk.injEq] at hrm
      exact ⟨kept, hrm.2.2.symm⟩
  unfold process_query_remove
  rw [hrm]
  subst hq1
  by_cases hr : refs = []
  · simp [hr, hset, plain_query, hagg, hgrp, hdist, hgs, hsub]
  · simp [hr, hset, remove_provenance_attribute_groupref, hgrp, hdist, remove_groupref_loop,
      plain_query, hagg, hgs, hsub]

/-- The rewrite of a plain query under the conjunction operation, with
where-provenance off: the provenance expression `prov` built from the
attributes is appended to the target list left by the removal step, in which
the placeholder calls are replaced. -/
theorem process_query_rewrite_plain (constants : constants_t) (env : Env) (q : Query)
    (atts : List Node) (refs : Bitmapset) (removed : List Bool) (q1 : Query) (prov : Node)
    (hwp : env.provsql_where_provenance = false) (hplain : plain_query q)
    (hrm : remove_provenance_attributes_select constants q = .ok (refs, removed, q1))
    (hcomb : combine_prov_atts constants atts semiring_operation.SR_TIMES = .ok prov)
    (hfix : provenance_mutator { provsql := prov, constants := constants } prov = prov)
    (hcols : column_names_present q.rtable) :
    ∃ q3, process_query_rewrite constants env q atts = .ok q3 ∧
      q3.targetList
        = q1.targetList.map (provenance_mutator { provsql := prov, constants := constants })
          ++ [.TargetEntry prov ((q1.targetList.length : Int) + 1)
                (some PROVSQL_COLUMN_NAME) 0] := by
  obtain ⟨q2, hq2, htl, ⟨hagg, hgrp, hdist, hgs, hset, hsub⟩, _, hrt2⟩ :=
    process_query_remove_plain constants q refs removed q1 hplain hrm
  have hd : process_query_distinct q2 = .ok q2 := by
    simp [process_query_distinct, hsub, hdist]
  have hs : process_query_setops constants env q2 = .ok (q2, false, false) := by
    unfold process_query_setops
    rw [hset]
  have hg : process_query_group_by_rewrite constants q2 = .ok false := by
    unfold process_query_group_by_rewrite
    rw [hgs]
    simp [hgrp]
  obtain ⟨t, ht⟩ := build_columns_returns q2.rtable 0 (by rw [hrt2]; exact hcols)
  have hb : process_query_build constants env q2 atts false false false
      = .ok (replace_provenance_function_by_expression constants (add_to_select q2 prov) prov) := by
    unfold process_query_build
    simp [ht, hagg, make_provenance_expression_without_where _ _ _ _ _ _ _ _ _ hwp,
      make_provenance_expression_core, driver_operation, hcomb]
  refine ⟨replace_provenance_function_by_expression constants (add_to_select q2 prov) prov,
    ?_, ?_⟩
  · simp only [process_query_rewrite, hq2, hd, hs, hg, hb]
  · simp [add_to_select, replace_provenance_function_by_expression, query_tree_mutator,
      provenance_mutator_target_entry, hfix, htl]

theorem plain_query_located (process_query : Query → Except Err (Option Query))
    (constants : constants_t) (env : Env) (q q1 : Query) (atts : List Node)
    (h : get_provenance_attributes process_query constants env q = .ok (atts, q1))
    (hq : plain_query q) : plain_query q1 := by
  refine get_provenance_attributes_preserves plain_query ?_ ?_ _ _ _ _ _ _ h hq
  · intro q rt hp
    exact hp
  · intro q context hp
    obtain ⟨h1, h2, h3, h4, h5, h6⟩ := hp
    exact ⟨h1, h2, h3, h4, by simp [query_tree_mutator, h5], h6⟩

/-! ## Lemmas on the rewriting of aggregates -/

theorem tree_mutatorM_list_get (hook : Node → Option (Except Err Node)) (l l1 : List Node)
    (h : tree_mutatorM_list hook l = .ok l1) (i : Nat) (x : Node) (hx : l.get? i = some x) :
    ∃ x1, l1.get? i = some x1 ∧ tree_mutatorM hook x = .ok x1 := by
  induction l generalizing l1 i with
  | nil => simp at hx
  | cons y ys ih =>
    unfold tree_mutatorM_list at h
    cases hy : tree_mutatorM hook y with
    | error e => simp [hy] at h
    | ok y1 =>
      simp only [hy] at h
      cases hys : tree_mutatorM_list hook ys with
      | error e => simp [hys] at h
      | ok ys1 =>
        simp only [hys, Except.ok.injEq] at h
        subst h
        cases i with
        | zero =>
          simp only [List.get?_cons_zero, Option.some.injEq] at hx
          subst hx
          exact ⟨y1, by simp, hy⟩
        | succ i0 =>
          simp only [List.get?_cons_succ] at hx
          obtain ⟨x1, h1, h2⟩ := ih ys1 hys i0 hx
          exact ⟨x1, by simpa using h1, h2⟩

/-- On a node that the hook passes, the mutator rebuilds the node from its mutated children. -/
theorem tree_mutatorM_children (hook : Node → Option (Except Err Node)) (n n1 : Node)
    (hn : hook n = none) (h : tree_mutatorM hook n = .ok n1) :
    tree_mutatorM_list hook n.children = .ok n1.children ∧
      (∀ a b c d e f, n1 = Node.Aggref a b c d e f → ∃ a b c d e f, n = Node.Aggref a b c d e f) := by
  cases n <;> simp only [tree_mutatorM, hooked, hn] at h
  case Var => cases h; simp [Node.children, tree_mutatorM_list]
  case Const => cases h; simp [Node.children, tree_mutatorM_list]
  case RelabelType arg a b c d =>
    cases ha : tree_mutatorM hook arg with
    | error e => simp [ha] at h
    | ok arg1 =>
      simp only [ha, Except.ok.injEq] at h
      subst h
      simp [Node.children, tree_mutatorM_list, ha]
  case FuncExpr a b c args =>
    cases ha : tree_mutatorM_list hook args with
    | error e => simp [ha] at h
    | ok args1 =>
      simp only [ha, Except.ok.injEq] at h
      subst h
      simp [Node.children, ha]
  case OpExpr a b c d e args =>
    cases ha : tree_mutatorM_list hook args with
    | error e => simp [ha] at h
    | ok args1 =>
      simp only [ha, Except.ok.injEq] at h
      subst h
      simp [Node.children, ha]
  case BoolExpr a args =>
    cases ha : tree_mutatorM_list hook args with
    | error e => simp [ha] at h
    | ok args1 =>
      simp only [ha, Except.ok.injEq] at h
      subst h
      simp [Node.children, ha]
  case ArrayExpr a b args =>
    cases ha : tree_mutatorM_list hook args with
    | error e => simp [ha] at h
    | ok args1 =>
      simp only [ha, Except.ok.injEq] at h
      subst h
      simp [Node.children, ha]
  case Aggref a b c args d e =>
    cases ha : tree_mutatorM_list hook args with
    | error e => simp [ha] at h
    | ok args1 =>
      simp only [ha, Except.ok.injEq] at h
      subst h
      simp [Node.children, ha]
  case TargetEntry expr a b c =>
    cases ha : tree_mutatorM hook expr with
    | error e => simp [ha] at h
    | ok arg1 =>
      simp only [ha, Except.ok.injEq] at h
      subst h
      simp [Node.children, tree_mutatorM_list, ha]
  case Other a b args =>
    cases ha : tree_mutatorM_list hook args with
    | error e => simp [ha] at h
    | ok args1 =>
      simp only [ha, Except.ok.injEq] at h
      subst h
      simp [Node.children, ha]

/-- An aggregate call reached without entering another aggregate call is
replaced by what the hook returns for it. -/
theorem aggregation_mutator_occurrence (context : aggregation_mutator_context)
    (agg gate : Node)
    (hgate : aggregation_mutator context agg = .ok gate) :
    ∀ (path : List Nat) (n n1 : Node), aggregation_mutator context n = .ok n1 →
      subterm_outside_aggregates n path = some agg →
      subterm_outside_aggregates n1 path = some gate := by
  intro path
  induction path with
  | nil =>
    intro n n1 h hs
    simp only [subterm_outside_aggregates, Option.some.injEq] at hs
    subst hs
    rw [hgate] at h
    cases h
    rfl
  | cons i rest ih =>
    intro n n1 h hs
    have hnot : ∀ a b c d e f, n ≠ Node.Aggref a b c d e f := by
      intro a b c d e f hc
      subst hc
      simp [subterm_outside_aggregates] at hs
    have hhook : (fun m : Node =>
        match m with
        | .Aggref _ _ _ _ _ _ =>
          some (make_aggregation_expression context.constants m context.prov_atts context.op)
        | _ => none) n = none := by
      cases n
      case Aggref a b c d e f => exact absurd rfl (hnot a b c d e f)
      all_goals rfl
    obtain ⟨hch, hagg⟩ := tree_mutatorM_children _ n n1 hhook h
    have hs1 : ∃ child, n.children.get? i = some child ∧
        subterm_outside_aggregates child rest = some agg := by
      cases n <;> simp only [subterm_outside_aggregates] at hs <;>
        first
          | (exfalso; exact hnot _ _ _ _ _ _ rfl)
          | (split at hs
             · simp at hs
             · rename_i child hc
               exact ⟨child, hc, hs⟩)
    obtain ⟨child, hc, hrest⟩ := hs1
    obtain ⟨child1, hc1, hm⟩ := tree_mutatorM_list_get _ _ _ hch i child hc
    have := ih child child1 hm hrest
    have hnot1 : ∀ a b c d e f, n1 ≠ Node.Aggref a b c d e f := by
      intro a b c d e f hc2
      obtain ⟨a1, b1, c1, d1, e1, f1, hn⟩ := hagg a b c d e f hc2
      exact hnot _ _ _ _ _ _ hn
    cases n1 <;> simp only [subterm_outside_aggregates, hc1, this]
    exact absurd rfl (hnot1 _ _ _ _ _ _)


theorem combine_prov_atts_eq (constants : constants_t) (atts : List Node)
    (op : semiring_operation) (hatts : atts ≠ []) :
    combine_prov_atts constants atts op = .ok (per_row_expression constants atts op) := by
  match atts, hatts with
  | [a], _ => rfl
  | a :: b :: rest, _ =>
    by_cases hop : op = semiring_operation.SR_TIMES
    · simp [combine_prov_atts, per_row_expression, hop, times_gate]
    · simp [combine_prov_atts, per_row_expression, hop]

theorem mapE_get {α β : Type} (f : α → Except Err β) (l : List α) (l1 : List β)
    (h : mapE f l = .ok l1) (i : Nat) (x : α) (hx : l.get? i = some x) :
    ∃ x1, l1.get? i = some x1 ∧ f x = .ok x1 := by
  induction l generalizing l1 i with
  | nil => simp at hx
  | cons y ys ih =>
    unfold mapE at h
    cases hy : f y with
    | error e => simp [hy] at h
    | ok y1 =>
      simp only [hy] at h
      cases hys : mapE f ys with
      | error e => simp [hys] at h
      | ok ys1 =>
        simp only [hys, Except.ok.injEq] at h
        subst h
        cases i with
        | zero =>
          simp only [List.get?_cons_zero, Option.some.injEq] at hx
          subst hx
          exact ⟨y1, by simp, hy⟩
        | succ i0 =>
          simp only [List.get?_cons_succ] at hx
          obtain ⟨x1, h1, h2⟩ := ih ys1 hys i0 hx
          exact ⟨x1, by simpa using h1, h2⟩

theorem query_tree_mutatorM_fields (m : Node → Except Err Node) (q q1 : Query)
    (h : query_tree_mutatorM m q = .ok q1) :
    mapE m q.targetList = .ok q1.targetList ∧
      (∀ hq, q.havingQual = some hq → ∃ hq1, q1.havingQual = some hq1 ∧ m hq = .ok hq1) := by
  unfold query_tree_mutatorM at h
  cases htl : mapE m q.targetList with
  | error e => simp [htl] at h
  | ok tl =>
    simp only [htl] at h
    cases hjt : mapOptionE (FromExpr.mutateM m) q.jointree with
    | error e => simp [hjt] at h
    | ok jt =>
      simp only [hjt] at h
      cases hso : mapOptionE (TNode.mutateM m) q.setOperations with
      | error e => simp [hso] at h
      | ok so =>
        simp only [hso] at h
        cases hhv : mapOptionE m q.havingQual with
        | error e => simp [hhv] at h
        | ok hv =>
          simp only [hhv] at h
          cases hrt : range_table_mutatorM m q.rtable with
          | error e => simp [hrt] at h
          | ok rt =>
            simp only [hrt, Except.ok.injEq] at h
            subst h
            refine ⟨rfl, ?_⟩
            intro hq hhq
            rw [hhq] at hhv
            unfold mapOptionE at hhv
            cases hm : m hq with
            | error e => simp [hm] at hhv
            | ok hq1 =>
              simp only [hm, Except.ok.injEq] at hhv
              exact ⟨hq1, hhv.symm, rfl⟩


theorem aggregation_mutator_aggref (context : aggregation_mutator_context) (f t : Oid)
    (ats : List Oid) (args : List Node) (ad : List SortGroupClause) (k : Char) :
    aggregation_mutator context (.Aggref f t ats args ad k)
      = make_aggregation_expression context.constants (.Aggref f t ats args ad k)
          context.prov_atts context.op := by
  simp [aggregation_mutator, tree_mutatorM, hooked]

/-! ## Lemmas on set operations -/

theorem transform_except_loop_eq (constants : constants_t) (env : Env) (lindex rindex : Nat) :
    ∀ (tl : List Node) (k : Nat), (∀ te ∈ tl, is_var_entry te) →
      transform_except_loop constants env lindex rindex tl (k : Int)
        = .ok (except_equality_tests constants env lindex rindex k tl) := by
  intro tl
  induction tl with
  | nil => intro k _; rfl
  | cons te rest ih =>
    intro k hv
    have hte := hv te (List.mem_cons_self _ _)
    have hrest := ih (k + 1) (fun x hx => hv x (List.mem_cons_of_mem _ hx))
    have hcast : ((k + 1 : Nat) : Int) = (k : Int) + 1 := by push_cast; rfl
    rw [hcast] at hrest
    match te, hte with
    | .TargetEntry (.Var vn va vt vm vc) resno name ref, _ =>
      by_cases hty : vt = constants.OID_TYPE_UUID
      · simp [transform_except_loop, hrest, except_equality_tests, List.enumFrom, hty]
      · simp [transform_except_loop, hrest, except_equality_tests, List.enumFrom, hty,
          except_equality_test]

/-- The result of `transform_except_into_join` on an EXCEPT over two plain
relation references whose target entries are column references. -/
theorem transform_except_into_join_eq (constants : constants_t) (env : Env) (q : Query)
    (op : SetOperation) (all : Bool) (lindex rindex : Nat) (ct : List Oid) (cm : List Int)
    (cc : List Oid)
    (hset : q.setOperations
      = some (.SetOperationStmt op all (.RangeTblRef lindex) (.RangeTblRef rindex) ct cm cc))
    (hvars : ∀ te ∈ q.targetList, is_var_entry te) :
    transform_except_into_join constants env q
      = .ok { q with
              rtable := q.rtable ++
                [{ RangeTblEntry.zero with
                   rtekind := RTEKind.RTE_JOIN, jointype := JoinType.JOIN_LEFT }],
              jointree := some
                { fromlist :=
                    [.JoinExpr JoinType.JOIN_FULL (.RangeTblRef lindex) (.RangeTblRef rindex)
                      (some (.BoolExpr BoolExprType.AND_EXPR
                        (except_equality_tests constants env lindex rindex 1 q.targetList)))
                      (q.rtable.length + 1)],
                  quals := none },
              setOperations := none } := by
  have hloop := transform_except_loop_eq constants env lindex rindex q.targetList 1 hvars
  simp only [Nat.cast_one] at hloop
  unfold transform_except_into_join
  rw [hset]
  simp [hloop]

/-! ## Lemmas on the rewriting of EXCEPT -/

theorem make_provenance_attribute_inj (constants : constants_t) (i i1 : Nat) (j j1 : Int)
    (h : make_provenance_attribute constants i j = make_provenance_attribute constants i1 j1) :
    i = i1 ∧ j = j1 := by
  simp [make_provenance_attribute] at h
  exact h

theorem relation_provenance_attributes_mem (constants : constants_t) (env : Env) (relid : Oid)
    (rteid : Nat) (names : List String) (start : Int) (j : Int) :
    make_provenance_attribute constants rteid j
        ∈ relation_provenance_attributes constants env relid rteid names start ↔
      ∃ k : Nat, j = start + (k : Int) ∧ names.get? k = some PROVSQL_COLUMN_NAME ∧
        env.get_atttype relid j = constants.OID_TYPE_UUID := by
  induction names generalizing start with
  | nil => simp [relation_provenance_attributes]
  | cons v rest ih =>
    have hrest := ih (start + 1)
    unfold relation_provenance_attributes
    constructor
    · intro h
      split at h
      · rename_i hc
        rcases List.mem_cons.mp h with h1 | h1
        · have := (make_provenance_attribute_inj _ _ _ _ _ h1).2
          subst this
          exact ⟨0, by simp, by simp [hc.1], hc.2⟩
        · obtain ⟨k, hk1, hk2, hk3⟩ := hrest.mp h1
          exact ⟨k + 1, by rw [hk1]; push_cast; ring, by simpa using hk2, hk3⟩
      · obtain ⟨k, hk1, hk2, hk3⟩ := hrest.mp h
        exact ⟨k + 1, by rw [hk1]; push_cast; ring, by simpa using hk2, hk3⟩
    · rintro ⟨k, hk1, hk2, hk3⟩
      cases k with
      | zero =>
        have hv : v = PROVSQL_COLUMN_NAME := by simpa using hk2
        have hj : j = start := by simpa using hk1
        subst hj
        rw [if_pos ⟨hv, hk3⟩]
        exact List.mem_cons_self _ _
      | succ k0 =>
        have hin : make_provenance_attribute constants rteid j
            ∈ relation_provenance_attributes constants env relid rteid rest (start + 1) :=
          hrest.mpr ⟨k0, by rw [hk1]; push_cast; ring, by simpa using hk2, hk3⟩
        split
        · exact List.mem_cons_of_mem _ hin
        · exact hin

theorem relation_provenance_attributes_length (constants : constants_t) (env : Env)
    (relid : Oid) (rteid : Nat) (names : List String)
    (h : ∀ k k1 : Nat,
      names.get? k = some PROVSQL_COLUMN_NAME →
      env.get_atttype relid ((k : Int) + 1) = constants.OID_TYPE_UUID →
      names.get? k1 = some PROVSQL_COLUMN_NAME →
      env.get_atttype relid ((k1 : Int) + 1) = constants.OID_TYPE_UUID → k = k1) :
    (relation_provenance_attributes constants env relid rteid names 1).length ≤ 1 := by
  by_cases hex : ∃ k : Nat, names.get? k = some PROVSQL_COLUMN_NAME ∧
      env.get_atttype relid ((k : Int) + 1) = constants.OID_TYPE_UUID
  · obtain ⟨k, hk1, hk2⟩ := hex
    rw [relation_provenance_attributes_single constants env relid rteid names 1 k hk1
      (by rw [add_comm]; exact hk2)
      (fun j hj hty => h j k hj (by rw [add_comm]; exact hty) hk1 hk2)]
    simp
  · rw [relation_provenance_attributes_nil constants env relid rteid names 1
      (fun k hk hty => hex ⟨k, hk, by rw [add_comm]; exact hty⟩)]
    simp

/-- The attribute list as the concatenation of the contributions of the entries. -/
theorem contributions_ok_flatten (constants : constants_t) (env : Env) :
    ∀ (contribs : List (List Node)) (start : Nat) (rtable : List RangeTblEntry),
      contributions_ok constants env start rtable contribs →
      (∀ a ∈ contribs.flatten, ∃ i j, a = make_provenance_attribute constants i j ∧
        start ≤ i ∧ i < start + rtable.length) ∧
      List.Pairwise (fun a b => attribute_relid a ≤ attribute_relid b) contribs.flatten ∧
      (∀ (i : Nat) (r : RangeTblEntry), rtable.get? i = some r →
        ∃ cb, entry_contribution constants env (start + i) r cb ∧
          contribs.flatten.filter (fun a => decide (attribute_relid a = start + i)) = cb) := by
  intro contribs
  induction contribs with
  | nil =>
    intro start rtable hok
    cases rtable with
    | nil =>
      refine ⟨by intro a ha; simp at ha, by simp, ?_⟩
      intro i r hr
      simp at hr
    | cons r rs => simp [contributions_ok] at hok
  | cons cb cbs ih =>
    intro start rtable hok
    cases rtable with
    | nil => simp [contributions_ok] at hok
    | cons r0 rs =>
      obtain ⟨hcb, hrest⟩ := hok
      obtain ⟨ih1, ih2, ih3⟩ := ih (start + 1) rs hrest
      have hcbid : ∀ a ∈ cb, attribute_relid a = start := by
        intro a ha
        obtain ⟨j, hj⟩ := hcb.1 a ha
        rw [hj]
        rfl
      have hrestid : ∀ a ∈ cbs.flatten, start + 1 ≤ attribute_relid a := by
        intro a ha
        obtain ⟨i, j, hj, h1, _⟩ := ih1 a ha
        rw [hj]
        exact h1
      refine ⟨?_, ?_, ?_⟩
      · intro a ha
        simp only [List.flatten_cons, List.mem_append] at ha
        rcases ha with ha | ha
        · obtain ⟨j, hj⟩ := hcb.1 a ha
          exact ⟨start, j, hj, le_refl _, by simp⟩
        · obtain ⟨i, j, hj, h1, h2⟩ := ih1 a ha
          exact ⟨i, j, hj, by omega, by simp only [List.length_cons]; omega⟩
      · simp only [List.flatten_cons]
        rw [List.pairwise_append]
        refine ⟨?_, ih2, ?_⟩
        · rw [List.pairwise_iff_forall_sublist]
          intro a b hab
          have ha := hcbid a (hab.subset (by simp))
          have hb := hcbid b (hab.subset (by simp))
          omega
        · intro a ha b hb
          have h1 := hcbid a ha
          have h2 := hrestid b hb
          omega
      · intro i r hr
        cases i with
        | zero =>
          simp only [List.get?_cons_zero, Option.some.injEq] at hr
          subst hr
          refine ⟨cb, hcb, ?_⟩
          simp only [List.flatten_cons, List.filter_append, Nat.add_zero]
          have h1 : cb.filter (fun a => decide (attribute_relid a = start)) = cb := by
            rw [List.filter_eq_self]
            intro a ha
            simp [hcbid a ha]
          have h2 : cbs.flatten.filter (fun a => decide (attribute_relid a = start)) = [] := by
            rw [List.filter_eq_nil_iff]
            intro a ha
            have := hrestid a ha
            simp
            omega
          rw [h1, h2, List.append_nil]
        | succ i0 =>
          simp only [List.get?_cons_succ] at hr
          obtain ⟨cb1, hc1, hc2⟩ := ih3 i0 r hr
          have e : start + (i0 + 1) = start + 1 + i0 := by omega
          refine ⟨cb1, by rw [e]; exact hc1, ?_⟩
          simp only [List.flatten_cons, List.filter_append]
          have h1 : cb.filter (fun a => decide (attribute_relid a = start + (i0 + 1))) = [] := by
            rw [List.filter_eq_nil_iff]
            intro a ha
            have := hcbid a ha
            simp
            omega
          rw [h1, List.nil_append, e]
          exact hc2


/-! ## Lemmas on the removal step -/

/-- The entries that the removal loop keeps are the entries that are not
provenance columns, in order, with their expressions, names and references. -/
theorem remove_provenance_attributes_select_loop_content (constants : constants_t) (q : Query) :
    ∀ (tl : List Node) (nb : Int) (refs : Bitmapset) (kept : List Node) (removed : List Bool)
      (out : Bitmapset),
      remove_provenance_attributes_select_loop constants q tl nb refs = .ok (kept, removed, out) →
      kept.map entry_content
        = (tl.filter (fun te => !is_provenance_entry constants q te)).map entry_content := by
  intro tl
  induction tl with
  | nil =>
    intro nb refs kept removed out h
    simp only [remove_provenance_attributes_select_loop, Except.ok.injEq, Prod.mk.injEq] at h
    rw [← h.1]
    rfl
  | cons te rest ih =>
    intro nb refs kept removed out h
    unfold remove_provenance_attributes_select_loop at h
    split at h
    · rename_i expr resno resname ref
      cases ht : is_provenance_target constants q expr resname with
      | error e => simp [ht] at h
      | ok b =>
        cases b
        · simp only [ht] at h
          split at h
          · simp at h
          · rename_i kept1 removed1 out1 hrec
            simp only [Except.ok.injEq, Prod.mk.injEq] at h
            rw [← h.1]
            have := ih _ _ _ _ _ hrec
            simp [is_provenance_entry, ht, entry_content, this]
        · simp only [ht] at h
          split at h
          · simp at h
          · rename_i kept1 removed1 out1 hrec
            simp only [Except.ok.injEq, Prod.mk.injEq] at h
            rw [← h.1]
            have := ih _ _ _ _ _ hrec
            simp [is_provenance_entry, ht, this]
    · simp at h

/-- The target list left by the removal step holds the entries of the input
that are not provenance columns, in order. -/
theorem remove_provenance_attributes_select_content (constants : constants_t) (q q1 : Query)
    (refs : Bitmapset) (removed : List Bool)
    (h : remove_provenance_attributes_select constants q = .ok (refs, removed, q1)) :
    q1.targetList.map entry_content
      = (q.targetList.filter (fun te => !is_provenance_entry constants q te)).map
          entry_content := by
  unfold remove_provenance_attributes_select at h
  by_cases hemp : q.targetList.isEmpty = true
  · simp [hemp] at h
  rw [if_neg hemp] at h
  cases hl : remove_provenance_attributes_select_loop constants q q.targetList 0 [] with
  | error err => rw [hl] at h; simp at h
  | ok t =>
    obtain ⟨kept, rm, rf⟩ := t
    rw [hl] at h
    simp only [Except.ok.injEq, Prod.mk.injEq] at h
    rw [← h.2.2]
    exact remove_provenance_attributes_select_loop_content constants q _ _ _ _ _ _ hl

/-! ## Lemmas on the removal loops -/

theorem remove_groupref_loop_eq_filter (S : Bitmapset) (l : List SortGroupClause) :
    remove_groupref_loop S l = groupref_filter_spec S l := by
  induction l with
  | nil => rfl
  | cons sgc rest ih =>
    unfold remove_groupref_loop
    by_cases h : sgc.tleSortGroupRef ∈ S
    · simp [bms_is_member, h, ih, groupref_filter_spec]
    · simp [bms_is_member, h, ih, groupref_filter_spec]

/-- The test of the removal step has a result on a target entry whose name
can be found. -/
theorem is_provenance_target_total (constants : constants_t) (q : Query) (expr : Node)
    (resno : Int) (resname : Option String) (ref : Nat)
    (h : resolvable_target constants q (.TargetEntry expr resno resname ref)) :
    ∃ b, is_provenance_target constants q expr resname = .ok b := by
  cases expr with
  | Var varno varattno vartype typmod coll =>
    cases resname with
    | some name =>
      by_cases ht : vartype = constants.OID_TYPE_UUID
      · exact ⟨_, by simp [is_provenance_target, ht]; rfl⟩
      · exact ⟨false, by simp [is_provenance_target, ht]⟩
    | none =>
      by_cases ht : vartype = constants.OID_TYPE_UUID
      · obtain ⟨r, e, name, h1, h2, h3⟩ := h ht
        exact ⟨_, by simp [is_provenance_target, ht, h1, h2, h3]; rfl⟩
      · exact ⟨false, by simp [is_provenance_target, ht]⟩
  | _ => exact ⟨false, rfl⟩

theorem remove_provenance_attributes_select_loop_total (constants : constants_t) (q : Query) :
    ∀ (tl : List Node) (nb : Int) (refs : Bitmapset),
      (∀ te ∈ tl, resolvable_target constants q te) →
      ∃ kept removed out,
        remove_provenance_attributes_select_loop constants q tl nb refs
          = .ok (kept, removed, out) := by
  intro tl
  induction tl with
  | nil => intro nb refs _; exact ⟨[], [], refs, rfl⟩
  | cons te rest ih =>
    intro nb refs h
    have hte := h te (List.mem_cons_self _ _)
    have hrest : ∀ x ∈ rest, resolvable_target constants q x :=
      fun x hx => h x (List.mem_cons_of_mem _ hx)
    cases te with
    | TargetEntry expr resno resname ref =>
      obtain ⟨b, hb⟩ := is_provenance_target_total constants q expr resno resname ref hte
      cases b with
      | true =>
        obtain ⟨k, r, o, hk⟩ := ih (nb + 1)
          (if 0 < ref then bms_add_member refs ref else refs) hrest
        exact ⟨k, true :: r, o, by simp [remove_provenance_attributes_select_loop, hb, hk]⟩
      | false =>
        obtain ⟨k, r, o, hk⟩ := ih nb refs hrest
        exact ⟨.TargetEntry expr (resno - nb) resname ref :: k, false :: r, o,
          by simp [remove_provenance_attributes_select_loop, hb, hk]⟩
    | _ => exact absurd hte (by simp [resolvable_target])

/-- The scan of a range table of base relations: the query is not changed, and
the attributes found are those of the qualifying columns. -/
theorem get_provenance_attributes_loop_relations
    (process_query : Query → Except Err (Option Query)) (constants : constants_t) (env : Env) :
    ∀ (rtable : List RangeTblEntry) (rteid : Nat) (st : gpa_state),
      (∀ r ∈ rtable, r.rtekind = RTEKind.RTE_RELATION ∧ ∃ e, r.eref = some e) →
      ∃ atts,
        get_provenance_attributes_loop process_query constants env rtable rteid st
          = .ok { st with prov_atts := st.prov_atts ++ atts } ∧
        ∀ (i : Nat) (j : Int), make_provenance_attribute constants i j ∈ atts ↔
          ∃ (n k : Nat) (r : RangeTblEntry) (e : Alias),
            i = rteid + n ∧ rtable.get? n = some r ∧ r.eref = some e ∧ j = 1 + (k : Int) ∧
            e.colnames.get? k = some PROVSQL_COLUMN_NAME ∧
            env.get_atttype r.relid j = constants.OID_TYPE_UUID := by
  intro rtable
  induction rtable with
  | nil =>
    intro rteid st _
    refine ⟨[], by simp [get_provenance_attributes_loop], ?_⟩
    intro i j
    simp
  | cons r rest ih =>
    intro rteid st h
    obtain ⟨hk, e, he⟩ := h r (List.mem_cons_self _ _)
    obtain ⟨atts, hl, hm⟩ := ih (rteid + 1)
      { st with prov_atts := st.prov_atts ++
          relation_provenance_attributes constants env r.relid rteid e.colnames 1 }
      (fun x hx => h x (List.mem_cons_of_mem _ hx))
    refine ⟨relation_provenance_attributes constants env r.relid rteid e.colnames 1 ++ atts,
      ?_, ?_⟩
    · simp only [get_provenance_attributes_loop, get_provenance_attributes_step, hk, he, hl,
        List.append_assoc]
    · intro i j
      rw [List.mem_append, hm i j]
      constructor
      · rintro (h1 | ⟨n, k, r1, e1, h1, h2, h3, h4, h5, h6⟩)
        · obtain ⟨j1, hj1⟩ := relation_provenance_attributes_shape _ _ _ _ _ _ _ h1
          obtain ⟨hi, _⟩ := make_provenance_attribute_inj _ _ _ _ _ hj1
          subst hi
          obtain ⟨k, hk1, hk2, hk3⟩ :=
            (relation_provenance_attributes_mem constants env r.relid i e.colnames 1 j).mp h1
          exact ⟨0, k, r, e, rfl, rfl, he, hk1, hk2, hk3⟩
        · exact ⟨n + 1, k, r1, e1, by omega, by simpa using h2, h3, h4, h5, h6⟩
      · rintro ⟨n, k, r1, e1, h1, h2, h3, h4, h5, h6⟩
        cases n with
        | zero =>
          simp only [List.get?_cons_zero, Option.some.injEq] at h2
          subst h2
          rw [he] at h3
          simp only [Option.some.injEq] at h3
          subst h3
          simp only [Nat.add_zero] at h1
          subst h1
          exact Or.inl ((relation_provenance_attributes_mem constants env r.relid i e.colnames
            1 j).mpr ⟨k, h4, h5, h6⟩)
        | succ n0 =>
          exact Or.inr ⟨n0, k, r1, e1, by omega, by simpa using h2, h3, h4, h5, h6⟩

/-- Whether the removal step takes an entry for a provenance column depends
on its expression and its name only. -/
theorem is_provenance_entry_content (constants : constants_t) (q : Query) (te te1 : Node)
    (h : entry_content te = entry_content te1) :
    is_provenance_entry constants q te = is_provenance_entry constants q te1 := by
  cases te <;> cases te1 <;> simp_all [entry_content, is_provenance_entry]

/-! ## Lemmas on the failures of the location step -/

/-- The loop over the functions of a function entry fails exactly when one of
them has an output column count other than 1, and then with an
unsupported-construct error. -/
theorem function_provenance_attributes_error (constants : constants_t) (r : RangeTblEntry)
    (rteid : Nat) :
    ∀ (fs : List RangeTblFunction) (attid : Int),
      (∀ f ∈ fs, ∃ a b c d, f.funcexpr = Node.FuncExpr a b c d) →
      (∀ k : Nat, k < fs.length → ∃ name, get_rte_attribute_name r (attid + (k : Int)) = .ok name) →
      ((∃ e, function_provenance_attributes constants r rteid fs attid = .error e) ↔
        ∃ f ∈ fs, f.funccolcount ≠ 1) ∧
      (∀ e, function_provenance_attributes constants r rteid fs attid = .error e →
        ∃ msg, e = Err.UnsupportedConstruct msg) := by
  intro fs
  induction fs with
  | nil =>
    intro attid _ _
    simp [function_provenance_attributes]
  | cons f rest ih =>
    intro attid hfe hname
    obtain ⟨a, b, c, d, hf⟩ := hfe f (List.mem_cons_self _ _)
    by_cases h1 : f.funccolcount = 1
    · have hrest := ih (attid + ((1 : Nat) : Int))
        (fun g hg => hfe g (List.mem_cons_of_mem _ hg))
        (fun k hk => by
          have := hname (k + 1) (by simp only [List.length_cons]; omega)
          have e1 : attid + ((k + 1 : Nat) : Int) = attid + ((1 : Nat) : Int) + (k : Int) := by
            push_cast; ring
          rwa [e1] at this)
      obtain ⟨name, hn⟩ := hname 0 (by simp)
      simp only [Nat.cast_zero, add_zero] at hn
      have hmem : (∃ g ∈ f :: rest, g.funccolcount ≠ 1) ↔ ∃ g ∈ rest, g.funccolcount ≠ 1 := by
        simp [h1]
      have hcons : function_provenance_attributes constants r rteid (f :: rest) attid
          = (if b = constants.OID_TYPE_UUID then
              match function_provenance_attributes constants r rteid rest
                  (attid + ((1 : Nat) : Int)) with
              | .error e => .error e
              | .ok atts =>
                if name = PROVSQL_COLUMN_NAME then
                  .ok (make_provenance_attribute constants rteid attid :: atts)
                else .ok atts
            else function_provenance_attributes constants r rteid rest
              (attid + ((1 : Nat) : Int))) := by
        simp only [function_provenance_attributes, h1, if_true, hf, hn]
      rw [hmem, ← hrest.1, hcons]
      by_cases hb : b = constants.OID_TYPE_UUID
      · rw [if_pos hb]
        cases hr : function_provenance_attributes constants r rteid rest
            (attid + ((1 : Nat) : Int)) with
        | error e =>
          exact ⟨⟨fun _ => ⟨e, rfl⟩, fun _ => ⟨e, rfl⟩⟩, fun e1 he1 => by
            simp only [Except.error.injEq] at he1
            subst he1
            exact hrest.2 e hr⟩
        | ok atts =>
          by_cases hnm : name = PROVSQL_COLUMN_NAME <;> simp [hnm]
      · rw [if_neg hb]
        exact ⟨Iff.rfl, hrest.2⟩
    · have hmem : ∃ g ∈ f :: rest, g.funccolcount ≠ 1 := ⟨f, List.mem_cons_self _ _, h1⟩
      simp only [function_provenance_attributes, if_neg h1]
      exact ⟨⟨fun _ => hmem, fun _ => ⟨_, rfl⟩⟩, fun e he => ⟨_, (Except.error.inj he).symm⟩⟩

/-- The scan of `fix_type_of_aggregation_result` does not fail on a list of target entries. -/
theorem fix_type_of_aggregation_result_loop_total (constants : constants_t) (rteid : Nat) :
    ∀ (tl : List Node) (attno : Int) (q : Query),
      (∀ te ∈ tl, ∃ expr resno resname ref, te = Node.TargetEntry expr resno resname ref) →
      ∀ e, fix_type_of_aggregation_result_loop constants rteid tl attno q ≠ .error e := by
  intro tl
  induction tl with
  | nil => intro attno q _ e h; simp [fix_type_of_aggregation_result_loop] at h
  | cons te rest ih =>
    intro attno q h e he
    obtain ⟨expr, resno, resname, ref, hte⟩ := h te (List.mem_cons_self _ _)
    have hrest : ∀ x ∈ rest, ∃ expr resno resname ref, x = Node.TargetEntry expr resno resname ref :=
      fun x hx => h x (List.mem_cons_of_mem _ hx)
    subst hte
    unfold fix_type_of_aggregation_result_loop at he
    split at he
    · rename_i heq
      split at he
      · split at he
        · dsimp only at he
          split at he
          · simp at he
          · rename_i err hrec
            exact ih _ _ hrest _ hrec
        · exact ih _ _ hrest _ he
      · exact ih _ _ hrest _ he
    · rename_i hne
      exact hne _ _ _ _ rfl

/-- One step of the scan on a well-formed entry: it returns on a supported
entry, and fails on an unsupported one, with an unsupported-construct error or
with the error of the recursive rewrite of the subquery. -/
theorem get_provenance_attributes_step_error
    (process_query : Query → Except Err (Option Query)) (constants : constants_t) (env : Env)
    (st : gpa_state) (rteid : Nat) (r : RangeTblEntry)
    (hwf : well_formed_source process_query r) :
    (∃ st1, get_provenance_attributes_step process_query constants env st rteid r = .ok st1 ∧
      ¬ unsupported_source process_query r) ∨
    (∃ e, get_provenance_attributes_step process_query constants env st rteid r = .error e ∧
      unsupported_source process_query r ∧
      ((∃ msg, e = Err.UnsupportedConstruct msg) ∨
        (r.rtekind = RTEKind.RTE_SUBQUERY ∧
          ∃ sub, r.subquery = some sub ∧ process_query sub = .error e))) := by
  obtain ⟨hrel, hsubq, hfun⟩ := hwf
  cases hk : r.rtekind
  · -- base relation
    obtain ⟨e, he⟩ := hrel hk
    exact Or.inl ⟨_, by simp only [get_provenance_attributes_step, hk, he]; rfl,
      by simp [unsupported_source, hk]⟩
  · -- subquery
    obtain ⟨⟨sub, hs⟩, ⟨e, he⟩, htl⟩ := hsubq hk
    cases hp : process_query sub with
    | error err =>
      exact Or.inr ⟨err, by simp only [get_provenance_attributes_step, hk, hs, hp],
        Or.inr (Or.inr (Or.inr ⟨hk, sub, err, hs, hp⟩)), Or.inr ⟨rfl, sub, hs, hp⟩⟩
    | ok res =>
      have hgood : ¬ unsupported_source process_query r := by
        simp [unsupported_source, hk, hs, hp]
      cases res with
      | none =>
        exact Or.inl ⟨st, by simp only [get_provenance_attributes_step, hk, hs, hp], hgood⟩
      | some new_subquery =>
        refine Or.inl ?_
        cases hstep : get_provenance_attributes_step process_query constants env st rteid r with
        | ok st1 => exact ⟨st1, rfl, hgood⟩
        | error err =>
          exfalso
          have hemp : ¬ (new_subquery.targetList.isEmpty = true) := by
            intro hc
            exact (htl sub new_subquery hs hp).1 (List.isEmpty_iff.mp hc)
          simp only [get_provenance_attributes_step, hk, hs, hp, he, if_neg hemp,
            fix_type_of_aggregation_result] at hstep
          split at hstep
          · rename_i e1 hfx
            exact fix_type_of_aggregation_result_loop_total constants rteid
              new_subquery.targetList 1 _ (htl sub new_subquery hs hp).2 _ hfx
          · simp at hstep
  · -- join
    by_cases hj : r.jointype = JoinType.JOIN_INNER ∨ r.jointype = JoinType.JOIN_LEFT ∨
        r.jointype = JoinType.JOIN_FULL ∨ r.jointype = JoinType.JOIN_RIGHT
    · have hj2 : r.jointype = JoinType.JOIN_INNER ∨ r.jointype = JoinType.JOIN_LEFT ∨
          r.jointype = JoinType.JOIN_RIGHT ∨ r.jointype = JoinType.JOIN_FULL := by tauto
      exact Or.inl ⟨st, by simp only [get_provenance_attributes_step, hk, if_pos hj],
        by simp [unsupported_source, hk, hj2]⟩
    · have hj2 : ¬ (r.jointype = JoinType.JOIN_INNER ∨ r.jointype = JoinType.JOIN_LEFT ∨
          r.jointype = JoinType.JOIN_RIGHT ∨ r.jointype = JoinType.JOIN_FULL) := by tauto
      exact Or.inr ⟨_, by simp only [get_provenance_attributes_step, hk, if_neg hj]; rfl,
        Or.inl ⟨hk, hj2⟩, Or.inl ⟨_, rfl⟩⟩
  · -- function
    obtain ⟨hfe, hnames⟩ := hfun hk
    obtain ⟨h1, h2⟩ := function_provenance_attributes_error constants r rteid r.functions 1 hfe
      (fun k hk1 => by
        have := hnames k hk1
        rwa [add_comm] at this)
    cases hf : function_provenance_attributes constants r rteid r.functions 1 with
    | error err =>
      exact Or.inr ⟨err, by simp only [get_provenance_attributes_step, hk, hf],
        Or.inr (Or.inl ⟨hk, h1.mp ⟨err, hf⟩⟩), Or.inl (h2 err hf)⟩
    | ok atts =>
      have hnex : ¬ ∃ f ∈ r.functions, f.funccolcount ≠ 1 := by
        intro hex
        obtain ⟨e, he⟩ := h1.mpr hex
        rw [hf] at he
        cases he
      exact Or.inl ⟨_, by simp only [get_provenance_attributes_step, hk, hf]; rfl,
        by
          intro hu
          rcases hu with ⟨h, _⟩ | ⟨_, h⟩ | ⟨_, _, _, h⟩ | ⟨h, _⟩
          · rw [hk] at h; cases h
          · exact hnex h
          · exact h hk
          · rw [hk] at h; cases h⟩
  · exact Or.inr ⟨_, by simp only [get_provenance_attributes_step, hk]; rfl,
      Or.inr (Or.inr (Or.inl ⟨by simp [hk], by simp [hk], by simp [hk], by simp [hk]⟩)),
      Or.inl ⟨_, rfl⟩⟩
  · exact Or.inr ⟨_, by simp only [get_provenance_attributes_step, hk]; rfl,
      Or.inr (Or.inr (Or.inl ⟨by simp [hk], by simp [hk], by simp [hk], by simp [hk]⟩)),
      Or.inl ⟨_, rfl⟩⟩

/-- The scan fails exactly when the range table has an unsupported source entry. -/
theorem get_provenance_attributes_loop_error
    (process_query : Query → Except Err (Option Query)) (constants : constants_t) (env : Env) :
    ∀ (rtable : List RangeTblEntry) (rteid : Nat) (st : gpa_state),
      (∀ r ∈ rtable, well_formed_source process_query r) →
      ((∃ e, get_provenance_attributes_loop process_query constants env rtable rteid st
          = .error e) ↔ ∃ r ∈ rtable, unsupported_source process_query r) ∧
      (∀ e, get_provenance_attributes_loop process_query constants env rtable rteid st = .error e →
        (∃ msg, e = Err.UnsupportedConstruct msg) ∨
        ∃ r ∈ rtable, r.rtekind = RTEKind.RTE_SUBQUERY ∧
          ∃ sub, r.subquery = some sub ∧ process_query sub = .error e) := by
  intro rtable
  induction rtable with
  | nil =>
    intro rteid st _
    simp [get_provenance_attributes_loop]
  | cons r rest ih =>
    intro rteid st hwf
    unfold get_provenance_attributes_loop
    rcases get_provenance_attributes_step_error process_query constants env st rteid r
        (hwf r (List.mem_cons_self _ _)) with ⟨st1, hstep, hgood⟩ | ⟨err, hstep, hbad, hkind⟩
    · obtain ⟨i1, i2⟩ := ih (rteid + 1) st1 (fun x hx => hwf x (List.mem_cons_of_mem _ hx))
      simp only [hstep]
      refine ⟨?_, ?_⟩
      · rw [i1]
        constructor
        · rintro ⟨x, hx, hb⟩
          exact ⟨x, List.mem_cons_of_mem _ hx, hb⟩
        · rintro ⟨x, hx, hb⟩
          rcases List.mem_cons.mp hx with h | h
          · subst h; exact absurd hb hgood
          · exact ⟨x, h, hb⟩
      · intro e he
        rcases i2 e he with h | ⟨x, hx, h1, h2⟩
        · exact Or.inl h
        · exact Or.inr ⟨x, List.mem_cons_of_mem _ hx, h1, h2⟩
    · simp only [hstep]
      refine ⟨⟨fun _ => ⟨r, List.mem_cons_self _ _, hbad⟩, fun _ => ⟨err, rfl⟩⟩, ?_⟩
      intro e he
      simp only [Except.error.injEq] at he
      subst he
      rcases hkind with h | ⟨h1, h2⟩
      · exact Or.inl h
      · exact Or.inr ⟨r, List.mem_cons_self _ _, h1, h2⟩

/-! ## Lemmas on the steps of the driver -/

theorem remove_groupref_loop_nil (l : List SortGroupClause) : remove_groupref_loop [] l = l := by
  induction l with
  | nil => rfl
  | cons c rest ih => simp [remove_groupref_loop, bms_is_member, ih]

/-- What the removal step of the driver changes: the target list is the one
the removal loop leaves, the GROUP BY, DISTINCT and ORDER BY lists are
filtered, the set-operation node keeps its operation, its flag and its
operands, and every other field stays. -/
theorem process_query_remove_fields (constants : constants_t) (q q2 : Query)
    (h : process_query_remove constants q = .ok q2) :
    ∃ kept removed refs,
      remove_provenance_attributes_select_loop constants q q.targetList 0 []
        = .ok (kept, removed, refs) ∧
      q2.targetList = kept ∧ q2.rtable = q.rtable ∧ q2.jointree = q.jointree ∧
      q2.hasAggs = q.hasAggs ∧ q2.hasSubLinks = q.hasSubLinks ∧
      q2.hasDistinctOn = q.hasDistinctOn ∧ q2.groupingSets = q.groupingSets ∧
      q2.havingQual = q.havingQual ∧ q2.commandType = q.commandType ∧
      q2.canSetTag = q.canSetTag ∧
      q2.groupClause = remove_groupref_loop refs q.groupClause ∧
      q2.distinctClause = remove_groupref_loop refs q.distinctClause ∧
      q2.sortClause = remove_groupref_loop refs q.sortClause ∧
      (q.setOperations = none → q2.setOperations = none) ∧
      (∀ op all l r ct cm cc,
        q.setOperations = some (.SetOperationStmt op all l r ct cm cc) →
        ∃ ct1 cm1 cc1,
          remove_setoperations_loop removed ct 0 = .ok ct1 ∧
          remove_setoperations_loop removed cm 0 = .ok cm1 ∧
          remove_setoperations_loop removed cc 0 = .ok cc1 ∧
          q2.setOperations = some (.SetOperationStmt op all l r ct1 cm1 cc1)) := by
  unfold process_query_remove remove_provenance_attributes_select at h
  by_cases hemp : q.targetList.isEmpty = true
  · simp [hemp] at h
  rw [if_neg hemp] at h
  cases hl : remove_provenance_attributes_select_loop constants q q.targetList 0 [] with
  | error e => simp [hl] at h
  | ok t =>
    obtain ⟨kept, removed, refs⟩ := t
    simp only [hl] at h
    refine ⟨kept, removed, refs, rfl, ?_⟩
    have hg : ∀ l : List SortGroupClause,
        (if refs ≠ [] then remove_groupref_loop refs l else l) = remove_groupref_loop refs l := by
      intro l
      by_cases hr : refs = []
      · simp [hr, remove_groupref_loop_nil]
      · simp [hr]
    obtain ⟨qa, hqa⟩ : ∃ qa : Query, qa =
        (if refs ≠ [] then
          remove_provenance_attribute_groupref { q with targetList := kept } refs
        else { q with targetList := kept }) := ⟨_, rfl⟩
    rw [← hqa] at h
    have hfields : qa.targetList = kept ∧ qa.rtable = q.rtable ∧ qa.jointree = q.jointree ∧
        qa.hasAggs = q.hasAggs ∧ qa.hasSubLinks = q.hasSubLinks ∧
        qa.hasDistinctOn = q.hasDistinctOn ∧ qa.groupingSets = q.groupingSets ∧
        qa.havingQual = q.havingQual ∧ qa.commandType = q.commandType ∧
        qa.canSetTag = q.canSetTag ∧
        qa.groupClause = remove_groupref_loop refs q.groupClause ∧
        qa.distinctClause = remove_groupref_loop refs q.distinctClause ∧
        qa.sortClause = remove_groupref_loop refs q.sortClause ∧
        qa.setOperations = q.setOperations := by
      rw [hqa]
      by_cases hr : refs = []
      · simp [hr, remove_groupref_loop_nil]
      · simp [hr, remove_provenance_attribute_groupref]
    obtain ⟨f1, f2, f3, f4, f5, f6, f7, f8, f9, f10, f11, f12, f13, f14⟩ := hfields
    cases hso : q.setOperations with
    | none =>
      rw [hso] at f14
      simp only [f14, Option.isSome_none, Bool.false_eq_true, if_false, Except.ok.injEq] at h
      subst h
      exact ⟨f1, f2, f3, f4, f5, f6, f7, f8, f9, f10, f11, f12, f13, (fun _ => f14),
        (fun _ _ _ _ _ _ _ hc => by cases hc)⟩
    | some t =>
      rw [hso] at f14
      simp only [f14, Option.isSome_some, if_true] at h
      unfold remove_provenance_attribute_setoperations at h
      rw [f14] at h
      cases t with
      | SetOperationStmt op all l r ct cm cc =>
        simp only at h
        cases h1 : remove_setoperations_loop removed ct 0 with
        | error e => simp [h1] at h
        | ok ct1 =>
          cases h2 : remove_setoperations_loop removed cm 0 with
          | error e => simp [h1, h2] at h
          | ok cm1 =>
            cases h3 : remove_setoperations_loop removed cc 0 with
            | error e => simp [h1, h2, h3] at h
            | ok cc1 =>
              simp only [h1, h2, h3, Except.ok.injEq] at h
              subst h
              refine ⟨f1, f2, f3, f4, f5, f6, f7, f8, f9, f10, f11, f12, f13,
                (fun hc => by cases hc), ?_⟩
              intro op0 all0 l0 r0 ct0 cm0 cc0 heq
              simp only [Option.some.injEq, TNode.SetOperationStmt.injEq] at heq
              obtain ⟨e1, e2, e3, e4, e5, e6, e7⟩ := heq
              subst e1 e2 e3 e4 e5 e6 e7
              exact ⟨ct1, cm1, cc1, h1, h2, h3, rfl⟩
      | RangeTblRef i => simp at h
      | JoinExpr a b c d e => simp at h
      | OtherTree a => simp at h

/-- The removal step has a result only when the set-operation tree, if there
is one, has a set-operation statement at its root. -/
theorem process_query_remove_set_operation (constants : constants_t) (q q2 : Query) (t : TNode)
    (h : process_query_remove constants q = .ok q2) (hs : q.setOperations = some t) :
    ∃ op all l r ct cm cc, t = TNode.SetOperationStmt op all l r ct cm cc := by
  unfold process_query_remove at h
  cases hsel : remove_provenance_attributes_select constants q with
  | error e => rw [hsel] at h; cases h
  | ok p =>
    obtain ⟨refs0, removed0, qa⟩ := p
    have hqa : qa.setOperations = q.setOperations := by
      unfold remove_provenance_attributes_select at hsel
      by_cases hemp : q.targetList.isEmpty = true
      · rw [if_pos hemp] at hsel; cases hsel
      rw [if_neg hemp] at hsel
      split at hsel
      · cases hsel
      · simp only [Except.ok.injEq, Prod.mk.injEq] at hsel
        rw [← hsel.2.2]
    rw [hsel] at h
    simp only at h
    cases t with
    | SetOperationStmt op all l r ct cm cc => exact ⟨_, _, _, _, _, _, _, rfl⟩
    | RangeTblRef i =>
      exfalso
      split at h
      · simp [remove_provenance_attribute_groupref, hqa, hs,
          remove_provenance_attribute_setoperations] at h
      · simp [hqa, hs, remove_provenance_attribute_setoperations] at h
    | JoinExpr a b c d e =>
      exfalso
      split at h
      · simp [remove_provenance_attribute_groupref, hqa, hs,
          remove_provenance_attribute_setoperations] at h
      · simp [hqa, hs, remove_provenance_attribute_setoperations] at h
    | OtherTree a =>
      exfalso
      split at h
      · simp [remove_provenance_attribute_groupref, hqa, hs,
          remove_provenance_attribute_setoperations] at h
      · simp [hqa, hs, remove_provenance_attribute_setoperations] at h

/-- The function `process_set_operation_union` returns on a tree of UNION
nodes and fails with an unsupported-construct error on any other tree. -/
theorem process_set_operation_union_result (constants : constants_t) :
    ∀ (t : TNode) (op : SetOperation) (all : Bool) (l r : TNode) (ct : List Oid)
      (cm : List Int) (cc : List Oid),
      t = TNode.SetOperationStmt op all l r ct cm cc →
      (all_union t ∧ ∃ t1, process_set_operation_union constants t = .ok t1) ∨
      (¬ all_union t ∧
        ∃ msg, process_set_operation_union constants t = .error (Err.UnsupportedConstruct msg)) := by
  intro t
  induction t with
  | RangeTblRef i => intro op all l r ct cm cc h; cases h
  | JoinExpr a b c d e _ _ => intro op all l r ct cm cc h; cases h
  | OtherTree a => intro op all l r ct cm cc h; cases h
  | SetOperationStmt op all larg rarg ct cm cc ihl ihr =>
    intro _ _ _ _ _ _ _ _
    by_cases hop : op = SetOperation.SETOP_UNION
    · have hleft : (all_union larg ∧ ∃ larg1,
          (match larg with
            | .SetOperationStmt a b c d e f g =>
              process_set_operation_union constants (.SetOperationStmt a b c d e f g)
            | other => .ok other) = .ok larg1) ∨
          (¬ all_union larg ∧ ∃ msg,
            (match larg with
              | .SetOperationStmt a b c d e f g =>
                process_set_operation_union constants (.SetOperationStmt a b c d e f g)
              | other => .ok other) = .error (Err.UnsupportedConstruct msg)) := by
        cases larg with
        | SetOperationStmt a b c d e f g => exact ihl a b c d e f g rfl
        | RangeTblRef i => exact Or.inl ⟨by simp [all_union], _, rfl⟩
        | JoinExpr a b c d e => exact Or.inl ⟨by simp [all_union], _, rfl⟩
        | OtherTree a => exact Or.inl ⟨by simp [all_union], _, rfl⟩
      have hright : (all_union rarg ∧ ∃ rarg1,
          (match rarg with
            | .SetOperationStmt a b c d e f g =>
              process_set_operation_union constants (.SetOperationStmt a b c d e f g)
            | other => .ok other) = .ok rarg1) ∨
          (¬ all_union rarg ∧ ∃ msg,
            (match rarg with
              | .SetOperationStmt a b c d e f g =>
                process_set_operation_union constants (.SetOperationStmt a b c d e f g)
              | other => .ok other) = .error (Err.UnsupportedConstruct msg)) := by
        cases rarg with
        | SetOperationStmt a b c d e f g => exact ihr a b c d e f g rfl
        | RangeTblRef i => exact Or.inl ⟨by simp [all_union], _, rfl⟩
        | JoinExpr a b c d e => exact Or.inl ⟨by simp [all_union], _, rfl⟩
        | OtherTree a => exact Or.inl ⟨by simp [all_union], _, rfl⟩
      rcases hleft with ⟨hl, larg1, hl1⟩ | ⟨hl, msg, hl1⟩
      · rcases hright with ⟨hr, rarg1, hr1⟩ | ⟨hr, msg, hr1⟩
        · refine Or.inl ⟨⟨hop, hl, hr⟩,
            .SetOperationStmt op true larg1 rarg1 (ct ++ [constants.OID_TYPE_UUID])
              (cm ++ [-1]) (cc ++ [0]), ?_⟩
          unfold process_set_operation_union
          simp only [hop, ne_eq, not_true_eq_false, if_false]
          clear ihl ihr
          cases larg <;> cases rarg <;> simp_all
        · refine Or.inr ⟨fun h => hr h.2.2, msg, ?_⟩
          unfold process_set_operation_union
          simp only [hop, ne_eq, not_true_eq_false, if_false]
          clear ihl ihr
          cases larg <;> cases rarg <;> simp_all
      · refine Or.inr ⟨fun h => hl h.2.1, msg, ?_⟩
        unfold process_set_operation_union
        simp only [hop, ne_eq, not_true_eq_false, if_false]
        clear ihl ihr
        cases larg <;> cases rarg <;> simp_all
    · refine Or.inr ⟨fun h => hop h.1, "Unsupported mixed set operations", ?_⟩
      unfold process_set_operation_union
      simp only [ne_eq, hop, not_false_eq_true, if_true]

/-- The set-operation step of the driver on a query whose target entries are
column references: it fails exactly on an operation other than UNION and
EXCEPT, on a UNION with a nested node that is not a UNION, and on an EXCEPT
one of whose operands is not a plain relation reference; the error is an
unsupported-construct error. -/
theorem process_query_setops_error (constants : constants_t) (env : Env) (q : Query)
    (op : SetOperation) (all : Bool) (larg rarg : TNode) (ct : List Oid) (cm : List Int)
    (cc : List Oid)
    (hset : q.setOperations = some (.SetOperationStmt op all larg rarg ct cm cc))
    (hvars : ∀ te ∈ q.targetList, is_var_entry te) :
    ((∃ e, process_query_setops constants env q = .error e) ↔
      (op ≠ SetOperation.SETOP_UNION ∧ op ≠ SetOperation.SETOP_EXCEPT) ∨
      (op = SetOperation.SETOP_UNION ∧ ¬ (all_union larg ∧ all_union rarg)) ∨
      (op = SetOperation.SETOP_EXCEPT ∧ ¬ (is_range_tbl_ref larg ∧ is_range_tbl_ref rarg))) ∧
    (∀ e, process_query_setops constants env q = .error e →
      ∃ msg, e = Err.UnsupportedConstruct msg) := by
  unfold process_query_setops
  rw [hset]
  simp only
  by_cases hu : op = SetOperation.SETOP_UNION
  · subst hu
    simp only [if_true]
    rcases process_set_operation_union_result constants _ _ all larg rarg ct cm cc rfl with
      ⟨hall, t1, h1⟩ | ⟨hall, msg, h1⟩
    · rw [h1]
      have h2 : all_union larg ∧ all_union rarg := hall.2
      simp [h2]
    · rw [h1]
      have h2 : ¬ (all_union larg ∧ all_union rarg) := fun h => hall ⟨rfl, h.1, h.2⟩
      simp [h2]
  · simp only [if_neg hu]
    by_cases he : op = SetOperation.SETOP_EXCEPT
    · subst he
      simp only [if_true]
      unfold transform_except_into_join
      rw [hset]
      cases larg with
      | RangeTblRef i =>
        cases rarg with
        | RangeTblRef j =>
          have := transform_except_loop_eq constants env i j q.targetList 1 hvars
          simp only [Nat.cast_one] at this
          simp [this, is_range_tbl_ref]
        | SetOperationStmt a b c d e f g => simp [is_range_tbl_ref]
        | JoinExpr a b c d e => simp [is_range_tbl_ref]
        | OtherTree a => simp [is_range_tbl_ref]
      | SetOperationStmt a b c d e f g => simp [is_range_tbl_ref]
      | JoinExpr a b c d e => simp [is_range_tbl_ref]
      | OtherTree a => simp [is_range_tbl_ref]
    · simp [hu, he]

theorem all_union_mutate (m : Node → Node) : ∀ t : TNode, all_union (t.mutate m) ↔ all_union t
  | .RangeTblRef _ => by simp [TNode.mutate, all_union]
  | .JoinExpr _ _ _ _ _ => by simp [TNode.mutate, all_union]
  | .OtherTree _ => by simp [TNode.mutate, all_union]
  | .SetOperationStmt op all l r ct cm cc => by
    simp [TNode.mutate, all_union, all_union_mutate m l, all_union_mutate m r]

theorem is_range_tbl_ref_mutate (m : Node → Node) (t : TNode) :
    is_range_tbl_ref (t.mutate m) ↔ is_range_tbl_ref t := by
  cases t <;> simp [TNode.mutate, is_range_tbl_ref]

theorem aggregation_type_mutator_var_entry (context : aggregation_type_mutator_context)
    (te : Node) (h : is_var_entry te) :
    is_var_entry (aggregation_type_mutator context te) := by
  match te, h with
  | .TargetEntry (.Var vn va vt vm vc) resno name ref, _ =>
    by_cases hc : vn = context.varno ∧ va = context.varattno
    · simp [aggregation_type_mutator, tree_mutator, hc, is_var_entry]
    · simp [aggregation_type_mutator, tree_mutator, hc, is_var_entry]

/-- Being a column-reference entry depends on the expression only. -/
theorem is_var_entry_content (te te1 : Node) (h : entry_content te = entry_content te1)
    (h1 : is_var_entry te1) : is_var_entry te := by
  match te1, h1 with
  | .TargetEntry (.Var vn va vt vm vc) resno name ref, _ =>
    cases te with
    | TargetEntry e a b c =>
      simp only [entry_content, Option.some.injEq, Prod.mk.injEq] at h
      rw [h.1]
      trivial
    | _ => simp [entry_content] at h

/-- The location of the provenance attributes keeps the shape that the
set-operation step looks at. -/
theorem set_operation_shape_located (process_query : Query → Except Err (Option Query))
    (constants : constants_t) (env : Env) (op : SetOperation) (larg rarg : TNode)
    (q q1 : Query) (atts : List Node)
    (h : get_provenance_attributes process_query constants env q = .ok (atts, q1))
    (hq : set_operation_shape op larg rarg q) : set_operation_shape op larg rarg q1 := by
  refine get_provenance_attributes_preserves (set_operation_shape op larg rarg) ?_ ?_ _ _ _ _ _ _
    h hq
  · intro q rt hp
    exact hp
  · intro q context hp
    obtain ⟨⟨l, r, ct, cm, cc, hs, h1, h2, h3, h4⟩, h5, h6, h7⟩ := hp
    refine ⟨⟨l.mutate (aggregation_type_mutator context),
      r.mutate (aggregation_type_mutator context), ct, cm, cc, ?_, ?_, ?_, ?_, ?_⟩, h5, h6, ?_⟩
    · simp [query_tree_mutator, hs, TNode.mutate]
    · rw [all_union_mutate]; exact h1
    · rw [all_union_mutate]; exact h2
    · rw [is_range_tbl_ref_mutate]; exact h3
    · rw [is_range_tbl_ref_mutate]; exact h4
    · intro te hte
      simp only [query_tree_mutator, List.mem_map] at hte
      obtain ⟨te0, hte0, rfl⟩ := hte
      exact aggregation_type_mutator_var_entry context te0 (h7 te0 hte0)

/-- The removal step keeps the shape that the set-operation step looks at. -/
theorem set_operation_shape_removed (constants : constants_t) (op : SetOperation)
    (larg rarg : TNode) (q q2 : Query)
    (h : process_query_remove constants q = .ok q2)
    (hq : set_operation_shape op larg rarg q) : set_operation_shape op larg rarg q2 := by
  obtain ⟨⟨l, r, ct, cm, cc, hs, h1, h2, h3, h4⟩, h5, h6, h7⟩ := hq
  obtain ⟨kept, removed, refs, hl, f1, _, _, _, f5, _, _, _, _, _, _, f12, _, _, f15⟩ :=
    process_query_remove_fields constants q q2 h
  obtain ⟨ct1, cm1, cc1, _, _, _, hs2⟩ := f15 op true l r ct cm cc hs
  refine ⟨⟨l, r, ct1, cm1, cc1, hs2, h1, h2, h3, h4⟩, by rw [f5, h5], ?_, ?_⟩
  · rw [f12, h6]; rfl
  · intro te hte
    rw [f1] at hte
    have hc := remove_provenance_attributes_select_loop_content constants q q.targetList 0 []
      kept removed refs hl
    have hmem : entry_content te ∈ kept.map entry_content := List.mem_map_of_mem _ hte
    rw [hc] at hmem
    obtain ⟨te1, hte1, heq⟩ := List.mem_map.mp hmem
    exact is_var_entry_content te te1 heq.symm (h7 te1 (List.mem_filter.mp hte1).1)

/-- Without source relation no attribute is located. -/
theorem get_provenance_attributes_nil (process_query : Query → Except Err (Option Query))
    (constants : constants_t) (env : Env) (q q1 : Query) (atts : List Node)
    (h : get_provenance_attributes process_query constants env q = .ok (atts, q1))
    (hrt : q.rtable = []) : atts = [] := by
  simp only [get_provenance_attributes, hrt, get_provenance_attributes_loop, Except.ok.injEq,
    Prod.mk.injEq] at h
  exact h.1.symm

/-! ## Lemmas on the provenance expression -/

theorem provenance_function_walker_int_const (constants : constants_t) (len v : Int) :
    provenance_function_walker constants (make_int_const constants len v) = false := by
  simp [provenance_function_walker, make_int_const, tree_walker, is_provenance_call]

/-- One step of the scan on an entry that is not a subquery keeps the query. -/
theorem get_provenance_attributes_step_no_subquery
    (process_query : Query → Except Err (Option Query)) (constants : constants_t) (env : Env)
    (st st1 : gpa_state) (rteid : Nat) (r : RangeTblEntry)
    (hk : r.rtekind ≠ RTEKind.RTE_SUBQUERY)
    (h : get_provenance_attributes_step process_query constants env st rteid r = .ok st1) :
    st1.q = st.q := by
  unfold get_provenance_attributes_step at h
  cases hkind : r.rtekind <;> simp only [hkind] at h
  · split at h
    · simp at h
    · simp only [Except.ok.injEq] at h
      rw [← h]
  · exact absurd hkind hk
  · split at h
    · simp only [Except.ok.injEq] at h
      rw [← h]
    · simp at h
  · split at h
    · simp at h
    · simp only [Except.ok.injEq] at h
      rw [← h]
  · simp at h
  · simp at h

/-- The location of the provenance attributes keeps a query none of whose
source entries is a subquery. -/
theorem get_provenance_attributes_no_subquery
    (process_query : Query → Except Err (Option Query)) (constants : constants_t) (env : Env)
    (q q1 : Query) (atts : List Node)
    (hno : ∀ r ∈ q.rtable, r.rtekind ≠ RTEKind.RTE_SUBQUERY)
    (h : get_provenance_attributes process_query constants env q = .ok (atts, q1)) :
    q1 = q := by
  have key : ∀ (rtable : List RangeTblEntry) (rteid : Nat) (s s1 : gpa_state),
      (∀ r ∈ rtable, r.rtekind ≠ RTEKind.RTE_SUBQUERY) →
      get_provenance_attributes_loop process_query constants env rtable rteid s = .ok s1 →
      s1.q = s.q := by
    intro rtable
    induction rtable with
    | nil =>
      intro rteid s s1 _ hs
      simp only [get_provenance_attributes_loop, Except.ok.injEq] at hs
      rw [← hs]
    | cons r rest ih =>
      intro rteid s s1 hr hs
      unfold get_provenance_attributes_loop at hs
      cases hstep : get_provenance_attributes_step process_query constants env s rteid r with
      | error err => simp [hstep] at hs
      | ok s2 =>
        simp only [hstep] at hs
        rw [ih _ _ _ (fun x hx => hr x (List.mem_cons_of_mem _ hx)) hs]
        exact get_provenance_attributes_step_no_subquery _ _ _ _ _ _ _
          (hr r (List.mem_cons_self _ _)) hstep
  unfold get_provenance_attributes at h
  cases hl : get_provenance_attributes_loop process_query constants env q.rtable 1
      { q := q, prov_atts := [], detached := false } with
  | error err => simp [hl] at h
  | ok st =>
    simp only [hl, Except.ok.injEq, Prod.mk.injEq] at h
    rw [← h.2]
    exact key _ _ _ _ hno hl

/-- Without provenance column in the target list, the removal loop keeps
every entry as it is and collects no reference. -/
theorem remove_provenance_attributes_select_loop_none (constants : constants_t) (q : Query) :
    ∀ (tl : List Node) (refs : Bitmapset) (kept : List Node) (removed : List Bool)
      (out : Bitmapset),
      (∀ te ∈ tl, is_provenance_entry constants q te = false) →
      remove_provenance_attributes_select_loop constants q tl 0 refs = .ok (kept, removed, out) →
      kept = tl ∧ out = refs ∧ removed = tl.map (fun _ => false) := by
  intro tl
  induction tl with
  | nil =>
    intro refs kept removed out _ h
    simp only [remove_provenance_attributes_select_loop, Except.ok.injEq, Prod.mk.injEq] at h
    exact ⟨h.1.symm, h.2.2.symm, h.2.1.symm⟩
  | cons te rest ih =>
    intro refs kept removed out hno h
    have hfirst := hno te (List.mem_cons_self _ _)
    unfold remove_provenance_attributes_select_loop at h
    split at h
    · rename_i expr resno resname ref
      cases ht : is_provenance_target constants q expr resname with
      | error err => simp [ht] at h
      | ok b =>
        cases b
        · simp only [ht] at h
          split at h
          · simp at h
          · rename_i kept1 removed1 out1 hrec
            simp only [Except.ok.injEq, Prod.mk.injEq] at h
            obtain ⟨i1, i2, i3⟩ := ih refs kept1 removed1 out1
              (fun x hx => hno x (List.mem_cons_of_mem _ hx)) hrec
            rw [← h.1, ← h.2.1, ← h.2.2, i1, i2, i3]
            simp
        · simp [is_provenance_entry, ht] at hfirst
    · simp at h

/-- With no flag set, the loop over a column list of the set operation keeps the list. -/
theorem remove_setoperations_loop_none {α : Type} (removed : List Bool)
    (hno : ∀ b ∈ removed, b = false) :
    ∀ (l l1 : List α) (j : Nat), remove_setoperations_loop removed l j = .ok l1 → l1 = l := by
  intro l
  induction l with
  | nil =>
    intro l1 j h
    simp only [remove_setoperations_loop, Except.ok.injEq] at h
    exact h.symm
  | cons x rest ih =>
    intro l1 j h
    unfold remove_setoperations_loop at h
    split at h
    · simp at h
    · rename_i hb
      have := hno true (List.get?_mem hb)
      cases this
    · split at h
      · simp at h
      · rename_i l2 hrec
        simp only [Except.ok.injEq] at h
        rw [← h, ih l2 (j + 1) hrec]

/-- Without provenance column in the target list, the removal step of the
driver returns the query it was given. -/
theorem process_query_remove_none (constants : constants_t) (q q1 : Query)
    (hno : ∀ te ∈ q.targetList, is_provenance_entry constants q te = false)
    (h : process_query_remove constants q = .ok q1) : q1 = q := by
  obtain ⟨kept, removed, refs, hloop, f1, f2, f3, f4, f5, f6, f7, f8, f9, f10, f11, f12, f13, f14,
    f15⟩ := process_query_remove_fields constants q q1 h
  obtain ⟨i1, i2, i3⟩ := remove_provenance_attributes_select_loop_none constants q q.targetList []
    kept removed refs hno hloop
  have hflags : ∀ b ∈ removed, b = false := by
    intro b hb
    rw [i3] at hb
    simp only [List.mem_map] at hb
    obtain ⟨_, _, hb2⟩ := hb
    exact hb2.symm
  have hso : q1.setOperations = q.setOperations := by
    cases hs : q.setOperations with
    | none => exact f14 hs
    | some t =>
      cases t with
      | SetOperationStmt op all l r ct cm cc =>
        obtain ⟨ct1, cm1, cc1, e1, e2, e3, e4⟩ := f15 op all l r ct cm cc hs
        rw [e4, remove_setoperations_loop_none removed hflags ct ct1 0 e1,
          remove_setoperations_loop_none removed hflags cm cm1 0 e2,
          remove_setoperations_loop_none removed hflags cc cc1 0 e3]
      | RangeTblRef i =>
        obtain ⟨_, _, _, _, _, _, _, hc⟩ := process_query_remove_set_operation constants q q1 _ h hs
        cases hc
      | JoinExpr a b c d e =>
        obtain ⟨_, _, _, _, _, _, _, hc⟩ := process_query_remove_set_operation constants q q1 _ h hs
        cases hc
      | OtherTree a =>
        obtain ⟨_, _, _, _, _, _, _, hc⟩ := process_query_remove_set_operation constants q q1 _ h hs
        cases hc
  rw [i2, remove_groupref_loop_nil] at f11 f12 f13
  rw [i1] at f1
  cases q
  cases q1
  simp_all

/-- An error that the scan of `get_provenance_attributes` raises over entries
none of which is a subquery finds the query as it was before the scan. -/
theorem get_provenance_attributes_at_error_no_subquery
    (process_query : Query → Except Err (Option Query)) (constants : constants_t) (env : Env) :
    ∀ (rtable : List RangeTblEntry) (rteid : Nat) (st : gpa_state) (q1 : Query),
      (∀ r ∈ rtable, r.rtekind ≠ RTEKind.RTE_SUBQUERY) →
      get_provenance_attributes_at_error process_query constants env rtable rteid st = some q1 →
      q1 = st.q ∧
      ∃ e, get_provenance_attributes_loop process_query constants env rtable rteid st
        = .error e := by
  intro rtable
  induction rtable with
  | nil => intro rteid st q1 _ h; simp [get_provenance_attributes_at_error] at h
  | cons r rest ih =>
    intro rteid st q1 hno h
    unfold get_provenance_attributes_at_error at h
    unfold get_provenance_attributes_loop
    cases hstep : get_provenance_attributes_step process_query constants env st rteid r with
    | ok st1 =>
      simp only [hstep] at h
      obtain ⟨i1, i2⟩ := ih (rteid + 1) st1 q1 (fun x hx => hno x (List.mem_cons_of_mem _ hx)) h
      refine ⟨?_, i2⟩
      rw [i1]
      exact get_provenance_attributes_step_no_subquery _ _ _ _ _ _ _
        (hno r (List.mem_cons_self _ _)) hstep
    | error err =>
      simp only [hstep] at h
      cases err with
      | UnsupportedConstruct msg =>
        simp only [if_neg (hno r (List.mem_cons_self _ _)), Option.some.injEq] at h
        exact ⟨h.symm, _, rfl⟩
      | MalformedInput msg => simp at h
      | OutOfFuel => simp at h

/-- The checks on sublinks and DISTINCT keep the set-operation tree and the
aggregate flag, and keep the query when it has no DISTINCT clause. -/
theorem process_query_distinct_fields (q q2 : Query) (h : process_query_distinct q = .ok q2) :
    q2.setOperations = q.setOperations ∧ (q.distinctClause = [] → q2 = q) ∧
      q2.hasAggs = q.hasAggs := by
  unfold process_query_distinct at h
  split at h
  · simp at h
  · split at h
    · rename_i hne
      split at h
      · simp at h
      · split at h
        · simp at h
        · simp only [Except.ok.injEq] at h
          rw [← h]
          exact ⟨rfl, fun hc => absurd hc hne, rfl⟩
    · simp only [Except.ok.injEq] at h
      exact ⟨by rw [h], fun _ => h.symm, by rw [h]⟩

/-- An error that the part of the driver after the location raises on a query
without provenance column in its target list (and, with a set operation,
without DISTINCT clause) finds the query as it was, and makes that part fail. -/
theorem process_query_rewrite_at_error_none (constants : constants_t) (env : Env) (q q1 : Query)
    (atts : List Node)
    (hno : ∀ te ∈ q.targetList, is_provenance_entry constants q te = false)
    (hnodist : q.setOperations ≠ none → q.distinctClause = [])
    (h : process_query_rewrite_at_error constants q = some q1) :
    q1 = q ∧ ∃ e, process_query_rewrite constants env q atts = .error e := by
  unfold process_query_rewrite_at_error at h
  unfold process_query_rewrite
  cases hs1 : process_query_remove constants q with
  | error e => simp [hs1] at h
  | ok qa =>
    have hqa : qa = q := process_query_remove_none constants q qa hno hs1
    subst hqa
    simp only [hs1] at h ⊢
    cases hs2 : process_query_distinct qa with
    | error e =>
      simp only [hs2, Option.some.injEq] at h
      exact ⟨h.symm, e, rfl⟩
    | ok q2 =>
      simp only [hs2] at h ⊢
      obtain ⟨d1, d2, _⟩ := process_query_distinct_fields qa q2 hs2
      cases hso : q2.setOperations with
      | none => simp [hso] at h
      | some t =>
        have hq2 : q2 = qa := d2 (hnodist (by rw [← d1, hso]; simp))
        subst hq2
        unfold process_query_setops
        rw [hso] at h ⊢
        cases t with
        | SetOperationStmt op all larg rarg ct cm cc =>
          simp only at h ⊢
          by_cases hu : op = SetOperation.SETOP_UNION
          · simp [hu] at h
          · simp only [if_neg hu] at h ⊢
            by_cases he : op = SetOperation.SETOP_EXCEPT
            · simp only [if_pos he] at h ⊢
              unfold transform_except_into_join
              rw [hso]
              cases larg <;> cases rarg <;> simp_all
            · simp only [if_neg he, Option.some.injEq] at h ⊢
              exact ⟨h.symm, _, rfl⟩
        | RangeTblRef i => simp at h
        | JoinExpr a b c d e => simp at h
        | OtherTree a => simp at h

/-! ## Lemmas on the normalizers -/

/-- The loop of `check_for_agg_distinct` finds no DISTINCT aggregate in a
target list of column references. -/
theorem check_for_agg_distinct_loop_vars :
    ∀ tl : List Node, (∀ te ∈ tl, is_var_entry te) →
      ∃ lst sgcs, check_for_agg_distinct_loop tl = .ok (lst, sgcs, false) := by
  intro tl
  induction tl with
  | nil => intro _; exact ⟨[], [], rfl⟩
  | cons te rest ih =>
    intro h
    obtain ⟨lst, sgcs, hrec⟩ := ih (fun x hx => h x (List.mem_cons_of_mem _ hx))
    have hte := h te (List.mem_cons_self _ _)
    match te, hte with
    | .TargetEntry (.Var vn va vt vm vc) resno name ref, _ =>
      exact ⟨.TargetEntry (.Var vn va vt vm vc) resno name ref :: lst, sgcs,
        by simp [check_for_agg_distinct_loop, check_for_agg_distinct_entry, hrec]⟩

/-- No normalizer fires on a query whose set operation is marked ALL and whose
target entries are column references. -/
theorem normalize_query_all_vars (env : Env) (q : Query) (op : SetOperation)
    (larg rarg : TNode) (ct : List Oid) (cm : List Int) (cc : List Oid)
    (hset : q.setOperations = some (.SetOperationStmt op true larg rarg ct cm cc))
    (hvars : ∀ te ∈ q.targetList, is_var_entry te) :
    normalize_query env q = .ok none := by
  obtain ⟨lst, sgcs, hl⟩ := check_for_agg_distinct_loop_vars q.targetList hvars
  unfold normalize_query
  rw [hset]
  by_cases hagg : q.hasAggs = true
  · simp [hagg, check_for_agg_distinct, hl]
  · simp [hagg]

/-! ## Lemmas on the target list that the driver returns -/

theorem bms_add_member_mem (a : Bitmapset) (x y : Nat) :
    y ∈ bms_add_member a x ↔ y ∈ a ∨ y = x := by
  unfold bms_add_member
  by_cases h : x ∈ a
  · rw [if_pos h]
    constructor
    · exact Or.inl
    · rintro (h1 | h1)
      · exact h1
      · exact h1 ▸ h
  · rw [if_neg h]
    simp

theorem already_in_group_by_mem (l : List SortGroupClause) (acc : Bitmapset) (y : Nat) :
    y ∈ l.foldl (fun acc sgc => bms_add_member acc sgc.tleSortGroupRef) acc
      ↔ y ∈ acc ∨ y ∈ l.map (fun c => c.tleSortGroupRef) := by
  induction l generalizing acc with
  | nil => simp
  | cons c rest ih =>
    rw [List.foldl_cons, ih, bms_add_member_mem]
    simp only [List.map_cons, List.mem_cons]
    tauto

theorem distinct_not_in_group_by_eq_filter (S : Bitmapset) (l : List SortGroupClause) :
    distinct_not_in_group_by S l = l.filter (fun c => decide (c.tleSortGroupRef ∉ S)) := by
  induction l with
  | nil => rfl
  | cons c rest ih =>
    unfold distinct_not_in_group_by
    by_cases h : c.tleSortGroupRef ∈ S
    · simp [bms_is_member, h, ih]
    · simp [bms_is_member, h, ih]

/-! ## Lemmas on the external GROUP BY -/

theorem rewrite_non_all_loop_result (env : Env) (l : List Node) (n : Nat)
    (hl : target_entries l) :
    ∃ tes sgcs, rewrite_non_all_loop env l n = .ok (tes, sgcs) ∧
      tes.length = l.length ∧ sgcs.length = l.length ∧
      sgcs.map (fun c => c.tleSortGroupRef) = List.range' (n + 1) l.length ∧
      tes.map entry_ressortgroupref = List.range' (n + 1) l.length ∧
      ∀ (k : Nat) expr resno resname ref, l.get? k = some (Node.TargetEntry expr resno resname ref) →
        tes.get? k = some (Node.TargetEntry expr resno resname (n + k + 1)) ∧
        sgcs.get? k = some (external_group_clause env (exprType expr) (n + k + 1)) := by
  induction l generalizing n with
  | nil =>
    refine ⟨[], [], rfl, rfl, rfl, rfl, rfl, ?_⟩
    intro k expr resno resname ref h
    simp at h
  | cons te rest ih =>
    obtain ⟨expr0, resno0, resname0, ref0, hte⟩ := hl te (List.mem_cons_self _ _)
    obtain ⟨tes, sgcs, hloop, h1, h2, h3, h4, h5⟩ :=
      ih (n + 1) (fun x hx => hl x (List.mem_cons_of_mem _ hx))
    subst hte
    refine ⟨Node.TargetEntry expr0 resno0 resname0 (n + 1) :: tes,
      external_group_clause env (exprType expr0) (n + 1) :: sgcs, ?_, ?_, ?_, ?_, ?_, ?_⟩
    · simp only [rewrite_non_all_loop, hloop]
      rfl
    · simp [h1]
    · simp [h2]
    · simp only [List.map_cons, h3, List.length_cons, List.range'_succ]
      rfl
    · simp only [List.map_cons, h4, List.length_cons, List.range'_succ]
      rfl
    · intro k expr resno resname ref h
      cases k with
      | zero =>
        simp only [List.get?_cons_zero, Option.some.injEq, Node.TargetEntry.injEq] at h
        obtain ⟨rfl, rfl, rfl, rfl⟩ := h
        exact ⟨rfl, rfl⟩
      | succ k =>
        simp only [List.get?_cons_succ] at h ⊢
        have := h5 k expr resno resname ref h
        rw [show n + (k + 1) + 1 = n + 1 + k + 1 by omega]
        exact this

/-! ## Lemmas on the column numbering -/

theorem build_columns_row_cons (kind : RTEKind) (v : String) (rest : List String) (n : Int) :
    build_columns_row kind (v :: rest) n
      = if numbered_column (kind, v) then
          ((n + 1) :: (build_columns_row kind rest (n + 1)).1,
            (build_columns_row kind rest (n + 1)).2)
        else
          ((if v = PROVSQL_COLUMN_NAME ∧ kind ≠ RTEKind.RTE_JOIN then -1 else 0)
              :: (build_columns_row kind rest n).1,
            (build_columns_row kind rest n).2) := by
  by_cases h1 : v ≠ "" ∧ kind ≠ RTEKind.RTE_JOIN
  · by_cases h2 : v = PROVSQL_COLUMN_NAME
    · have hn : numbered_column (kind, v) = false := by simp [numbered_column, h2]
      rw [hn]
      simp only [build_columns_row, if_pos h1, if_pos h2, if_pos (And.intro h2 h1.2)]
      rfl
    · have hn : numbered_column (kind, v) = true := by simp [numbered_column, h1.1, h1.2, h2]
      rw [hn]
      simp only [build_columns_row, if_pos h1, if_neg h2]
      rfl
  · have hn : numbered_column (kind, v) = false := by
      simp only [numbered_column, decide_eq_false_iff_not]
      intro h
      exact h1 ⟨h.1, h.2.1⟩
    have h3 : ¬ (v = PROVSQL_COLUMN_NAME ∧ kind ≠ RTEKind.RTE_JOIN) := by
      intro h
      exact h1 ⟨by rw [h.1]; decide, h.2⟩
    rw [hn]
    simp only [build_columns_row, if_neg h1, if_neg h3]
    rfl

theorem build_columns_row_length (kind : RTEKind) (names : List String) (n : Int) :
    (build_columns_row kind names n).1.length = names.length := by
  induction names generalizing n with
  | nil => rfl
  | cons v rest ih =>
    rw [build_columns_row_cons]
    split
    · simp [ih]
    · simp [ih]

theorem build_columns_row_count (kind : RTEKind) (names : List String) (n : Int) :
    (build_columns_row kind names n).2
      = n + ((names.map (fun v => (kind, v))).countP numbered_column : Nat) := by
  induction names generalizing n with
  | nil => simp [build_columns_row]
  | cons v rest ih =>
    rw [build_columns_row_cons]
    split
    · rename_i h
      simp only [ih, List.map_cons, List.countP_cons, h, if_true]
      push_cast
      omega
    · rename_i h
      simp only [ih, List.map_cons, List.countP_cons, h]
      simp

theorem build_columns_row_get (kind : RTEKind) (names : List String) (n : Int) (k : Nat)
    (v : String) (hv : names.get? k = some v) :
    (build_columns_row kind names n).1.get? k
      = if numbered_column (kind, v) then
          some (n + (((names.map (fun v => (kind, v))).take k).countP numbered_column : Nat) + 1)
        else if v = PROVSQL_COLUMN_NAME ∧ kind ≠ RTEKind.RTE_JOIN then some (-1)
        else some 0 := by
  induction names generalizing n k with
  | nil => simp at hv
  | cons w rest ih =>
    rw [build_columns_row_cons]
    cases k with
    | zero =>
      simp only [List.get?_cons_zero, Option.some.injEq] at hv
      subst hv
      by_cases h : numbered_column (kind, w) = true
      · simp [h]
      · simp only [h]
        by_cases h3 : w = PROVSQL_COLUMN_NAME ∧ kind ≠ RTEKind.RTE_JOIN
        · simp [h3]
        · simp [h3]
    | succ k =>
      simp only [List.get?_cons_succ] at hv
      by_cases h : numbered_column (kind, w) = true
      · simp only [h, if_true, List.get?_cons_succ, ih (n + 1) k hv, List.map_cons,
          List.take_succ_cons, List.countP_cons]
        split
        · congr 1
          push_cast
          omega
        · rfl
      · have hf : numbered_column (kind, w) = false := by simpa using h
        simp only [hf, List.get?_cons_succ, List.map_cons, List.take_succ_cons,
          List.countP_cons]
        rw [if_neg (by simp)]
        simp only [List.get?_cons_succ]
        rw [ih n k hv]
        simp

theorem build_columns_row_positive (kind : RTEKind) (names : List String) (n : Int)
    (hn : 0 ≤ n) :
    (build_columns_row kind names n).1.filter (fun v => decide (0 < v))
      = (List.range ((names.map (fun v => (kind, v))).countP numbered_column)).map
          (fun (i : Nat) => n + 1 + (i : Int)) := by
  induction names generalizing n with
  | nil => simp [build_columns_row]
  | cons w rest ih =>
    rw [build_columns_row_cons]
    by_cases h : numbered_column (kind, w) = true
    · simp only [h, if_true, List.map_cons, List.countP_cons]
      rw [List.filter_cons_of_pos (by simp; omega), ih (n + 1) (by omega), List.range_succ_eq_map]
      simp only [List.map_cons, List.map_map, Nat.cast_zero, add_zero, List.cons.injEq, true_and]
      apply List.map_congr_left
      intro i _
      simp only [Function.comp, Nat.succ_eq_add_one]
      push_cast
      omega
    · have hf : numbered_column (kind, w) = false := by simpa using h
      simp only [hf, List.map_cons, List.countP_cons]
      rw [if_neg (by simp)]
      have hneg : ¬ (0 < (if w = PROVSQL_COLUMN_NAME ∧ kind ≠ RTEKind.RTE_JOIN then (-1 : Int) else 0)) := by
        split <;> omega
      rw [List.filter_cons_of_neg (by simpa using hneg), ih n hn]
      simp

theorem build_columns_cons (r : RangeTblEntry) (rest : List RangeTblEntry) (n : Nat)
    (t : List (List Int) × Int) (h : build_columns (r :: rest) n = .ok t) :
    ∃ (row : List Int) (t1 : List (List Int) × Int),
      build_columns rest ((n + (exposed_columns r).countP numbered_column : Nat) : Int)
        = .ok t1 ∧
      t = (row :: t1.1, t1.2) ∧
      row.length = (exposed_columns r).length ∧
      (∀ k c, (exposed_columns r).get? k = some c →
        row.get? k
          = some (column_index_value c (n + ((exposed_columns r).take k).countP numbered_column))) ∧
      row.filter (fun v => decide (0 < v))
        = (List.range ((exposed_columns r).countP numbered_column)).map
            (fun (i : Nat) => ((n + 1 + i : Nat) : Int)) := by
  unfold build_columns at h
  cases he : r.eref with
  | none =>
    rw [he] at h
    simp only at h
    cases hr : build_columns rest n with
    | error e => rw [hr] at h; cases h
    | ok t1 =>
      rw [hr] at h
      simp only [Except.ok.injEq] at h
      refine ⟨[], t1, ?_, h.symm, ?_, ?_, ?_⟩
      · rw [← hr]
        simp [exposed_columns, he]
      · simp [exposed_columns, he]
      · intro k c h
        simp [exposed_columns, he] at h
      · simp [exposed_columns, he]
  | some eref =>
    rw [he] at h
    simp only at h
    by_cases hemp : eref.colnames.isEmpty = true
    · rw [if_pos hemp] at h; cases h
    rw [if_neg hemp] at h
    cases hr : build_columns rest (build_columns_row r.rtekind eref.colnames n).2 with
    | error e => rw [hr] at h; cases h
    | ok t1 =>
      rw [hr] at h
      simp only [Except.ok.injEq] at h
      refine ⟨(build_columns_row r.rtekind eref.colnames n).1, t1, ?_, h.symm, ?_, ?_, ?_⟩
      · have h2 := build_columns_row_count r.rtekind eref.colnames n
        rw [← hr, h2]
        simp only [exposed_columns, he]
        push_cast
        rfl
      · simp [exposed_columns, he, build_columns_row_length]
      · intro k c h
        simp only [exposed_columns, he, List.get?_eq_getElem?, List.getElem?_map,
          Option.map_eq_some'] at h
        obtain ⟨v, hv, rfl⟩ := h
        rw [build_columns_row_get r.rtekind eref.colnames n k v (by rw [List.get?_eq_getElem?]; exact hv)]
        simp only [column_index_value, exposed_columns, he]
        by_cases hnum : numbered_column (r.rtekind, v) = true
        · simp only [hnum, if_true]
          push_cast
          rfl
        · have hf : numbered_column (r.rtekind, v) = false := by simpa using hnum
          simp only [hf, Bool.false_eq_true, if_false]
          by_cases h3 : v = PROVSQL_COLUMN_NAME ∧ r.rtekind ≠ RTEKind.RTE_JOIN
          · rw [if_pos h3, if_pos h3]
          · rw [if_neg h3, if_neg h3]
      · rw [build_columns_row_positive r.rtekind eref.colnames n (by omega)]
        simp only [exposed_columns, he]
        apply List.map_congr_left
        intro i _
        push_cast
        ring

theorem build_columns_spec (rtable : List RangeTblEntry) (n : Nat)
    (t : List (List Int) × Int) (h : build_columns rtable n = .ok t) :
    t.1.map List.length = rtable.map (fun r => (exposed_columns r).length) ∧
    t.2 = ((n + (scanned_columns rtable).countP numbered_column : Nat) : Int) ∧
    (∀ k c, (scanned_columns rtable).get? k = some c →
      t.1.flatten.get? k
        = some (column_index_value c
            (n + ((scanned_columns rtable).take k).countP numbered_column))) ∧
    t.1.flatten.filter (fun v => decide (0 < v))
      = (List.range ((scanned_columns rtable).countP numbered_column)).map
          (fun (i : Nat) => ((n + 1 + i : Nat) : Int)) := by
  induction rtable generalizing n t with
  | nil =>
    simp only [build_columns, Except.ok.injEq] at h
    subst h
    refine ⟨rfl, by simp [scanned_columns], ?_, by simp [scanned_columns]⟩
    intro k c h
    simp [scanned_columns] at h
  | cons r rest ih =>
    obtain ⟨row, t1, hb, ht, hlen, hget, hpos⟩ := build_columns_cons r rest n t h
    obtain ⟨i1, i2, i3, i4⟩ := ih (n + (exposed_columns r).countP numbered_column) t1 hb
    have hsc : scanned_columns (r :: rest) = exposed_columns r ++ scanned_columns rest := by
      simp [scanned_columns]
    subst ht
    rw [hsc]
    refine ⟨?_, ?_, ?_, ?_⟩
    · simp only [List.map_cons, i1, hlen]
    · simp only [i2, List.countP_append]
      congr 1
      omega
    · intro k c h
      simp only [List.flatten_cons, List.get?_eq_getElem?] at h ⊢
      by_cases hk : k < (exposed_columns r).length
      · rw [List.getElem?_append_left hk] at h
        rw [List.getElem?_append_left (by omega), ← List.get?_eq_getElem?,
          hget k c (by rw [List.get?_eq_getElem?]; exact h),
          List.take_append_of_le_length (by omega)]
      · have hk2 : (exposed_columns r).length ≤ k := by omega
        rw [List.getElem?_append_right hk2] at h
        rw [List.getElem?_append_right (by omega), hlen, ← List.get?_eq_getElem?,
          i3 _ c (by rw [List.get?_eq_getElem?]; exact h), List.take_append_eq_append_take,
          List.take_of_length_le hk2, List.countP_append]
        congr 2
        omega
    · simp only [List.flatten_cons, List.filter_append, hpos, i4, List.countP_append]
      rw [List.range_add, List.map_append, List.map_map]
      congr 1
      apply List.map_congr_left
      intro i _
      simp only [Function.comp]
      congr 1
      omega

/-! ## Lemmas on the equality gates -/

theorem eq_operand_var_plain (n : Node) :
    plain_column_reference n ↔ ∃ c, eq_operand_var n = some c := by
  cases n with
  | Var a b c d e => exact ⟨fun _ => ⟨_, rfl⟩, fun _ => trivial⟩
  | RelabelType arg a b c d =>
    cases arg <;>
      first
        | exact ⟨fun _ => ⟨_, rfl⟩, fun _ => trivial⟩
        | exact ⟨fun h => h.elim, fun h => by obtain ⟨c, hc⟩ := h; cases hc⟩
  | _ => exact ⟨fun h => h.elim, fun h => by obtain ⟨c, hc⟩ := h; cases hc⟩

theorem add_eq_from_Quals_loop_eq_fold (constants : constants_t) (columns : List (List Int))
    (args : List Node) (e : Node) :
    add_eq_from_Quals_loop constants columns args e
      = List.foldlM (and_fold_step constants columns) e args := by
  induction args generalizing e with
  | nil => rfl
  | cons a rest ih =>
    rw [List.foldlM_cons]
    cases a with
    | OpExpr o1 o2 o3 o4 o5 oargs =>
      simp only [add_eq_from_Quals_loop, and_fold_step, is_op_expr, if_true]
      cases h : add_eq_from_OpExpr_to_Expr constants (.OpExpr o1 o2 o3 o4 o5 oargs) e columns with
      | error err => rfl
      | ok r => exact ih r
    | _ => exact ih e

/-! ## Lemmas on the projection gate -/

theorem projection_loop_var (constants : constants_t) (q : Query) (columns : List (List Int))
    (varno : Nat) (varattno : Int) (t : Oid) (m : Int) (cl : Oid) (resno : Int)
    (resname : Option String) (ref : Nat) (rest : List Node) (st : projection_state) (v : Int)
    (hv : var_position q columns varno varattno = .ok v) :
    projection_loop constants q columns
        (.TargetEntry (.Var varno varattno t m cl) resno resname ref :: rest) st
      = if 0 < v then
          projection_loop constants q columns rest
            { elements := st.elements ++ [make_int_const constants 4 v],
              projection := st.projection || decide (v ≠ st.nb_column + 1),
              nb_column := st.nb_column + 1 }
        else
          projection_loop constants q columns rest
            { st with projection := st.projection || decide (v ≠ -1) } := by
  unfold var_position at hv
  conv_lhs => rw [projection_loop]
  cases hr : list_nth q.rtable ((varno : Int) - 1) with
  | none => rw [hr] at hv; cases hv
  | some rte_v =>
    rw [hr] at hv
    simp only at hv ⊢
    by_cases hk : rte_v.rtekind ≠ RTEKind.RTE_JOIN
    · rw [if_pos hk] at hv
      simp only [if_pos hk, hv]
    · rw [if_neg hk] at hv
      simp only [if_neg hk]
      cases hj : list_nth rte_v.joinaliasvars (varattno - 1) with
      | none => rw [hj] at hv; cases hv
      | some jn =>
        rw [hj] at hv
        cases jn <;> first | cases hv | (simp only at hv ⊢; simp only [hv])

theorem projection_loop_computed (constants : constants_t) (q : Query)
    (columns : List (List Int)) (expr : Node) (resno : Int) (resname : Option String)
    (ref : Nat) (rest : List Node) (st : projection_state)
    (he : ¬ is_var_entry (.TargetEntry expr resno resname ref)) :
    projection_loop constants q columns (.TargetEntry expr resno resname ref :: rest) st
      = projection_loop constants q columns rest
          { st with elements := st.elements ++ [make_int_const constants 4 0],
                    projection := true } := by
  cases expr with
  | Var a b c d e => exact absurd trivial he
  | _ => simp only [projection_loop]

theorem projection_loop_spec (constants : constants_t) (q : Query) (columns : List (List Int)) :
    ∀ (tl : List Node) (st : projection_state), scannable_targets q columns tl →
      ∃ st1, projection_loop constants q columns tl st = .ok st1 ∧
        st1.elements = st.elements ++ tl.flatMap (projection_literals constants q columns) ∧
        st1.nb_column = st.nb_column + ((positive_positions q columns tl).length : Nat) ∧
        (st1.projection = false ↔
          st.projection = false ∧
          (∀ te ∈ tl, is_var_entry te ∧
            ∃ v, entry_position q columns te = some v ∧ (0 < v ∨ v = -1)) ∧
          ∃ n : Nat, positive_positions q columns tl
            = (List.range n).map (fun (i : Nat) => st.nb_column + 1 + (i : Int))) := by
  intro tl
  induction tl with
  | nil =>
    intro st _
    refine ⟨st, rfl, by simp, by simp [positive_positions], ?_⟩
    simp only [List.not_mem_nil, false_implies, implies_true, true_and, positive_positions,
      List.filterMap_nil, List.filter_nil, iff_self_and]
    intro _
    exact ⟨0, rfl⟩
  | cons te rest ih =>
    intro st hs
    have hrest : scannable_targets q columns rest := fun x hx => hs x (List.mem_cons_of_mem _ hx)
    obtain ⟨⟨expr, resno, resname, ref, hte⟩, hpos⟩ := hs te (List.mem_cons_self _ _)
    subst hte
    by_cases hvar : is_var_entry (.TargetEntry expr resno resname ref)
    · obtain ⟨v, hv⟩ := hpos hvar
      cases expr with
      | Var varno varattno t m cl =>
        have hvp : var_position q columns varno varattno = .ok v := by
          simp only [entry_position] at hv
          cases hx : var_position q columns varno varattno with
          | error e => rw [hx] at hv; cases hv
          | ok w => rw [hx] at hv; simp only [Option.some.injEq] at hv; rw [hv]
        rw [projection_loop_var constants q columns varno varattno t m cl resno resname ref rest
          st v hvp]
        by_cases h0 : 0 < v
        · rw [if_pos h0]
          obtain ⟨st1, hloop, hel, hnb, hiff⟩ := ih
            { elements := st.elements ++ [make_int_const constants 4 v],
              projection := st.projection || decide (v ≠ st.nb_column + 1),
              nb_column := st.nb_column + 1 } hrest
          have hpp : positive_positions q columns
              (.TargetEntry (.Var varno varattno t m cl) resno resname ref :: rest)
              = v :: positive_positions q columns rest := by
            simp [positive_positions, List.filterMap_cons, hv, h0]
          have hlit : projection_literals constants q columns
              (.TargetEntry (.Var varno varattno t m cl) resno resname ref)
              = [make_int_const constants 4 v] := by
            simp [projection_literals, hvp, h0]
          refine ⟨st1, hloop, ?_, ?_, ?_⟩
          · rw [hel, List.flatMap_cons, hlit]
            simp
          · rw [hnb, hpp]
            simp only [List.length_cons]
            push_cast
            ring
          · rw [hiff, hpp]
            simp only [Bool.or_eq_false_iff, decide_eq_false_iff_not, not_not,
              List.mem_cons, forall_eq_or_imp]
            constructor
            · rintro ⟨⟨h1, h2⟩, h3, n, h4⟩
              refine ⟨h1, ⟨⟨hvar, v, hv, Or.inl h0⟩, h3⟩, n + 1, ?_⟩
              rw [List.range_succ_eq_map, List.map_cons, List.map_map, h4, h2]
              simp only [Nat.cast_zero, add_zero, List.cons.injEq, true_and]
              apply List.map_congr_left
              intro i _
              simp only [Function.comp, Nat.succ_eq_add_one]
              push_cast
              ring
            · rintro ⟨h1, ⟨_, h3⟩, n, h4⟩
              cases n with
              | zero => simp at h4
              | succ n =>
                rw [List.range_succ_eq_map, List.map_cons, List.map_map] at h4
                simp only [Nat.cast_zero, add_zero, List.cons.injEq] at h4
                refine ⟨⟨h1, h4.1⟩, h3, n, ?_⟩
                rw [h4.2]
                apply List.map_congr_left
                intro i _
                simp only [Function.comp, Nat.succ_eq_add_one]
                push_cast
                ring
        · rw [if_neg h0]
          obtain ⟨st1, hloop, hel, hnb, hiff⟩ := ih
            { st with projection := st.projection || decide (v ≠ -1) } hrest
          have hpp : positive_positions q columns
              (.TargetEntry (.Var varno varattno t m cl) resno resname ref :: rest)
              = positive_positions q columns rest := by
            simp [positive_positions, List.filterMap_cons, hv, h0]
          have hlit : projection_literals constants q columns
              (.TargetEntry (.Var varno varattno t m cl) resno resname ref) = [] := by
            simp [projection_literals, hvp, h0]
          refine ⟨st1, hloop, ?_, ?_, ?_⟩
          · rw [hel, List.flatMap_cons, hlit]
            simp
          · rw [hnb, hpp]
          · rw [hiff, hpp]
            simp only [Bool.or_eq_false_iff, decide_eq_false_iff_not, not_not,
              List.mem_cons, forall_eq_or_imp]
            constructor
            · rintro ⟨⟨h1, h2⟩, h3, h4⟩
              exact ⟨h1, ⟨⟨hvar, v, hv, Or.inr h2⟩, h3⟩, h4⟩
            · rintro ⟨h1, ⟨⟨_, w, hw, hw2⟩, h3⟩, h4⟩
              rw [hv] at hw
              simp only [Option.some.injEq] at hw
              subst hw
              rcases hw2 with hw2 | hw2
              · exact absurd hw2 h0
              · exact ⟨⟨h1, hw2⟩, h3, h4⟩
      | _ => exact absurd hvar (fun h => h)
    · rw [projection_loop_computed constants q columns expr resno resname ref rest st hvar]
      obtain ⟨st1, hloop, hel, hnb, hiff⟩ := ih
        { st with elements := st.elements ++ [make_int_const constants 4 0],
                  projection := true } hrest
      have hep : entry_position q columns (.TargetEntry expr resno resname ref) = none := by
        cases expr with
        | Var a b c d e => exact absurd trivial hvar
        | _ => rfl
      have hpp : positive_positions q columns (.TargetEntry expr resno resname ref :: rest)
          = positive_positions q columns rest := by
        simp [positive_positions, List.filterMap_cons, hep]
      have hlit : projection_literals constants q columns (.TargetEntry expr resno resname ref)
          = [make_int_const constants 4 0] := by
        cases expr with
        | Var a b c d e => exact absurd trivial hvar
        | _ => rfl
      refine ⟨st1, hloop, ?_, ?_, ?_⟩
      · rw [hel, List.flatMap_cons, hlit]
        simp
      · rw [hnb, hpp]
      · rw [hiff]
        constructor
        · rintro ⟨h1, _⟩
          cases h1
        · rintro ⟨_, h2, _⟩
          exact absurd (h2 _ (List.mem_cons_self _ _)).1 hvar

theorem projection_gate_ne (constants : constants_t) (previous : Node) (literals : List Node) :
    projection_gate constants previous literals ≠ previous := by
  intro h
  have := congrArg sizeOf h
  simp [projection_gate] at this
  omega

/-- With where-provenance on, `make_provenance_expression` is its first part,
then the equality phase, then the projection gate unless the target list is
the identity projection. -/
theorem make_provenance_expression_with_where (constants : constants_t) (env : Env)
    (q : Query) (prov_atts : List Node) (aggregation : Bool) (group_by_rewrite : Bool)
    (op : semiring_operation) (columns : List (List Int)) (nbcols : Int)
    (result0 previous : Node) (q1 : Query)
    (hwp : env.provsql_where_provenance = true)
    (hcore : make_provenance_expression_core constants q prov_atts aggregation group_by_rewrite op
      = .ok (result0, q1))
    (heq : where_equalities constants columns q1.jointree result0 = .ok previous)
    (hs : scannable_targets q1 columns q1.targetList) :
    ∃ r, make_provenance_expression constants env q prov_atts aggregation group_by_rewrite op
          columns nbcols = .ok (r, q1) ∧
      (r = previous ↔ identity_projection q1 columns nbcols q1.targetList) ∧
      (¬ identity_projection q1 columns nbcols q1.targetList →
        r = projection_gate constants previous
              (q1.targetList.flatMap (projection_literals constants q1 columns))) := by
  obtain ⟨st1, hloop, hel, hnb, hiff⟩ := projection_loop_spec constants q1 columns q1.targetList
    { elements := [], projection := false, nb_column := 0 } hs
  simp only [List.nil_append, zero_add, true_and] at hel hnb hiff
  have hid : identity_projection q1 columns nbcols q1.targetList
      ↔ (st1.projection || decide (st1.nb_column ≠ nbcols)) = false := by
    simp only [Bool.or_eq_false_iff, decide_eq_false_iff_not, not_not, hiff, identity_projection]
    constructor
    · rintro ⟨h1, n, hn, hp⟩
      refine ⟨⟨h1, n, ?_⟩, ?_⟩
      · rw [hp, List.range'_eq_map_range, List.map_map]
        apply List.map_congr_left
        intro i _
        simp only [Function.comp]
        push_cast
        rfl
      · rw [hnb, hp, ← hn]
        simp
    · rintro ⟨⟨h1, n, hp⟩, h2⟩
      refine ⟨h1, n, ?_, ?_⟩
      · rw [← h2, hnb, hp]
        simp
      · rw [hp, List.range'_eq_map_range, List.map_map]
        apply List.map_congr_left
        intro i _
        simp only [Function.comp]
        push_cast
        rfl
  have hmpe : make_provenance_expression constants env q prov_atts aggregation group_by_rewrite
      op columns nbcols
      = .ok (if (st1.projection || decide (st1.nb_column ≠ nbcols)) = true then
               projection_gate constants previous
                 (q1.targetList.flatMap (projection_literals constants q1 columns))
             else previous, q1) := by
    unfold where_equalities at heq
    simp only [make_provenance_expression, hcore, hwp, if_true]
    cases hjt : q1.jointree with
    | none =>
      rw [hjt] at heq
      simp only [Except.ok.injEq] at heq
      subst heq
      simp only [hloop, hel]
      by_cases hp : (st1.projection || decide (st1.nb_column ≠ nbcols)) = true
      · simp only [if_pos hp]
        rfl
      · simp only [if_neg hp]
    | some jt =>
      rw [hjt] at heq
      simp only at heq
      cases hfl : add_eq_from_fromlist constants columns jt.fromlist result0 with
      | error e => rw [hfl] at heq; cases heq
      | ok r =>
        rw [hfl] at heq
        simp only at heq
        simp only [hfl, heq, hloop, hel]
        by_cases hp : (st1.projection || decide (st1.nb_column ≠ nbcols)) = true
        · simp only [if_pos hp]
          rfl
        · simp only [if_neg hp]
  rw [hmpe]
  by_cases hp : (st1.projection || decide (st1.nb_column ≠ nbcols)) = true
  · refine ⟨_, rfl, ?_, fun _ => ?_⟩
    · rw [if_pos hp, hid, hp]
      simp only [Bool.true_eq_false, iff_false]
      exact projection_gate_ne constants previous _
    · rw [if_pos hp]
  · have hp2 : (st1.projection || decide (st1.nb_column ≠ nbcols)) = false := by
      simpa using hp
    refine ⟨_, rfl, ?_, ?_⟩
    · rw [if_neg hp, hid, hp2]
      simp
    · intro hn
      exact absurd (hid.mpr hp2) hn

/-! ## Lemmas on the replacement of the placeholder -/

theorem tree_mutator_list_eq_map (hook : Node → Option Node) (l : List Node) :
    tree_mutator_list hook l = l.map (tree_mutator hook) := by
  induction l with
  | nil => rfl
  | cons x xs ih => simp [tree_mutator_list, ih]

theorem provenance_mutator_call (context : provenance_mutator_context) (typ : Oid)
    (variadic : Bool) (args : List Node) :
    provenance_mutator context
        (.FuncExpr context.constants.OID_FUNCTION_PROVENANCE typ variadic args)
      = context.provsql := by
  simp [provenance_mutator, tree_mutator]

theorem provenance_mutator_nodes (context : provenance_mutator_context) :
    (∀ a b c d e, provenance_mutator context (.Var a b c d e) = .Var a b c d e) ∧
    (∀ a b c d e f g, provenance_mutator context (.Const a b c d e f g) = .Const a b c d e f g) ∧
    (∀ arg a b c d, provenance_mutator context (.RelabelType arg a b c d)
      = .RelabelType (provenance_mutator context arg) a b c d) ∧
    (∀ funcid b c args, funcid ≠ context.constants.OID_FUNCTION_PROVENANCE →
      provenance_mutator context (.FuncExpr funcid b c args)
        = .FuncExpr funcid b c (args.map (provenance_mutator context))) ∧
    (∀ a b c d e args, provenance_mutator context (.OpExpr a b c d e args)
      = .OpExpr a b c d e (args.map (provenance_mutator context))) ∧
    (∀ a args, provenance_mutator context (.BoolExpr a args)
      = .BoolExpr a (args.map (provenance_mutator context))) ∧
    (∀ a b elements, provenance_mutator context (.ArrayExpr a b elements)
      = .ArrayExpr a b (elements.map (provenance_mutator context))) ∧
    (∀ a b c args d e, provenance_mutator context (.Aggref a b c args d e)
      = .Aggref a b c (args.map (provenance_mutator context)) d e) ∧
    (∀ expr a b c, provenance_mutator context (.TargetEntry expr a b c)
      = .TargetEntry (provenance_mutator context expr) a b c) ∧
    (∀ a b children, provenance_mutator context (.Other a b children)
      = .Other a b (children.map (provenance_mutator context))) := by
  refine ⟨?_, ?_, ?_, ?_, ?_, ?_, ?_, ?_, ?_, ?_⟩
  · intros; simp [provenance_mutator, tree_mutator]
  · intros; simp [provenance_mutator, tree_mutator]
  · intros; simp [provenance_mutator, tree_mutator]
  · intro funcid b c args hf
    simp only [provenance_mutator, tree_mutator, if_neg hf, tree_mutator_list_eq_map]
    rfl
  · intros; simp only [provenance_mutator, tree_mutator, tree_mutator_list_eq_map]; rfl
  · intros; simp only [provenance_mutator, tree_mutator, tree_mutator_list_eq_map]; rfl
  · intros; simp only [provenance_mutator, tree_mutator, tree_mutator_list_eq_map]; rfl
  · intros; simp only [provenance_mutator, tree_mutator, tree_mutator_list_eq_map]; rfl
  · intros; simp [provenance_mutator, tree_mutator]
  · intros; simp only [provenance_mutator, tree_mutator, tree_mutator_list_eq_map]; rfl

theorem provenance_function_walker_node (constants : constants_t) (n : Node)
    (hn : is_provenance_call constants n = false) :
    provenance_function_walker constants n
      = tree_walker_list (is_provenance_call constants) n.children := by
  cases n <;>
    simp [provenance_function_walker, tree_walker, hn, Node.children, tree_walker_list]

mutual
theorem provenance_mutator_no_call (context : provenance_mutator_context)
    (he : provenance_function_walker context.constants context.provsql = false) :
    ∀ n : Node, provenance_function_walker context.constants (provenance_mutator context n) = false
  | .Var a b c d e => by
    rw [(provenance_mutator_nodes context).1]
    rfl
  | .Const a b c d e f g => by
    rw [(provenance_mutator_nodes context).2.1]
    rfl
  | .RelabelType arg a b c d => by
    have ih := provenance_mutator_no_call context he arg
    rw [(provenance_mutator_nodes context).2.2.1, provenance_function_walker_node]
    · simp only [Node.children, tree_walker_list, Bool.or_false]
      exact ih
    · rfl
  | .FuncExpr funcid b c args => by
    by_cases hf : funcid = context.constants.OID_FUNCTION_PROVENANCE
    · subst hf
      rw [provenance_mutator_call]
      exact he
    · rw [(provenance_mutator_nodes context).2.2.2.1 _ _ _ _ hf,
        provenance_function_walker_node]
      · exact provenance_mutator_list_no_call context he args
      · simp [is_provenance_call, hf]
  | .OpExpr a b c d e args => by
    rw [(provenance_mutator_nodes context).2.2.2.2.1, provenance_function_walker_node]
    · exact provenance_mutator_list_no_call context he args
    · rfl
  | .BoolExpr a args => by
    rw [(provenance_mutator_nodes context).2.2.2.2.2.1, provenance_function_walker_node]
    · exact provenance_mutator_list_no_call context he args
    · rfl
  | .ArrayExpr a b args => by
    rw [(provenance_mutator_nodes context).2.2.2.2.2.2.1,
      provenance_function_walker_node]
    · exact provenance_mutator_list_no_call context he args
    · rfl
  | .Aggref a b c args d e => by
    rw [(provenance_mutator_nodes context).2.2.2.2.2.2.2.1,
      provenance_function_walker_node]
    · exact provenance_mutator_list_no_call context he args
    · rfl
  | .TargetEntry expr a b c => by
    have ih := provenance_mutator_no_call context he expr
    rw [(provenance_mutator_nodes context).2.2.2.2.2.2.2.2.1,
      provenance_function_walker_node]
    · simp only [Node.children, tree_walker_list, Bool.or_false]
      exact ih
    · rfl
  | .Other a b args => by
    rw [(provenance_mutator_nodes context).2.2.2.2.2.2.2.2.2,
      provenance_function_walker_node]
    · exact provenance_mutator_list_no_call context he args
    · rfl
theorem provenance_mutator_list_no_call (context : provenance_mutator_context)
    (he : provenance_function_walker context.constants context.provsql = false) :
    ∀ l : List Node,
      tree_walker_list (is_provenance_call context.constants)
        (l.map (provenance_mutator context)) = false
  | [] => rfl
  | x :: xs => by
    have h1 := provenance_mutator_no_call context he x
    have h2 := provenance_mutator_list_no_call context he xs
    simp only [provenance_function_walker] at h1
    simp [tree_walker_list, h1, h2]
end

theorem has_provenance_call_mutate (context : provenance_mutator_context)
    (he : provenance_function_walker context.constants context.provsql = false) :
    ∀ t : TNode,
      (t.mutate (provenance_mutator context)).has_provenance_call context.constants = false
  | .RangeTblRef _ => rfl
  | .OtherTree _ => rfl
  | .SetOperationStmt op all l r ct cm cc => by
    simp [TNode.mutate, TNode.has_provenance_call, has_provenance_call_mutate context he l,
      has_provenance_call_mutate context he r]
  | .JoinExpr jt l r quals i => by
    cases quals with
    | none =>
      simp [TNode.mutate, TNode.has_provenance_call, has_provenance_call_mutate context he l,
        has_provenance_call_mutate context he r]
    | some w =>
      simp [TNode.mutate, TNode.has_provenance_call, has_provenance_call_mutate context he l,
        has_provenance_call_mutate context he r, provenance_mutator_no_call context he w]

/-! ## Lemmas on the errors of the steps -/

theorem get_rte_attribute_name_fuel (r : RangeTblEntry) (attnum : Int) :
    get_rte_attribute_name r attnum ≠ .error Err.OutOfFuel := by
  unfold get_rte_attribute_name
  cases r.rtalias <;> cases r.eref <;> simp only <;> repeat' split
  all_goals simp

theorem function_provenance_attributes_fuel (constants : constants_t) (r : RangeTblEntry)
    (rteid : Nat) (l : List RangeTblFunction) (attid : Int) :
    function_provenance_attributes constants r rteid l attid ≠ .error Err.OutOfFuel := by
  induction l generalizing attid with
  | nil => simp [function_provenance_attributes]
  | cons f rest ih =>
    unfold function_provenance_attributes
    repeat' first | split | (fail_if_no_progress dsimp only)
    all_goals first
      | (simp; done)
      | exact ih _
      | (intro hc; simp only [Except.error.injEq] at hc; subst hc; simp_all [get_rte_attribute_name_fuel])

theorem fix_type_of_aggregation_result_loop_fuel (constants : constants_t) (rteid : Nat)
    (l : List Node) (attno : Int) (q : Query) :
    fix_type_of_aggregation_result_loop constants rteid l attno q ≠ .error Err.OutOfFuel := by
  induction l generalizing attno q with
  | nil => simp [fix_type_of_aggregation_result_loop]
  | cons te rest ih =>
    unfold fix_type_of_aggregation_result_loop
    repeat' first | split | (fail_if_no_progress dsimp only)
    all_goals first
      | (simp; done)
      | exact ih _ _
      | (intro hc; dsimp only at hc; split at hc <;> simp_all)

theorem is_provenance_target_fuel (constants : constants_t) (q : Query) (expr : Node)
    (resname : Option String) :
    is_provenance_target constants q expr resname ≠ .error Err.OutOfFuel := by
  unfold is_provenance_target
  repeat' first | split | (fail_if_no_progress dsimp only)
  all_goals simp

theorem remove_provenance_attributes_select_loop_fuel (constants : constants_t) (q : Query)
    (l : List Node) (n : Int) (refs : Bitmapset) :
    remove_provenance_attributes_select_loop constants q l n refs ≠ .error Err.OutOfFuel := by
  induction l generalizing n refs with
  | nil => simp [remove_provenance_attributes_select_loop]
  | cons te rest ih =>
    intro hc
    cases te with
    | TargetEntry expr resno resname ref =>
      simp only [remove_provenance_attributes_select_loop] at hc
      cases ht : is_provenance_target constants q expr resname with
      | error e =>
        rw [ht] at hc
        simp only [Except.error.injEq] at hc
        subst hc
        exact is_provenance_target_fuel _ _ _ _ ht
      | ok b =>
        rw [ht] at hc
        cases b with
        | true =>
          simp only at hc
          cases hx : remove_provenance_attributes_select_loop constants q rest (n + 1)
              (if 0 < ref then bms_add_member refs ref else refs) with
          | error e =>
            rw [hx] at hc
            simp only [Except.error.injEq] at hc
            subst hc
            exact ih _ _ hx
          | ok p => rw [hx] at hc; cases hc
        | false =>
          simp only at hc
          cases hx : remove_provenance_attributes_select_loop constants q rest n refs with
          | error e =>
            rw [hx] at hc
            simp only [Except.error.injEq] at hc
            subst hc
            exact ih _ _ hx
          | ok p => rw [hx] at hc; cases hc
    | _ => simp [remove_provenance_attributes_select_loop] at hc

theorem remove_setoperations_loop_fuel {α : Type} (removed : List Bool) (l : List α) (j : Nat) :
    remove_setoperations_loop removed l j ≠ .error Err.OutOfFuel := by
  induction l generalizing j with
  | nil => simp [remove_setoperations_loop]
  | cons x rest ih =>
    unfold remove_setoperations_loop
    repeat' first | split | (fail_if_no_progress dsimp only)
    all_goals first
      | (simp; done)
      | exact ih _
      | (intro hc; simp only [Except.error.injEq] at hc; subst hc; simp_all)

theorem remove_provenance_attribute_setoperations_fuel (q : Query) (removed : List Bool) :
    remove_provenance_attribute_setoperations q removed ≠ .error Err.OutOfFuel := by
  intro hc
  unfold remove_provenance_attribute_setoperations at hc
  split at hc
  · rename_i op all larg rarg ct cm cc hs
    cases h1 : remove_setoperations_loop removed ct 0 with
    | error e =>
      rw [h1] at hc
      simp only [Except.error.injEq] at hc
      subst hc
      exact remove_setoperations_loop_fuel _ _ _ h1
    | ok ct1 =>
      rw [h1] at hc
      simp only at hc
      cases h2 : remove_setoperations_loop removed cm 0 with
      | error e =>
        rw [h2] at hc
        simp only [Except.error.injEq] at hc
        subst hc
        exact remove_setoperations_loop_fuel _ _ _ h2
      | ok cm1 =>
        rw [h2] at hc
        simp only at hc
        cases h3 : remove_setoperations_loop removed cc 0 with
        | error e =>
          rw [h3] at hc
          simp only [Except.error.injEq] at hc
          subst hc
          exact remove_setoperations_loop_fuel _ _ _ h3
        | ok cc1 => rw [h3] at hc; cases hc
  · cases hc

theorem process_query_remove_fuel (constants : constants_t) (q : Query) :
    process_query_remove constants q ≠ .error Err.OutOfFuel := by
  intro hc
  unfold process_query_remove remove_provenance_attributes_select at hc
  by_cases hemp : q.targetList.isEmpty = true
  · simp [hemp] at hc
  rw [if_neg hemp] at hc
  cases hl : remove_provenance_attributes_select_loop constants q q.targetList 0 [] with
  | error e =>
    rw [hl] at hc
    simp only [Except.error.injEq] at hc
    subst hc
    exact remove_provenance_attributes_select_loop_fuel _ _ _ _ _ hl
  | ok p =>
    obtain ⟨kept, removed, refs⟩ := p
    rw [hl] at hc
    simp only at hc
    split at hc
    · split at hc
      · exact remove_provenance_attribute_setoperations_fuel _ _ hc
      · cases hc
    · split at hc
      · exact remove_provenance_attribute_setoperations_fuel _ _ hc
      · cases hc

theorem process_query_distinct_fuel (q : Query) :
    process_query_distinct q ≠ .error Err.OutOfFuel := by
  unfold process_query_distinct
  repeat' first | split | (fail_if_no_progress dsimp only)
  all_goals simp

theorem process_set_operation_union_fuel (constants : constants_t) :
    ∀ t : TNode, process_set_operation_union constants t ≠ .error Err.OutOfFuel
  | .RangeTblRef _ => by simp [process_set_operation_union]
  | .JoinExpr _ _ _ _ _ => by simp [process_set_operation_union]
  | .OtherTree _ => by simp [process_set_operation_union]
  | .SetOperationStmt op all l r ct cm cc => by
    have hl := process_set_operation_union_fuel constants l
    have hr := process_set_operation_union_fuel constants r
    intro hc
    unfold process_set_operation_union at hc
    by_cases hop : op ≠ SetOperation.SETOP_UNION
    · rw [if_pos hop] at hc
      cases hc
    · rw [if_neg hop] at hc
      have hleft : ∀ e, (match l with
          | .SetOperationStmt a b c d e f g =>
            process_set_operation_union constants (.SetOperationStmt a b c d e f g)
          | other => (.ok other : Except Err TNode)) = .error e → e ≠ Err.OutOfFuel := by
        intro e he hf
        subst hf
        cases l <;> first | exact hl he | cases he
      have hright : ∀ e, (match r with
          | .SetOperationStmt a b c d e f g =>
            process_set_operation_union constants (.SetOperationStmt a b c d e f g)
          | other => (.ok other : Except Err TNode)) = .error e → e ≠ Err.OutOfFuel := by
        intro e he hf
        subst hf
        cases r <;> first | exact hr he | cases he
      dsimp only at hc
      split at hc
      · rename_i e he
        simp only [Except.error.injEq] at hc
        exact hleft e he hc
      · split at hc
        · rename_i e he
          simp only [Except.error.injEq] at hc
          exact hright e he hc
        · cases hc

theorem transform_except_loop_fuel (constants : constants_t) (env : Env) (li ri : Nat)
    (l : List Node) (attno : Int) :
    transform_except_loop constants env li ri l attno ≠ .error Err.OutOfFuel := by
  induction l generalizing attno with
  | nil => simp [transform_except_loop]
  | cons te rest ih =>
    unfold transform_except_loop
    repeat' first | split | (fail_if_no_progress dsimp only)
    all_goals first
      | (simp; done)
      | (intro hc; simp only [Except.error.injEq] at hc; subst hc; simp_all)

theorem transform_except_into_join_fuel (constants : constants_t) (env : Env) (q : Query) :
    transform_except_into_join constants env q ≠ .error Err.OutOfFuel := by
  intro hc
  unfold transform_except_into_join at hc
  split at hc
  · split at hc
    · rename_i lindex rindex _
      cases hx : transform_except_loop constants env lindex rindex q.targetList 1 with
      | error e =>
        rw [hx] at hc
        simp only [Except.error.injEq] at hc
        subst hc
        exact transform_except_loop_fuel _ _ _ _ _ _ hx
      | ok p => rw [hx] at hc; cases hc
    · cases hc
  · cases hc

theorem process_query_setops_fuel (constants : constants_t) (env : Env) (q : Query) :
    process_query_setops constants env q ≠ .error Err.OutOfFuel := by
  intro hc
  unfold process_query_setops at hc
  split at hc
  · cases hc
  · rename_i op all larg rarg ct cm cc hs
    split at hc
    · cases hx : process_set_operation_union constants
          (.SetOperationStmt op all larg rarg ct cm cc) with
      | error e =>
        rw [hx] at hc
        simp only [Except.error.injEq] at hc
        subst hc
        exact process_set_operation_union_fuel _ _ hx
      | ok p => rw [hx] at hc; cases hc
    · split at hc
      · cases hx : transform_except_into_join constants env q with
        | error e =>
          rw [hx] at hc
          simp only [Except.error.injEq] at hc
          subst hc
          exact transform_except_into_join_fuel _ _ _ hx
        | ok p => rw [hx] at hc; cases hc
      · cases hc
  · cases hc

theorem provenance_function_in_group_by_loop_fuel (constants : constants_t) (l : List Node) :
    provenance_function_in_group_by_loop constants l ≠ .error Err.OutOfFuel := by
  induction l with
  | nil => simp [provenance_function_in_group_by_loop]
  | cons te rest ih =>
    unfold provenance_function_in_group_by_loop
    repeat' first | split | (fail_if_no_progress dsimp only)
    all_goals first
      | (simp; done)
      | exact ih

theorem process_query_group_by_rewrite_fuel (constants : constants_t) (q : Query) :
    process_query_group_by_rewrite constants q ≠ .error Err.OutOfFuel := by
  unfold process_query_group_by_rewrite provenance_function_in_group_by
  repeat' first | split | (fail_if_no_progress dsimp only)
  all_goals first
    | (simp; done)
    | (intro hc; simp only [Except.error.injEq] at hc; subst hc; simp_all [provenance_function_in_group_by_loop_fuel])

theorem columns_lookup_fuel (columns : List (List Int)) (varno : Nat) (varattno : Int) :
    columns_lookup columns varno varattno ≠ .error Err.OutOfFuel := by
  unfold columns_lookup
  repeat' split
  all_goals simp

theorem add_eq_from_OpExpr_to_Expr_fuel (constants : constants_t) (o e : Node)
    (columns : List (List Int)) :
    add_eq_from_OpExpr_to_Expr constants o e columns ≠ .error Err.OutOfFuel := by
  intro hc
  unfold add_eq_from_OpExpr_to_Expr at hc
  repeat' split at hc
  all_goals first
    | (cases hc; done)
    | (cases hc; exact columns_lookup_fuel _ _ _ (by assumption))

theorem add_eq_from_Quals_loop_fuel (constants : constants_t) (columns : List (List Int))
    (args : List Node) (e : Node) :
    add_eq_from_Quals_loop constants columns args e ≠ .error Err.OutOfFuel := by
  induction args generalizing e with
  | nil => simp [add_eq_from_Quals_loop]
  | cons a rest ih =>
    intro hc
    unfold add_eq_from_Quals_loop at hc
    split at hc
    · split at hc
      · simp only [Except.error.injEq] at hc
        subst hc
        exact add_eq_from_OpExpr_to_Expr_fuel _ _ _ _ (by assumption)
      · exact ih _ hc
    · exact ih _ hc

theorem add_eq_from_Quals_to_Expr_fuel (constants : constants_t) (quals : Option Node)
    (e : Node) (columns : List (List Int)) :
    add_eq_from_Quals_to_Expr constants quals e columns ≠ .error Err.OutOfFuel := by
  intro hc
  unfold add_eq_from_Quals_to_Expr at hc
  split at hc
  · cases hc
  · exact add_eq_from_OpExpr_to_Expr_fuel _ _ _ _ hc
  · split at hc
    · cases hc
    · exact add_eq_from_Quals_loop_fuel _ _ _ _ hc
  · cases hc

theorem add_eq_from_fromlist_fuel (constants : constants_t) (columns : List (List Int))
    (l : List TNode) (e : Node) :
    add_eq_from_fromlist constants columns l e ≠ .error Err.OutOfFuel := by
  induction l generalizing e with
  | nil => simp [add_eq_from_fromlist]
  | cons a rest ih =>
    intro hc
    unfold add_eq_from_fromlist at hc
    split at hc
    · split at hc
      · simp only [Except.error.injEq] at hc
        subst hc
        exact add_eq_from_Quals_to_Expr_fuel _ _ _ _ (by assumption)
      · exact ih _ hc
    · exact ih _ hc

theorem first_attribute_arg_fuel (prov_atts : List Node) :
    first_attribute_arg prov_atts ≠ .error Err.OutOfFuel := by
  unfold first_attribute_arg
  repeat' split
  all_goals simp

theorem combine_prov_atts_fuel (constants : constants_t) (prov_atts : List Node)
    (op : semiring_operation) :
    combine_prov_atts constants prov_atts op ≠ .error Err.OutOfFuel := by
  unfold combine_prov_atts
  repeat' split
  all_goals simp

theorem make_aggregation_expression_fuel (constants : constants_t) (agg_ref : Node)
    (prov_atts : List Node) (op : semiring_operation) :
    make_aggregation_expression constants agg_ref prov_atts op ≠ .error Err.OutOfFuel := by
  intro hc
  unfold make_aggregation_expression at hc
  split at hc
  · split at hc
    · exact first_attribute_arg_fuel _ hc
    · split at hc
      · simp only [Except.error.injEq] at hc
        subst hc
        exact combine_prov_atts_fuel _ _ _ (by assumption)
      · dsimp only at hc
        split at hc
        · rename_i hval
          simp only [Except.error.injEq] at hc
          subst hc
          repeat' split at hval
          all_goals cases hval
        · cases hc
  · cases hc

theorem make_provenance_expression_core_fuel (constants : constants_t) (q : Query)
    (prov_atts : List Node) (aggregation group_by_rewrite : Bool) (op : semiring_operation) :
    make_provenance_expression_core constants q prov_atts aggregation group_by_rewrite op
      ≠ .error Err.OutOfFuel := by
  intro hc
  unfold make_provenance_expression_core at hc
  split at hc
  · split at hc
    · simp only [Except.error.injEq] at hc
      subst hc
      exact first_attribute_arg_fuel _ (by assumption)
    · cases hc
  · split at hc
    · simp only [Except.error.injEq] at hc
      subst hc
      exact combine_prov_atts_fuel _ _ _ (by assumption)
    · dsimp only at hc
      split at hc <;> cases hc

theorem var_position_fuel (q : Query) (columns : List (List Int)) (varno : Nat)
    (varattno : Int) :
    var_position q columns varno varattno ≠ .error Err.OutOfFuel := by
  intro hc
  unfold var_position at hc
  repeat' split at hc
  all_goals first
    | cases hc
    | exact columns_lookup_fuel _ _ _ hc

theorem projection_loop_var_error (constants : constants_t) (q : Query)
    (columns : List (List Int)) (varno : Nat) (varattno : Int) (t : Oid) (m : Int) (cl : Oid)
    (resno : Int) (resname : Option String) (ref : Nat) (rest : List Node)
    (st : projection_state) (e : Err)
    (hv : var_position q columns varno varattno = .error e) :
    projection_loop constants q columns
        (.TargetEntry (.Var varno varattno t m cl) resno resname ref :: rest) st
      = .error e := by
  unfold var_position at hv
  conv_lhs => rw [projection_loop]
  cases hr : list_nth q.rtable ((varno : Int) - 1) with
  | none =>
    rw [hr] at hv
    simp only [Except.error.injEq] at hv
    rw [← hv]
  | some rte_v =>
    rw [hr] at hv
    simp only at hv ⊢
    by_cases hk : rte_v.rtekind ≠ RTEKind.RTE_JOIN
    · rw [if_pos hk] at hv
      simp only [if_pos hk, hv]
    · rw [if_neg hk] at hv
      simp only [if_neg hk]
      cases hj : list_nth rte_v.joinaliasvars (varattno - 1) with
      | none =>
        rw [hj] at hv
        simp only [Except.error.injEq] at hv
        rw [← hv]
      | some jn =>
        rw [hj] at hv
        cases jn <;> first
          | (simp only [Except.error.injEq] at hv; rw [← hv])
          | (simp only at hv ⊢; simp only [hv])

theorem projection_loop_fuel (constants : constants_t) (q : Query) (columns : List (List Int))
    (tl : List Node) (st : projection_state) :
    projection_loop constants q columns tl st ≠ .error Err.OutOfFuel := by
  induction tl generalizing st with
  | nil => simp [projection_loop]
  | cons te rest ih =>
    intro hc
    cases te with
    | TargetEntry expr resno resname ref =>
      by_cases hvar : is_var_entry (.TargetEntry expr resno resname ref)
      · cases expr with
        | Var varno varattno t m cl =>
          cases hv : var_position q columns varno varattno with
          | ok v =>
            rw [projection_loop_var constants q columns varno varattno t m cl resno resname ref
              rest st v hv] at hc
            split at hc <;> exact ih _ hc
          | error e =>
            rw [projection_loop_var_error constants q columns varno varattno t m cl resno
              resname ref rest st e hv] at hc
            simp only [Except.error.injEq] at hc
            subst hc
            exact var_position_fuel _ _ _ _ hv
        | _ => exact absurd hvar (fun h => h)
      · rw [projection_loop_computed constants q columns expr resno resname ref rest st hvar]
          at hc
        exact ih _ hc
    | _ => simp [projection_loop] at hc

theorem make_provenance_expression_fuel (constants : constants_t) (env : Env) (q : Query)
    (prov_atts : List Node) (aggregation group_by_rewrite : Bool) (op : semiring_operation)
    (columns : List (List Int)) (nbcols : Int) :
    make_provenance_expression constants env q prov_atts aggregation group_by_rewrite op columns
      nbcols ≠ .error Err.OutOfFuel := by
  intro hc
  unfold make_provenance_expression at hc
  cases hcore : make_provenance_expression_core constants q prov_atts aggregation
      group_by_rewrite op with
  | error e =>
    rw [hcore] at hc
    simp only [Except.error.injEq] at hc
    subst hc
    exact make_provenance_expression_core_fuel _ _ _ _ _ _ hcore
  | ok p =>
    obtain ⟨result0, q1⟩ := p
    rw [hcore] at hc
    simp only at hc
    split at hc
    · rename_i e hw
      simp only [Except.error.injEq] at hc
      subst hc
      split at hw
      · split at hw
        · split at hw
          · rename_i hfl
            simp only [Except.error.injEq] at hw
            subst hw
            exact add_eq_from_fromlist_fuel _ _ _ _ hfl
          · exact add_eq_from_Quals_to_Expr_fuel _ _ _ _ hw
        · cases hw
      · cases hw
    · split at hc
      · split at hc
        · rename_i hpl
          simp only [Except.error.injEq] at hc
          subst hc
          exact projection_loop_fuel _ _ _ _ _ hpl
        · split at hc <;> cases hc
      · cases hc

theorem mapE_fuel {α β : Type} (f : α → Except Err β) (l : List α)
    (hf : ∀ x ∈ l, f x ≠ .error Err.OutOfFuel) :
    mapE f l ≠ .error Err.OutOfFuel := by
  induction l with
  | nil => simp [mapE]
  | cons x rest ih =>
    intro hc
    unfold mapE at hc
    cases hx : f x with
    | error e =>
      rw [hx] at hc
      simp only [Except.error.injEq] at hc
      subst hc
      exact hf x (List.mem_cons_self _ _) hx
    | ok y =>
      rw [hx] at hc
      simp only at hc
      cases hr : mapE f rest with
      | error e =>
        rw [hr] at hc
        simp only [Except.error.injEq] at hc
        subst hc
        exact ih (fun z hz => hf z (List.mem_cons_of_mem _ hz)) hr
      | ok ys => rw [hr] at hc; cases hc

theorem mapOptionE_fuel {α β : Type} (f : α → Except Err β) (o : Option α)
    (hf : ∀ x, f x ≠ .error Err.OutOfFuel) :
    mapOptionE f o ≠ .error Err.OutOfFuel := by
  intro hc
  cases o with
  | none => cases hc
  | some a =>
    simp only [mapOptionE] at hc
    cases hx : f a with
    | error e =>
      rw [hx] at hc
      simp only [Except.error.injEq] at hc
      subst hc
      exact hf a hx
    | ok y => rw [hx] at hc; cases hc

theorem hooked_fuel (hook : Node → Option (Except Err Node)) (n : Node)
    (rebuilt : Except Err Node)
    (hh : ∀ m r, hook m = some r → r ≠ .error Err.OutOfFuel)
    (hr : rebuilt ≠ .error Err.OutOfFuel) :
    hooked hook n rebuilt ≠ .error Err.OutOfFuel := by
  unfold hooked
  cases h : hook n with
  | none => exact hr
  | some r => exact hh n r h

mutual
theorem tree_mutatorM_fuel (hook : Node → Option (Except Err Node))
    (hh : ∀ m r, hook m = some r → r ≠ .error Err.OutOfFuel) :
    ∀ n : Node, tree_mutatorM hook n ≠ .error Err.OutOfFuel
  | .Var a b c d e => by
    unfold tree_mutatorM
    exact hooked_fuel hook _ _ hh (by simp)
  | .Const a b c d e f g => by
    unfold tree_mutatorM
    exact hooked_fuel hook _ _ hh (by simp)
  | .RelabelType arg a b c d => by
    have ih := tree_mutatorM_fuel hook hh arg
    unfold tree_mutatorM
    refine hooked_fuel hook _ _ hh ?_
    cases hx : tree_mutatorM hook arg with
    | error e => intro hc; simp only [Except.error.injEq] at hc; subst hc; exact ih hx
    | ok y => simp
  | .FuncExpr a b c args => by
    have ih := tree_mutatorM_list_fuel hook hh args
    unfold tree_mutatorM
    refine hooked_fuel hook _ _ hh ?_
    cases hx : tree_mutatorM_list hook args with
    | error e => intro hc; simp only [Except.error.injEq] at hc; subst hc; exact ih hx
    | ok y => simp
  | .OpExpr a b c d e args => by
    have ih := tree_mutatorM_list_fuel hook hh args
    unfold tree_mutatorM
    refine hooked_fuel hook _ _ hh ?_
    cases hx : tree_mutatorM_list hook args with
    | error e => intro hc; simp only [Except.error.injEq] at hc; subst hc; exact ih hx
    | ok y => simp
  | .BoolExpr a args => by
    have ih := tree_mutatorM_list_fuel hook hh args
    unfold tree_mutatorM
    refine hooked_fuel hook _ _ hh ?_
    cases hx : tree_mutatorM_list hook args with
    | error e => intro hc; simp only [Except.error.injEq] at hc; subst hc; exact ih hx
    | ok y => simp
  | .ArrayExpr a b args => by
    have ih := tree_mutatorM_list_fuel hook hh args
    unfold tree_mutatorM
    refine hooked_fuel hook _ _ hh ?_
    cases hx : tree_mutatorM_list hook args with
    | error e => intro hc; simp only [Except.error.injEq] at hc; subst hc; exact ih hx
    | ok y => simp
  | .Aggref a b c args d e => by
    have ih := tree_mutatorM_list_fuel hook hh args
    unfold tree_mutatorM
    refine hooked_fuel hook _ _ hh ?_
    cases hx : tree_mutatorM_list hook args with
    | error e => intro hc; simp only [Except.error.injEq] at hc; subst hc; exact ih hx
    | ok y => simp
  | .TargetEntry expr a b c => by
    have ih := tree_mutatorM_fuel hook hh expr
    unfold tree_mutatorM
    refine hooked_fuel hook _ _ hh ?_
    cases hx : tree_mutatorM hook expr with
    | error e => intro hc; simp only [Except.error.injEq] at hc; subst hc; exact ih hx
    | ok y => simp
  | .Other a b args => by
    have ih := tree_mutatorM_list_fuel hook hh args
    unfold tree_mutatorM
    refine hooked_fuel hook _ _ hh ?_
    cases hx : tree_mutatorM_list hook args with
    | error e => intro hc; simp only [Except.error.injEq] at hc; subst hc; exact ih hx
    | ok y => simp
theorem tree_mutatorM_list_fuel (hook : Node → Option (Except Err Node))
    (hh : ∀ m r, hook m = some r → r ≠ .error Err.OutOfFuel) :
    ∀ l : List Node, tree_mutatorM_list hook l ≠ .error Err.OutOfFuel
  | [] => by simp [tree_mutatorM_list]
  | x :: xs => by
    have h1 := tree_mutatorM_fuel hook hh x
    have h2 := tree_mutatorM_list_fuel hook hh xs
    intro hc
    unfold tree_mutatorM_list at hc
    cases hx : tree_mutatorM hook x with
    | error e =>
      rw [hx] at hc
      simp only [Except.error.injEq] at hc
      subst hc
      exact h1 hx
    | ok y =>
      rw [hx] at hc
      simp only at hc
      cases hr : tree_mutatorM_list hook xs with
      | error e =>
        rw [hr] at hc
        simp only [Except.error.injEq] at hc
        subst hc
        exact h2 hr
      | ok ys => rw [hr] at hc; cases hc
end

theorem aggregation_mutator_fuel (context : aggregation_mutator_context) (n : Node) :
    aggregation_mutator context n ≠ .error Err.OutOfFuel := by
  unfold aggregation_mutator
  apply tree_mutatorM_fuel
  intro m r hm
  cases m <;> first
    | (cases hm; exact make_aggregation_expression_fuel _ _ _ _)
    | cases hm

theorem TNode_mutateM_fuel (m : Node → Except Err Node)
    (hm : ∀ n, m n ≠ .error Err.OutOfFuel) :
    ∀ t : TNode, t.mutateM m ≠ .error Err.OutOfFuel
  | .RangeTblRef _ => by simp [TNode.mutateM]
  | .OtherTree _ => by simp [TNode.mutateM]
  | .JoinExpr jt l r quals i => by
    have hl := TNode_mutateM_fuel m hm l
    have hr := TNode_mutateM_fuel m hm r
    intro hc
    unfold TNode.mutateM at hc
    cases hx : l.mutateM m with
    | error e =>
      rw [hx] at hc
      simp only [Except.error.injEq] at hc
      subst hc
      exact hl hx
    | ok l1 =>
      rw [hx] at hc
      simp only at hc
      cases hy : r.mutateM m with
      | error e =>
        rw [hy] at hc
        simp only [Except.error.injEq] at hc
        subst hc
        exact hr hy
      | ok r1 =>
        rw [hy] at hc
        simp only at hc
        cases quals with
        | none => cases hc
        | some qn =>
          simp only at hc
          cases hz : m qn with
          | error e =>
            rw [hz] at hc
            simp only [Except.error.injEq] at hc
            subst hc
            exact hm qn hz
          | ok q1 => rw [hz] at hc; cases hc
  | .SetOperationStmt op all l r ct cm cc => by
    have hl := TNode_mutateM_fuel m hm l
    have hr := TNode_mutateM_fuel m hm r
    intro hc
    unfold TNode.mutateM at hc
    cases hx : l.mutateM m with
    | error e =>
      rw [hx] at hc
      simp only [Except.error.injEq] at hc
      subst hc
      exact hl hx
    | ok l1 =>
      rw [hx] at hc
      simp only at hc
      cases hy : r.mutateM m with
      | error e =>
        rw [hy] at hc
        simp only [Except.error.injEq] at hc
        subst hc
        exact hr hy
      | ok r1 => rw [hy] at hc; cases hc

theorem FromExpr_mutateM_fuel (m : Node → Except Err Node)
    (hm : ∀ n, m n ≠ .error Err.OutOfFuel) (f : FromExpr) :
    f.mutateM m ≠ .error Err.OutOfFuel := by
  intro hc
  unfold FromExpr.mutateM at hc
  cases hx : mapE (TNode.mutateM m) f.fromlist with
  | error e =>
    rw [hx] at hc
    simp only [Except.error.injEq] at hc
    subst hc
    exact mapE_fuel _ _ (fun t _ => TNode_mutateM_fuel m hm t) hx
  | ok fl =>
    rw [hx] at hc
    simp only at hc
    cases hq : f.quals with
    | none => rw [hq] at hc; cases hc
    | some qn =>
      rw [hq] at hc
      simp only at hc
      cases hz : m qn with
      | error e =>
        rw [hz] at hc
        simp only [Except.error.injEq] at hc
        subst hc
        exact hm qn hz
      | ok q1 => rw [hz] at hc; cases hc

theorem range_table_mutatorM_fuel (m : Node → Except Err Node)
    (hm : ∀ n, m n ≠ .error Err.OutOfFuel) (rtable : List RangeTblEntry) :
    range_table_mutatorM m rtable ≠ .error Err.OutOfFuel := by
  unfold range_table_mutatorM
  apply mapE_fuel
  intro rte _ hc
  cases hk : rte.rtekind <;> rw [hk] at hc <;> simp only at hc
  · cases hc
  · cases hc
  · cases hx : mapE m rte.joinaliasvars with
    | error e =>
      rw [hx] at hc
      simp only [Except.error.injEq] at hc
      subst hc
      exact mapE_fuel _ _ (fun n _ => hm n) hx
    | ok j => rw [hx] at hc; cases hc
  · split at hc
    · rename_i e hx
      simp only [Except.error.injEq] at hc
      subst hc
      refine mapE_fuel _ _ ?_ hx
      intro f _ hf
      cases hz : m f.funcexpr with
      | error e =>
        rw [hz] at hf
        simp only [Except.error.injEq] at hf
        subst hf
        exact hm _ hz
      | ok y => rw [hz] at hf; cases hf
    · cases hc
  · cases hc
  · cases hc

theorem query_tree_mutatorM_fuel (m : Node → Except Err Node)
    (hm : ∀ n, m n ≠ .error Err.OutOfFuel) (q : Query) :
    query_tree_mutatorM m q ≠ .error Err.OutOfFuel := by
  intro hc
  unfold query_tree_mutatorM at hc
  cases h1 : mapE m q.targetList with
  | error e =>
    rw [h1] at hc
    simp only [Except.error.injEq] at hc
    subst hc
    exact mapE_fuel _ _ (fun n _ => hm n) h1
  | ok tl =>
    rw [h1] at hc
    simp only at hc
    cases h2 : mapOptionE (FromExpr.mutateM m) q.jointree with
    | error e =>
      rw [h2] at hc
      simp only [Except.error.injEq] at hc
      subst hc
      exact mapOptionE_fuel _ _ (fun f => FromExpr_mutateM_fuel m hm f) h2
    | ok jt =>
      rw [h2] at hc
      simp only at hc
      cases h3 : mapOptionE (TNode.mutateM m) q.setOperations with
      | error e =>
        rw [h3] at hc
        simp only [Except.error.injEq] at hc
        subst hc
        exact mapOptionE_fuel _ _ (fun t => TNode_mutateM_fuel m hm t) h3
      | ok so =>
        rw [h3] at hc
        simp only at hc
        cases h4 : mapOptionE m q.havingQual with
        | error e =>
          rw [h4] at hc
          simp only [Except.error.injEq] at hc
          subst hc
          exact mapOptionE_fuel _ _ hm h4
        | ok hv =>
          rw [h4] at hc
          simp only at hc
          cases h5 : range_table_mutatorM m q.rtable with
          | error e =>
            rw [h5] at hc
            simp only [Except.error.injEq] at hc
            subst hc
            exact range_table_mutatorM_fuel m hm _ h5
          | ok rt => rw [h5] at hc; cases hc

theorem add_select_non_zero_fuel (constants : constants_t) (q : Query) (provsql : Node) :
    add_select_non_zero constants q provsql ≠ .error Err.OutOfFuel := by
  intro hc
  unfold add_select_non_zero at hc
  dsimp only at hc
  repeat' split at hc
  all_goals cases hc

theorem process_query_build_fuel (constants : constants_t) (env : Env) (q : Query)
    (prov_atts : List Node) (has_union has_difference group_by_rewrite : Bool) :
    process_query_build constants env q prov_atts has_union has_difference group_by_rewrite
      ≠ .error Err.OutOfFuel := by
  intro hc
  unfold process_query_build at hc
  obtain ⟨t, hb⟩ : ∃ t, build_columns q.rtable 0 = .ok t := by
    cases hb : build_columns q.rtable 0 with
    | error e =>
      rw [hb] at hc
      simp only [Except.error.injEq] at hc
      subst hc
      exact absurd hb (build_columns_fuel _ _)
    | ok t => exact ⟨t, rfl⟩
  rw [hb] at hc
  dsimp only at hc
  split at hc
  · rename_i e hr
    simp only [Except.error.injEq] at hc
    subst hc
    split at hr
    · exact query_tree_mutatorM_fuel _ (aggregation_mutator_fuel _) _ hr
    · cases hr
  · split at hc
    · rename_i e hm
      simp only [Except.error.injEq] at hc
      subst hc
      exact make_provenance_expression_fuel _ _ _ _ _ _ _ _ _ hm
    · split at hc
      · exact add_select_non_zero_fuel _ _ _ hc
      · cases hc

theorem check_for_agg_distinct_entry_fuel (te : Node) :
    check_for_agg_distinct_entry te ≠ .error Err.OutOfFuel := by
  intro hc
  unfold check_for_agg_distinct_entry at hc
  repeat' split at hc
  all_goals cases hc

theorem check_for_agg_distinct_loop_fuel (l : List Node) :
    check_for_agg_distinct_loop l ≠ .error Err.OutOfFuel := by
  induction l with
  | nil => simp [check_for_agg_distinct_loop]
  | cons te rest ih =>
    intro hc
    unfold check_for_agg_distinct_loop at hc
    cases hx : check_for_agg_distinct_entry te with
    | error e =>
      rw [hx] at hc
      simp only [Except.error.injEq] at hc
      subst hc
      exact check_for_agg_distinct_entry_fuel _ hx
    | ok p =>
      obtain ⟨item, sgc⟩ := p
      rw [hx] at hc
      simp only at hc
      cases hr : check_for_agg_distinct_loop rest with
      | error e =>
        rw [hr] at hc
        simp only [Except.error.injEq] at hc
        subst hc
        exact ih hr
      | ok p2 =>
        obtain ⟨lst, sgcs, found⟩ := p2
        rw [hr] at hc
        simp only at hc
        split at hc <;> cases hc

theorem check_for_agg_distinct_fuel (q : Query) :
    check_for_agg_distinct q ≠ .error Err.OutOfFuel := by
  intro hc
  unfold check_for_agg_distinct at hc
  cases hx : check_for_agg_distinct_loop q.targetList with
  | error e =>
    rw [hx] at hc
    simp only [Except.error.injEq] at hc
    subst hc
    exact check_for_agg_distinct_loop_fuel _ hx
  | ok p =>
    obtain ⟨lst, sgcs, found⟩ := p
    rw [hx] at hc
    simp only at hc
    split at hc <;> cases hc

theorem rewrite_for_agg_distinct_colnames_fuel (l : List Node) :
    rewrite_for_agg_distinct_colnames l ≠ .error Err.OutOfFuel := by
  induction l with
  | nil => simp [rewrite_for_agg_distinct_colnames]
  | cons te rest ih =>
    intro hc
    unfold rewrite_for_agg_distinct_colnames at hc
    split at hc
    · cases hr : rewrite_for_agg_distinct_colnames rest with
      | error e =>
        rw [hr] at hc
        simp only [Except.error.injEq] at hc
        subst hc
        exact ih hr
      | ok names => rw [hr] at hc; cases hc
    · cases hc
    · cases hc

theorem rewrite_for_agg_distinct_loop_fuel (env : Env) (l : List Node) (groupRef : Nat) :
    rewrite_for_agg_distinct_loop env l groupRef ≠ .error Err.OutOfFuel := by
  induction l generalizing groupRef with
  | nil => simp [rewrite_for_agg_distinct_loop]
  | cons te rest ih =>
    intro hc
    unfold rewrite_for_agg_distinct_loop at hc
    split at hc
    · split at hc
      · cases hc
      · cases hr : rewrite_for_agg_distinct_loop env rest groupRef with
        | error e =>
          rw [hr] at hc
          simp only [Except.error.injEq] at hc
          subst hc
          exact ih _ hr
        | ok p => rw [hr] at hc; cases hc
    · dsimp only at hc
      cases hr : rewrite_for_agg_distinct_loop env rest (groupRef + 1) with
      | error e =>
        rw [hr] at hc
        simp only [Except.error.injEq] at hc
        subst hc
        exact ih _ hr
      | ok p => rw [hr] at hc; cases hc
    · cases hc

theorem rewrite_for_agg_distinct_fuel (env : Env) (q subq : Query) :
    rewrite_for_agg_distinct env q subq ≠ .error Err.OutOfFuel := by
  intro hc
  unfold rewrite_for_agg_distinct at hc
  cases hx : rewrite_for_agg_distinct_colnames q.targetList with
  | error e =>
    rw [hx] at hc
    simp only [Except.error.injEq] at hc
    subst hc
    exact rewrite_for_agg_distinct_colnames_fuel _ hx
  | ok names =>
    rw [hx] at hc
    simp only at hc
    cases hr : rewrite_for_agg_distinct_loop env q.targetList 1 with
    | error e =>
      rw [hr] at hc
      simp only [Except.error.injEq] at hc
      subst hc
      exact rewrite_for_agg_distinct_loop_fuel _ _ _ hr
    | ok p => rw [hr] at hc; cases hc

theorem rewrite_non_all_loop_fuel (env : Env) (l : List Node) (ref : Nat) :
    rewrite_non_all_loop env l ref ≠ .error Err.OutOfFuel := by
  induction l generalizing ref with
  | nil => simp [rewrite_non_all_loop]
  | cons te rest ih =>
    intro hc
    unfold rewrite_non_all_loop at hc
    split at hc
    · dsimp only at hc
      cases hr : rewrite_non_all_loop env rest (ref + 1) with
      | error e =>
        rw [hr] at hc
        simp only [Except.error.injEq] at hc
        subst hc
        exact ih _ hr
      | ok p => rw [hr] at hc; cases hc
    · cases hc

theorem rewrite_non_all_into_external_group_by_fuel (env : Env) (q : Query) :
    rewrite_non_all_into_external_group_by env q ≠ .error Err.OutOfFuel := by
  intro hc
  unfold rewrite_non_all_into_external_group_by at hc
  split at hc
  · split at hc
    · cases hc
    · dsimp only at hc
      cases hr : rewrite_non_all_loop env q.targetList 0 with
      | error e =>
        rw [hr] at hc
        simp only [Except.error.injEq] at hc
        subst hc
        exact rewrite_non_all_loop_fuel _ _ _ hr
      | ok p => rw [hr] at hc; cases hc
  · cases hc

theorem map_some_fuel {α : Type} (x : Except Err α) (hx : x ≠ .error Err.OutOfFuel) :
    x.map some ≠ .error Err.OutOfFuel := by
  cases x with
  | error e =>
    intro hc
    apply hx
    simpa [Except.map] using hc
  | ok a => simp [Except.map]

theorem normalize_query_fuel (env : Env) (q : Query) :
    normalize_query env q ≠ .error Err.OutOfFuel := by
  have hagg : (if q.hasAggs then
      match check_for_agg_distinct q with
      | .error e => .error e
      | .ok none => .ok none
      | .ok (some subq) => (rewrite_for_agg_distinct env q subq).map some
    else (.ok none : Except Err (Option Query))) ≠ .error Err.OutOfFuel := by
    intro hc
    split at hc
    · split at hc
      · rename_i e hx
        simp only [Except.error.injEq] at hc
        subst hc
        exact check_for_agg_distinct_fuel _ hx
      · cases hc
      · exact map_some_fuel _ (rewrite_for_agg_distinct_fuel _ _ _) hc
    · cases hc
  intro hc
  unfold normalize_query at hc
  dsimp only at hc
  split at hc
  · exact hagg hc
  · split at hc
    · exact map_some_fuel _ (rewrite_non_all_into_external_group_by_fuel _ _) hc
    · exact hagg hc
  · cases hc

/-! ## Lemmas on the recursion of the driver -/

theorem process_query_rewrite_fuel (constants : constants_t) (env : Env) (q : Query)
    (prov_atts : List Node) :
    process_query_rewrite constants env q prov_atts ≠ .error Err.OutOfFuel := by
  intro hc
  unfold process_query_rewrite at hc
  cases h1 : process_query_remove constants q with
  | error e =>
    rw [h1] at hc
    simp only [Except.error.injEq] at hc
    subst hc
    exact process_query_remove_fuel _ _ h1
  | ok q1 =>
    rw [h1] at hc
    simp only at hc
    cases h2 : process_query_distinct q1 with
    | error e =>
      rw [h2] at hc
      simp only [Except.error.injEq] at hc
      subst hc
      exact process_query_distinct_fuel _ h2
    | ok q2 =>
      rw [h2] at hc
      simp only at hc
      cases h3 : process_query_setops constants env q2 with
      | error e =>
        rw [h3] at hc
        simp only [Except.error.injEq] at hc
        subst hc
        exact process_query_setops_fuel _ _ _ h3
      | ok p =>
        obtain ⟨q3, has_union, has_difference⟩ := p
        rw [h3] at hc
        simp only at hc
        cases h4 : process_query_group_by_rewrite constants q3 with
        | error e =>
          rw [h4] at hc
          simp only [Except.error.injEq] at hc
          subst hc
          exact process_query_group_by_rewrite_fuel _ _ h4
        | ok g =>
          rw [h4] at hc
          simp only at hc
          exact process_query_build_fuel _ _ _ _ _ _ _ hc

/-- The only calls of `process_query` in one step of the scan are on the
subquery of the entry. -/
theorem get_provenance_attributes_step_congr
    (pq pq1 : Query → Except Err (Option Query)) (constants : constants_t) (env : Env)
    (st : gpa_state) (rteid : Nat) (r : RangeTblEntry)
    (h : ∀ s, r.subquery = some s → pq s = pq1 s) :
    get_provenance_attributes_step pq constants env st rteid r
      = get_provenance_attributes_step pq1 constants env st rteid r := by
  unfold get_provenance_attributes_step
  cases hk : r.rtekind <;> simp only
  cases hs : r.subquery with
  | none => rfl
  | some s => simp only [h s hs]

theorem get_provenance_attributes_loop_congr
    (pq pq1 : Query → Except Err (Option Query)) (constants : constants_t) (env : Env) :
    ∀ (rtable : List RangeTblEntry) (rteid : Nat) (st : gpa_state),
      (∀ r ∈ rtable, ∀ s, r.subquery = some s → pq s = pq1 s) →
      get_provenance_attributes_loop pq constants env rtable rteid st
        = get_provenance_attributes_loop pq1 constants env rtable rteid st := by
  intro rtable
  induction rtable with
  | nil => intro rteid st _; rfl
  | cons r rest ih =>
    intro rteid st h
    unfold get_provenance_attributes_loop
    rw [get_provenance_attributes_step_congr pq pq1 constants env st rteid r
      (h r (List.mem_cons_self _ _))]
    cases get_provenance_attributes_step pq1 constants env st rteid r with
    | error e => rfl
    | ok st1 => exact ih _ _ (fun x hx => h x (List.mem_cons_of_mem _ hx))

theorem get_provenance_attributes_congr
    (pq pq1 : Query → Except Err (Option Query)) (constants : constants_t) (env : Env)
    (q : Query) (h : ∀ r ∈ q.rtable, ∀ s, r.subquery = some s → pq s = pq1 s) :
    get_provenance_attributes pq constants env q
      = get_provenance_attributes pq1 constants env q := by
  unfold get_provenance_attributes
  rw [get_provenance_attributes_loop_congr pq pq1 constants env q.rtable 1 _ h]

theorem get_provenance_attributes_step_fuel
    (pq : Query → Except Err (Option Query)) (constants : constants_t) (env : Env)
    (st : gpa_state) (rteid : Nat) (r : RangeTblEntry)
    (h : get_provenance_attributes_step pq constants env st rteid r = .error Err.OutOfFuel) :
    ∃ s, r.subquery = some s ∧ pq s = .error Err.OutOfFuel := by
  unfold get_provenance_attributes_step at h
  cases hk : r.rtekind <;> rw [hk] at h <;> simp only at h
  · split at h <;> cases h
  · cases hs : r.subquery with
    | none => rw [hs] at h; cases h
    | some s =>
      rw [hs] at h
      simp only at h
      cases hp : pq s with
      | error e =>
        rw [hp] at h
        simp only [Except.error.injEq] at h
        subst h
        exact ⟨s, rfl, hp⟩
      | ok o =>
        rw [hp] at h
        cases o with
        | none => cases h
        | some new_subquery =>
          simp only at h
          split at h
          · cases h
          · split at h
            · cases h
            · split at h
              · rename_i e hf
                simp only [Except.error.injEq] at h
                subst h
                exact absurd hf (fix_type_of_aggregation_result_loop_fuel _ _ _ _ _)
              · cases h
  · split at h <;> cases h
  · split at h
    · rename_i e hf
      simp only [Except.error.injEq] at h
      subst h
      exact absurd hf (function_provenance_attributes_fuel _ _ _ _ _)
    · cases h
  · cases h
  · cases h

theorem get_provenance_attributes_loop_fuel
    (pq : Query → Except Err (Option Query)) (constants : constants_t) (env : Env) :
    ∀ (rtable : List RangeTblEntry) (rteid : Nat) (st : gpa_state),
      get_provenance_attributes_loop pq constants env rtable rteid st = .error Err.OutOfFuel →
      ∃ r ∈ rtable, ∃ s, r.subquery = some s ∧ pq s = .error Err.OutOfFuel := by
  intro rtable
  induction rtable with
  | nil => intro rteid st h; cases h
  | cons r rest ih =>
    intro rteid st h
    unfold get_provenance_attributes_loop at h
    cases hs : get_provenance_attributes_step pq constants env st rteid r with
    | error e =>
      rw [hs] at h
      simp only [Except.error.injEq] at h
      subst h
      obtain ⟨s, h1, h2⟩ := get_provenance_attributes_step_fuel pq constants env st rteid r hs
      exact ⟨r, List.mem_cons_self _ _, s, h1, h2⟩
    | ok st1 =>
      rw [hs] at h
      obtain ⟨x, hx, s, h1, h2⟩ := ih _ _ h
      exact ⟨x, List.mem_cons_of_mem _ hx, s, h1, h2⟩

theorem get_provenance_attributes_fuel
    (pq : Query → Except Err (Option Query)) (constants : constants_t) (env : Env) (q : Query)
    (h : get_provenance_attributes pq constants env q = .error Err.OutOfFuel) :
    ∃ r ∈ q.rtable, ∃ s, r.subquery = some s ∧ pq s = .error Err.OutOfFuel := by
  unfold get_provenance_attributes at h
  cases hl : get_provenance_attributes_loop pq constants env q.rtable 1
      { q := q, prov_atts := [], detached := false } with
  | error e =>
    rw [hl] at h
    simp only [Except.error.injEq] at h
    subst h
    exact get_provenance_attributes_loop_fuel pq constants env _ _ _ hl
  | ok st => rw [hl] at h; cases h

theorem rewrite_non_all_into_external_group_by_result (env : Env) (q q1 : Query)
    (h : rewrite_non_all_into_external_group_by env q = .ok q1) :
    q1.setOperations = none ∧ q1.hasAggs = false ∧
    ∃ rte op all larg rarg ct cm cc,
      q.setOperations = some (.SetOperationStmt op all larg rarg ct cm cc) ∧
      q1.rtable = [rte] ∧
      rte.subquery
        = some { q with setOperations := some (.SetOperationStmt op true larg rarg ct cm cc) } := by
  unfold rewrite_non_all_into_external_group_by at h
  split at h
  · rename_i op all larg rarg ct cm cc hs
    split at h
    · cases h
    · dsimp only at h
      split at h
      · cases h
      · simp only [Except.ok.injEq] at h
        subst h
        exact ⟨rfl, rfl, _, op, all, larg, rarg, ct, cm, cc, hs, rfl, rfl⟩
  · cases h

theorem rewrite_for_agg_distinct_loop_check (env : Env) :
    ∀ (l : List Node) (g : Nat) (tes : List Node) (sgcs : List SortGroupClause),
      rewrite_for_agg_distinct_loop env l g = .ok (tes, sgcs) →
      (∃ lst, check_for_agg_distinct_loop tes = .ok (lst, [], false)) ∧
      ∀ te ∈ tes, ∀ a b c args d k resno resname ref,
        te = Node.TargetEntry (.Aggref a b c args d k) resno resname ref → d = [] := by
  intro l
  induction l with
  | nil =>
    intro g tes sgcs h
    simp only [rewrite_for_agg_distinct_loop, Except.ok.injEq, Prod.mk.injEq] at h
    rw [← h.1]
    exact ⟨⟨[], rfl⟩, fun te hte => absurd hte (List.not_mem_nil _)⟩
  | cons te rest ih =>
    intro g tes sgcs h
    cases te with
    | TargetEntry expr resno resname ref =>
      have hcons : ∀ (x : Node) (ref1 : Nat) (tes1 : List Node),
          (∃ lst, check_for_agg_distinct_loop tes1 = .ok (lst, [], false)) →
          (∀ a b c args d k, x = Node.Aggref a b c args d k → d = []) →
          ∃ lst, check_for_agg_distinct_loop (Node.TargetEntry x resno resname ref1 :: tes1)
            = .ok (lst, [], false) := by
        intro x ref1 tes1 hl hx
        obtain ⟨lst, hl⟩ := hl
        cases x with
        | Aggref a b c args d k =>
          have hd := hx a b c args d k rfl
          subst hd
          exact ⟨_, by simp only [check_for_agg_distinct_loop, check_for_agg_distinct_entry, hl]; rfl⟩
        | _ =>
          exact ⟨_, by simp only [check_for_agg_distinct_loop, check_for_agg_distinct_entry, hl]; rfl⟩
      cases expr with
      | Aggref a b c args d k =>
        simp only [rewrite_for_agg_distinct_loop] at h
        cases c with
        | nil => cases h
        | cons t tail =>
          simp only at h
          cases hr : rewrite_for_agg_distinct_loop env rest g with
          | error e => rw [hr] at h; cases h
          | ok p =>
            obtain ⟨tes1, sgcs1⟩ := p
            rw [hr] at h
            simp only [Except.ok.injEq, Prod.mk.injEq] at h
            obtain ⟨hl, hd⟩ := ih _ _ _ hr
            rw [← h.1]
            refine ⟨hcons _ _ _ hl ?_, ?_⟩
            · intro a1 b1 c1 args1 d1 k1 hx
              simp only [Node.Aggref.injEq] at hx
              exact hx.2.2.2.2.1.symm
            · intro x hx a1 b1 c1 args1 d1 k1 resno1 resname1 ref1 hxe
              rcases List.mem_cons.mp hx with hx | hx
              · rw [hx] at hxe
                simp only [Node.TargetEntry.injEq, Node.Aggref.injEq] at hxe
                exact hxe.1.2.2.2.2.1.symm
              · exact hd x hx a1 b1 c1 args1 d1 k1 resno1 resname1 ref1 hxe
      | Var v1 v2 v3 v4 v5 =>
        simp only [rewrite_for_agg_distinct_loop] at h
        cases hr : rewrite_for_agg_distinct_loop env rest (g + 1) with
        | error e => rw [hr] at h; cases h
        | ok p =>
          obtain ⟨tes1, sgcs1⟩ := p
          rw [hr] at h
          simp only [Except.ok.injEq, Prod.mk.injEq] at h
          obtain ⟨hl, hd⟩ := ih _ _ _ hr
          rw [← h.1]
          refine ⟨hcons _ _ _ hl ?_, ?_⟩
          · intro _ _ _ _ _ _ hx
            cases hx
          · intro x hx a1 b1 c1 args1 d1 k1 resno1 resname1 ref1 hxe
            rcases List.mem_cons.mp hx with hx | hx
            · rw [hx] at hxe
              simp at hxe
            · exact hd x hx a1 b1 c1 args1 d1 k1 resno1 resname1 ref1 hxe
      | _ =>
        simp only [rewrite_for_agg_distinct_loop] at h
        cases hr : rewrite_for_agg_distinct_loop env rest (g + 1) with
        | error e => rw [hr] at h; cases h
        | ok p =>
          obtain ⟨tes1, sgcs1⟩ := p
          rw [hr] at h
          simp only [Except.ok.injEq, Prod.mk.injEq] at h
          obtain ⟨hl, hd⟩ := ih _ _ _ hr
          rw [← h.1]
          refine ⟨hcons _ _ _ hl ?_, ?_⟩
          · intro _ _ _ _ _ _ hx
            cases hx
          · intro x hx a1 b1 c1 args1 d1 k1 resno1 resname1 ref1 hxe
            rcases List.mem_cons.mp hx with hx | hx
            · rw [hx] at hxe
              simp at hxe
            · exact hd x hx a1 b1 c1 args1 d1 k1 resno1 resname1 ref1 hxe
    | _ => simp [rewrite_for_agg_distinct_loop] at h

theorem rewrite_for_agg_distinct_result (env : Env) (q subq q1 : Query)
    (h : rewrite_for_agg_distinct env q subq = .ok q1) :
    check_for_agg_distinct q1 = .ok none ∧
    (∀ te ∈ q1.targetList, ∀ a b c args d k resno resname ref,
      te = Node.TargetEntry (.Aggref a b c args d k) resno resname ref → d = []) ∧
    q1.setOperations = q.setOperations ∧ q1.hasAggs = q.hasAggs ∧
    ∃ rte, q1.rtable = [rte] ∧ rte.subquery = some subq := by
  unfold rewrite_for_agg_distinct at h
  cases hx : rewrite_for_agg_distinct_colnames q.targetList with
  | error e => rw [hx] at h; cases h
  | ok names =>
    rw [hx] at h
    simp only at h
    cases hr : rewrite_for_agg_distinct_loop env q.targetList 1 with
    | error e => rw [hr] at h; cases h
    | ok p =>
      obtain ⟨tes, sgcs⟩ := p
      rw [hr] at h
      simp only [Except.ok.injEq] at h
      subst h
      obtain ⟨⟨lst, hl⟩, hd⟩ := rewrite_for_agg_distinct_loop_check env _ _ _ _ hr
      refine ⟨?_, hd, rfl, rfl, _, rfl, rfl⟩
      simp only [check_for_agg_distinct, hl]
      rfl

theorem check_for_agg_distinct_entry_nesting (te item : Node) (sgc : Option SortGroupClause)
    (h : check_for_agg_distinct_entry te = .ok (item, sgc)) :
    entry_distinct_nesting item ≤ entry_distinct_nesting te ∧
    (sgc.isSome = true → entry_distinct_nesting item < entry_distinct_nesting te) := by
  unfold check_for_agg_distinct_entry at h
  split at h
  · split at h
    · split at h
      · simp only [Except.ok.injEq, Prod.mk.injEq] at h
        rw [← h.1]
        simp [entry_distinct_nesting, distinct_nesting]
      · cases h
      · cases h
    · simp only [Except.ok.injEq, Prod.mk.injEq] at h
      rw [← h.1, ← h.2]
      simp [entry_distinct_nesting]
  · simp only [Except.ok.injEq, Prod.mk.injEq] at h
    rw [← h.1, ← h.2]
    simp
  · cases h

theorem check_for_agg_distinct_loop_nesting :
    ∀ (l lst : List Node) (sgcs : List SortGroupClause) (found : Bool),
      check_for_agg_distinct_loop l = .ok (lst, sgcs, found) →
      targets_distinct_nesting lst ≤ targets_distinct_nesting l ∧
      (found = true → targets_distinct_nesting lst < targets_distinct_nesting l) := by
  intro l
  induction l with
  | nil =>
    intro lst sgcs found h
    simp only [check_for_agg_distinct_loop, Except.ok.injEq, Prod.mk.injEq] at h
    rw [← h.1, ← h.2.2]
    simp
  | cons te rest ih =>
    intro lst sgcs found h
    unfold check_for_agg_distinct_loop at h
    cases hx : check_for_agg_distinct_entry te with
    | error e => rw [hx] at h; cases h
    | ok p =>
      obtain ⟨item, sgc⟩ := p
      rw [hx] at h
      simp only at h
      cases hr : check_for_agg_distinct_loop rest with
      | error e => rw [hr] at h; cases h
      | ok p2 =>
        obtain ⟨lst1, sgcs1, found1⟩ := p2
        rw [hr] at h
        simp only at h
        obtain ⟨i1, i2⟩ := ih _ _ _ hr
        obtain ⟨e1, e2⟩ := check_for_agg_distinct_entry_nesting te item sgc hx
        cases sgc with
        | some g =>
          simp only [Except.ok.injEq, Prod.mk.injEq] at h
          rw [← h.1]
          have := e2 rfl
          simp only [targets_distinct_nesting, List.map_cons, List.sum_cons] at i1 ⊢
          exact ⟨by omega, fun _ => by omega⟩
        | none =>
          simp only [Except.ok.injEq, Prod.mk.injEq] at h
          rw [← h.1, ← h.2.2]
          simp only [targets_distinct_nesting, List.map_cons, List.sum_cons] at i1 i2 ⊢
          exact ⟨by omega, fun hf => by have := i2 hf; omega⟩

theorem check_for_agg_distinct_result (q subq : Query)
    (h : check_for_agg_distinct q = .ok (some subq)) :
    subq.rtable = q.rtable ∧ subq.setOperations = q.setOperations ∧
    subq.hasAggs = q.hasAggs ∧
    targets_distinct_nesting subq.targetList < targets_distinct_nesting q.targetList := by
  unfold check_for_agg_distinct at h
  cases hx : check_for_agg_distinct_loop q.targetList with
  | error e => rw [hx] at h; cases h
  | ok p =>
    obtain ⟨lst, sgcs, found⟩ := p
    rw [hx] at h
    simp only at h
    cases found with
    | false => simp at h
    | true =>
      simp only [if_true, Except.ok.injEq, Option.some.injEq] at h
      subst h
      exact ⟨rfl, rfl, rfl, (check_for_agg_distinct_loop_nesting _ _ _ _ hx).2 rfl⟩

/-- How a normalizer fires: the one for set operations on a set operation
that is not marked ALL, the one for aggregates on a query that has none. -/
theorem normalize_query_some (env : Env) (q q1 : Query)
    (h : normalize_query env q = .ok (some q1)) :
    (∃ op larg rarg ct cm cc,
      q.setOperations = some (.SetOperationStmt op false larg rarg ct cm cc) ∧
      rewrite_non_all_into_external_group_by env q = .ok q1) ∨
    ((∀ op larg rarg ct cm cc,
        q.setOperations ≠ some (.SetOperationStmt op false larg rarg ct cm cc)) ∧
      (q.setOperations = none ∨
        ∃ op larg rarg ct cm cc,
          q.setOperations = some (.SetOperationStmt op true larg rarg ct cm cc)) ∧
      q.hasAggs = true ∧
      ∃ subq, check_for_agg_distinct q = .ok (some subq) ∧
        rewrite_for_agg_distinct env q subq = .ok q1) := by
  have hagg : (if q.hasAggs then
      match check_for_agg_distinct q with
      | .error e => .error e
      | .ok none => .ok none
      | .ok (some subq) => (rewrite_for_agg_distinct env q subq).map some
    else (.ok none : Except Err (Option Query))) = .ok (some q1) →
      q.hasAggs = true ∧
      ∃ subq, check_for_agg_distinct q = .ok (some subq) ∧
        rewrite_for_agg_distinct env q subq = .ok q1 := by
    intro hc
    split at hc
    · rename_i ha
      refine ⟨ha, ?_⟩
      split at hc
      · cases hc
      · cases hc
      · rename_i subq hs
        refine ⟨subq, hs, ?_⟩
        cases hr : rewrite_for_agg_distinct env q subq with
        | error e => rw [hr] at hc; cases hc
        | ok x =>
          rw [hr] at hc
          simp only [Except.map, Except.ok.injEq, Option.some.injEq] at hc
          rw [hc]
    · cases hc
  unfold normalize_query at h
  dsimp only at h
  split at h
  · rename_i hs
    refine Or.inr ⟨?_, Or.inl hs, hagg h⟩
    intro op larg rarg ct cm cc hc
    rw [hs] at hc
    cases hc
  · rename_i op all larg rarg ct cm cc hs
    cases all with
    | false =>
      simp only [Bool.false_eq_true, not_false_eq_true, if_true] at h
      refine Or.inl ⟨op, larg, rarg, ct, cm, cc, hs, ?_⟩
      cases hr : rewrite_non_all_into_external_group_by env q with
      | error e => rw [hr] at h; cases h
      | ok x =>
        rw [hr] at h
        simp only [Except.map, Except.ok.injEq, Option.some.injEq] at h
        rw [h]
    | true =>
      simp only [not_true_eq_false, if_false] at h
      refine Or.inr ⟨?_, Or.inr ⟨op, larg, rarg, ct, cm, cc, hs⟩, hagg h⟩
      intro op1 larg1 rarg1 ct1 cm1 cc1 hc
      rw [hs] at hc
      simp at hc
  · cases h

theorem normalize_query_none_of (env : Env) (q : Query)
    (hs : q.setOperations = none ∨
      ∃ op larg rarg ct cm cc,
        q.setOperations = some (.SetOperationStmt op true larg rarg ct cm cc))
    (ha : q.hasAggs = false ∨ check_for_agg_distinct q = .ok none) :
    normalize_query env q = .ok none := by
  have hagg : (if q.hasAggs then
      match check_for_agg_distinct q with
      | .error e => .error e
      | .ok none => .ok none
      | .ok (some subq) => (rewrite_for_agg_distinct env q subq).map some
    else (.ok none : Except Err (Option Query))) = .ok none := by
    rcases ha with ha | ha
    · simp [ha]
    · simp only [ha]
      split <;> rfl
  unfold normalize_query
  dsimp only
  rcases hs with hs | ⟨op, larg, rarg, ct, cm, cc, hs⟩
  · rw [hs]
    exact hagg
  · rw [hs]
    simp only [not_true_eq_false, if_false]
    exact hagg

theorem normalize_query_idempotent (env : Env) (q q1 : Query)
    (h : normalize_query env q = .ok (some q1)) :
    normalize_query env q1 = .ok none := by
  rcases normalize_query_some env q q1 h with
    ⟨op, larg, rarg, ct, cm, cc, hs, hr⟩ | ⟨_, hs, _, subq, hc, hr⟩
  · obtain ⟨h1, h2, _⟩ := rewrite_non_all_into_external_group_by_result env q q1 hr
    exact normalize_query_none_of env q1 (Or.inl h1) (Or.inl h2)
  · obtain ⟨h1, _, h2, _, _⟩ := rewrite_for_agg_distinct_result env q subq q1 hr
    refine normalize_query_none_of env q1 ?_ (Or.inr h1)
    rw [h2]
    exact hs

theorem process_query_succ (fuel : Nat) (constants : constants_t) (env : Env) (q : Query) :
    process_query (fuel + 1) constants env q
      = if q.rtable.isEmpty then .ok none
        else
          match normalize_query env q with
          | .error e => .error e
          | .ok (some q1) => process_query fuel constants env q1
          | .ok none =>
            match get_provenance_attributes (process_query fuel constants env) constants env
                q with
            | .error e => .error e
            | .ok (prov_atts, q1) =>
              if prov_atts.isEmpty then .ok (some q1)
              else (process_query_rewrite constants env q1 prov_atts).map some := rfl

theorem terminates_from_mono (constants : constants_t) (env : Env) (q : Query) (N M : Nat)
    (h : terminates_from constants env q N) (hM : N ≤ M) :
    terminates_from constants env q M := by
  intro fuel hf
  have h1 := (h fuel (by omega)).1
  have h2 := (h M hM).1
  refine ⟨by rw [h1, h2], ?_⟩
  rw [h2]
  exact (h M hM).2

theorem terminates_from_empty (constants : constants_t) (env : Env) (q : Query)
    (he : q.rtable.isEmpty = true) :
    terminates_from constants env q 1 := by
  intro fuel hf
  obtain ⟨f, rfl⟩ : ∃ f, fuel = f + 1 := ⟨fuel - 1, by omega⟩
  have h0 : ∀ k, process_query (k + 1) constants env q = .ok none := by
    intro k
    rw [process_query_succ, if_pos he]
  refine ⟨by rw [h0 f, h0 0], ?_⟩
  rw [h0 0]
  simp

theorem terminates_from_error (constants : constants_t) (env : Env) (q : Query) (e : Err)
    (he : ¬ q.rtable.isEmpty = true) (hn : normalize_query env q = .error e) :
    terminates_from constants env q 1 := by
  intro fuel hf
  obtain ⟨f, rfl⟩ : ∃ f, fuel = f + 1 := ⟨fuel - 1, by omega⟩
  have h0 : ∀ k, process_query (k + 1) constants env q = .error e := by
    intro k
    rw [process_query_succ, if_neg he, hn]
  refine ⟨by rw [h0 f, h0 0], ?_⟩
  rw [h0 0]
  intro hc
  simp only [Except.error.injEq] at hc
  subst hc
  exact normalize_query_fuel env q hn

theorem terminates_from_restart (constants : constants_t) (env : Env) (q q1 : Query) (N : Nat)
    (he : ¬ q.rtable.isEmpty = true) (hn : normalize_query env q = .ok (some q1))
    (h1 : terminates_from constants env q1 N) :
    terminates_from constants env q (N + 1) := by
  intro fuel hf
  obtain ⟨f, rfl⟩ : ∃ f, fuel = f + 1 := ⟨fuel - 1, by omega⟩
  have h0 : ∀ k, process_query (k + 1) constants env q = process_query k constants env q1 := by
    intro k
    rw [process_query_succ, if_neg he, hn]
  refine ⟨by rw [h0 f, h0 N]; exact (h1 f (by omega)).1, ?_⟩
  rw [h0 N]
  exact (h1 N (le_refl _)).2

theorem terminates_from_scan (constants : constants_t) (env : Env) (q : Query) (N : Nat)
    (he : ¬ q.rtable.isEmpty = true) (hn : normalize_query env q = .ok none)
    (hsub : ∀ r ∈ q.rtable, ∀ s, r.subquery = some s → terminates_from constants env s N) :
    terminates_from constants env q (N + 1) := by
  intro fuel hf
  obtain ⟨f, rfl⟩ : ∃ f, fuel = f + 1 := ⟨fuel - 1, by omega⟩
  have hg : get_provenance_attributes (process_query f constants env) constants env q
      = get_provenance_attributes (process_query N constants env) constants env q :=
    get_provenance_attributes_congr _ _ constants env q
      (fun r hr s hs => (hsub r hr s hs f (by omega)).1)
  refine ⟨?_, ?_⟩
  · rw [process_query_succ, process_query_succ, if_neg he, if_neg he, hn, hg]
  · rw [process_query_succ, if_neg he, hn]
    simp only
    cases hx : get_provenance_attributes (process_query N constants env) constants env q with
    | error e =>
      simp only
      intro hc
      simp only [Except.error.injEq] at hc
      subst hc
      obtain ⟨r, hr, s, hs, hp⟩ := get_provenance_attributes_fuel _ constants env q hx
      exact (hsub r hr s hs N (le_refl _)).2 hp
    | ok p =>
      obtain ⟨prov_atts, q1⟩ := p
      simp only
      split
      · simp
      · exact map_some_fuel _ (process_query_rewrite_fuel _ _ _ _)

theorem subqueries_terminate_from (constants : constants_t) (env : Env) :
    ∀ rtable : List RangeTblEntry,
      (∀ r ∈ rtable, ∀ s, r.subquery = some s → ∃ N, terminates_from constants env s N) →
      ∃ N, ∀ r ∈ rtable, ∀ s, r.subquery = some s → terminates_from constants env s N := by
  intro rtable
  induction rtable with
  | nil => intro _; exact ⟨0, fun r hr => absurd hr (List.not_mem_nil _)⟩
  | cons r rest ih =>
    intro h
    obtain ⟨N1, h1⟩ := ih (fun x hx => h x (List.mem_cons_of_mem _ hx))
    cases hs : r.subquery with
    | none =>
      refine ⟨N1, ?_⟩
      intro x hx s hxs
      rcases List.mem_cons.mp hx with hx | hx
      · subst hx
        rw [hs] at hxs
        cases hxs
      · exact h1 x hx s hxs
    | some s0 =>
      obtain ⟨N0, h0⟩ := h r (List.mem_cons_self _ _) s0 hs
      refine ⟨max N0 N1, ?_⟩
      intro x hx s hxs
      rcases List.mem_cons.mp hx with hx | hx
      · subst hx
        rw [hs] at hxs
        simp only [Option.some.injEq] at hxs
        subst hxs
        exact terminates_from_mono _ _ _ _ _ h0 (le_max_left _ _)
      · exact terminates_from_mono _ _ _ _ _ (h1 x hx s hxs) (le_max_right _ _)

/-- A query whose set operation, if it has one, is marked ALL, and whose
subqueries terminate: the normalizer for aggregates restarts `process_query` on
a query over the inner query, whose target list has less nested DISTINCT
qualifiers. -/
theorem terminates_of_all (constants : constants_t) (env : Env) :
    ∀ (n : Nat) (q : Query), targets_distinct_nesting q.targetList ≤ n →
      (∀ op larg rarg ct cm cc,
        q.setOperations ≠ some (.SetOperationStmt op false larg rarg ct cm cc)) →
      (∃ N, ∀ r ∈ q.rtable, ∀ s, r.subquery = some s → terminates_from constants env s N) →
      ∃ N, terminates_from constants env q N := by
  intro n
  induction n with
  | zero =>
    intro q hn hall hsub
    by_cases he : q.rtable.isEmpty = true
    · exact ⟨1, terminates_from_empty constants env q he⟩
    · cases hq : normalize_query env q with
      | error e => exact ⟨1, terminates_from_error constants env q e he hq⟩
      | ok o =>
        cases o with
        | none =>
          obtain ⟨N, hN⟩ := hsub
          exact ⟨N + 1, terminates_from_scan constants env q N he hq hN⟩
        | some q1 =>
          rcases normalize_query_some env q q1 hq with
            ⟨op, larg, rarg, ct, cm, cc, hs, _⟩ | ⟨_, _, _, subq, hc, _⟩
          · exact absurd hs (hall op larg rarg ct cm cc)
          · have := (check_for_agg_distinct_result q subq hc).2.2.2
            omega
  | succ n ih =>
    intro q hn hall hsub
    by_cases he : q.rtable.isEmpty = true
    · exact ⟨1, terminates_from_empty constants env q he⟩
    · cases hq : normalize_query env q with
      | error e => exact ⟨1, terminates_from_error constants env q e he hq⟩
      | ok o =>
        cases o with
        | none =>
          obtain ⟨N, hN⟩ := hsub
          exact ⟨N + 1, terminates_from_scan constants env q N he hq hN⟩
        | some q1 =>
          rcases normalize_query_some env q q1 hq with
            ⟨op, larg, rarg, ct, cm, cc, hs, _⟩ | ⟨_, _, _, subq, hc, hr⟩
          · exact absurd hs (hall op larg rarg ct cm cc)
          · obtain ⟨c1, c2, _, c4⟩ := check_for_agg_distinct_result q subq hc
            obtain ⟨Ns, hNs⟩ := ih subq (by omega) (by rw [c2]; exact hall) (by rw [c1]; exact hsub)
            obtain ⟨_, _, _, _, rte, r1, r2⟩ := rewrite_for_agg_distinct_result env q subq q1 hr
            have hq1 := normalize_query_idempotent env q q1 hq
            have he1 : ¬ q1.rtable.isEmpty = true := by rw [r1]; simp
            have h1 : terminates_from constants env q1 (Ns + 1) := by
              apply terminates_from_scan constants env q1 Ns he1 hq1
              intro r hr2 s hs
              rw [r1, List.mem_singleton] at hr2
              subst hr2
              rw [r2] at hs
              simp only [Option.some.injEq] at hs
              subst hs
              exact hNs
            exact ⟨Ns + 1 + 1, terminates_from_restart constants env q q1 _ he hq h1⟩

/-- A query whose subqueries terminate. -/
theorem terminates_of_subqueries (constants : constants_t) (env : Env) (q : Query)
    (hsub : ∃ N, ∀ r ∈ q.rtable, ∀ s, r.subquery = some s → terminates_from constants env s N) :
    ∃ N, terminates_from constants env q N := by
  by_cases hall : ∀ op larg rarg ct cm cc,
      q.setOperations ≠ some (.SetOperationStmt op false larg rarg ct cm cc)
  · exact terminates_of_all constants env _ q (le_refl _) hall hsub
  · push_neg at hall
    obtain ⟨op, larg, rarg, ct, cm, cc, hs⟩ := hall
    by_cases he : q.rtable.isEmpty = true
    · exact ⟨1, terminates_from_empty constants env q he⟩
    · cases hq : normalize_query env q with
      | error e => exact ⟨1, terminates_from_error constants env q e he hq⟩
      | ok o =>
        cases o with
        | none =>
          obtain ⟨N, hN⟩ := hsub
          exact ⟨N + 1, terminates_from_scan constants env q N he hq hN⟩
        | some q1 =>
          rcases normalize_query_some env q q1 hq with
            ⟨op1, larg1, rarg1, ct1, cm1, cc1, hs1, hr⟩ | ⟨hno, _⟩
          · obtain ⟨_, _, rte, op2, all2, larg2, rarg2, ct2, cm2, cc2, hs2, r1, r2⟩ :=
              rewrite_non_all_into_external_group_by_result env q q1 hr
            obtain ⟨Ns, hNs⟩ := terminates_of_all constants env _
              { q with setOperations := some (.SetOperationStmt op2 true larg2 rarg2 ct2 cm2 cc2) }
              (le_refl _)
              (by
                intro a b c d e f hc
                simp only [Option.some.injEq, TNode.SetOperationStmt.injEq] at hc
                exact absurd hc.2.1 (by decide))
              hsub
            have hq1 := normalize_query_idempotent env q q1 hq
            have he1 : ¬ q1.rtable.isEmpty = true := by rw [r1]; simp
            have h1 : terminates_from constants env q1 (Ns + 1) := by
              apply terminates_from_scan constants env q1 Ns he1 hq1
              intro r hr2 s hs3
              rw [r1, List.mem_singleton] at hr2
              subst hr2
              rw [r2] at hs3
              simp only [Option.some.injEq] at hs3
              subst hs3
              exact hNs
            exact ⟨Ns + 1 + 1, terminates_from_restart constants env q q1 _ he hq h1⟩
          · exact absurd hs (hno op larg rarg ct cm cc)

theorem subquery_sizeOf_lt (q : Query) (r : RangeTblEntry) (s : Query) (hr : r ∈ q.rtable)
    (hs : r.subquery = some s) : sizeOf s < sizeOf q := by
  have h1 : sizeOf r < sizeOf q.rtable := List.sizeOf_lt_of_mem hr
  have h2 : sizeOf q.rtable < sizeOf q := by
    cases q
    simp only [Query.mk.sizeOf_spec]
    omega
  have h3 : sizeOf s < sizeOf r := by
    cases r with
    | mk rtekind relid subquery jointype joinaliasvars functions rtalias eref inFromCl perms =>
      simp only at hs
      subst hs
      simp only [RangeTblEntryOf.mk.sizeOf_spec, Option.some.sizeOf_spec]
      omega
  omega

theorem process_query_terminates (constants : constants_t) (env : Env) :
    ∀ q : Query, ∃ N, terminates_from constants env q N := by
  have key : ∀ (n : Nat) (q : Query), sizeOf q < n →
      ∃ N, terminates_from constants env q N := by
    intro n
    induction n with
    | zero => intro q h; omega
    | succ n ih =>
      intro q hq
      apply terminates_of_subqueries
      apply subqueries_terminate_from
      intro r hr s hs
      exact ih s (by have := subquery_sizeOf_lt q r s hr hs; omega)
  intro q
  exact key (sizeOf q + 1) q (by omega)

/-! ## Lemmas on the join entry of EXCEPT -/

/-- Whenever `transform_except_into_join` returns, it has appended one join
entry of kind `JOIN_LEFT` to the range table, and the FROM list is one join
expression of kind `JOIN_FULL` that refers to that entry. -/
theorem transform_except_into_join_kinds (constants : constants_t) (env : Env) (q q1 : Query)
    (h : transform_except_into_join constants env q = .ok q1) :
    q1.rtable.length = q.rtable.length + 1 ∧
    join_expressions q1 = [(JoinType.JOIN_FULL, q.rtable.length + 1)] ∧
    join_entry_kind q1 (q.rtable.length + 1) = some JoinType.JOIN_LEFT := by
  unfold transform_except_into_join at h
  cases hs : q.setOperations with
  | none => rw [hs] at h; cases h
  | some s =>
    rw [hs] at h
    cases s with
    | SetOperationStmt op all larg rarg ct cm cc =>
      cases larg with
      | RangeTblRef lindex =>
        cases rarg with
        | RangeTblRef rindex =>
          simp only at h
          cases ht : transform_except_loop constants env lindex rindex q.targetList 1 with
          | error e => rw [ht] at h; cases h
          | ok tests =>
            rw [ht] at h
            simp only [Except.ok.injEq] at h
            subst h
            refine ⟨by simp, by simp [join_expressions], ?_⟩
            have hneg : ¬ ((q.rtable.length : Int) < 0) := by omega
            simp [join_entry_kind, list_nth, hneg]
        | _ => simp at h
      | _ => simp at h
    | _ => simp at h

/-! ## Lemmas on the rows of the column table -/

theorem fix_type_of_aggregation_result_loop_rtable_length (constants : constants_t)
    (rteid : Nat) (tl : List Node) (attno : Int) (q q1 : Query) (ran : Bool)
    (h : fix_type_of_aggregation_result_loop constants rteid tl attno q = .ok (q1, ran)) :
    q1.rtable.length = q.rtable.length :=
  fix_type_of_aggregation_result_loop_preserves
    (fun x => x.rtable.length = q.rtable.length)
    (fun x context hx => by
      simp only [query_tree_mutator, range_table_mutator, List.length_map]
      exact hx)
    constants rteid tl attno q q1 ran h rfl

theorem get_provenance_attributes_step_rtable_length
    (process_query : Query → Except Err (Option Query)) (constants : constants_t) (env : Env)
    (st st1 : gpa_state) (rteid : Nat) (r : RangeTblEntry)
    (h : get_provenance_attributes_step process_query constants env st rteid r = .ok st1) :
    st1.q.rtable.length = st.q.rtable.length := by
  unfold get_provenance_attributes_step at h
  cases hk : r.rtekind <;> simp only [hk] at h
  · cases he : r.eref with
    | none => simp [he] at h
    | some e =>
      simp only [he, Except.ok.injEq] at h
      subst h
      rfl
  · cases hs : r.subquery with
    | none => simp [hs] at h
    | some sub =>
      simp only [hs] at h
      cases hp : process_query sub with
      | error err => simp [hp] at h
      | ok res =>
        cases res with
        | none =>
          simp only [hp, Except.ok.injEq] at h
          subst h
          rfl
        | some new_subquery =>
          simp only [hp] at h
          cases he : r.eref with
          | none => simp [he] at h
          | some e =>
            simp only [he] at h
            by_cases hemp : new_subquery.targetList.isEmpty = true
            · rw [if_pos hemp] at h; cases h
            rw [if_neg hemp] at h
            split at h
            · simp at h
            · rename_i q2 ran hfix
              simp only [Except.ok.injEq] at h
              subst h
              have hlen := fix_type_of_aggregation_result_loop_rtable_length _ _ _ _ _ _ _ hfix
              simpa using hlen
  · split at h
    · simp only [Except.ok.injEq] at h
      subst h
      rfl
    · simp at h
  · cases hf : function_provenance_attributes constants r rteid r.functions 1 with
    | error err => simp [hf] at h
    | ok atts =>
      simp only [hf, Except.ok.injEq] at h
      subst h
      rfl
  · simp at h
  · simp at h

/-- The location of the provenance attributes keeps the number of entries of
the range table. -/
theorem get_provenance_attributes_rtable_length
    (process_query : Query → Except Err (Option Query)) (constants : constants_t) (env : Env)
    (q q1 : Query) (atts : List Node)
    (h : get_provenance_attributes process_query constants env q = .ok (atts, q1)) :
    q1.rtable.length = q.rtable.length := by
  unfold get_provenance_attributes at h
  cases hl : get_provenance_attributes_loop process_query constants env q.rtable 1
      { q := q, prov_atts := [], detached := false } with
  | error err => simp [hl] at h
  | ok st =>
    simp only [hl, Except.ok.injEq, Prod.mk.injEq] at h
    rw [← h.2]
    have key : ∀ (rtable : List RangeTblEntry) (rteid : Nat) (s s1 : gpa_state),
        get_provenance_attributes_loop process_query constants env rtable rteid s = .ok s1 →
        s1.q.rtable.length = s.q.rtable.length := by
      intro rtable
      induction rtable with
      | nil =>
        intro rteid s s1 hs
        simp only [get_provenance_attributes_loop, Except.ok.injEq] at hs
        rw [← hs]
      | cons r rest ih =>
        intro rteid s s1 hs
        unfold get_provenance_attributes_loop at hs
        cases hstep : get_provenance_attributes_step process_query constants env s rteid r with
        | error err => simp [hstep] at hs
        | ok s2 =>
          simp only [hstep] at hs
          rw [ih _ _ _ hs]
          exact get_provenance_attributes_step_rtable_length _ _ _ _ _ _ _ hstep
    exact key _ _ _ _ hl

/-- The location of the provenance attributes keeps the operation of the root
of the set-operation tree. -/
theorem get_provenance_attributes_keeps_root
    (process_query : Query → Except Err (Option Query)) (constants : constants_t) (env : Env)
    (q q1 : Query) (atts : List Node)
    (h : get_provenance_attributes process_query constants env q = .ok (atts, q1)) :
    root_operation q1 = root_operation q :=
  get_provenance_attributes_preserves (fun x => root_operation x = root_operation q)
    (fun x rt hx => hx)
    (fun x context hx => by
      rw [← hx]
      simp only [root_operation, query_tree_mutator]
      cases hs : x.setOperations with
      | none => rfl
      | some t => cases t <;> rfl)
    process_query constants env q q1 atts h rfl

/-- The removal step keeps the range table and the operation of the root of
the set-operation tree. -/
theorem process_query_remove_keeps_root (constants : constants_t) (q q2 : Query)
    (h : process_query_remove constants q = .ok q2) :
    q2.rtable = q.rtable ∧ root_operation q2 = root_operation q := by
  obtain ⟨kept, removed, refs, _, _, hrt, _, _, _, _, _, _, _, _, _, _, _, hnone, hsome⟩ :=
    process_query_remove_fields constants q q2 h
  refine ⟨hrt, ?_⟩
  cases hs : q.setOperations with
  | none => simp [root_operation, hs, hnone hs]
  | some t =>
    cases t with
    | SetOperationStmt op all l r ct cm cc =>
      obtain ⟨ct1, cm1, cc1, _, _, _, h2⟩ := hsome op all l r ct cm cc hs
      simp [root_operation, hs, h2]
    | RangeTblRef i =>
      obtain ⟨_, _, _, _, _, _, _, hc⟩ := process_query_remove_set_operation constants q q2 _ h hs
      cases hc
    | JoinExpr a b c d e =>
      obtain ⟨_, _, _, _, _, _, _, hc⟩ := process_query_remove_set_operation constants q q2 _ h hs
      cases hc
    | OtherTree a =>
      obtain ⟨_, _, _, _, _, _, _, hc⟩ := process_query_remove_set_operation constants q q2 _ h hs
      cases hc

/-- The checks on sublinks and DISTINCT keep the range table. -/
theorem process_query_distinct_rtable (q q2 : Query) (h : process_query_distinct q = .ok q2) :
    q2.rtable = q.rtable := by
  unfold process_query_distinct at h
  split at h
  · cases h
  · split at h
    · split at h
      · cases h
      · split at h
        · cases h
        · simp only [Except.ok.injEq] at h
          rw [← h]
          rfl
    · simp only [Except.ok.injEq] at h
      rw [← h]

/-- The set-operation step appends one entry to the range table for an
EXCEPT and keeps the range table otherwise. -/
theorem process_query_setops_rtable_length (constants : constants_t) (env : Env)
    (q q3 : Query) (hu hd : Bool)
    (h : process_query_setops constants env q = .ok (q3, hu, hd)) :
    q3.rtable.length = q.rtable.length + appended_entries q := by
  unfold process_query_setops at h
  cases hs : q.setOperations with
  | none =>
    rw [hs] at h
    simp only [Except.ok.injEq, Prod.mk.injEq] at h
    rw [← h.1]
    simp [appended_entries, root_operation, hs]
  | some t =>
    rw [hs] at h
    cases t with
    | SetOperationStmt op all l r ct cm cc =>
      simp only at h
      by_cases hop : op = SetOperation.SETOP_UNION
      · rw [if_pos hop] at h
        cases hp : process_set_operation_union constants
            (.SetOperationStmt op all l r ct cm cc) with
        | error e => rw [hp] at h; cases h
        | ok stmt =>
          rw [hp] at h
          simp only [Except.ok.injEq, Prod.mk.injEq] at h
          rw [← h.1]
          simp [appended_entries, root_operation, hs, hop]
      · rw [if_neg hop] at h
        by_cases hex : op = SetOperation.SETOP_EXCEPT
        · rw [if_pos hex] at h
          cases ht : transform_except_into_join constants env q with
          | error e => rw [ht] at h; cases h
          | ok q1 =>
            rw [ht] at h
            simp only [Except.ok.injEq, Prod.mk.injEq] at h
            rw [← h.1, (transform_except_into_join_kinds constants env q q1 ht).1]
            simp [appended_entries, root_operation, hs, hex]
        · rw [if_neg hex] at h
          cases h
    | RangeTblRef i => cases h
    | JoinExpr a b c d e => cases h
    | OtherTree a => cases h

theorem mapE_length {α β : Type} (f : α → Except Err β) (l : List α) (l1 : List β)
    (h : mapE f l = .ok l1) : l1.length = l.length := by
  induction l generalizing l1 with
  | nil =>
    simp only [mapE, Except.ok.injEq] at h
    subst h
    rfl
  | cons y ys ih =>
    unfold mapE at h
    cases hy : f y with
    | error e => rw [hy] at h; cases h
    | ok y1 =>
      rw [hy] at h
      cases hys : mapE f ys with
      | error e => rw [hys] at h; cases h
      | ok ys1 =>
        rw [hys] at h
        simp only [Except.ok.injEq] at h
        rw [← h]
        simp [ih ys1 hys]

theorem query_tree_mutatorM_rtable_length (m : Node → Except Err Node) (q q1 : Query)
    (h : query_tree_mutatorM m q = .ok q1) : q1.rtable.length = q.rtable.length := by
  unfold query_tree_mutatorM at h
  cases h1 : mapE m q.targetList with
  | error e => rw [h1] at h; cases h
  | ok tl =>
    rw [h1] at h
    cases h2 : mapOptionE (FromExpr.mutateM m) q.jointree with
    | error e => rw [h2] at h; cases h
    | ok jt =>
      rw [h2] at h
      cases h3 : mapOptionE (TNode.mutateM m) q.setOperations with
      | error e => rw [h3] at h; cases h
      | ok so =>
        rw [h3] at h
        cases h4 : mapOptionE m q.havingQual with
        | error e => rw [h4] at h; cases h
        | ok hq =>
          rw [h4] at h
          cases h5 : range_table_mutatorM m q.rtable with
          | error e => rw [h5] at h; cases h
          | ok rt =>
            rw [h5] at h
            simp only [Except.ok.injEq] at h
            rw [← h]
            exact mapE_length _ _ _ h5

/-- The query that `make_provenance_expression` returns has the range table it was given. -/
theorem make_provenance_expression_rtable (constants : constants_t) (env : Env)
    (q qx : Query) (atts : List Node) (aggregation group_by_rewrite : Bool)
    (op : semiring_operation) (columns : List (List Int)) (nbcols : Int) (prov : Node)
    (h : make_provenance_expression constants env q atts aggregation group_by_rewrite op columns
      nbcols = .ok (prov, qx)) :
    qx.rtable = q.rtable := by
  unfold make_provenance_expression at h
  cases hcore : make_provenance_expression_core constants q atts aggregation group_by_rewrite
      op with
  | error e => simp [hcore] at h
  | ok p =>
    obtain ⟨result0, q1⟩ := p
    have htl : q1.rtable = q.rtable := by
      unfold make_provenance_expression_core at hcore
      split at hcore
      · split at hcore
        · simp at hcore
        · simp only [Except.ok.injEq, Prod.mk.injEq] at hcore
          rw [← hcore.2]
      · split at hcore
        · simp at hcore
        · dsimp only at hcore
          split at hcore
          · simp only [Except.ok.injEq, Prod.mk.injEq] at hcore
            rw [← hcore.2]
            split <;> rfl
          · simp only [Except.ok.injEq] at hcore
            have h2 := congrArg (fun p : Node × Query => p.2.rtable) hcore
            simp only at h2
            rw [← h2]
            split <;> rfl
    simp only [hcore] at h
    split at h
    · simp at h
    · split at h
      · split at h
        · simp at h
        · split at h
          · simp only [Except.ok.injEq, Prod.mk.injEq] at h
            rw [← h.2]; exact htl
          · simp only [Except.ok.injEq, Prod.mk.injEq] at h
            rw [← h.2]; exact htl
      · simp only [Except.ok.injEq, Prod.mk.injEq] at h
        rw [← h.2]; exact htl

/-- The last step of the driver keeps the number of entries of the range table. -/
theorem process_query_build_rtable_length (constants : constants_t) (env : Env) (q q1 : Query)
    (atts : List Node) (hu hd gbr : Bool)
    (h : process_query_build constants env q atts hu hd gbr = .ok q1) :
    q1.rtable.length = q.rtable.length := by
  unfold process_query_build at h
  obtain ⟨t, hb⟩ : ∃ t, build_columns q.rtable 0 = .ok t := by
    cases hb : build_columns q.rtable 0 with
    | error e => rw [hb] at h; simp at h
    | ok t => exact ⟨t, rfl⟩
  rw [hb] at h
  simp only at h
  cases hr : (if q.hasAggs then
      replace_aggregations_in_select constants q atts (driver_operation hu hd)
    else .ok q) with
  | error e => rw [hr] at h; cases h
  | ok qa =>
    rw [hr] at h
    simp only at h
    have hqa : qa.rtable.length = q.rtable.length := by
      by_cases hagg : q.hasAggs = true
      · rw [if_pos hagg] at hr
        exact query_tree_mutatorM_rtable_length _ _ _ hr
      · rw [if_neg hagg] at hr
        simp only [Except.ok.injEq] at hr
        rw [← hr]
    cases hm : make_provenance_expression constants env qa atts qa.hasAggs gbr
        (driver_operation hu hd) t.1 t.2 with
    | error e => rw [hm] at h; cases h
    | ok p =>
      obtain ⟨prov, qb⟩ := p
      rw [hm] at h
      simp only at h
      have hqb := make_provenance_expression_rtable _ _ _ _ _ _ _ _ _ _ _ hm
      have hq4 : (replace_provenance_function_by_expression constants
          (add_to_select qb prov) prov).rtable.length = q.rtable.length := by
        simp only [replace_provenance_function_by_expression, query_tree_mutator,
          range_table_mutator, add_to_select, List.length_map]
        rw [hqb, hqa]
      by_cases hdiff : hd = true
      · rw [if_pos hdiff] at h
        unfold add_select_non_zero at h
        simp only at h
        split at h
        · cases h
        · split at h
          · simp only [Except.ok.injEq] at h
            rw [← h]
            exact hq4
          · simp only [Except.ok.injEq] at h
            rw [← h]
            exact hq4
      · rw [if_neg hdiff] at h
        simp only [Except.ok.injEq] at h
        rw [← h]
        exact hq4

/-- The rows that the rewriting part of a call writes and releases: one per
entry of the range table, and one more for an EXCEPT. -/
theorem process_query_rewrite_rows_spec (constants : constants_t) (env : Env) (q : Query)
    (atts : List Node) (written released : List Nat)
    (h : process_query_rewrite_rows constants env q atts = .ok (written, released)) :
    written = List.range (q.rtable.length + appended_entries q) ∧ released = written := by
  unfold process_query_rewrite_rows at h
  cases h1 : process_query_remove constants q with
  | error e => rw [h1] at h; cases h
  | ok q1 =>
    rw [h1] at h
    simp only at h
    cases h2 : process_query_distinct q1 with
    | error e => rw [h2] at h; cases h
    | ok q2 =>
      rw [h2] at h
      simp only at h
      cases h3 : process_query_setops constants env q2 with
      | error e => rw [h3] at h; cases h
      | ok p =>
        obtain ⟨q3, hu, hd⟩ := p
        rw [h3] at h
        simp only at h
        cases h4 : process_query_group_by_rewrite constants q3 with
        | error e => rw [h4] at h; cases h
        | ok gbr =>
          rw [h4] at h
          simp only at h
          cases h5 : process_query_build constants env q3 atts hu hd gbr with
          | error e => rw [h5] at h; cases h
          | ok q4 =>
            rw [h5] at h
            simp only [Except.ok.injEq, Prod.mk.injEq] at h
            obtain ⟨r1, r2⟩ := process_query_remove_keeps_root constants q q1 h1
            have d1 := process_query_distinct_rtable q1 q2 h2
            have d2 := (process_query_distinct_fields q1 q2 h2).1
            have s1 := process_query_setops_rtable_length constants env q2 q3 hu hd h3
            have b1 := process_query_build_rtable_length constants env q3 q4 atts hu hd gbr h5
            have ha : appended_entries q2 = appended_entries q := by
              simp only [appended_entries, root_operation, d2]
              simp only [root_operation] at r2
              rw [r2]
            rw [← h.1, ← h.2, b1, s1, d1, r1, ha]
            exact ⟨rfl, rfl⟩

/-- The rows of the column table in a call of `process_query`: the table has
one row per entry of the range table at the entry of the call; a call that
numbers the columns writes and releases one row per entry, and one more row
for an EXCEPT. -/
theorem process_query_columns_rows_spec (fuel : Nat) (constants : constants_t) (env : Env)
    (q : Query) (t : columns_rows)
    (h : process_query_columns_rows fuel constants env q = .ok (some t)) :
    t.allocated = q.rtable.length ∧ t.released = t.written ∧
    (t.written = [] ∨ t.written = List.range (t.allocated + appended_entries q)) := by
  unfold process_query_columns_rows at h
  split at h
  · cases h
  · simp only at h
    cases hn : normalize_query env q with
    | error e => rw [hn] at h; cases h
    | ok o =>
      rw [hn] at h
      cases o with
      | some qn =>
        simp only [Except.ok.injEq, Option.some.injEq] at h
        subst h
        exact ⟨rfl, rfl, Or.inl rfl⟩
      | none =>
        simp only at h
        cases hg : get_provenance_attributes (process_query fuel constants env) constants env
            q with
        | error e => rw [hg] at h; cases h
        | ok p =>
          obtain ⟨atts, q1⟩ := p
          rw [hg] at h
          simp only at h
          split at h
          · simp only [Except.ok.injEq, Option.some.injEq] at h
            subst h
            exact ⟨rfl, rfl, Or.inl rfl⟩
          · cases hr : process_query_rewrite_rows constants env q1 atts with
            | error e => rw [hr] at h; cases h
            | ok w =>
              obtain ⟨written, released⟩ := w
              rw [hr] at h
              simp only [Except.ok.injEq, Option.some.injEq] at h
              subst h
              obtain ⟨w1, w2⟩ := process_query_rewrite_rows_spec constants env q1 atts _ _ hr
              have l1 := get_provenance_attributes_rtable_length _ _ _ _ _ _ hg
              have l2 := get_provenance_attributes_keeps_root _ _ _ _ _ _ hg
              refine ⟨rfl, w2, Or.inr ?_⟩
              simp only [w1, l1, appended_entries, l2]

/-- The rows of the rewriting part of a call are defined exactly when
`process_query_rewrite` returns, and the failures are the same. -/
theorem process_query_rewrite_rows_outcome (constants : constants_t) (env : Env) (q : Query)
    (atts : List Node) :
    (process_query_rewrite_rows constants env q atts).map (fun _ => ())
      = (process_query_rewrite constants env q atts).map (fun _ => ()) := by
  unfold process_query_rewrite_rows process_query_rewrite
  cases h1 : process_query_remove constants q with
  | error e => rfl
  | ok q1 =>
    simp only
    cases h2 : process_query_distinct q1 with
    | error e => rfl
    | ok q2 =>
      simp only
      cases h3 : process_query_setops constants env q2 with
      | error e => rfl
      | ok p =>
        obtain ⟨q3, hu, hd⟩ := p
        simp only
        cases h4 : process_query_group_by_rewrite constants q3 with
        | error e => rfl
        | ok gbr =>
          simp only
          cases h5 : process_query_build constants env q3 atts hu hd gbr with
          | error e => rfl
          | ok q4 => rfl

/-- For a query on which no normalizer fires, the rows of the call are defined
exactly when the call of `process_query` returns, and the failures are the same. -/
theorem process_query_columns_rows_outcome (fuel : Nat) (constants : constants_t) (env : Env)
    (q : Query) (hn : normalize_query env q = .ok none) :
    (process_query_columns_rows fuel constants env q).map (fun _ => ())
      = (process_query (fuel + 1) constants env q).map (fun _ => ()) := by
  unfold process_query_columns_rows process_query
  by_cases he : q.rtable.isEmpty = true
  · rw [if_pos he, if_pos he]
    rfl
  · rw [if_neg he, if_neg he]
    simp only [hn]
    cases hg : get_provenance_attributes (process_query fuel constants env) constants env q with
    | error e => rfl
    | ok p =>
      obtain ⟨atts, q1⟩ := p
      simp only
      by_cases ha : atts.isEmpty = true
      · rw [if_pos ha, if_pos ha]
        rfl
      · rw [if_neg ha, if_neg ha]
        have ho := process_query_rewrite_rows_outcome constants env q1 atts
        cases hr : process_query_rewrite_rows constants env q1 atts with
        | error e =>
          rw [hr] at ho
          cases hw : process_query_rewrite constants env q1 atts with
          | error e1 =>
            rw [hw] at ho
            simp only [Except.map, Except.error.injEq] at ho
            subst ho
            rfl
          | ok q4 => rw [hw] at ho; cases ho
        | ok w =>
          rw [hr] at ho
          cases hw : process_query_rewrite constants env q1 atts with
          | error e1 => rw [hw] at ho; cases ho
          | ok q4 => rfl

/-! ## Lemmas on the columns of a rewritten subquery -/

mutual
theorem tree_mutator_fixed (hook : Node → Option Node) (hit : Node → Bool)
    (hh : ∀ n, hit n = false → hook n = none ∨ hook n = some n) :
    ∀ n : Node, tree_walker hit n = false → tree_mutator hook n = n
  | .Var a b c d e, h => by
    have hn : hit (.Var a b c d e) = false := by
      by_contra hc; simp [tree_walker, hc] at h
    rcases hh _ hn with h0 | h1
    · simp [tree_mutator, h0]
    · simp [tree_mutator, h1]
  | .Const a b c d e f g, h => by
    have hn : hit (.Const a b c d e f g) = false := by
      by_contra hc; simp [tree_walker, hc] at h
    rcases hh _ hn with h0 | h1
    · simp [tree_mutator, h0]
    · simp [tree_mutator, h1]
  | .RelabelType arg a b c d, h => by
    have hn : hit (.RelabelType arg a b c d) = false := by
      by_contra hc; simp [tree_walker, hc] at h
    have hsub : tree_walker hit arg = false := by simpa [tree_walker, hn] using h
    rcases hh _ hn with h0 | h1
    · simp [tree_mutator, h0, tree_mutator_fixed hook hit hh arg hsub]
    · simp [tree_mutator, h1]
  | .FuncExpr a b c args, h => by
    have hn : hit (.FuncExpr a b c args) = false := by
      by_contra hc; simp [tree_walker, hc] at h
    have hsub : tree_walker_list hit args = false := by simpa [tree_walker, hn] using h
    rcases hh _ hn with h0 | h1
    · simp [tree_mutator, h0, tree_mutator_list_fixed hook hit hh args hsub]
    · simp [tree_mutator, h1]
  | .OpExpr a b c d e args, h => by
    have hn : hit (.OpExpr a b c d e args) = false := by
      by_contra hc; simp [tree_walker, hc] at h
    have hsub : tree_walker_list hit args = false := by simpa [tree_walker, hn] using h
    rcases hh _ hn with h0 | h1
    · simp [tree_mutator, h0, tree_mutator_list_fixed hook hit hh args hsub]
    · simp [tree_mutator, h1]
  | .BoolExpr a args, h => by
    have hn : hit (.BoolExpr a args) = false := by
      by_contra hc; simp [tree_walker, hc] at h
    have hsub : tree_walker_list hit args = false := by simpa [tree_walker, hn] using h
    rcases hh _ hn with h0 | h1
    · simp [tree_mutator, h0, tree_mutator_list_fixed hook hit hh args hsub]
    · simp [tree_mutator, h1]
  | .ArrayExpr a b elements, h => by
    have hn : hit (.ArrayExpr a b elements) = false := by
      by_contra hc; simp [tree_walker, hc] at h
    have hsub : tree_walker_list hit elements = false := by simpa [tree_walker, hn] using h
    rcases hh _ hn with h0 | h1
    · simp [tree_mutator, h0, tree_mutator_list_fixed hook hit hh elements hsub]
    · simp [tree_mutator, h1]
  | .Aggref a b c args d e, h => by
    have hn : hit (.Aggref a b c args d e) = false := by
      by_contra hc; simp [tree_walker, hc] at h
    have hsub : tree_walker_list hit args = false := by simpa [tree_walker, hn] using h
    rcases hh _ hn with h0 | h1
    · simp [tree_mutator, h0, tree_mutator_list_fixed hook hit hh args hsub]
    · simp [tree_mutator, h1]
  | .TargetEntry expr a b c, h => by
    have hn : hit (.TargetEntry expr a b c) = false := by
      by_contra hc; simp [tree_walker, hc] at h
    have hsub : tree_walker hit expr = false := by simpa [tree_walker, hn] using h
    rcases hh _ hn with h0 | h1
    · simp [tree_mutator, h0, tree_mutator_fixed hook hit hh expr hsub]
    · simp [tree_mutator, h1]
  | .Other a b children, h => by
    have hn : hit (.Other a b children) = false := by
      by_contra hc; simp [tree_walker, hc] at h
    have hsub : tree_walker_list hit children = false := by simpa [tree_walker, hn] using h
    rcases hh _ hn with h0 | h1
    · simp [tree_mutator, h0, tree_mutator_list_fixed hook hit hh children hsub]
    · simp [tree_mutator, h1]
theorem tree_mutator_list_fixed (hook : Node → Option Node) (hit : Node → Bool)
    (hh : ∀ n, hit n = false → hook n = none ∨ hook n = some n) :
    ∀ l : List Node, tree_walker_list hit l = false → tree_mutator_list hook l = l
  | [], _ => by simp [tree_mutator_list]
  | x :: xs, h => by
    have h2 : tree_walker hit x = false ∧ tree_walker_list hit xs = false := by
      simpa [tree_walker_list] using h
    simp [tree_mutator_list, tree_mutator_fixed hook hit hh x h2.1,
      tree_mutator_list_fixed hook hit hh xs h2.2]
end

mutual
theorem tree_mutatorM_eq_self (hook : Node → Option (Except Err Node)) (hit : Node → Bool)
    (hh : ∀ n, hit n = false → hook n = none) :
    ∀ n : Node, tree_walker hit n = false → tree_mutatorM hook n = .ok n
  | .Var a b c d e, h => by
    have hn : hit (.Var a b c d e) = false := by
      by_contra hc; simp [tree_walker, hc] at h
    simp [tree_mutatorM, hooked, hh _ hn]
  | .Const a b c d e f g, h => by
    have hn : hit (.Const a b c d e f g) = false := by
      by_contra hc; simp [tree_walker, hc] at h
    simp [tree_mutatorM, hooked, hh _ hn]
  | .RelabelType arg a b c d, h => by
    have hn : hit (.RelabelType arg a b c d) = false := by
      by_contra hc; simp [tree_walker, hc] at h
    have hsub : tree_walker hit arg = false := by simpa [tree_walker, hn] using h
    simp [tree_mutatorM, hooked, hh _ hn, tree_mutatorM_eq_self hook hit hh arg hsub]
  | .FuncExpr a b c args, h => by
    have hn : hit (.FuncExpr a b c args) = false := by
      by_contra hc; simp [tree_walker, hc] at h
    have hsub : tree_walker_list hit args = false := by simpa [tree_walker, hn] using h
    simp [tree_mutatorM, hooked, hh _ hn, tree_mutatorM_list_eq_self hook hit hh args hsub]
  | .OpExpr a b c d e args, h => by
    have hn : hit (.OpExpr a b c d e args) = false := by
      by_contra hc; simp [tree_walker, hc] at h
    have hsub : tree_walker_list hit args = false := by simpa [tree_walker, hn] using h
    simp [tree_mutatorM, hooked, hh _ hn, tree_mutatorM_list_eq_self hook hit hh args hsub]
  | .BoolExpr a args, h => by
    have hn : hit (.BoolExpr a args) = false := by
      by_contra hc; simp [tree_walker, hc] at h
    have hsub : tree_walker_list hit args = false := by simpa [tree_walker, hn] using h
    simp [tree_mutatorM, hooked, hh _ hn, tree_mutatorM_list_eq_self hook hit hh args hsub]
  | .ArrayExpr a b elements, h => by
    have hn : hit (.ArrayExpr a b elements) = false := by
      by_contra hc; simp [tree_walker, hc] at h
    have hsub : tree_walker_list hit elements = false := by simpa [tree_walker, hn] using h
    simp [tree_mutatorM, hooked, hh _ hn, tree_mutatorM_list_eq_self hook hit hh elements hsub]
  | .Aggref a b c args d e, h => by
    have hn : hit (.Aggref a b c args d e) = false := by
      by_contra hc; simp [tree_walker, hc] at h
    have hsub : tree_walker_list hit args = false := by simpa [tree_walker, hn] using h
    simp [tree_mutatorM, hooked, hh _ hn, tree_mutatorM_list_eq_self hook hit hh args hsub]
  | .TargetEntry expr a b c, h => by
    have hn : hit (.TargetEntry expr a b c) = false := by
      by_contra hc; simp [tree_walker, hc] at h
    have hsub : tree_walker hit expr = false := by simpa [tree_walker, hn] using h
    simp [tree_mutatorM, hooked, hh _ hn, tree_mutatorM_eq_self hook hit hh expr hsub]
  | .Other a b children, h => by
    have hn : hit (.Other a b children) = false := by
      by_contra hc; simp [tree_walker, hc] at h
    have hsub : tree_walker_list hit children = false := by simpa [tree_walker, hn] using h
    simp [tree_mutatorM, hooked, hh _ hn, tree_mutatorM_list_eq_self hook hit hh children hsub]
theorem tree_mutatorM_list_eq_self (hook : Node → Option (Except Err Node)) (hit : Node → Bool)
    (hh : ∀ n, hit n = false → hook n = none) :
    ∀ l : List Node, tree_walker_list hit l = false → tree_mutatorM_list hook l = .ok l
  | [], _ => by simp [tree_mutatorM_list]
  | x :: xs, h => by
    have h2 : tree_walker hit x = false ∧ tree_walker_list hit xs = false := by
      simpa [tree_walker_list] using h
    simp [tree_mutatorM_list, tree_mutatorM_eq_self hook hit hh x h2.1,
      tree_mutatorM_list_eq_self hook hit hh xs h2.2]
end

/-- C2 (as stated, refuted): in `SELECT provenance() AS p FROM r` the entry
`p` is not a provenance column, yet the target list that `process_query`
returns does not hold it as it was: the placeholder call became the provenance
attribute of `r`. -/
theorem C2_counterexample_placeholder :
    sample_env.provsql_where_provenance = false ∧
    sample_select_provenance_r.rtable = [sample_rel_r] ∧
    remove_provenance_attributes_select sample_constants sample_select_provenance_r
      = .ok ([], [false], sample_select_provenance_r) ∧
    returned_target_list
        (process_query 1 sample_constants sample_env sample_select_provenance_r)
      = some [.TargetEntry (make_provenance_attribute sample_constants 1 2) 1 (some "p") 0,
              .TargetEntry (make_provenance_attribute sample_constants 1 2) 2
                (some "provsql") 0] ∧
    returned_target_list
        (process_query 1 sample_constants sample_env sample_select_provenance_r)
      ≠ some (sample_select_provenance_r.targetList ++
              [.TargetEntry (make_provenance_attribute sample_constants 1 2) 2
                (some "provsql") 0]) := by
  have h : returned_target_list
        (process_query 1 sample_constants sample_env sample_select_provenance_r)
      = some [.TargetEntry (make_provenance_attribute sample_constants 1 2) 1 (some "p") 0,
              .TargetEntry (make_provenance_attribute sample_constants 1 2) 2
                (some "provsql") 0] := by rfl
  refine ⟨rfl, rfl, rfl, h, ?_⟩
  rw [h]
  simp [sample_select_provenance_r, Query.zero, make_provenance_attribute]

/-- C2 (amended): with where-provenance off, for a query whose only source
relation is a base relation with exactly one provenance column (the column
`k + 1`) and which has no aggregates, GROUP BY, DISTINCT, grouping sets, set
operation or sublinks, `process_query` returns a query whose target list is
the target list left by the removal of the provenance columns (`q1`, which
holds the entries of the input that are not provenance columns, in order, with
their expressions, names and references), each entry with its calls of the
placeholder function replaced by the provenance attribute, followed by one
entry named `provsql` whose expression is the attribute `(1, k + 1)` itself;
without placeholder calls the kept entries are as `q1` holds them. -/
theorem C2_single_relation_pass_through (fuel : Nat) (constants : constants_t) (env : Env)
    (q : Query) (r : RangeTblEntry) (e : Alias) (k : Nat)
    (refs : Bitmapset) (removed : List Bool) (q1 : Query)
    (hwp : env.provsql_where_provenance = false)
    (hrt : q.rtable = [r]) (hkind : r.rtekind = RTEKind.RTE_RELATION) (heref : r.eref = some e)
    (hcol : e.colnames.get? k = some PROVSQL_COLUMN_NAME)
    (htype : env.get_atttype r.relid ((k : Int) + 1) = constants.OID_TYPE_UUID)
    (huniq : ∀ j : Nat, e.colnames.get? j = some PROVSQL_COLUMN_NAME →
      env.get_atttype r.relid ((j : Int) + 1) = constants.OID_TYPE_UUID → j = k)
    (hagg : q.hasAggs = false) (hgrp : q.groupClause = []) (hdist : q.distinctClause = [])
    (hgs : q.groupingSets = []) (hset : q.setOperations = none) (hsub : q.hasSubLinks = false)
    (hrm : remove_provenance_attributes_select constants q = .ok (refs, removed, q1)) :
    q1.targetList.map entry_content
      = (q.targetList.filter (fun te => !is_provenance_entry constants q te)).map
          entry_content ∧
    ∃ q2, process_query (fuel + 1) constants env q = .ok (some q2) ∧
      q2.targetList
        = q1.targetList.map (provenance_mutator
            { provsql := make_provenance_attribute constants 1 ((k : Int) + 1),
              constants := constants })
          ++ [.TargetEntry (make_provenance_attribute constants 1 ((k : Int) + 1))
                ((q1.targetList.length : Int) + 1) (some PROVSQL_COLUMN_NAME) 0] ∧
      ((∀ te ∈ q1.targetList, provenance_function_walker constants te = false) →
        q2.targetList
          = q1.targetList
            ++ [.TargetEntry (make_provenance_attribute constants 1 ((k : Int) + 1))
                  ((q1.targetList.length : Int) + 1) (some PROVSQL_COLUMN_NAME) 0]) := by
  refine ⟨remove_provenance_attributes_select_content constants q q1 refs removed hrm, ?_⟩
  have hatts := relation_provenance_attributes_single constants env r.relid 1 e.colnames 1 k hcol
    (by rw [add_comm]; exact htype)
    (fun j hj hty => huniq j hj (by rw [add_comm]; exact hty))
  have hone : (1 : Int) + (k : Int) = (k : Int) + 1 := add_comm _ _
  rw [hone] at hatts
  -- the query after the removal step
  obtain ⟨kept, hq1⟩ : ∃ kept, q1 = { q with targetList := kept } := by
    unfold remove_provenance_attributes_select at hrm
    by_cases hemp : q.targetList.isEmpty = true
    · simp [hemp] at hrm
    rw [if_neg hemp] at hrm
    cases hl : remove_provenance_attributes_select_loop constants q q.targetList 0 [] with
    | error err => rw [hl] at hrm; simp at hrm
    | ok t =>
      obtain ⟨kept, rm, rf⟩ := t
      rw [hl] at hrm
      simp only [Except.ok.injEq, Prod.mk.injEq] at hrm
      exact ⟨kept, hrm.2.2.symm⟩
  have hnorm : normalize_query env q = .ok none := by
    simp [normalize_query, hset, hagg]
  have hgpa : get_provenance_attributes (process_query fuel constants env) constants env q
      = .ok ([make_provenance_attribute constants 1 ((k : Int) + 1)], q) := by
    simp [get_provenance_attributes, hrt, get_provenance_attributes_loop,
      get_provenance_attributes_step, hkind, heref, hatts]
  have hremove : process_query_remove constants q
      = .ok { q1 with sortClause :=
                if refs ≠ [] then remove_groupref_loop refs q1.sortClause else q1.sortClause } := by
    unfold process_query_remove
    rw [hrm]
    subst hq1
    by_cases hr : refs = []
    · simp [hr, hset]
    · simp [hr, hset, remove_provenance_attribute_groupref, hgrp, hdist, remove_groupref_loop]
  set att := make_provenance_attribute constants 1 ((k : Int) + 1) with hatt
  set ctx : provenance_mutator_context := { provsql := att, constants := constants } with hctx
  have hmutatt : provenance_mutator ctx att = att :=
    provenance_mutator_attribute ctx constants 1 ((k : Int) + 1)
  have hmutte : provenance_mutator ctx
      (.TargetEntry att ((q1.targetList.length : Int) + 1) (some PROVSQL_COLUMN_NAME) 0)
      = .TargetEntry att ((q1.targetList.length : Int) + 1) (some PROVSQL_COLUMN_NAME) 0 := by
    simp [hatt, provenance_mutator, make_provenance_attribute, tree_mutator]
  have hcols : column_names_present q.rtable := by
    intro x hx e1 he1
    rw [hrt, List.mem_singleton] at hx
    subst hx
    rw [heref] at he1
    simp only [Option.some.injEq] at he1
    subst he1
    intro hc
    rw [hc] at hcol
    simp at hcol
  obtain ⟨t, ht⟩ := build_columns_returns q.rtable 0 hcols
  have hrewrite : ∃ q2, process_query_rewrite constants env q [att] = .ok q2 ∧
      q2.targetList = q1.targetList.map (provenance_mutator ctx)
        ++ [.TargetEntry att ((q1.targetList.length : Int) + 1) (some PROVSQL_COLUMN_NAME) 0] := by
    unfold process_query_rewrite
    rw [hremove]
    subst hq1
    simp only [process_query_distinct, hsub, hdist, process_query_setops, hset,
      process_query_group_by_rewrite, hgrp, hgs, process_query_build, hagg, ht,
      make_provenance_expression_without_where _ _ _ _ _ _ _ _ _ hwp,
      make_provenance_expression_core, driver_operation, combine_prov_atts]
    simp [ht, add_to_select, replace_provenance_function_by_expression, query_tree_mutator,
      hmutte]
  obtain ⟨q2, hq2, htl⟩ := hrewrite
  refine ⟨q2, ?_, htl, ?_⟩
  · unfold process_query
    simp [hrt, hnorm, hgpa, hq2, Except.map]
  · intro hno
    rw [htl]
    congr 1
    have : ∀ l : List Node, (∀ te ∈ l, provenance_function_walker constants te = false) →
        l.map (provenance_mutator ctx) = l := by
      intro l hl
      induction l with
      | nil => rfl
      | cons x xs ih =>
        simp only [List.map_cons]
        rw [provenance_mutator_eq_self ctx x (hl x (List.mem_cons_self _ _)),
          ih (fun te hte => hl te (List.mem_cons_of_mem _ hte))]
    exact this _ hno

/-- C2 (amended), at `SELECT * FROM r`. -/
theorem C2_single_relation_witness :
    ∃ q2, process_query 1 sample_constants sample_env sample_select_star_r = .ok (some q2) ∧
      q2.targetList
        = [.TargetEntry (.Var 1 1 23 (-1) 0) 1 (some "x") 0,
           .TargetEntry (make_provenance_attribute sample_constants 1 2) 2
             (some PROVSQL_COLUMN_NAME) 0] := by
  obtain ⟨_, q2, h1, _, h3⟩ := C2_single_relation_pass_through 0 sample_constants sample_env
    sample_select_star_r sample_rel_r { aliasname := "r", colnames := ["x", "provsql"] } 1
    [] [false, true]
    { sample_select_star_r with targetList := [.TargetEntry (.Var 1 1 23 (-1) 0) 1 (some "x") 0] }
    rfl rfl rfl rfl rfl rfl
    (by
      intro j hj _
      match j, hj with
      | 1, _ => rfl)
    rfl rfl rfl rfl rfl rfl rfl
  refine ⟨q2, h1, ?_⟩
  have := h3 (by
    intro te hte
    simp only [List.mem_singleton] at hte
    subst hte
    rfl)
  simpa using this

/-- C3: with where-provenance off, for a query without aggregates, GROUP BY,
DISTINCT, grouping sets, set operation and sublinks for which two or more
provenance attributes are located (the removal step and the numbering of the
columns having a result: the target list is not empty and every source
relation exposes a column), the expression that `process_query`
appends (last target entry, named `provsql`) is the variadic times-gate call
of token type whose only operand is the array of exactly the located
attributes, in order; and for two base relations with one provenance column
each (columns `ka + 1` and `kb + 1`) under an inner-join entry, the located
attributes are those of the two relations, in range-table order. -/
theorem C3_join_times_gate (fuel : Nat) (constants : constants_t) (env : Env)
    (q q1 q2 : Query) (atts : List Node) (refs : Bitmapset) (removed : List Bool)
    (hwp : env.provsql_where_provenance = false) (hplain : plain_query q)
    (hgpa : get_provenance_attributes (process_query fuel constants env) constants env q
      = .ok (atts, q1))
    (hlen : 2 ≤ atts.length)
    (hrm : remove_provenance_attributes_select constants q1 = .ok (refs, removed, q2))
    (hcols : column_names_present q1.rtable) :
    (∃ q3, process_query (fuel + 1) constants env q = .ok (some q3) ∧
      q3.targetList
        = q2.targetList.map (provenance_mutator
            { provsql := times_gate constants atts, constants := constants })
          ++ [.TargetEntry
                (.FuncExpr constants.OID_FUNCTION_PROVENANCE_TIMES constants.OID_TYPE_UUID true
                  [.ArrayExpr constants.OID_TYPE_UUID_ARRAY constants.OID_TYPE_UUID atts])
                ((q2.targetList.length : Int) + 1) (some PROVSQL_COLUMN_NAME) 0]) ∧
    (∀ (a b j : RangeTblEntry) (ea eb : Alias) (ka kb : Nat),
      q.rtable = [a, b, j] →
      a.rtekind = RTEKind.RTE_RELATION → a.eref = some ea →
      ea.colnames.get? ka = some PROVSQL_COLUMN_NAME →
      env.get_atttype a.relid ((ka : Int) + 1) = constants.OID_TYPE_UUID →
      (∀ i : Nat, ea.colnames.get? i = some PROVSQL_COLUMN_NAME →
        env.get_atttype a.relid ((i : Int) + 1) = constants.OID_TYPE_UUID → i = ka) →
      b.rtekind = RTEKind.RTE_RELATION → b.eref = some eb →
      eb.colnames.get? kb = some PROVSQL_COLUMN_NAME →
      env.get_atttype b.relid ((kb : Int) + 1) = constants.OID_TYPE_UUID →
      (∀ i : Nat, eb.colnames.get? i = some PROVSQL_COLUMN_NAME →
        env.get_atttype b.relid ((i : Int) + 1) = constants.OID_TYPE_UUID → i = kb) →
      j.rtekind = RTEKind.RTE_JOIN → j.jointype = JoinType.JOIN_INNER →
      atts = [make_provenance_attribute constants 1 ((ka : Int) + 1),
              make_provenance_attribute constants 2 ((kb : Int) + 1)]) := by
  constructor
  · have hshape := get_provenance_attributes_shape _ _ _ _ _ _ hgpa
    have hplain1 := plain_query_located _ _ _ _ _ _ hgpa hplain
    have hcomb : combine_prov_atts constants atts semiring_operation.SR_TIMES
        = .ok (times_gate constants atts) := by
      match atts, hlen with
      | _ :: _ :: _, _ => simp [combine_prov_atts, times_gate]
    obtain ⟨q3, hq3, htl⟩ := process_query_rewrite_plain constants env q1 atts refs removed q2
      (times_gate constants atts) hwp hplain1 hrm hcomb
      (provenance_mutator_times_gate constants atts hshape) hcols
    refine ⟨q3, ?_, htl⟩
    have hnorm : normalize_query env q = .ok none := by
      simp [normalize_query, hplain.2.2.2.2.1, hplain.1]
    have hne : q.rtable.isEmpty = false := by
      cases hr : q.rtable with
      | nil =>
        simp only [get_provenance_attributes, hr, get_provenance_attributes_loop,
          Except.ok.injEq, Prod.mk.injEq] at hgpa
        have hnil := hgpa.1
        subst hnil
        simp at hlen
      | cons x xs => rfl
    have hatts : atts.isEmpty = false := by
      match atts, hlen with
      | _ :: _ :: _, _ => rfl
    unfold process_query
    simp [hne, hnorm, hgpa, hatts, hq3, Except.map]
  · intro a b j ea eb ka kb hrt hak hae hac hat hau hbk hbe hbc hbt hbu hjk hjt
    have ha := relation_provenance_attributes_single constants env a.relid 1 ea.colnames 1 ka hac
      (by rw [add_comm]; exact hat) (fun i hi hty => hau i hi (by rw [add_comm]; exact hty))
    have hb := relation_provenance_attributes_single constants env b.relid 2 eb.colnames 1 kb hbc
      (by rw [add_comm]; exact hbt) (fun i hi hty => hbu i hi (by rw [add_comm]; exact hty))
    rw [add_comm] at ha hb
    simp [get_provenance_attributes, hrt, get_provenance_attributes_loop,
      get_provenance_attributes_step, hak, hae, ha, hbk, hbe, hb, hjk, hjt] at hgpa
    exact hgpa.1.symm

/-- C3, at `SELECT r.x, r2.x FROM r JOIN r2 ON r.x = r2.x`. -/
theorem C3_join_times_gate_witness :
    ∃ q3, process_query 1 sample_constants sample_env sample_join = .ok (some q3) ∧
      q3.targetList
        = [.TargetEntry (.Var 1 1 23 (-1) 0) 1 (some "x") 0,
           .TargetEntry (.Var 2 1 23 (-1) 0) 2 (some "x") 0,
           .TargetEntry
             (.FuncExpr 9002 2950 true
               [.ArrayExpr 2951 2950
                 [make_provenance_attribute sample_constants 1 2,
                  make_provenance_attribute sample_constants 2 2]])
             3 (some "provsql") 0] := by
  obtain ⟨⟨q3, h1, h2⟩, _⟩ := C3_join_times_gate 0 sample_constants sample_env sample_join
    sample_join sample_join
    [make_provenance_attribute sample_constants 1 2,
     make_provenance_attribute sample_constants 2 2] [] [false, false]
    rfl ⟨rfl, rfl, rfl, rfl, rfl, rfl⟩ rfl (by decide) rfl
    (build_columns_present sample_join.rtable 0 ([[1, -1], [2, -1], [0, 0, 0, 0]], 2) rfl)
  refine ⟨q3, h1, ?_⟩
  rw [h2]
  rfl

/-- C4 (as stated, refuted): under the disjunction operation the aggregate
calls of `SELECT count(*), sum(x) + 1 FROM r` are not replaced by
aggregate-gate calls but by the column reference inside the first provenance
attribute. -/
theorem C4_counterexample_plus :
    (replace_aggregations_in_select sample_constants sample_aggregates
        [make_provenance_attribute sample_constants 1 2] semiring_operation.SR_PLUS).map
      (fun q => q.targetList)
      = .ok [.TargetEntry (.Var 1 2 2950 (-1) 0) 1 (some "count") 0,
             .TargetEntry
               (.OpExpr 551 177 23 0 0 [.Var 1 2 2950 (-1) 0, .Const 23 (-1) 0 4 1 false true])
               2 (some "s") 0] ∧
    ∀ value token, Node.Var 1 2 2950 (-1) 0
      ≠ aggregate_gate sample_constants (.Aggref 2803 20 [] [] [] AGGKIND_NORMAL) 2803 20
          value token := by
  refine ⟨by rfl, ?_⟩
  intro value token h
  simp [aggregate_gate] at h

/-- C4 (amended): an aggregate call `A` is replaced, under the conjunction and
the difference operation (`A` being a `count`, or an aggregate with a first
argument), by the aggregate-gate call of aggregation-token type whose four
operands are the literal of `A`'s function, the literal of `A`'s result type,
`A` itself, unchanged, and the array-aggregate call over a semimodule call
`(value, token)`, and under the disjunction operation by the expression
inside the first provenance attribute (its column reference); this holds for
`A` as a node, and for every occurrence of `A`, outside other aggregate calls,
in a target entry or in the HAVING condition of a query that
`replace_aggregations_in_select` rewrites. -/
theorem C4_aggregate_gate (constants : constants_t) (atts : List Node)
    (op : semiring_operation) (f t : Oid) (ats : List Oid) (args : List Node)
    (ad : List SortGroupClause) (k : Char) (hatts : atts ≠ []) :
    (op ≠ semiring_operation.SR_PLUS →
      (f = 2803 ∨ f = 2147 ∨ ∃ e r n g rest, args = Node.TargetEntry e r n g :: rest) →
      ∃ value token,
        aggregation_mutator { prov_atts := atts, op := op, constants := constants }
            (.Aggref f t ats args ad k)
          = .ok (aggregate_gate constants (.Aggref f t ats args ad k) f t value token) ∧
        (∀ (q q1 : Query) (i : Nat) (te : Node) (path : List Nat),
          replace_aggregations_in_select constants q atts op = .ok q1 →
          q.targetList.get? i = some te →
          subterm_outside_aggregates te path = some (.Aggref f t ats args ad k) →
          ∃ te1, q1.targetList.get? i = some te1 ∧
            subterm_outside_aggregates te1 path
              = some (aggregate_gate constants (.Aggref f t ats args ad k) f t value token)) ∧
        (∀ (q q1 : Query) (hq : Node) (path : List Nat),
          replace_aggregations_in_select constants q atts op = .ok q1 →
          q.havingQual = some hq →
          subterm_outside_aggregates hq path = some (.Aggref f t ats args ad k) →
          ∃ hq1, q1.havingQual = some hq1 ∧
            subterm_outside_aggregates hq1 path
              = some (aggregate_gate constants (.Aggref f t ats args ad k) f t value token))) ∧
    (op = semiring_operation.SR_PLUS →
      ∀ (first : Node) (a : Oid) (b : Int) (c : Oid) (d : CoercionForm) (rest : List Node),
        atts = Node.RelabelType first a b c d :: rest →
        aggregation_mutator { prov_atts := atts, op := op, constants := constants }
            (.Aggref f t ats args ad k) = .ok first ∧
        (∀ (q q1 : Query) (i : Nat) (te : Node) (path : List Nat),
          replace_aggregations_in_select constants q atts op = .ok q1 →
          q.targetList.get? i = some te →
          subterm_outside_aggregates te path = some (.Aggref f t ats args ad k) →
          ∃ te1, q1.targetList.get? i = some te1 ∧
            subterm_outside_aggregates te1 path = some first) ∧
        (∀ (q q1 : Query) (hq : Node) (path : List Nat),
          replace_aggregations_in_select constants q atts op = .ok q1 →
          q.havingQual = some hq →
          subterm_outside_aggregates hq path = some (.Aggref f t ats args ad k) →
          ∃ hq1, q1.havingQual = some hq1 ∧
            subterm_outside_aggregates hq1 path = some first)) := by
  have hocc : ∀ gate : Node,
      aggregation_mutator { prov_atts := atts, op := op, constants := constants }
          (.Aggref f t ats args ad k) = .ok gate →
      (∀ (q q1 : Query) (i : Nat) (te : Node) (path : List Nat),
        replace_aggregations_in_select constants q atts op = .ok q1 →
        q.targetList.get? i = some te →
        subterm_outside_aggregates te path = some (.Aggref f t ats args ad k) →
        ∃ te1, q1.targetList.get? i = some te1 ∧
          subterm_outside_aggregates te1 path = some gate) ∧
      (∀ (q q1 : Query) (hq : Node) (path : List Nat),
        replace_aggregations_in_select constants q atts op = .ok q1 →
        q.havingQual = some hq →
        subterm_outside_aggregates hq path = some (.Aggref f t ats args ad k) →
        ∃ hq1, q1.havingQual = some hq1 ∧
          subterm_outside_aggregates hq1 path = some gate) := by
    intro gate hnode
    constructor
    · intro q q1 i te path hq hte hsub
      obtain ⟨htl, _⟩ := query_tree_mutatorM_fields _ q q1 hq
      obtain ⟨te1, h1, h2⟩ := mapE_get _ _ _ htl i te hte
      exact ⟨te1, h1, aggregation_mutator_occurrence _ _ _ hnode path te te1 h2 hsub⟩
    · intro q q1 hv path hq hhv hsub
      obtain ⟨_, hh⟩ := query_tree_mutatorM_fields _ q q1 hq
      obtain ⟨hv1, h1, h2⟩ := hh hv hhv
      exact ⟨hv1, h1, aggregation_mutator_occurrence _ _ _ hnode path hv hv1 h2 hsub⟩
  constructor
  · intro hop hargs
    have hcomb := combine_prov_atts_eq constants atts op hatts
    obtain ⟨value, hval⟩ : ∃ value,
        make_aggregation_expression constants (.Aggref f t ats args ad k) atts op
          = .ok (aggregate_gate constants (.Aggref f t ats args ad k) f t value
              (per_row_expression constants atts op)) := by
      by_cases hc : f = 2803 ∨ f = 2147
      · exact ⟨make_int_const constants 4 1, by
          simp [make_aggregation_expression, hop, hcomb, hc, aggregate_gate, make_int_const,
            make_array_agg, InvalidOid]⟩
      · rcases hargs with h1 | h1 | ⟨e, r, n, g, rest, h1⟩
        · exact absurd (Or.inl h1) hc
        · exact absurd (Or.inr h1) hc
        · exact ⟨e, by
            simp [make_aggregation_expression, hop, hcomb, hc, h1, aggregate_gate, make_int_const,
              make_array_agg, InvalidOid]⟩
    have hnode : aggregation_mutator { prov_atts := atts, op := op, constants := constants }
        (.Aggref f t ats args ad k)
        = .ok (aggregate_gate constants (.Aggref f t ats args ad k) f t value
            (per_row_expression constants atts op)) := by
      rw [aggregation_mutator_aggref]
      exact hval
    exact ⟨value, per_row_expression constants atts op, hnode, hocc _ hnode⟩
  · intro hop first a b c d rest hfirst
    have hnode : aggregation_mutator { prov_atts := atts, op := op, constants := constants }
        (.Aggref f t ats args ad k) = .ok first := by
      rw [aggregation_mutator_aggref]
      simp [make_aggregation_expression, hop, hfirst, first_attribute_arg]
    exact ⟨hnode, hocc _ hnode⟩

/-- C4 (amended), at `SELECT count(*), sum(x) + 1 FROM r` under the
conjunction operation, and at `count(*)` under the disjunction operation. -/
theorem C4_aggregate_gate_witness :
    (∃ value token,
      aggregation_mutator
          { prov_atts := [make_provenance_attribute sample_constants 1 2],
            op := semiring_operation.SR_TIMES, constants := sample_constants }
          (.Aggref 2108 20 [23] [.TargetEntry (.Var 1 1 23 (-1) 0) 1 none 0] [] AGGKIND_NORMAL)
        = .ok (aggregate_gate sample_constants
            (.Aggref 2108 20 [23] [.TargetEntry (.Var 1 1 23 (-1) 0) 1 none 0] [] AGGKIND_NORMAL)
            2108 20 value token)) ∧
    (replace_aggregations_in_select sample_constants sample_aggregates
        [make_provenance_attribute sample_constants 1 2] semiring_operation.SR_TIMES).map
      (fun q => q.targetList)
      = .ok [.TargetEntry
               (aggregate_gate sample_constants (.Aggref 2803 20 [] [] [] AGGKIND_NORMAL) 2803 20
                 (.Const 23 (-1) 0 4 1 false true)
                 (make_provenance_attribute sample_constants 1 2))
               1 (some "count") 0,
             .TargetEntry
               (.OpExpr 551 177 23 0 0
                 [aggregate_gate sample_constants
                    (.Aggref 2108 20 [23] [.TargetEntry (.Var 1 1 23 (-1) 0) 1 none 0] []
                      AGGKIND_NORMAL) 2108 20 (.Var 1 1 23 (-1) 0)
                    (make_provenance_attribute sample_constants 1 2),
                  .Const 23 (-1) 0 4 1 false true])
               2 (some "s") 0] ∧
    aggregation_mutator
        { prov_atts := [make_provenance_attribute sample_constants 1 2],
          op := semiring_operation.SR_PLUS, constants := sample_constants }
        (.Aggref 2803 20 [] [] [] AGGKIND_NORMAL)
      = .ok (.Var 1 2 2950 (-1) 0) := by
  obtain ⟨value, token, h1, _, _⟩ := (C4_aggregate_gate sample_constants
    [make_provenance_attribute sample_constants 1 2] semiring_operation.SR_TIMES
    2108 20 [23] [.TargetEntry (.Var 1 1 23 (-1) 0) 1 none 0] [] AGGKIND_NORMAL
    (by simp)).1 (by decide) (Or.inr (Or.inr ⟨_, _, _, _, _, rfl⟩))
  exact ⟨⟨value, token, h1⟩, by rfl,
    ((C4_aggregate_gate sample_constants
      [make_provenance_attribute sample_constants 1 2] semiring_operation.SR_PLUS
      2803 20 [] [] [] AGGKIND_NORMAL (by simp)).2 rfl _ _ _ _ _ [] rfl).1⟩

/-- C5: under the conjunction operation, the semimodule call that
`make_aggregation_expression` builds for an aggregate call has as value
operand the integer constant 1 for `count(*)` and `count(arg)` and the
expression of the first argument of the call otherwise, and as token operand
the per-row provenance expression (the single attribute, or the times-gate
over all attributes). -/
theorem C5_semimodule_operands (constants : constants_t) (atts : List Node) (f t : Oid)
    (ats : List Oid) (args : List Node) (ad : List SortGroupClause) (k : Char)
    (hatts : atts ≠ []) :
    ((f = 2803 ∨ f = 2147) →
      make_aggregation_expression constants (.Aggref f t ats args ad k) atts
          semiring_operation.SR_TIMES
        = .ok (aggregate_gate constants (.Aggref f t ats args ad k) f t
            (.Const constants.OID_TYPE_INT (-1) InvalidOid 4 1 false true)
            (per_row_expression constants atts semiring_operation.SR_TIMES))) ∧
    (¬ (f = 2803 ∨ f = 2147) → ∀ e r n g rest, args = Node.TargetEntry e r n g :: rest →
      make_aggregation_expression constants (.Aggref f t ats args ad k) atts
          semiring_operation.SR_TIMES
        = .ok (aggregate_gate constants (.Aggref f t ats args ad k) f t e
            (per_row_expression constants atts semiring_operation.SR_TIMES))) ∧
    ((∀ a, atts = [a] → per_row_expression constants atts semiring_operation.SR_TIMES = a) ∧
      (2 ≤ atts.length →
        per_row_expression constants atts semiring_operation.SR_TIMES
          = .FuncExpr constants.OID_FUNCTION_PROVENANCE_TIMES constants.OID_TYPE_UUID true
              [.ArrayExpr constants.OID_TYPE_UUID_ARRAY constants.OID_TYPE_UUID atts])) := by
  have hcomb := combine_prov_atts_eq constants atts semiring_operation.SR_TIMES hatts
  refine ⟨?_, ?_, ?_, ?_⟩
  · intro hc
    simp [make_aggregation_expression, hcomb, hc, aggregate_gate, make_int_const,
      make_array_agg, InvalidOid]
  · intro hc e r n g rest h1
    simp [make_aggregation_expression, hcomb, hc, h1, aggregate_gate, make_int_const,
      make_array_agg, InvalidOid]
  · intro a ha
    subst ha
    rfl
  · intro hlen
    match atts, hlen with
    | _ :: _ :: _, _ => simp [per_row_expression, times_gate]

/-- C5, at `count(*)` and `sum(x)` over the attributes of `r` and `r2`. -/
theorem C5_semimodule_operands_witness :
    make_aggregation_expression sample_constants (.Aggref 2803 20 [] [] [] AGGKIND_NORMAL)
        [make_provenance_attribute sample_constants 1 2,
         make_provenance_attribute sample_constants 2 2] semiring_operation.SR_TIMES
      = .ok (aggregate_gate sample_constants (.Aggref 2803 20 [] [] [] AGGKIND_NORMAL) 2803 20
          (.Const 23 (-1) 0 4 1 false true)
          (.FuncExpr 9002 2950 true
            [.ArrayExpr 2951 2950
              [make_provenance_attribute sample_constants 1 2,
               make_provenance_attribute sample_constants 2 2]])) := by
  have h := (C5_semimodule_operands sample_constants
    [make_provenance_attribute sample_constants 1 2,
     make_provenance_attribute sample_constants 2 2] 2803 20 [] [] [] AGGKIND_NORMAL
    (by simp)).1 (Or.inl rfl)
  rw [h]
  rfl

/-- C6 (as stated, refuted): under the disjunction operation the result of
`make_provenance_expression` for a group-by-rewritten query is the column
reference inside the first attribute, not a plus-gate call, and the
has-aggregates flag is not set. -/
theorem C6_counterexample_plus :
    sample_env.provsql_where_provenance = false ∧
    sample_select_star_r.hasAggs = false ∧
    make_provenance_expression sample_constants sample_env sample_select_star_r
        [make_provenance_attribute sample_constants 1 2] false true semiring_operation.SR_PLUS
        [[1, -1]] 1
      = .ok (.Var 1 2 2950 (-1) 0, sample_select_star_r) ∧
    ∀ row, Node.Var 1 2 2950 (-1) 0 ≠ plus_gate sample_constants row := by
  refine ⟨rfl, rfl, by rfl, ?_⟩
  intro row h
  simp [plus_gate] at h

/-- C6 (amended): with where-provenance off and a non-empty attribute list,
when the query aggregates or is group-by-rewritten, the result of
`make_provenance_expression` under the conjunction and the difference
operation is the plus-gate call whose only operand is the array-aggregate call
over the per-row provenance expression, inside a one-operand delta-gate call
exactly when the query aggregates, and the returned query is the input with
the has-aggregates flag set; under the disjunction operation the result is
the expression inside the first attribute (its column reference) and the
returned query is the input, its flag as it was. -/
theorem C6_grouped_provenance (constants : constants_t) (env : Env) (q : Query)
    (atts : List Node) (aggregation : Bool) (group_by_rewrite : Bool)
    (op : semiring_operation) (columns : List (List Int)) (nbcols : Int)
    (hwp : env.provsql_where_provenance = false) (hatts : atts ≠ [])
    (hag : aggregation = true ∨ group_by_rewrite = true) :
    (op ≠ semiring_operation.SR_PLUS →
      make_provenance_expression constants env q atts aggregation group_by_rewrite op
          columns nbcols
        = .ok (if aggregation then
                 delta_gate constants (plus_gate constants (per_row_expression constants atts op))
               else plus_gate constants (per_row_expression constants atts op),
               { q with hasAggs := true })) ∧
    (op = semiring_operation.SR_PLUS →
      ∀ (first : Node) (a : Oid) (b : Int) (c : Oid) (d : CoercionForm) (rest : List Node),
        atts = Node.RelabelType first a b c d :: rest →
        make_provenance_expression constants env q atts aggregation group_by_rewrite op
            columns nbcols = .ok (first, q)) := by
  constructor
  · intro hop
    rw [make_provenance_expression_without_where _ _ _ _ _ _ _ _ _ hwp]
    have hcomb := combine_prov_atts_eq constants atts op hatts
    unfold make_provenance_expression_core
    rw [if_neg hop, hcomb]
    cases aggregation <;> cases group_by_rewrite <;>
      simp_all [delta_gate, plus_gate, make_array_agg]
  · intro hop first a b c d rest hfirst
    rw [make_provenance_expression_without_where _ _ _ _ _ _ _ _ _ hwp]
    unfold make_provenance_expression_core
    rw [if_pos hop, hfirst]
    rfl

/-- C6 (amended), for an aggregating and for a group-by-rewritten query over
`r`, and for a group-by-rewritten query under the disjunction operation. -/
theorem C6_grouped_provenance_witness :
    make_provenance_expression sample_constants sample_env sample_select_star_r
        [make_provenance_attribute sample_constants 1 2] true false semiring_operation.SR_TIMES
        [[1, -1]] 1
      = .ok (delta_gate sample_constants
              (plus_gate sample_constants (make_provenance_attribute sample_constants 1 2)),
             { sample_select_star_r with hasAggs := true }) ∧
    make_provenance_expression sample_constants sample_env sample_select_star_r
        [make_provenance_attribute sample_constants 1 2] false true semiring_operation.SR_MONUS
        [[1, -1]] 1
      = .ok (plus_gate sample_constants (make_provenance_attribute sample_constants 1 2),
             { sample_select_star_r with hasAggs := true }) ∧
    make_provenance_expression sample_constants sample_env sample_select_star_r
        [make_provenance_attribute sample_constants 1 2] false true semiring_operation.SR_PLUS
        [[1, -1]] 1
      = .ok (.Var 1 2 2950 (-1) 0, sample_select_star_r) :=
  ⟨(C6_grouped_provenance sample_constants sample_env sample_select_star_r
      [make_provenance_attribute sample_constants 1 2] true false semiring_operation.SR_TIMES
      [[1, -1]] 1 rfl (by simp) (Or.inl rfl)).1 (by decide),
   (C6_grouped_provenance sample_constants sample_env sample_select_star_r
      [make_provenance_attribute sample_constants 1 2] false true semiring_operation.SR_MONUS
      [[1, -1]] 1 rfl (by simp) (Or.inr rfl)).1 (by decide),
   (C6_grouped_provenance sample_constants sample_env sample_select_star_r
      [make_provenance_attribute sample_constants 1 2] false true semiring_operation.SR_PLUS
      [[1, -1]] 1 rfl (by simp) (Or.inr rfl)).2 rfl _ _ _ _ _ [] rfl⟩

/-- C8: for a query whose set operation is an EXCEPT over the two plain
relation references `L` and `R` (and whose target entries are column
references, as in every set-operation query), `transform_except_into_join`
clears the set operation, appends one join entry to the range table and
replaces the join tree by a single full-outer-join expression with left
operand `L`, right operand `R` and the index of the appended entry, whose
condition is the AND of one equality test per target entry of non-token type,
in target-list order, the test for the entry at position `k` comparing column
`k` of `L` with column `k` of `R` under the equality operator of the type of
the entry; entries of token type contribute no test. -/
theorem C8_except_into_full_join (constants : constants_t) (env : Env) (q : Query)
    (all : Bool) (lindex rindex : Nat) (ct : List Oid) (cm : List Int) (cc : List Oid)
    (hset : q.setOperations
      = some (.SetOperationStmt SetOperation.SETOP_EXCEPT all (.RangeTblRef lindex)
          (.RangeTblRef rindex) ct cm cc))
    (hvars : ∀ te ∈ q.targetList, is_var_entry te) :
    ∃ rte : RangeTblEntry, rte.rtekind = RTEKind.RTE_JOIN ∧
      transform_except_into_join constants env q
        = .ok { q with
                rtable := q.rtable ++ [rte],
                jointree := some
                  { fromlist :=
                      [.JoinExpr JoinType.JOIN_FULL (.RangeTblRef lindex) (.RangeTblRef rindex)
                        (some (.BoolExpr BoolExprType.AND_EXPR
                          (except_equality_tests constants env lindex rindex 1 q.targetList)))
                        (q.rtable.length + 1)],
                    quals := none },
                setOperations := none } :=
  ⟨_, rfl, transform_except_into_join_eq constants env q _ all lindex rindex ct cm cc hset hvars⟩

/-- C8, at `SELECT x, provsql FROM r EXCEPT ALL SELECT x, provsql FROM r2`. -/
theorem C8_except_into_full_join_witness :
    ∃ rte : RangeTblEntry, rte.rtekind = RTEKind.RTE_JOIN ∧
      transform_except_into_join sample_constants sample_env sample_except_flat
        = .ok { sample_except_flat with
                rtable := [sample_rel_r, sample_rel_r2, rte],
                jointree := some
                  { fromlist :=
                      [.JoinExpr JoinType.JOIN_FULL (.RangeTblRef 1) (.RangeTblRef 2)
                        (some (.BoolExpr BoolExprType.AND_EXPR
                          [.OpExpr 96 65 16 0 100
                            [.Var 1 1 23 (-1) 0, .Var 2 1 23 (-1) 0]]))
                        3],
                    quals := none },
                setOperations := none } := by
  obtain ⟨rte, h1, h2⟩ := C8_except_into_full_join sample_constants sample_env
    sample_except_flat true 1 2 [23, 2950] [-1, -1] [0, 0] rfl
    (by
      intro te hte
      simp only [sample_except_flat, Query.zero, List.mem_cons, List.mem_singleton,
        List.not_mem_nil, or_false] at hte
      rcases hte with h | h <;> subst h <;> trivial)
  exact ⟨rte, h1, h2⟩

/-- C10 (as stated, refuted): the base relation of
`SELECT 1 FROM u AS t(provsql, provsql)`, both of whose columns have the token
type, contributes two attributes, `(1, 1)` and `(1, 2)`: the list holds more
than one attribute for one source-relation entry. -/
theorem C10_counterexample_two_columns :
    sample_two_tokens.rtable.length = 1 ∧
    (get_provenance_attributes (process_query 1 sample_constants sample_env_two_tokens)
        sample_constants sample_env_two_tokens sample_two_tokens).map (fun p => p.1)
      = .ok [make_provenance_attribute sample_constants 1 1,
             make_provenance_attribute sample_constants 1 2] ∧
    ([make_provenance_attribute sample_constants 1 1,
      make_provenance_attribute sample_constants 1 2].filter
        (fun a => decide (attribute_relid a = 1))).length = 2 := by
  refine ⟨rfl, by rfl, by rfl⟩

/-- C10 (amended): when `get_provenance_attributes` succeeds, every attribute
of the returned list is an implicit-cast-wrapped column reference of token
type to a source-relation entry, the list is ordered by relation index, a
base-relation entry at index `i + 1` contributes the attribute `(i + 1, j)` if
and only if its `j`-th exposed column name is `provsql` and the declared type
of its `j`-th column is the token type, and the list holds at most one
attribute for every subquery entry, every join entry and every base relation
with at most one such column. -/
theorem C10_located_attributes (process_query : Query → Except Err (Option Query))
    (constants : constants_t) (env : Env) (q q1 : Query) (atts : List Node)
    (hgpa : get_provenance_attributes process_query constants env q = .ok (atts, q1)) :
    (∀ a ∈ atts, ∃ (i : Nat) (j : Int),
      a = .RelabelType (.Var i j constants.OID_TYPE_UUID (-1) InvalidOid)
            constants.OID_TYPE_UUID (-1) InvalidOid CoercionForm.COERCE_IMPLICIT_CAST ∧
      1 ≤ i ∧ i ≤ q.rtable.length) ∧
    List.Pairwise (fun a b => attribute_relid a ≤ attribute_relid b) atts ∧
    (∀ (i : Nat) (r : RangeTblEntry) (e : Alias), q.rtable.get? i = some r →
      r.rtekind = RTEKind.RTE_RELATION → r.eref = some e →
      ∀ j : Int, make_provenance_attribute constants (i + 1) j ∈ atts ↔
        ∃ k : Nat, j = (k : Int) + 1 ∧ e.colnames.get? k = some PROVSQL_COLUMN_NAME ∧
          env.get_atttype r.relid j = constants.OID_TYPE_UUID) ∧
    (∀ (i : Nat) (r : RangeTblEntry), q.rtable.get? i = some r →
      (r.rtekind = RTEKind.RTE_SUBQUERY ∨ r.rtekind = RTEKind.RTE_JOIN ∨
        (r.rtekind = RTEKind.RTE_RELATION ∧ ∀ e, r.eref = some e → ∀ k k1 : Nat,
          e.colnames.get? k = some PROVSQL_COLUMN_NAME →
          env.get_atttype r.relid ((k : Int) + 1) = constants.OID_TYPE_UUID →
          e.colnames.get? k1 = some PROVSQL_COLUMN_NAME →
          env.get_atttype r.relid ((k1 : Int) + 1) = constants.OID_TYPE_UUID → k = k1)) →
      (atts.filter (fun a => decide (attribute_relid a = i + 1))).length ≤ 1) := by
  unfold get_provenance_attributes at hgpa
  cases hl : get_provenance_attributes_loop process_query constants env q.rtable 1
      { q := q, prov_atts := [], detached := false } with
  | error err => simp [hl] at hgpa
  | ok st =>
    simp only [hl, Except.ok.injEq, Prod.mk.injEq] at hgpa
    obtain ⟨contribs, hc, hok⟩ := get_provenance_attributes_loop_atts _ _ _ _ _ _ _ hl
    simp only [List.nil_append] at hc
    have hatts : atts = contribs.flatten := by rw [← hgpa.1, hc]
    obtain ⟨p1, p2, p3⟩ := contributions_ok_flatten constants env contribs 1 q.rtable hok
    rw [← hatts] at p1 p2 p3
    refine ⟨?_, p2, ?_, ?_⟩
    · intro a ha
      obtain ⟨i, j, hj, h1, h2⟩ := p1 a ha
      exact ⟨i, j, hj, h1, by omega⟩
    · intro i r e hr hk he j
      obtain ⟨cb, hcb, hfilter⟩ := p3 i r hr
      obtain ⟨e0, he0, hcbeq⟩ := hcb.2.1 hk
      rw [he] at he0
      cases he0
      have e1 : 1 + i = i + 1 := by omega
      rw [e1] at hfilter hcbeq
      have hmem : make_provenance_attribute constants (i + 1) j ∈ atts ↔
          make_provenance_attribute constants (i + 1) j ∈ cb := by
        rw [← hfilter, List.mem_filter]
        constructor
        · intro h
          exact ⟨h, by simp [make_provenance_attribute, attribute_relid]⟩
        · intro h
          exact h.1
      rw [hmem, hcbeq, relation_provenance_attributes_mem]
      constructor
      · rintro ⟨k, hk1, hk2, hk3⟩
        exact ⟨k, by rw [hk1, add_comm], hk2, hk3⟩
      · rintro ⟨k, hk1, hk2, hk3⟩
        exact ⟨k, by rw [hk1, add_comm], hk2, hk3⟩
    · intro i r hr hcase
      obtain ⟨cb, hcb, hfilter⟩ := p3 i r hr
      have e1 : 1 + i = i + 1 := by omega
      rw [e1] at hfilter hcb
      rw [hfilter]
      rcases hcase with h | h | ⟨h, huniq⟩
      · exact hcb.2.2 (Or.inl h)
      · exact hcb.2.2 (Or.inr h)
      · obtain ⟨e, he, hcbeq⟩ := hcb.2.1 h
        rw [hcbeq]
        exact relation_provenance_attributes_length constants env r.relid (i + 1) e.colnames
          (huniq e he)

/-- C10 (amended), at `SELECT r.x, r2.x FROM r JOIN r2 ON r.x = r2.x`. -/
theorem C10_located_attributes_witness :
    get_provenance_attributes (process_query 0 sample_constants sample_env) sample_constants
        sample_env sample_join
      = .ok ([make_provenance_attribute sample_constants 1 2,
              make_provenance_attribute sample_constants 2 2], sample_join) ∧
    (∀ j : Int, make_provenance_attribute sample_constants 2 j
        ∈ [make_provenance_attribute sample_constants 1 2,
           make_provenance_attribute sample_constants 2 2] ↔
      ∃ k : Nat, j = (k : Int) + 1 ∧ ["x", "provsql"].get? k = some PROVSQL_COLUMN_NAME ∧
        sample_env.get_atttype 101 j = sample_constants.OID_TYPE_UUID) := by
  have h : get_provenance_attributes (process_query 0 sample_constants sample_env)
      sample_constants sample_env sample_join
      = .ok ([make_provenance_attribute sample_constants 1 2,
              make_provenance_attribute sample_constants 2 2], sample_join) := by rfl
  exact ⟨h, (C10_located_attributes _ sample_constants sample_env sample_join sample_join _ h).2.2.1
    1 sample_rel_r2 { aliasname := "r2", colnames := ["x", "provsql"] } rfl rfl rfl⟩

/-- C11 (the code at the failing input): in
`SELECT r.x, t.x FROM r, (SELECT x FROM s) AS t` the recursive rewrite of the
subquery of `t` produces no provenance column (`process_query` returns the
subquery as it was, with the single target entry `x`), yet
`get_provenance_attributes` contributes the attribute `(2, 1)` for the entry
`t` and appends the name `provsql` to its exposed column names. -/
theorem C11_attribute_for_subquery_without_provenance :
    sample_subquery_t.rtekind = RTEKind.RTE_SUBQUERY ∧
    sample_subquery_t.subquery = some sample_select_s ∧
    process_query 1 sample_constants sample_env sample_select_s = .ok (some sample_select_s) ∧
    sample_select_s.targetList = [.TargetEntry (.Var 1 1 23 (-1) 0) 1 (some "x") 0] ∧
    get_provenance_attributes (process_query 1 sample_constants sample_env) sample_constants
        sample_env sample_over_plain_subquery
      = .ok ([make_provenance_attribute sample_constants 1 2,
              make_provenance_attribute sample_constants 2 1],
             { sample_over_plain_subquery with
               rtable := [sample_rel_r,
                 { sample_subquery_t with
                   eref := some { aliasname := "t", colnames := ["x", "provsql"] } }] }) :=
  ⟨rfl, rfl, rfl, rfl, rfl⟩

/-- C14: on a range table of well-formed entries, `get_provenance_attributes`
fails (and so returns no list) if and only if the range table has a join
entry whose kind is not inner, left, right or full, a function entry with a
function whose output column count is not 1, an entry that is none of base
relation, subquery, join or function, or a subquery entry whose recursive
rewrite fails; the error is an unsupported-construct error or the error of
the recursive rewrite of a subquery entry. -/
theorem C14_location_failure (process_query : Query → Except Err (Option Query))
    (constants : constants_t) (env : Env) (q : Query)
    (hwf : ∀ r ∈ q.rtable, well_formed_source process_query r) :
    ((∃ e, get_provenance_attributes process_query constants env q = .error e) ↔
      ∃ r ∈ q.rtable, unsupported_source process_query r) ∧
    (∀ e, get_provenance_attributes process_query constants env q = .error e →
      (∃ msg, e = Err.UnsupportedConstruct msg) ∨
      ∃ r ∈ q.rtable, r.rtekind = RTEKind.RTE_SUBQUERY ∧
        ∃ sub, r.subquery = some sub ∧ process_query sub = .error e) := by
  obtain ⟨h1, h2⟩ := get_provenance_attributes_loop_error process_query constants env q.rtable 1
    { q := q, prov_atts := [], detached := false } hwf
  have hiff : ∀ e, get_provenance_attributes process_query constants env q = .error e ↔
      get_provenance_attributes_loop process_query constants env q.rtable 1
        { q := q, prov_atts := [], detached := false } = .error e := by
    intro e
    unfold get_provenance_attributes
    cases get_provenance_attributes_loop process_query constants env q.rtable 1
        { q := q, prov_atts := [], detached := false } <;> simp
  refine ⟨?_, fun e he => h2 e ((hiff e).mp he)⟩
  rw [← h1]
  exact ⟨fun ⟨e, he⟩ => ⟨e, (hiff e).mp he⟩, fun ⟨e, he⟩ => ⟨e, (hiff e).mpr he⟩⟩

/-- C14, at a range table with a semijoin entry: the scan fails. -/
theorem C14_location_failure_witness :
    (∀ r ∈ sample_semijoin.rtable,
      well_formed_source (process_query 0 sample_constants sample_env) r) ∧
    (∃ e, get_provenance_attributes (process_query 0 sample_constants sample_env)
      sample_constants sample_env sample_semijoin = .error e) := by
  have hwf : ∀ r ∈ sample_semijoin.rtable,
      well_formed_source (process_query 0 sample_constants sample_env) r := by
    intro r hr
    simp only [sample_semijoin, Query.zero, List.mem_cons, List.mem_singleton,
      List.not_mem_nil, or_false] at hr
    rcases hr with h | h | h <;> subst h <;>
      simp [well_formed_source, sample_rel_r, sample_rel_r2, sample_semijoin_entry,
        RangeTblEntry.zero]
  refine ⟨hwf, ?_⟩
  exact (C14_location_failure (process_query 0 sample_constants sample_env) sample_constants
    sample_env sample_semijoin hwf).1.mpr
    ⟨sample_semijoin_entry, by simp [sample_semijoin, Query.zero],
      Or.inl ⟨rfl, by simp [sample_semijoin_entry, RangeTblEntry.zero]⟩⟩

/-- C15: for a query with an ALL set operation at its root (operation `op`,
operands `larg` and `rarg`), no sublinks, no DISTINCT clause and column
references as target entries, in which at least one provenance attribute is
located, the driver reaches its set-operation step,
and that step fails if and only if `op` is neither UNION nor EXCEPT, or `op`
is UNION and a nested set-operation node is not a UNION, or `op` is EXCEPT and
one of the two operands is not a plain relation reference; the failure is an
unsupported-construct error and is the result of `process_query`. -/
theorem C15_set_operation_failure (fuel : Nat) (constants : constants_t) (env : Env)
    (q q1 q2 : Query) (atts : List Node) (op : SetOperation) (larg rarg : TNode)
    (ct : List Oid) (cm : List Int) (cc : List Oid)
    (hset : q.setOperations = some (.SetOperationStmt op true larg rarg ct cm cc))
    (hsub : q.hasSubLinks = false) (hdist : q.distinctClause = [])
    (hvars : ∀ te ∈ q.targetList, is_var_entry te)
    (hgpa : get_provenance_attributes (process_query fuel constants env) constants env q
      = .ok (atts, q1))
    (hatts : atts ≠ [])
    (hrm : process_query_remove constants q1 = .ok q2) :
    process_query_distinct q2 = .ok q2 ∧
    ((∃ e, process_query_setops constants env q2 = .error e) ↔
      (op ≠ SetOperation.SETOP_UNION ∧ op ≠ SetOperation.SETOP_EXCEPT) ∨
      (op = SetOperation.SETOP_UNION ∧ ¬ (all_union larg ∧ all_union rarg)) ∨
      (op = SetOperation.SETOP_EXCEPT ∧
        ¬ (is_range_tbl_ref larg ∧ is_range_tbl_ref rarg))) ∧
    (∀ e, process_query_setops constants env q2 = .error e →
      (∃ msg, e = Err.UnsupportedConstruct msg) ∧
      process_query (fuel + 1) constants env q = .error e) := by
  have hnorm : normalize_query env q = .ok none :=
    normalize_query_all_vars env q op larg rarg ct cm cc hset hvars
  have hshape : set_operation_shape op larg rarg q :=
    ⟨⟨larg, rarg, ct, cm, cc, hset, Iff.rfl, Iff.rfl, Iff.rfl, Iff.rfl⟩, hsub, hdist, hvars⟩
  have hshape1 := set_operation_shape_located _ constants env op larg rarg q q1 atts hgpa hshape
  obtain ⟨⟨l, r, ct2, cm2, cc2, hs2, h1, h2, h3, h4⟩, h5, h6, h7⟩ :=
    set_operation_shape_removed constants op larg rarg q1 q2 hrm hshape1
  have hd : process_query_distinct q2 = .ok q2 := by
    simp [process_query_distinct, h5, h6]
  obtain ⟨hiff, hkind⟩ := process_query_setops_error constants env q2 op true l r ct2 cm2 cc2 hs2 h7
  refine ⟨hd, ?_, ?_⟩
  · rw [hiff, h1, h2, h3, h4]
  · intro e he
    refine ⟨hkind e he, ?_⟩
    have hrt : q.rtable.isEmpty = false := by
      cases hr : q.rtable with
      | nil => exact absurd (get_provenance_attributes_nil _ constants env q q1 atts hgpa hr) hatts
      | cons a b => rfl
    have hne : atts.isEmpty = false := by
      cases atts with
      | nil => exact absurd rfl hatts
      | cons a b => rfl
    unfold process_query
    simp only [hrt, hnorm, hgpa, hne, process_query_rewrite, hrm, hd, he, Bool.false_eq_true,
      if_false, Except.map]

/-- C15, at a chained EXCEPT: the left operand of the root is itself an
EXCEPT node, and `process_query` fails with the error of the set-operation step. -/
theorem C15_set_operation_failure_witness :
    ∃ e, process_query_setops sample_constants sample_env (sample_removed sample_except_chain)
        = .error e ∧
      (∃ msg, e = Err.UnsupportedConstruct msg) ∧
      process_query 2 sample_constants sample_env sample_except_chain = .error e := by
  obtain ⟨_, hiff, hres⟩ := C15_set_operation_failure 1 sample_constants sample_env
    sample_except_chain (sample_located sample_except_chain).2
    (sample_removed sample_except_chain) (sample_located sample_except_chain).1
    SetOperation.SETOP_EXCEPT
    (.SetOperationStmt SetOperation.SETOP_EXCEPT true (.RangeTblRef 1) (.RangeTblRef 2)
      [23] [-1] [0])
    (.RangeTblRef 3) [23] [-1] [0] rfl rfl rfl
    (by
      intro te hte
      simp only [sample_except_chain, Query.zero, List.mem_singleton] at hte
      subst hte
      trivial)
    rfl (fun h => absurd (congrArg List.length h) (by decide)) rfl
  obtain ⟨e, he⟩ := hiff.mpr (Or.inr (Or.inr ⟨rfl, fun h => h.1⟩))
  exact ⟨e, he, hres e he⟩

/-- C16 (the code at the failing input): `SELECT DISTINCT ON (provsql) x FROM r`
has a non-empty DISTINCT ON clause, no sublinks and the located attribute
`(1, 2)`, and `process_query` does not fail on it: the removal step empties the
DISTINCT list before the DISTINCT ON check, and the query that is returned has
the target list `x, provsql`, an empty DISTINCT list and the DISTINCT ON flag. -/
theorem C16_distinct_on_provenance_column_accepted :
    sample_distinct_on.hasDistinctOn = true ∧
    sample_distinct_on.distinctClause.length = 1 ∧
    sample_distinct_on.hasSubLinks = false ∧
    get_provenance_attributes (process_query 0 sample_constants sample_env) sample_constants
        sample_env sample_distinct_on
      = .ok ([make_provenance_attribute sample_constants 1 2], sample_distinct_on) ∧
    process_query 1 sample_constants sample_env sample_distinct_on
      = .ok (some (sample_rewritten 1 sample_distinct_on)) ∧
    (sample_rewritten 1 sample_distinct_on).targetList
      = [.TargetEntry (.Var 1 1 23 (-1) 0) 1 (some "x") 0,
         .TargetEntry (make_provenance_attribute sample_constants 1 2) 2
           (some PROVSQL_COLUMN_NAME) 0] ∧
    (sample_rewritten 1 sample_distinct_on).distinctClause = [] ∧
    (sample_rewritten 1 sample_distinct_on).hasDistinctOn = true :=
  ⟨rfl, rfl, rfl, rfl, rfl, rfl, rfl, rfl⟩

/-- C17 (as stated, refuted): `process_query` fails on
`SELECT DISTINCT ON (x) x, provsql FROM r` because of the DISTINCT ON clause,
and at the point the error is raised the query is not the caller's original
query any more: the removal step has taken the entry `provsql` out of its
target list. -/
theorem C17_counterexample_distinct_on :
    process_query 1 sample_constants sample_env sample_distinct_on_x
      = .error (Err.UnsupportedConstruct "DISTINCT ON not supported by provsql") ∧
    (process_query_at_error 0 sample_constants sample_env sample_distinct_on_x).map
        (fun q => q.targetList)
      = some [.TargetEntry (.Var 1 1 23 (-1) 0) 1 (some "x") 1] ∧
    ¬ ∃ q1, process_query_at_error 0 sample_constants sample_env sample_distinct_on_x = some q1 ∧
        not_mutated sample_distinct_on_x q1 := by
  have h : (process_query_at_error 0 sample_constants sample_env sample_distinct_on_x).map
        (fun q => q.targetList)
      = some [.TargetEntry (.Var 1 1 23 (-1) 0) 1 (some "x") 1] := by rfl
  refine ⟨rfl, h, ?_⟩
  rintro ⟨q1, h1, h2⟩
  rw [h1] at h
  simp only [Option.map_some', Option.some.injEq] at h
  have h3 := h2.1
  rw [h] at h3
  simp [sample_distinct_on_x, Query.zero] at h3

/-- C17 (amended): for a query on which no normalizer fires, that has no
subquery source entry, no provenance column in its target list and, with a
set operation, no DISTINCT clause, whenever `process_query` raises its error on
a source entry (a semijoin among them), on the DISTINCT clause (DISTINCT ON
among them) or at the start of the set-operation step (a chained EXCEPT among
them), the call fails and the query at the point the error is raised is the
caller's original query: its target list, range table, GROUP BY, DISTINCT and
ORDER BY lists and set-operation tree are those it had before the call.  (The
permission bitmap `selectedCols` of a source entry, which
`make_provenance_attribute` extends and which is not part of the model, is
left aside.) -/
theorem C17_not_mutated_at_error (fuel : Nat) (constants : constants_t) (env : Env)
    (q q1 : Query)
    (hnosub : ∀ r ∈ q.rtable, r.rtekind ≠ RTEKind.RTE_SUBQUERY)
    (hnoprov : ∀ te ∈ q.targetList, is_provenance_entry constants q te = false)
    (hnodist : q.setOperations ≠ none → q.distinctClause = [])
    (herr : process_query_at_error fuel constants env q = some q1) :
    q1 = q ∧ not_mutated q q1 ∧ ∃ e, process_query (fuel + 1) constants env q = .error e := by
  have key : q1 = q ∧ ∃ e, process_query (fuel + 1) constants env q = .error e := by
    unfold process_query_at_error at herr
    unfold process_query
    cases hrt : q.rtable.isEmpty with
    | true => simp [hrt] at herr
    | false =>
      simp only [hrt, Bool.false_eq_true, if_false] at herr ⊢
      cases hn : normalize_query env q with
      | error e => simp [hn] at herr
      | ok res =>
        cases res with
        | some qn => simp [hn] at herr
        | none =>
          simp only [hn] at herr ⊢
          cases hg : get_provenance_attributes (process_query fuel constants env) constants env
              q with
          | error e =>
            simp only [hg] at herr
            obtain ⟨i1, _⟩ := get_provenance_attributes_at_error_no_subquery _ constants env
              q.rtable 1 _ q1 hnosub herr
            exact ⟨i1, e, rfl⟩
          | ok p =>
            obtain ⟨atts, qL⟩ := p
            have hqL : qL = q := get_provenance_attributes_no_subquery _ constants env q qL atts
              hnosub hg
            subst hqL
            simp only [hg] at herr ⊢
            cases hne : atts.isEmpty with
            | true => simp [hne] at herr
            | false =>
              simp only [hne, Bool.false_eq_true, if_false] at herr ⊢
              obtain ⟨i1, e, i2⟩ := process_query_rewrite_at_error_none constants env qL q1 atts
                hnoprov hnodist herr
              exact ⟨i1, e, by simp [i2, Except.map]⟩
  obtain ⟨h1, h2⟩ := key
  subst h1
  exact ⟨rfl, ⟨rfl, rfl, rfl, rfl, rfl, rfl⟩, h2⟩

/-- C17 (amended), at `SELECT DISTINCT ON (x) x FROM r`: the call fails on the
DISTINCT ON clause and the query is unchanged at that point. -/
theorem C17_not_mutated_at_error_witness :
    process_query_at_error 0 sample_constants sample_env sample_distinct_on_plain
      = some sample_distinct_on_plain ∧
    not_mutated sample_distinct_on_plain sample_distinct_on_plain ∧
    ∃ e, process_query 1 sample_constants sample_env sample_distinct_on_plain = .error e := by
  have herr : process_query_at_error 0 sample_constants sample_env sample_distinct_on_plain
      = some sample_distinct_on_plain := by rfl
  obtain ⟨_, h2, h3⟩ := C17_not_mutated_at_error 0 sample_constants sample_env
    sample_distinct_on_plain sample_distinct_on_plain
    (by
      intro r hr
      simp only [sample_distinct_on_plain, Query.zero, List.mem_singleton] at hr
      subst hr
      simp [sample_rel_r, RangeTblEntry.zero])
    (by
      intro te hte
      simp only [sample_distinct_on_plain, Query.zero, List.mem_singleton] at hte
      subst hte
      rfl)
    (by intro h; exact absurd rfl h)
    herr
  exact ⟨herr, h2, h3⟩

/-- C19 (as stated, refuted): in `SELECT provsql AS p FROM r`, a query over
the base relation `r`, the column `(1, 2)` is located as a provenance
attribute, and the target entry that refers to it under the output name `p`
is still in the target list after `remove_provenance_attributes_select`. -/
theorem C19_counterexample_renamed_column :
    (∀ r ∈ sample_select_provsql_as_p.rtable, r.rtekind = RTEKind.RTE_RELATION) ∧
    get_provenance_attributes (process_query 0 sample_constants sample_env) sample_constants
        sample_env sample_select_provsql_as_p
      = .ok ([make_provenance_attribute sample_constants 1 2], sample_select_provsql_as_p) ∧
    remove_provenance_attributes_select sample_constants sample_select_provsql_as_p
      = .ok ([], [false], sample_select_provsql_as_p) ∧
    ¬ (∀ te ∈ sample_select_provsql_as_p.targetList,
        ¬ refers_to_attribute sample_constants [make_provenance_attribute sample_constants 1 2]
            te) := by
  refine ⟨?_, rfl, rfl, ?_⟩
  · intro r hr
    simp only [sample_select_provsql_as_p, Query.zero, List.mem_singleton] at hr
    subst hr
    rfl
  · intro h
    exact h (.TargetEntry (.Var 1 2 2950 (-1) 0) 1 (some "p") 0)
      (by simp [sample_select_provsql_as_p, Query.zero])
      (by simp [refers_to_attribute])

/-- C19 (amended): for a query over base relations (whose target list is not
empty and whose target entries have a name the removal step can find), the
location of the provenance attributes and
`remove_provenance_attributes_select` return; no remaining target entry is
a plain column reference of token type named `provsql` (by its output name,
or without one by the exposed name of its column), and the removed entries
are exactly the entries of that kind; for a column reference `(i + 1, k + 1)`
to an exposed column of a source relation that carries the type of the column
and no other output name than the name of the column, being of that kind is
being a reference to a located provenance attribute. -/
theorem C19_removed_by_name (process_query : Query → Except Err (Option Query))
    (constants : constants_t) (env : Env) (q : Query)
    (hbase : ∀ r ∈ q.rtable, r.rtekind = RTEKind.RTE_RELATION ∧ ∃ e, r.eref = some e)
    (hne : q.targetList ≠ [])
    (hres : ∀ te ∈ q.targetList, resolvable_target constants q te) :
    ∃ atts refs removed q2,
      get_provenance_attributes process_query constants env q = .ok (atts, q) ∧
      remove_provenance_attributes_select constants q = .ok (refs, removed, q2) ∧
      (∀ te ∈ q2.targetList, is_provenance_entry constants q te = false) ∧
      removed = q.targetList.map (is_provenance_entry constants q) ∧
      (∀ (i k : Nat) (vartype : Oid) (typmod : Int) (coll : Oid) (resno : Int)
          (resname : Option String) (ref : Nat) (r : RangeTblEntry) (e : Alias) (cname : String),
        q.rtable.get? i = some r → r.eref = some e → e.colnames.get? k = some cname →
        (resname = none ∨ resname = some cname) →
        vartype = env.get_atttype r.relid ((k : Int) + 1) →
        (is_provenance_entry constants q
            (.TargetEntry (.Var (i + 1) ((k : Int) + 1) vartype typmod coll) resno resname ref)
            = true ↔
          refers_to_attribute constants atts
            (.TargetEntry (.Var (i + 1) ((k : Int) + 1) vartype typmod coll) resno resname
              ref))) := by
  obtain ⟨atts, hl, hm⟩ := get_provenance_attributes_loop_relations process_query constants env
    q.rtable 1 { q := q, prov_atts := [], detached := false } hbase
  obtain ⟨kept, removed, out, hrm⟩ :=
    remove_provenance_attributes_select_loop_total constants q q.targetList 0 [] hres
  have hcontent := remove_provenance_attributes_select_loop_content constants q q.targetList 0 []
    kept removed out hrm
  have hflags : removed = q.targetList.map (is_provenance_entry constants q) := by
    have key : ∀ (tl : List Node) (nb : Int) (refs : Bitmapset) (kept : List Node)
        (removed : List Bool) (out : Bitmapset),
        remove_provenance_attributes_select_loop constants q tl nb refs
          = .ok (kept, removed, out) →
        removed = tl.map (is_provenance_entry constants q) := by
      intro tl
      induction tl with
      | nil =>
        intro nb refs kept removed out h
        simp only [remove_provenance_attributes_select_loop, Except.ok.injEq,
          Prod.mk.injEq] at h
        rw [← h.2.1]; rfl
      | cons te rest ih =>
        intro nb refs kept removed out h
        unfold remove_provenance_attributes_select_loop at h
        split at h
        · rename_i expr resno resname ref
          cases ht : is_provenance_target constants q expr resname with
          | error err => simp [ht] at h
          | ok b =>
            cases b
            · simp only [ht] at h
              split at h
              · simp at h
              · rename_i k1 r1 o1 hrec
                simp only [Except.ok.injEq, Prod.mk.injEq] at h
                rw [← h.2.1, ih _ _ _ _ _ hrec]
                simp [is_provenance_entry, ht]
            · simp only [ht] at h
              split at h
              · simp at h
              · rename_i k1 r1 o1 hrec
                simp only [Except.ok.injEq, Prod.mk.injEq] at h
                rw [← h.2.1, ih _ _ _ _ _ hrec]
                simp [is_provenance_entry, ht]
        · simp at h
    exact key _ _ _ _ _ _ hrm
  have hemp : ¬ (q.targetList.isEmpty = true) := fun hc => hne (List.isEmpty_iff.mp hc)
  refine ⟨atts, out, removed, { q with targetList := kept }, ?_, ?_, ?_, hflags, ?_⟩
  · simp [get_provenance_attributes, hl]
  · simp [remove_provenance_attributes_select, hrm, hemp]
  · intro te hte
    have hmem : entry_content te ∈ kept.map entry_content := List.mem_map_of_mem _ hte
    rw [hcontent] at hmem
    obtain ⟨te1, hte1, heq⟩ := List.mem_map.mp hmem
    have hf := (List.mem_filter.mp hte1).2
    rw [is_provenance_entry_content constants q te te1 heq.symm]
    simpa using hf
  · intro i k vartype typmod coll resno resname ref r e cname hr he hc hname hty
    have hlookup : list_nth q.rtable (i : Int) = some r := by
      unfold list_nth
      rw [if_neg (by omega), Int.toNat_ofNat]
      exact hr
    have hcol : list_nth e.colnames (k : Int) = some cname := by
      unfold list_nth
      rw [if_neg (by omega), Int.toNat_ofNat]
      exact hc
    have hattr : refers_to_attribute constants atts
        (.TargetEntry (.Var (i + 1) ((k : Int) + 1) vartype typmod coll) resno resname ref)
        ↔ cname = PROVSQL_COLUMN_NAME ∧ vartype = constants.OID_TYPE_UUID := by
      simp only [refers_to_attribute]
      rw [hm]
      constructor
      · rintro ⟨n, k1, r1, e1, h1, h2, h3, h4, h5, h6⟩
        have hn : n = i := by omega
        subst hn
        rw [hr] at h2
        simp only [Option.some.injEq] at h2
        subst h2
        rw [he] at h3
        simp only [Option.some.injEq] at h3
        subst h3
        have hk1 : k1 = k := by omega
        subst hk1
        rw [hc] at h5
        simp only [Option.some.injEq] at h5
        exact ⟨h5, by rw [hty]; exact h6⟩
      · rintro ⟨h1, h2⟩
        exact ⟨i, k, r, e, by omega, hr, he, by ring, by rw [hc, h1], by rw [← hty]; exact h2⟩
    rw [hattr]
    by_cases ht : vartype = constants.OID_TYPE_UUID
    · rcases hname with hn | hn
      · subst hn
        simp [is_provenance_entry, is_provenance_target, ht, hlookup, he, hcol]
      · subst hn
        simp [is_provenance_entry, is_provenance_target, ht]
    · simp [is_provenance_entry, is_provenance_target, ht]

/-- C19 (amended), at `SELECT * FROM r`: the entry `provsql` refers to the
located attribute `(1, 2)` and is removed. -/
theorem C19_removed_by_name_witness :
    ∃ atts refs removed q2,
      get_provenance_attributes (process_query 0 sample_constants sample_env) sample_constants
          sample_env sample_select_star_r = .ok (atts, sample_select_star_r) ∧
      remove_provenance_attributes_select sample_constants sample_select_star_r
        = .ok (refs, removed, q2) ∧
      (∀ te ∈ q2.targetList, is_provenance_entry sample_constants sample_select_star_r te = false) ∧
      removed = [false, true] ∧
      refers_to_attribute sample_constants atts
        (.TargetEntry (.Var 1 2 2950 (-1) 0) 2 (some "provsql") 0) := by
  obtain ⟨atts, refs, removed, q2, h1, h2, h3, h4, h5⟩ :=
    C19_removed_by_name (process_query 0 sample_constants sample_env) sample_constants sample_env
      sample_select_star_r
      (by
        intro r hr
        simp only [sample_select_star_r, Query.zero, List.mem_singleton] at hr
        subst hr
        exact ⟨rfl, _, rfl⟩)
      (List.ne_nil_of_length_pos (by decide))
      (by
        intro te hte
        simp only [sample_select_star_r, Query.zero, List.mem_cons, List.mem_singleton,
          List.not_mem_nil, or_false] at hte
        rcases hte with h | h
        · subst h; exact trivial
        · subst h; exact trivial)
  refine ⟨atts, refs, removed, q2, h1, h2, h3, ?_, ?_⟩
  · rw [h4]; rfl
  · exact (h5 0 1 2950 (-1) 0 2 (some "provsql") 0 sample_rel_r
      { aliasname := "r", colnames := ["x", "provsql"] } "provsql" rfl rfl rfl (Or.inr rfl)
      rfl).mp rfl

/-- C20: for every query and every set `S` of references,
`remove_provenance_attribute_groupref` replaces the GROUP BY, DISTINCT and
ORDER BY lists by the lists filtered as the specification says (the clauses
whose reference is in `S` leave, the other clauses stay in their order) and
changes no other field of the query. -/
theorem C20_groupref_filter (q : Query) (S : Bitmapset) :
    remove_provenance_attribute_groupref q S
      = { q with groupClause := groupref_filter_spec S q.groupClause,
                 distinctClause := groupref_filter_spec S q.distinctClause,
                 sortClause := groupref_filter_spec S q.sortClause } ∧
    (∀ (l : List SortGroupClause) (c : SortGroupClause),
      c ∈ groupref_filter_spec S l ↔ c ∈ l ∧ bms_is_member c.tleSortGroupRef S = false) ∧
    (∀ l : List SortGroupClause, List.Sublist (groupref_filter_spec S l) l) := by
  refine ⟨?_, ?_, ?_⟩
  · simp only [remove_provenance_attribute_groupref, remove_groupref_loop_eq_filter]
  · intro l c
    simp [groupref_filter_spec, bms_is_member]
  · intro l
    exact List.filter_sublist l

/-- C21 (the code at the failing input): in
`SELECT * FROM r UNION ALL SELECT * FROM r2 UNION ALL SELECT * FROM r` every
node of the set-operation tree is a UNION and lists the two columns of the
target list; `process_query` succeeds and returns a target list of two entries
(`x` and the provenance column), the root of the set-operation tree lists two
columns, and the nested node lists three: the removal step takes the column
`provsql` out of the lists of the root only, and the union step then appends
the provenance column to the lists of every node. -/
theorem C21_nested_union_lists :
    sample_union_three.targetList.length = 2 ∧
    sample_union_three.setOperations
      = some (.SetOperationStmt SetOperation.SETOP_UNION true
          (.SetOperationStmt SetOperation.SETOP_UNION true (.RangeTblRef 1) (.RangeTblRef 2)
            [23, 2950] [-1, -1] [0, 0])
          (.RangeTblRef 3) [23, 2950] [-1, -1] [0, 0]) ∧
    (sample_located sample_union_three).1
      = [make_provenance_attribute sample_constants 1 2,
         make_provenance_attribute sample_constants 2 2,
         make_provenance_attribute sample_constants 3 2] ∧
    process_query 2 sample_constants sample_env sample_union_three
      = .ok (some (sample_rewritten 2 sample_union_three)) ∧
    (sample_rewritten 2 sample_union_three).targetList
      = [.TargetEntry (.Var 1 1 23 (-1) 0) 1 (some "x") 0,
         .TargetEntry (.Var 1 2 2950 (-1) 0) 2 (some PROVSQL_COLUMN_NAME) 0] ∧
    (sample_rewritten 2 sample_union_three).setOperations
      = some (.SetOperationStmt SetOperation.SETOP_UNION true
          (.SetOperationStmt SetOperation.SETOP_UNION true (.RangeTblRef 1) (.RangeTblRef 2)
            [23, 2950, 2950] [-1, -1, -1] [0, 0, 0])
          (.RangeTblRef 3) [23, 2950] [-1, -1] [0, 0]) :=
  ⟨rfl, rfl, rfl, rfl, rfl, rfl⟩

/-- C22: for every query, `transform_distinct_into_group_by` leaves the
DISTINCT clause empty and the GROUP BY list equal to the original GROUP BY
list followed by, in the order of the DISTINCT clause, exactly the DISTINCT
clauses whose reference does not occur in the original GROUP BY list (no other
field changes); every reference of the original DISTINCT clause occurs in the
resulting GROUP BY list, and the original GROUP BY list is a prefix of it. -/
theorem C22_distinct_into_group_by (q : Query) :
    (transform_distinct_into_group_by q).distinctClause = [] ∧
    (transform_distinct_into_group_by q).groupClause
      = q.groupClause ++ q.distinctClause.filter (fun c =>
          decide (c.tleSortGroupRef ∉ q.groupClause.map (fun g => g.tleSortGroupRef))) ∧
    transform_distinct_into_group_by q
      = { q with groupClause := (transform_distinct_into_group_by q).groupClause,
                 distinctClause := [] } ∧
    (∀ c ∈ q.distinctClause,
      c.tleSortGroupRef
        ∈ (transform_distinct_into_group_by q).groupClause.map (fun g => g.tleSortGroupRef)) ∧
    q.groupClause <+: (transform_distinct_into_group_by q).groupClause := by
  have hg : (transform_distinct_into_group_by q).groupClause
      = q.groupClause ++ q.distinctClause.filter (fun c =>
          decide (c.tleSortGroupRef ∉ q.groupClause.map (fun g => g.tleSortGroupRef))) := by
    simp only [transform_distinct_into_group_by, distinct_not_in_group_by_eq_filter]
    congr 1
    apply List.filter_congr
    intro c _
    simp only [already_in_group_by_mem, List.not_mem_nil, false_or]
  refine ⟨rfl, hg, rfl, ?_, ?_⟩
  · intro c hc
    rw [hg, List.map_append, List.mem_append]
    by_cases h : c.tleSortGroupRef ∈ q.groupClause.map (fun g => g.tleSortGroupRef)
    · exact Or.inl h
    · refine Or.inr (List.mem_map.mpr ⟨c, ?_, rfl⟩)
      exact List.mem_filter.mpr ⟨hc, by simpa using h⟩
  · rw [hg]
    exact List.prefix_append _ _

/-- C23: for every query `q` whose set-operation tree has a set-operation node
at its root (whatever its flag ALL, so in particular when it is not ALL), with
a source relation and a target list of `n` target entries,
`rewrite_non_all_into_external_group_by` returns a new SELECT query without
set operation whose only source relation is a subquery entry holding `q` with
the root of its set-operation tree marked ALL, whose join tree is the reference
to that entry, whose target list has the `n` expressions, positions and names of
the target list of `q`, the `k`-th entry carrying the reference `k`, and whose
GROUP BY list has exactly `n` clauses with the references `1, ..., n` in order,
the `k`-th clause holding the operators of the type of the `k`-th column. -/
theorem C23_external_group_by (env : Env) (q : Query) (op : SetOperation) (all : Bool)
    (larg rarg : TNode) (ct : List Oid) (cm : List Int) (cc : List Oid)
    (hset : q.setOperations = some (.SetOperationStmt op all larg rarg ct cm cc))
    (hrt : q.rtable ≠ []) (htl : target_entries q.targetList) :
    ∃ q1 rte, rewrite_non_all_into_external_group_by env q = .ok q1 ∧
      q1.commandType = CmdType.CMD_SELECT ∧ q1.setOperations = none ∧
      q1.rtable = [rte] ∧ rte.rtekind = RTEKind.RTE_SUBQUERY ∧
      rte.subquery
        = some { q with setOperations := some (.SetOperationStmt op true larg rarg ct cm cc) } ∧
      q1.jointree = some { fromlist := [.RangeTblRef 1], quals := none } ∧
      q1.hasAggs = false ∧ q1.distinctClause = [] ∧ q1.havingQual = none ∧
      q1.targetList.length = q.targetList.length ∧
      q1.groupClause.length = q.targetList.length ∧
      q1.groupClause.map (fun c => c.tleSortGroupRef) = List.range' 1 q.targetList.length ∧
      q1.targetList.map entry_ressortgroupref = List.range' 1 q.targetList.length ∧
      ∀ (k : Nat) expr resno resname ref,
        q.targetList.get? k = some (Node.TargetEntry expr resno resname ref) →
        q1.targetList.get? k = some (Node.TargetEntry expr resno resname (k + 1)) ∧
        q1.groupClause.get? k = some (external_group_clause env (exprType expr) (k + 1)) := by
  obtain ⟨tes, sgcs, hloop, h1, h2, h3, h4, h5⟩ := rewrite_non_all_loop_result env q.targetList 0 htl
  obtain ⟨first, rest, hfirst⟩ := List.exists_cons_of_ne_nil hrt
  simp only [rewrite_non_all_into_external_group_by, hset, hfirst, hloop]
  refine ⟨_, _, rfl, rfl, rfl, rfl, rfl, rfl, rfl, rfl, rfl, rfl, h1, h2, ?_, ?_, ?_⟩
  · simpa using h3
  · simpa using h4
  · intro k expr resno resname ref h
    simpa using h5 k expr resno resname ref h

/-- C23 (witness): the theorem at `SELECT x FROM r UNION SELECT x FROM r2`. -/
theorem C23_external_group_by_witness :
    ∃ q1 rte, rewrite_non_all_into_external_group_by sample_env sample_union_distinct = .ok q1 ∧
      q1.commandType = CmdType.CMD_SELECT ∧ q1.setOperations = none ∧
      q1.rtable = [rte] ∧ rte.rtekind = RTEKind.RTE_SUBQUERY ∧
      rte.subquery
        = some { sample_union_distinct with
                 setOperations := some (.SetOperationStmt SetOperation.SETOP_UNION true
                   (.RangeTblRef 1) (.RangeTblRef 2) [23] [-1] [0]) } ∧
      q1.jointree = some { fromlist := [.RangeTblRef 1], quals := none } ∧
      q1.hasAggs = false ∧ q1.distinctClause = [] ∧ q1.havingQual = none ∧
      q1.targetList.length = sample_union_distinct.targetList.length ∧
      q1.groupClause.length = sample_union_distinct.targetList.length ∧
      q1.groupClause.map (fun c => c.tleSortGroupRef)
        = List.range' 1 sample_union_distinct.targetList.length ∧
      q1.targetList.map entry_ressortgroupref
        = List.range' 1 sample_union_distinct.targetList.length ∧
      ∀ (k : Nat) expr resno resname ref,
        sample_union_distinct.targetList.get? k
          = some (Node.TargetEntry expr resno resname ref) →
        q1.targetList.get? k = some (Node.TargetEntry expr resno resname (k + 1)) ∧
        q1.groupClause.get? k
          = some (external_group_clause sample_env (exprType expr) (k + 1)) :=
  C23_external_group_by sample_env sample_union_distinct SetOperation.SETOP_UNION false
    (.RangeTblRef 1) (.RangeTblRef 2) [23] [-1] [0] rfl (by simp [sample_union_distinct])
    (by
      intro te hte
      simp only [sample_union_distinct, List.mem_singleton] at hte
      exact ⟨_, _, _, _, hte⟩)

/-- C24 (the code at the failing input): the target list of
`SELECT count(DISTINCT x), sum(x) FROM r` has two target entries, the first one
a DISTINCT-qualified aggregate, the second one an aggregate without DISTINCT;
the inner query that `check_for_agg_distinct` returns has two elements in its
target list, the first one the target entry of the argument `x` under the
position 1 and the name `count` (added to the GROUP BY list), and the second
one the aggregate call `sum(x)` itself, which is no target entry: its position
2 and its name `sum` are lost, and the rewrite of the query fails on that
element. -/
theorem C24_aggregate_without_distinct_unwrapped :
    sample_count_distinct_and_sum.targetList
      = [.TargetEntry
          (.Aggref 2147 20 [23] [.TargetEntry (.Var 1 1 23 (-1) 0) 1 none 1]
            [{ tleSortGroupRef := 1, eqop := 96, sortop := 97, nulls_first := false,
               hashable := true }] AGGKIND_NORMAL)
          1 (some "count") 0,
         .TargetEntry
          (.Aggref 2108 20 [23] [.TargetEntry (.Var 1 1 23 (-1) 0) 1 none 0] [] AGGKIND_NORMAL)
          2 (some "sum") 0] ∧
    check_for_agg_distinct sample_count_distinct_and_sum
      = .ok (some
          { sample_count_distinct_and_sum with
            targetList :=
              [.TargetEntry (.Var 1 1 23 (-1) 0) 1 (some "count") 1,
               .Aggref 2108 20 [23] [.TargetEntry (.Var 1 1 23 (-1) 0) 1 none 0] []
                 AGGKIND_NORMAL],
            groupClause :=
              [{ tleSortGroupRef := 1, eqop := 96, sortop := 97, nulls_first := false,
                 hashable := true }] }) ∧
    entry_content
        (.Aggref 2108 20 [23] [.TargetEntry (.Var 1 1 23 (-1) 0) 1 none 0] [] AGGKIND_NORMAL)
      = none ∧
    process_query 3 sample_constants sample_env sample_count_distinct_and_sum
      = .error (Err.MalformedInput "target list element is not a TargetEntry") :=
  ⟨rfl, rfl, rfl, rfl⟩

/-- C25 (as stated, refuted): in `SELECT u.provsql, u.y FROM u, r` the column
`provsql` of the base relation `u(x int4, provsql int4, y int4)` has not the
token type, and the location step finds the provenance attribute of `r` only;
the numbering loop of `process_query` runs on the range table `[u, r]` and
gives the column `provsql` of `u` the index -1, not the next integer 2 of the
sequence: `y` takes 2, the column `x` of `r` takes 3, and `nbcols` is 3.  With
where-provenance on, the projection gate of the returned query holds the
position 2 for `u.y` and no position for `u.provsql`. -/
theorem C25_counterexample_named_provsql :
    sample_u_r.rtable = [sample_rel_u, sample_rel_r] ∧
    exposed_columns sample_rel_u
      = [(RTEKind.RTE_RELATION, "x"), (RTEKind.RTE_RELATION, "provsql"),
         (RTEKind.RTE_RELATION, "y")] ∧
    sample_env.get_atttype sample_rel_u.relid 2 = 23 ∧
    sample_constants.OID_TYPE_UUID = 2950 ∧
    (sample_located sample_u_r).1 = [make_provenance_attribute sample_constants 2 2] ∧
    process_query 1 sample_constants sample_env sample_u_r
      = (process_query_build sample_constants sample_env (sample_removed sample_u_r)
          (sample_located sample_u_r).1 false false false).map some ∧
    (sample_removed sample_u_r).rtable = [sample_rel_u, sample_rel_r] ∧
    build_columns [sample_rel_u, sample_rel_r] 0 = .ok ([[1, -1, 2], [3, -1]], 3) ∧
    (returned_target_list (process_query 1 sample_constants sample_env_where sample_u_r)).bind
        (fun l => l.get? 2)
      = some (.TargetEntry
          (.FuncExpr 9004 2950 true
            [make_provenance_attribute sample_constants 2 2,
             .ArrayExpr 1007 23 [.Const 23 (-1) 0 4 2 false true]])
          3 (some "provsql") 0) :=
  ⟨rfl, rfl, rfl, rfl, rfl, rfl, rfl, rfl, rfl⟩

/-- C25 (amended): for every range table whose entries each expose at least
one column name, `process_query` builds the column-index table, which has one
row per source relation and one index per exposed column; scanning the
relations in order and the exposed columns of each in order, the index of a
column is the next integer of the sequence 1, 2, ..., `nbcols` when the column
has a non-empty name other than `provsql` and its entry is no join entry, -1
exactly when the column is named `provsql` (whatever its type) and its entry
is no join entry, and 0 for every column without name and every column of a
join entry; the positive indices are 1, 2, ..., `nbcols` in scan order, hence
strictly increasing, and `nbcols` is their count. -/
theorem C25_column_numbering (rtable : List RangeTblEntry)
    (hcols : column_names_present rtable) :
    ∃ t : List (List Int) × Int, build_columns rtable 0 = .ok t ∧
    t.1.map List.length = rtable.map (fun r => (exposed_columns r).length) ∧
    (∀ k : Nat, t.1.flatten.get? k = column_index_spec (scanned_columns rtable) k) ∧
    (∀ c before, column_index_value c before = -1
      ↔ c.2 = PROVSQL_COLUMN_NAME ∧ c.1 ≠ RTEKind.RTE_JOIN) ∧
    (∀ c before, column_index_value c before = 0 ↔ c.2 = "" ∨ c.1 = RTEKind.RTE_JOIN) ∧
    t.2 = ((scanned_columns rtable).countP numbered_column : Nat) ∧
    t.1.flatten.filter (fun v => decide (0 < v))
      = (List.range' 1 ((scanned_columns rtable).countP numbered_column)).map
          (fun (i : Nat) => (i : Int)) ∧
    (t.1.flatten.filter (fun v => decide (0 < v))).Pairwise (fun a b => a < b) ∧
    ((t.1.flatten.filter (fun v => decide (0 < v))).length : Int) = t.2 := by
  obtain ⟨t, ht⟩ := build_columns_returns rtable 0 hcols
  obtain ⟨h1, h2, h3, h4⟩ := build_columns_spec rtable 0 t (by simpa using ht)
  simp only [Nat.cast_zero, zero_add] at h1 h2 h3 h4
  have hlen : t.1.flatten.length = (scanned_columns rtable).length := by
    rw [List.length_flatten, h1, scanned_columns, List.length_flatMap]
    rfl
  have hpos : t.1.flatten.filter (fun v => decide (0 < v))
      = (List.range' 1 ((scanned_columns rtable).countP numbered_column)).map
          (fun (i : Nat) => (i : Int)) := by
    rw [h4, List.range_eq_range', List.range'_eq_map_range, List.range'_eq_map_range,
      List.map_map, List.map_map]
    apply List.map_congr_left
    intro i _
    simp only [Function.comp, zero_add]
  refine ⟨t, ht, h1, ?_, ?_, ?_, h2, hpos, ?_, ?_⟩
  · intro k
    cases hk : (scanned_columns rtable).get? k with
    | some c => rw [h3 k c hk, column_index_spec, hk]; rfl
    | none =>
      rw [column_index_spec, hk]
      rw [List.get?_eq_none] at hk
      rw [Option.map_none', List.get?_eq_none]
      omega
  · intro c before
    unfold column_index_value
    by_cases hn : numbered_column c = true
    · have hn2 := hn
      simp only [numbered_column, decide_eq_true_eq] at hn2
      simp only [hn, if_true]
      constructor
      · intro h
        omega
      · intro h
        exact absurd h.1 hn2.2.2
    · have hf : numbered_column c = false := by simpa using hn
      simp only [hf, Bool.false_eq_true, if_false]
      by_cases h3 : c.2 = PROVSQL_COLUMN_NAME ∧ c.1 ≠ RTEKind.RTE_JOIN
      · simp [h3]
      · simp [h3]
  · intro c before
    unfold column_index_value
    by_cases hn : numbered_column c = true
    · have hn2 := hn
      simp only [numbered_column, decide_eq_true_eq] at hn2
      simp only [hn, if_true]
      constructor
      · intro h
        omega
      · rintro (h | h)
        · exact absurd h hn2.1
        · exact absurd h hn2.2.1
    · have hf : numbered_column c = false := by simpa using hn
      simp only [hf, Bool.false_eq_true, if_false]
      by_cases h3 : c.2 = PROVSQL_COLUMN_NAME ∧ c.1 ≠ RTEKind.RTE_JOIN
      · simp only [if_pos h3]
        constructor
        · intro h
          omega
        · rintro (h | h)
          · rw [h3.1] at h
            exact absurd h (by decide)
          · exact absurd h h3.2
      · simp only [if_neg h3, true_iff]
        simp only [numbered_column, decide_eq_false_iff_not] at hf
        by_contra hc
        push_neg at hc
        exact hf ⟨hc.1, hc.2, fun hp => h3 ⟨hp, hc.2⟩⟩
  · rw [hpos, List.pairwise_map]
    have := List.pairwise_lt_range' 1 ((scanned_columns rtable).countP numbered_column)
    exact this.imp (fun h => by exact_mod_cast h)
  · rw [hpos, h2]
    simp

/-- C25 (witness): the amended statement at the range table of the sample
join `r JOIN r2`: the table is `[[1, -1], [2, -1], [0, 0, 0, 0]]`, the
positive indices are 1, 2, and `nbcols` is 2. -/
theorem C25_column_numbering_witness :
    ∃ t : List (List Int) × Int,
      build_columns sample_join.rtable 0 = .ok t ∧
      t = ([[1, -1], [2, -1], [0, 0, 0, 0]], 2) ∧
      t.2 = ((scanned_columns sample_join.rtable).countP numbered_column : Nat) ∧
      t.1.flatten.filter (fun v => decide (0 < v))
        = (List.range' 1 ((scanned_columns sample_join.rtable).countP numbered_column)).map
            (fun (i : Nat) => (i : Int)) := by
  obtain ⟨t, h0, _, _, _, _, h5, h6, _⟩ := C25_column_numbering sample_join.rtable
    (build_columns_present sample_join.rtable 0 ([[1, -1], [2, -1], [0, 0, 0, 0]], 2) rfl)
  have ht : t = ([[1, -1], [2, -1], [0, 0, 0, 0]], 2) := by
    have h1 : build_columns sample_join.rtable 0
        = .ok ([[1, -1], [2, -1], [0, 0, 0, 0]], 2) := rfl
    rw [h1] at h0
    simp only [Except.ok.injEq] at h0
    exact h0.symm
  exact ⟨t, h0, ht, h5, h6⟩

/-- C26 (as stated, refuted): the test `r.x < r2.x` of the sample join is no
equality test (its operator 97 is not the equality operator 96 of the type of
its operands), both of its operands are plain column references, and
`add_eq_from_OpExpr_to_Expr` returns the equality-gate call over the previous
expression and the positions 1 and 2 of the two columns, not the previous
expression. -/
theorem C26_counterexample_less_than :
    sample_less_than = .OpExpr 97 66 16 0 0 [.Var 1 1 23 (-1) 0, .Var 2 1 23 (-1) 0] ∧
    sample_env.find_equality_operator 23 23 = 96 ∧
    sample_join_columns = [[1, -1], [2, -1], [0, 0, 0, 0]] ∧
    add_eq_from_OpExpr_to_Expr sample_constants sample_less_than
        (make_provenance_attribute sample_constants 1 2) sample_join_columns
      = .ok (equality_gate sample_constants (make_provenance_attribute sample_constants 1 2) 1 2) ∧
    equality_gate sample_constants (make_provenance_attribute sample_constants 1 2) 1 2
      ≠ make_provenance_attribute sample_constants 1 2 :=
  ⟨rfl, rfl, rfl, rfl, fun h => by cases h⟩

/-- C26 (amended): for every operator expression `o` with the operands `args`,
whatever its operator, every previous expression `e` and every column-index
table, `add_eq_from_OpExpr_to_Expr` returns the equality-gate call of token
type with the operands `(e, literal p1, literal p2)`, `p1` and `p2` being the
table positions of the columns of the first and of the second operand, when `o`
has at least two operands and the first two are plain column references
(directly or one level under a `RelabelType` wrapper); it returns `e` when `o`
has one operand only, when the first operand is no plain column reference, and
when the first is one (with a position in the table) and the second is none. -/
theorem C26_equality_gate (constants : constants_t) (opno opfuncid opresulttype opcollid
    inputcollid : Oid) (e : Node) (columns : List (List Int)) :
    (∀ a1 a2 rest c1 c2 p1 p2,
      eq_operand_var a1 = some c1 → eq_operand_var a2 = some c2 →
      columns_lookup columns c1.1 c1.2 = .ok p1 → columns_lookup columns c2.1 c2.2 = .ok p2 →
      add_eq_from_OpExpr_to_Expr constants
          (.OpExpr opno opfuncid opresulttype opcollid inputcollid (a1 :: a2 :: rest)) e columns
        = .ok (equality_gate constants e p1 p2)) ∧
    (∀ a1,
      add_eq_from_OpExpr_to_Expr constants
          (.OpExpr opno opfuncid opresulttype opcollid inputcollid [a1]) e columns
        = .ok e) ∧
    (∀ a1 a2 rest, ¬ plain_column_reference a1 →
      add_eq_from_OpExpr_to_Expr constants
          (.OpExpr opno opfuncid opresulttype opcollid inputcollid (a1 :: a2 :: rest)) e columns
        = .ok e) ∧
    (∀ a1 a2 rest c1 p1, eq_operand_var a1 = some c1 →
      columns_lookup columns c1.1 c1.2 = .ok p1 → ¬ plain_column_reference a2 →
      add_eq_from_OpExpr_to_Expr constants
          (.OpExpr opno opfuncid opresulttype opcollid inputcollid (a1 :: a2 :: rest)) e columns
        = .ok e) ∧
    (∀ p1 p2, equality_gate constants e p1 p2 ≠ e) := by
  refine ⟨?_, ?_, ?_, ?_, ?_⟩
  · intro a1 a2 rest c1 c2 p1 p2 h1 h2 hp1 hp2
    obtain ⟨n1, k1⟩ := c1
    obtain ⟨n2, k2⟩ := c2
    simp only [add_eq_from_OpExpr_to_Expr, h1, h2, hp1, hp2]
    rfl
  · intro a1
    rfl
  · intro a1 a2 rest h1
    have : eq_operand_var a1 = none := by
      cases h : eq_operand_var a1 with
      | none => rfl
      | some c => exact absurd ((eq_operand_var_plain a1).mpr ⟨c, h⟩) h1
    simp only [add_eq_from_OpExpr_to_Expr, this]
  · intro a1 a2 rest c1 p1 h1 hp1 h2
    obtain ⟨n1, k1⟩ := c1
    have : eq_operand_var a2 = none := by
      cases h : eq_operand_var a2 with
      | none => rfl
      | some c => exact absurd ((eq_operand_var_plain a2).mpr ⟨c, h⟩) h2
    simp only [add_eq_from_OpExpr_to_Expr, h1, hp1, this]
  · intro p1 p2 h
    have := congrArg sizeOf h
    simp [equality_gate] at this
    omega

/-- C26 (witness): the amended statement at the tests `r.x < r2.x` (two plain
column references) and `r.x < 1` (the second operand is a literal). -/
theorem C26_equality_gate_witness :
    add_eq_from_OpExpr_to_Expr sample_constants sample_less_than
        (make_provenance_attribute sample_constants 1 2) sample_join_columns
      = .ok (equality_gate sample_constants (make_provenance_attribute sample_constants 1 2) 1 2) ∧
    add_eq_from_OpExpr_to_Expr sample_constants
        (.OpExpr 97 66 16 0 0 [.Var 1 1 23 (-1) 0, .Const 23 (-1) 0 4 1 false true])
        (make_provenance_attribute sample_constants 1 2) sample_join_columns
      = .ok (make_provenance_attribute sample_constants 1 2) :=
  ⟨(C26_equality_gate sample_constants 97 66 16 0 0
      (make_provenance_attribute sample_constants 1 2) sample_join_columns).1
      (.Var 1 1 23 (-1) 0) (.Var 2 1 23 (-1) 0) [] (1, 1) (2, 1) 1 2 rfl rfl rfl rfl,
   (C26_equality_gate sample_constants 97 66 16 0 0
      (make_provenance_attribute sample_constants 1 2) sample_join_columns).2.2.2.1
      (.Var 1 1 23 (-1) 0) (.Const 23 (-1) 0 4 1 false true) [] (1, 1) 1 rfl rfl
      (fun h => h)⟩

/-- C27: for every qualifier handled by `add_eq_from_Quals_to_Expr`, previous
expression `e` and column-index table: a boolean expression whose operator is
OR or NOT makes the call fail with an unsupported-construct error; for an AND
over the arguments `args` the result is the left-to-right fold over `args`
that hands each operator expression to `add_eq_from_OpExpr_to_Expr` with the
result so far as previous expression and skips every other argument (so, for
two operator expressions, the result for the second one is built around the
result for the first one); for a single operator expression the result is
`add_eq_from_OpExpr_to_Expr` of it; an absent qualifier and a qualifier of any
other kind leave `e` unchanged. -/
theorem C27_equalities_of_qualifier (constants : constants_t) (e : Node)
    (columns : List (List Int)) :
    (∀ args,
      add_eq_from_Quals_to_Expr constants (some (.BoolExpr BoolExprType.OR_EXPR args)) e columns
        = .error (Err.UnsupportedConstruct
            "Boolean operators OR and NOT in a join...on clause are not supported by provsql")) ∧
    (∀ args,
      add_eq_from_Quals_to_Expr constants (some (.BoolExpr BoolExprType.NOT_EXPR args)) e columns
        = .error (Err.UnsupportedConstruct
            "Boolean operators OR and NOT in a join...on clause are not supported by provsql")) ∧
    (∀ args,
      add_eq_from_Quals_to_Expr constants (some (.BoolExpr BoolExprType.AND_EXPR args)) e columns
        = List.foldlM (and_fold_step constants columns) e args) ∧
    (∀ o1 o2 g1, is_op_expr o1 = true → is_op_expr o2 = true →
      add_eq_from_OpExpr_to_Expr constants o1 e columns = .ok g1 →
      add_eq_from_Quals_to_Expr constants (some (.BoolExpr BoolExprType.AND_EXPR [o1, o2])) e
          columns
        = add_eq_from_OpExpr_to_Expr constants o2 g1 columns) ∧
    (∀ o, is_op_expr o = true →
      add_eq_from_Quals_to_Expr constants (some o) e columns
        = add_eq_from_OpExpr_to_Expr constants o e columns) ∧
    add_eq_from_Quals_to_Expr constants none e columns = .ok e ∧
    (∀ n, is_op_expr n = false → is_bool_expr n = false →
      add_eq_from_Quals_to_Expr constants (some n) e columns = .ok e) := by
  have hand : ∀ args,
      add_eq_from_Quals_to_Expr constants (some (.BoolExpr BoolExprType.AND_EXPR args)) e columns
        = List.foldlM (and_fold_step constants columns) e args := by
    intro args
    rw [← add_eq_from_Quals_loop_eq_fold]
    simp [add_eq_from_Quals_to_Expr]
  refine ⟨?_, ?_, hand, ?_, ?_, rfl, ?_⟩
  · intro args
    simp [add_eq_from_Quals_to_Expr]
  · intro args
    simp [add_eq_from_Quals_to_Expr]
  · intro o1 o2 g1 h1 h2 hg
    rw [hand, List.foldlM_cons]
    have hs : and_fold_step constants columns e o1 = .ok g1 := by
      simp only [and_fold_step, h1, if_true, hg]
    rw [hs]
    show List.foldlM (and_fold_step constants columns) g1 [o2] = _
    rw [List.foldlM_cons]
    have hs2 : and_fold_step constants columns g1 o2
        = add_eq_from_OpExpr_to_Expr constants o2 g1 columns := by
      simp only [and_fold_step, h2, if_true]
    rw [hs2]
    cases add_eq_from_OpExpr_to_Expr constants o2 g1 columns <;> rfl
  · intro o ho
    cases o <;> first | rfl | cases ho
  · intro n h1 h2
    cases n <;> first | rfl | exact Bool.noConfusion h1 | exact Bool.noConfusion h2

/-- C27 (witness): the qualifier `r.x = r2.x AND r.x < r2.x` of the sample
join; the gate for the second test is the outer one. -/
theorem C27_equalities_of_qualifier_witness :
    add_eq_from_Quals_to_Expr sample_constants
        (some (.BoolExpr BoolExprType.AND_EXPR [sample_equal, sample_less_than]))
        (make_provenance_attribute sample_constants 1 2) sample_join_columns
      = add_eq_from_OpExpr_to_Expr sample_constants sample_less_than
          (equality_gate sample_constants (make_provenance_attribute sample_constants 1 2) 1 2)
          sample_join_columns :=
  (C27_equalities_of_qualifier sample_constants (make_provenance_attribute sample_constants 1 2)
    sample_join_columns).2.2.2.1 sample_equal sample_less_than _ rfl rfl rfl

/-- C28 (as stated, refuted): with where-provenance on, the target list of the
sample query over a nested join has two entries, both plain column references;
the position of the first one, read through the alias variable of the outer
join entry, is 0 (the alias variable refers to a column of the inner join
entry), the position of the second one is 3; the result of
`make_provenance_expression` is the projection-gate call over the previous
expression (the equality gate over the times gate) and an array that holds
one literal, 3, for the two target entries. -/
theorem C28_counterexample_nested_join :
    sample_env_where.provsql_where_provenance = true ∧
    sample_nested_join.targetList
      = [.TargetEntry (.Var 5 1 23 (-1) 0) 1 (some "x") 0,
         .TargetEntry (.Var 4 1 23 (-1) 0) 2 (some "x") 0] ∧
    build_columns sample_nested_join.rtable 0
      = .ok ([[1, -1], [2, -1], [0, 0, 0, 0], [3, -1], [0, 0, 0, 0, 0, 0]], 3) ∧
    sample_nested_join_columns
      = [[1, -1], [2, -1], [0, 0, 0, 0], [3, -1], [0, 0, 0, 0, 0, 0]] ∧
    entry_position sample_nested_join sample_nested_join_columns
        (.TargetEntry (.Var 5 1 23 (-1) 0) 1 (some "x") 0) = some 0 ∧
    entry_position sample_nested_join sample_nested_join_columns
        (.TargetEntry (.Var 4 1 23 (-1) 0) 2 (some "x") 0) = some 3 ∧
    make_provenance_expression sample_constants sample_env_where sample_nested_join
        [make_provenance_attribute sample_constants 1 2,
         make_provenance_attribute sample_constants 2 2,
         make_provenance_attribute sample_constants 4 2]
        false false semiring_operation.SR_TIMES sample_nested_join_columns 3
      = .ok (projection_gate sample_constants
              (equality_gate sample_constants
                (times_gate sample_constants
                  [make_provenance_attribute sample_constants 1 2,
                   make_provenance_attribute sample_constants 2 2,
                   make_provenance_attribute sample_constants 4 2]) 1 3)
              [make_int_const sample_constants 4 3],
             sample_nested_join) :=
  ⟨rfl, rfl, rfl, rfl, rfl, rfl, rfl⟩

/-- C28 (amended): with where-provenance on, when the first part of
`make_provenance_expression` returns `result0`, the equality phase returns
`previous` and the target list can be scanned (target entries, each plain
column reference with a position in the table), the result is `previous`
without projection-gate wrapper if and only if the target list is the
identity projection (plain column references only, each with a positive
position or with the position -1 of a provenance column, the positive
positions being 1, 2, ..., `nbcols` in target-list order); in every other
case it is the variadic projection-gate call with the operands `previous` and
the array that holds, in target-list order, the literal of its position for
each plain column reference with a positive position and the literal 0 for
each computed expression, a plain column reference with the position 0 or -1
adding no literal.  With where-provenance off the result is the one of the
first part: no equality gate and no projection gate is added. -/
theorem C28_projection_gate (constants : constants_t) (env : Env) (q : Query)
    (prov_atts : List Node) (aggregation : Bool) (group_by_rewrite : Bool)
    (op : semiring_operation) (columns : List (List Int)) (nbcols : Int) :
    (env.provsql_where_provenance = true →
      ∀ (result0 previous : Node) (q1 : Query),
        make_provenance_expression_core constants q prov_atts aggregation group_by_rewrite op
          = .ok (result0, q1) →
        where_equalities constants columns q1.jointree result0 = .ok previous →
        scannable_targets q1 columns q1.targetList →
        ∃ r, make_provenance_expression constants env q prov_atts aggregation group_by_rewrite
              op columns nbcols = .ok (r, q1) ∧
          (r = previous ↔ identity_projection q1 columns nbcols q1.targetList) ∧
          (¬ identity_projection q1 columns nbcols q1.targetList →
            r = projection_gate constants previous
                  (q1.targetList.flatMap (projection_literals constants q1 columns)))) ∧
    (env.provsql_where_provenance = false →
      make_provenance_expression constants env q prov_atts aggregation group_by_rewrite op
          columns nbcols
        = make_provenance_expression_core constants q prov_atts aggregation group_by_rewrite
            op) :=
  ⟨fun hwp result0 previous q1 hcore heq hs =>
      make_provenance_expression_with_where constants env q prov_atts aggregation
        group_by_rewrite op columns nbcols result0 previous q1 hwp hcore heq hs,
   fun hwp =>
      make_provenance_expression_without_where constants env q prov_atts aggregation
        group_by_rewrite op columns nbcols hwp⟩

/-- C28 (witness): the amended statement at the sample query over a nested
join, with where-provenance on. -/
theorem C28_projection_gate_witness :
    ∃ r, make_provenance_expression sample_constants sample_env_where sample_nested_join
          [make_provenance_attribute sample_constants 1 2,
           make_provenance_attribute sample_constants 2 2,
           make_provenance_attribute sample_constants 4 2]
          false false semiring_operation.SR_TIMES sample_nested_join_columns 3
        = .ok (r, sample_nested_join) ∧
      (r = equality_gate sample_constants
            (times_gate sample_constants
              [make_provenance_attribute sample_constants 1 2,
               make_provenance_attribute sample_constants 2 2,
               make_provenance_attribute sample_constants 4 2]) 1 3
        ↔ identity_projection sample_nested_join sample_nested_join_columns 3
            sample_nested_join.targetList) ∧
      (¬ identity_projection sample_nested_join sample_nested_join_columns 3
            sample_nested_join.targetList →
        r = projection_gate sample_constants
              (equality_gate sample_constants
                (times_gate sample_constants
                  [make_provenance_attribute sample_constants 1 2,
                   make_provenance_attribute sample_constants 2 2,
                   make_provenance_attribute sample_constants 4 2]) 1 3)
              (sample_nested_join.targetList.flatMap
                (projection_literals sample_constants sample_nested_join
                  sample_nested_join_columns))) :=
  (C28_projection_gate sample_constants sample_env_where sample_nested_join
    [make_provenance_attribute sample_constants 1 2,
     make_provenance_attribute sample_constants 2 2,
     make_provenance_attribute sample_constants 4 2]
    false false semiring_operation.SR_TIMES sample_nested_join_columns 3).1
    rfl _ _ _ rfl rfl
    (by
      intro te hte
      simp only [sample_nested_join, List.mem_cons, List.mem_singleton, List.not_mem_nil,
        or_false] at hte
      rcases hte with rfl | rfl
      · exact ⟨⟨_, _, _, _, rfl⟩, fun _ => ⟨0, rfl⟩⟩
      · exact ⟨⟨_, _, _, _, rfl⟩, fun _ => ⟨3, rfl⟩⟩)

/-- C29: for every query `q` and provenance expression `e` in which no call of
the placeholder function occurs, the query that
`replace_provenance_function_by_expression` leaves has no call of the
placeholder function at its level (target list, join and WHERE conditions,
set-operation tree, HAVING condition, alias variables of the join entries);
its expressions are those of `q` under a mutator that puts `e` in the place of
each call, rebuilds every other node from its mutated sub-expressions and
leaves an expression without call as it is; the subquery of every source
relation is the one it was, every source relation that is no join entry is
unchanged, and no other field of the query changes. -/
theorem C29_placeholder_replaced (constants : constants_t) (q : Query) (e : Node)
    (he : provenance_function_walker constants e = false) :
    placeholder_free constants (replace_provenance_function_by_expression constants q e) ∧
    (∃ m : Node → Node, substitutes_placeholder constants e m ∧
      (∀ n, provenance_function_walker constants n = false → m n = n) ∧
      replace_provenance_function_by_expression constants q e
        = { q with
            targetList := q.targetList.map m,
            jointree := q.jointree.map (FromExpr.mutate m),
            setOperations := q.setOperations.map (TNode.mutate m),
            havingQual := q.havingQual.map m,
            rtable := q.rtable.map (fun r =>
              if r.rtekind = RTEKind.RTE_JOIN then
                { r with joinaliasvars := r.joinaliasvars.map m }
              else r) }) ∧
    (replace_provenance_function_by_expression constants q e).rtable.map (fun r => r.subquery)
      = q.rtable.map (fun r => r.subquery) := by
  obtain ⟨context, hctx⟩ : ∃ c : provenance_mutator_context,
      c = { provsql := e, constants := constants } := ⟨_, rfl⟩
  have hc1 : context.constants = constants := by rw [hctx]
  have hc2 : context.provsql = e := by rw [hctx]
  have he2 : provenance_function_walker context.constants context.provsql = false := by
    rw [hc1, hc2]; exact he
  have hrt : range_table_mutator (provenance_mutator context) (fun f => f) q.rtable
      = q.rtable.map (fun r =>
          if r.rtekind = RTEKind.RTE_JOIN then
            { r with joinaliasvars := r.joinaliasvars.map (provenance_mutator context) }
          else r) := by
    unfold range_table_mutator
    apply List.map_congr_left
    intro r _
    cases r with
    | mk rtekind relid subquery jointype joinaliasvars functions rtalias eref inFromCl perms =>
      cases rtekind <;> simp
  have hq : replace_provenance_function_by_expression constants q e
      = { q with
          targetList := q.targetList.map (provenance_mutator context),
          jointree := q.jointree.map (FromExpr.mutate (provenance_mutator context)),
          setOperations := q.setOperations.map (TNode.mutate (provenance_mutator context)),
          havingQual := q.havingQual.map (provenance_mutator context),
          rtable := q.rtable.map (fun r =>
            if r.rtekind = RTEKind.RTE_JOIN then
              { r with joinaliasvars := r.joinaliasvars.map (provenance_mutator context) }
            else r) } := by
    rw [← hrt, hctx]
    rfl
  have hno := provenance_mutator_no_call context he2
  rw [hc1] at hno
  have htree := has_provenance_call_mutate context he2
  rw [hc1] at htree
  refine ⟨?_, ⟨provenance_mutator context, ?_, ?_, hq⟩, ?_⟩
  · rw [hq]
    refine ⟨?_, ?_, ?_, ?_, ?_⟩
    · intro te hte
      obtain ⟨x, _, rfl⟩ := List.mem_map.mp hte
      exact hno x
    · intro j hj
      cases hjt : q.jointree with
      | none => rw [hjt] at hj; cases hj
      | some j0 =>
        rw [hjt] at hj
        simp only [Option.map_some', Option.some.injEq] at hj
        subst hj
        refine ⟨?_, ?_⟩
        · intro t ht
          obtain ⟨x, _, rfl⟩ := List.mem_map.mp ht
          exact htree x
        · intro w hw
          cases hq0 : j0.quals with
          | none => simp [FromExpr.mutate, hq0] at hw
          | some w0 =>
            simp only [FromExpr.mutate, hq0, Option.map_some', Option.some.injEq] at hw
            subst hw
            exact hno w0
    · intro t ht
      cases hs : q.setOperations with
      | none => rw [hs] at ht; cases ht
      | some t0 =>
        rw [hs] at ht
        simp only [Option.map_some', Option.some.injEq] at ht
        subst ht
        exact htree t0
    · intro h hh
      cases hv : q.havingQual with
      | none => rw [hv] at hh; cases hh
      | some h0 =>
        rw [hv] at hh
        simp only [Option.map_some', Option.some.injEq] at hh
        subst hh
        exact hno h0
    · intro r hr hk v hv
      obtain ⟨r0, _, rfl⟩ := List.mem_map.mp hr
      by_cases hk0 : r0.rtekind = RTEKind.RTE_JOIN
      · simp only [if_pos hk0] at hv
        obtain ⟨x, _, rfl⟩ := List.mem_map.mp hv
        exact hno x
      · simp only [if_neg hk0] at hk
        exact absurd hk hk0
  · have hn := provenance_mutator_nodes context
    rw [hc1] at hn
    refine ⟨?_, hn.1, hn.2.1, hn.2.2.1, hn.2.2.2.1, hn.2.2.2.2.1, hn.2.2.2.2.2.1,
      hn.2.2.2.2.2.2.1, hn.2.2.2.2.2.2.2.1, hn.2.2.2.2.2.2.2.2.1, hn.2.2.2.2.2.2.2.2.2⟩
    intro typ variadic args
    have := provenance_mutator_call context typ variadic args
    rw [hc1, hc2] at this
    exact this
  · intro n hn
    exact provenance_mutator_eq_self context n (by rw [hc1]; exact hn)
  · rw [hq]
    simp only [List.map_map]
    apply List.map_congr_left
    intro r _
    simp only [Function.comp]
    split <;> rfl

/-- C29 (witness): the theorem at a query with the placeholder in its target
list and in its WHERE condition, over a subquery entry whose subquery calls
the placeholder as well, and the provenance attribute `(1, 1)`. -/
theorem C29_placeholder_replaced_witness :
    provenance_function_walker sample_constants (make_provenance_attribute sample_constants 1 1)
      = false ∧
    placeholder_free sample_constants
      (replace_provenance_function_by_expression sample_constants sample_placeholders
        (make_provenance_attribute sample_constants 1 1)) ∧
    (replace_provenance_function_by_expression sample_constants sample_placeholders
        (make_provenance_attribute sample_constants 1 1)).rtable.map (fun r => r.subquery)
      = sample_placeholders.rtable.map (fun r => r.subquery) :=
  ⟨rfl,
   (C29_placeholder_replaced sample_constants sample_placeholders
      (make_provenance_attribute sample_constants 1 1) rfl).1,
   (C29_placeholder_replaced sample_constants sample_placeholders
      (make_provenance_attribute sample_constants 1 1) rfl).2.2⟩

/-- C30: `process_query` terminates on every query: a query returned by the
normalizer for set operations has no set operation (and no aggregates); a query
returned by the normalizer for aggregates has no top-level aggregate with a
DISTINCT qualifier, and `check_for_agg_distinct` reports none in it; hence no
normalizer fires on the query that a normalizer returned (each fires at most
once per query); the only other recursive calls, those of the scan of the
source relations, are on the subqueries of the entries of the range table,
which are strictly smaller than the query; and for every query there is a
recursion depth from which on `process_query` returns one and the same result,
which is not the lack of recursion depth. -/
theorem C30_process_query_terminates (constants : constants_t) (env : Env) :
    (∀ q q1, rewrite_non_all_into_external_group_by env q = .ok q1 →
      q1.setOperations = none ∧ q1.hasAggs = false) ∧
    (∀ q subq q1, rewrite_for_agg_distinct env q subq = .ok q1 →
      check_for_agg_distinct q1 = .ok none ∧
      ∀ te ∈ q1.targetList, ∀ a b c args d k resno resname ref,
        te = Node.TargetEntry (.Aggref a b c args d k) resno resname ref → d = []) ∧
    (∀ q q1, normalize_query env q = .ok (some q1) → normalize_query env q1 = .ok none) ∧
    (∀ (pq pq1 : Query → Except Err (Option Query)) (q : Query),
      (∀ r ∈ q.rtable, ∀ s, r.subquery = some s → pq s = pq1 s) →
      get_provenance_attributes pq constants env q
        = get_provenance_attributes pq1 constants env q) ∧
    (∀ (q : Query) (r : RangeTblEntry) (s : Query),
      r ∈ q.rtable → r.subquery = some s → sizeOf s < sizeOf q) ∧
    (∀ q : Query, ∃ N, ∀ fuel, N ≤ fuel →
      process_query fuel constants env q = process_query N constants env q ∧
      process_query N constants env q ≠ .error Err.OutOfFuel) := by
  refine ⟨?_, ?_, ?_, ?_, ?_, ?_⟩
  · intro q q1 h
    exact ⟨(rewrite_non_all_into_external_group_by_result env q q1 h).1,
      (rewrite_non_all_into_external_group_by_result env q q1 h).2.1⟩
  · intro q subq q1 h
    exact ⟨(rewrite_for_agg_distinct_result env q subq q1 h).1,
      (rewrite_for_agg_distinct_result env q subq q1 h).2.1⟩
  · exact normalize_query_idempotent env
  · intro pq pq1 q h
    exact get_provenance_attributes_congr pq pq1 constants env q h
  · intro q r s hr hs
    exact subquery_sizeOf_lt q r s hr hs
  · intro q
    obtain ⟨N, hN⟩ := process_query_terminates constants env q
    exact ⟨N, hN⟩

/-- C31 (the code at the failing input): the range table of
`SELECT x FROM r EXCEPT ALL SELECT x FROM r2` has two entries, so the call of
`process_query` on it allocates a column table of two rows; the call returns
a query with three entries (`transform_except_into_join` has appended the
join entry), and on the way its numbering loop writes the rows 0, 1 and 2 and
its final loop reads the rows 0, 1 and 2: the row index 2 is not less than
the number of allocated rows.  In general the table of a call has one row per
entry of the range table at the entry of the call, and a call that numbers
the columns writes and releases the rows `0 .. allocated - 1`, and also the
row `allocated` when the root of the set-operation tree is an EXCEPT; so
every index written or released is less than the number of allocated rows
for every query but an EXCEPT.  (The rows are those of
`process_query_columns_rows`, which is defined exactly when the call
returns.) -/
theorem C31_except_rows_beyond_allocation :
    (sample_except true).rtable.length = 2 ∧
    root_operation (sample_except true) = some SetOperation.SETOP_EXCEPT ∧
    process_query_columns_rows 1 sample_constants sample_env (sample_except true)
      = .ok (some { allocated := 2, written := [0, 1, 2], released := [0, 1, 2] }) ∧
    returned_source_kinds (process_query 2 sample_constants sample_env (sample_except true))
      = some [RTEKind.RTE_SUBQUERY, RTEKind.RTE_SUBQUERY, RTEKind.RTE_JOIN] ∧
    (∀ (fuel : Nat) (constants : constants_t) (env : Env) (q : Query) (t : columns_rows),
      process_query_columns_rows fuel constants env q = .ok (some t) →
        t.allocated = q.rtable.length ∧ t.released = t.written ∧
        (t.written = [] ∨ t.written = List.range (t.allocated + appended_entries q)) ∧
        (root_operation q ≠ some SetOperation.SETOP_EXCEPT →
          ∀ i ∈ t.written ++ t.released, i < t.allocated) ∧
        (root_operation q = some SetOperation.SETOP_EXCEPT → t.written ≠ [] →
          t.allocated ∈ t.written ∧ t.allocated ∈ t.released)) ∧
    (∀ (fuel : Nat) (constants : constants_t) (env : Env) (q : Query),
      normalize_query env q = .ok none →
        (process_query_columns_rows fuel constants env q).map (fun _ => ())
          = (process_query (fuel + 1) constants env q).map (fun _ => ())) := by
  refine ⟨rfl, rfl, by rfl, by rfl, ?_, ?_⟩
  · intro fuel constants env q t h
    obtain ⟨h1, h2, h3⟩ := process_query_columns_rows_spec fuel constants env q t h
    refine ⟨h1, h2, h3, ?_, ?_⟩
    · intro hne i hi
      have h0 : appended_entries q = 0 := by simp [appended_entries, hne]
      rw [h2] at hi
      have hi1 : i ∈ t.written := by
        rcases List.mem_append.mp hi with h4 | h4 <;> exact h4
      rcases h3 with h3 | h3
      · rw [h3] at hi1; cases hi1
      · rw [h3, h0] at hi1
        simpa using hi1
    · intro hex hw
      have h0 : appended_entries q = 1 := by simp [appended_entries, hex]
      rcases h3 with h3 | h3
      · exact absurd h3 hw
      · rw [h2, h3, h0]
        simp
  · intro fuel constants env q hn
    exact process_query_columns_rows_outcome fuel constants env q hn

/-- C32 (the code at the failing input): in
`SELECT x, count(DISTINCT y) AS c FROM w GROUP BY x ORDER BY c` every target
entry carries a reference id, the ids 2 and 1 are distinct, and the GROUP BY
clause references exactly one target entry; in the inner query that
`check_for_agg_distinct` returns, the entry of `y` that replaces the aggregate
at position 2 carries the id 2, which the entry `x` carries already: the ids
are 2 and 2, and each of the two GROUP BY clauses references two target
entries.  The inner query is the subquery of the query that `process_query`
returns.  The same happens in `SELECT count(DISTINCT y), x FROM w GROUP BY x`
with the id 1. -/
theorem C32_group_references_collide :
    sortgrouprefs sample_group_count_distinct.targetList = [2, 1] ∧
    sample_group_count_distinct.groupClause.map
      (referenced_entries sample_group_count_distinct.targetList) = [1] ∧
    distinct_references sample_group_count_distinct ∧
    check_for_agg_distinct sample_group_count_distinct
      = .ok (some
          { sample_group_count_distinct with
            targetList :=
              [.TargetEntry (.Var 1 1 23 (-1) 0) 1 (some "x") 2,
               .TargetEntry (.Var 1 2 23 (-1) 0) 2 (some "c") 2],
            groupClause :=
              [{ tleSortGroupRef := 2, eqop := 96, sortop := 97, nulls_first := false,
                 hashable := true },
               { tleSortGroupRef := 2, eqop := 96, sortop := 97, nulls_first := false,
                 hashable := true }] }) ∧
    (∀ inner, check_for_agg_distinct sample_group_count_distinct = .ok (some inner) →
      sortgrouprefs inner.targetList = [2, 2] ∧
      inner.groupClause.map (referenced_entries inner.targetList) = [2, 2] ∧
      ¬ (sortgrouprefs inner.targetList).Nodup ∧
      (∀ sgc ∈ inner.groupClause, referenced_entries inner.targetList sgc ≠ 1) ∧
      ¬ distinct_references inner) ∧
    returned_subquery_references
        (process_query 3 sample_constants sample_env_w sample_group_count_distinct)
      = some [[2, 2]] ∧
    distinct_references sample_count_distinct_group ∧
    (∀ inner, check_for_agg_distinct sample_count_distinct_group = .ok (some inner) →
      sortgrouprefs inner.targetList = [1, 1] ∧
      inner.groupClause.map (referenced_entries inner.targetList) = [2, 2] ∧
      ¬ distinct_references inner) := by
  have hA : check_for_agg_distinct sample_group_count_distinct
      = .ok (some
          { sample_group_count_distinct with
            targetList :=
              [.TargetEntry (.Var 1 1 23 (-1) 0) 1 (some "x") 2,
               .TargetEntry (.Var 1 2 23 (-1) 0) 2 (some "c") 2],
            groupClause :=
              [{ tleSortGroupRef := 2, eqop := 96, sortop := 97, nulls_first := false,
                 hashable := true },
               { tleSortGroupRef := 2, eqop := 96, sortop := 97, nulls_first := false,
                 hashable := true }] }) := rfl
  have hB : check_for_agg_distinct sample_count_distinct_group
      = .ok (some
          { sample_count_distinct_group with
            targetList :=
              [.TargetEntry (.Var 1 2 23 (-1) 0) 1 (some "count") 1,
               .TargetEntry (.Var 1 1 23 (-1) 0) 2 (some "x") 1],
            groupClause :=
              [{ tleSortGroupRef := 1, eqop := 96, sortop := 97, nulls_first := false,
                 hashable := true },
               { tleSortGroupRef := 1, eqop := 96, sortop := 97, nulls_first := false,
                 hashable := true }] }) := rfl
  refine ⟨rfl, rfl, ⟨by decide, by decide⟩, hA, ?_, by rfl, ⟨by decide, by decide⟩, ?_⟩
  · intro inner h
    rw [hA] at h
    simp only [Except.ok.injEq, Option.some.injEq] at h
    subst h
    refine ⟨rfl, rfl, by decide, by decide, ?_⟩
    intro hd
    exact absurd hd.1 (by decide)
  · intro inner h
    rw [hB] at h
    simp only [Except.ok.injEq, Option.some.injEq] at h
    subst h
    refine ⟨rfl, rfl, ?_⟩
    intro hd
    exact absurd hd.1 (by decide)

/-- C33 (the code at the failing input): for
`SELECT x FROM r EXCEPT ALL SELECT x FROM r2` the query that `process_query`
returns has three entries in its range table and one join expression in its
FROM list, of kind `JOIN_FULL`, which refers to the entry 3; the entry 3, the
join entry that `transform_except_into_join` appended, records the kind
`JOIN_LEFT`.  The same holds whenever `transform_except_into_join` returns:
the appended entry records `JOIN_LEFT`, the join expression that refers to it
`JOIN_FULL`. -/
theorem C33_except_join_kinds :
    (sample_except true).rtable.length = 2 ∧
    (sample_rewritten 2 (sample_except true)).rtable.length = 3 ∧
    join_expressions (sample_rewritten 2 (sample_except true)) = [(JoinType.JOIN_FULL, 3)] ∧
    join_entry_kind (sample_rewritten 2 (sample_except true)) 3 = some JoinType.JOIN_LEFT ∧
    (∀ (constants : constants_t) (env : Env) (q q1 : Query),
      transform_except_into_join constants env q = .ok q1 →
        q1.rtable.length = q.rtable.length + 1 ∧
        join_expressions q1 = [(JoinType.JOIN_FULL, q.rtable.length + 1)] ∧
        join_entry_kind q1 (q.rtable.length + 1) = some JoinType.JOIN_LEFT) :=
  ⟨rfl, by rfl, by rfl, by rfl,
    fun constants env q q1 h => transform_except_into_join_kinds constants env q q1 h⟩

end ProvSQL
